import Mathlib

/-! # TelegramQt dispatcher: update reconciliation and file jobs

A shallow embedding of `CTelegramDispatcher.cpp` (update state, update
processing, difference recovery, initialization steps, file request
descriptors and the file-job table, the typing timer, the contact list and
the peers), of `CTelegramCore::formatClientTimeStamp` and of
`GeneratorNG::solveTypes`, together with theorems about them.

Conventions of the embedding:

* `quint32` values are natural numbers; where the C++ arithmetic can wrap the
  embedding reduces modulo `quint32Mod` explicitly.
* Functions that dereference a connection pointer return `Option`; `none`
  stands for a null-pointer dereference, an out-of-range `QVector` access or,
  for the functions that carry a recursion budget, an exhausted budget.
* Calls into `CTelegramConnection` are recorded in the `requests` log of the
  connection they are made on, emitted Qt signals in `emitted`,
  `QTimer::singleShot` calls in `singleShots`, and `deleteLater()` calls in
  `deletedLater`.
-/

set_option linter.dupNamespace false

namespace TelegramQt

/-! ## Basic containers and values -/

/-- Modulus of `quint32` arithmetic. -/
def quint32Mod : Nat := 4294967296

/-- A `QByteArray` is a sequence of bytes. -/
abbrev QByteArray := List UInt8

/-- The byte range `mid(pos, len)` of a `QByteArray` for non-negative arguments. -/
def QByteArray.mid (data : QByteArray) (pos len : Nat) : QByteArray :=
  (data.drop pos).take len

/-- A `QMap<quint32, V>`: key/value pairs, iterated in the stored order. -/
abbrev QMap (V : Type) := List (Nat × V)

/-- Lookup used for `contains`, `value` and `operator[]` of `QMap`. -/
def QMap.find {V : Type} : QMap V → Nat → Option V
  | [], _ => none
  | (k, v) :: rest, key => if k = key then some v else QMap.find rest key

/-- The member `QMap::contains`. -/
def QMap.contains {V : Type} (m : QMap V) (key : Nat) : Bool :=
  (QMap.find m key).isSome

/-- The member `QMap::value`: a default-constructed value when the key is absent. -/
def QMap.value {V : Type} [Inhabited V] (m : QMap V) (key : Nat) : V :=
  (QMap.find m key).getD default

/-- The member `QMap::insert`: replaces the value of an existing key, otherwise
adds the pair at its place in ascending key order. -/
def QMap.insert {V : Type} : QMap V → Nat → V → QMap V
  | [], key, v => [(key, v)]
  | (k, w) :: rest, key, v =>
    if key < k then (key, v) :: (k, w) :: rest
    else if key = k then (key, v) :: rest
    else (k, w) :: QMap.insert rest key v

/-- A write through `operator[]` or through a stored pointer: the value of an
existing key is changed in place. -/
def QMap.modify {V : Type} : QMap V → Nat → (V → V) → QMap V
  | [], _, _ => []
  | (k, w) :: rest, key, f =>
    if k = key then (k, f w) :: rest else (k, w) :: QMap.modify rest key f

/-- The member `QMap::remove`. -/
def QMap.remove {V : Type} (m : QMap V) (key : Nat) : QMap V :=
  m.filter (fun p => !decide (p.1 = key))

/-- The member `QMap::keys`. -/
def QMap.keys {V : Type} (m : QMap V) : List Nat :=
  m.map Prod.fst

/-! The enum `TLValue` is embedded family by family: each TL struct carries in
`tlType` a constructor of its own TL type, so each family is an inductive type
of the constructors the dispatcher names, with `Other` for the remaining ones
of that TL type. -/

/-- The `TLValue` constructors of the TL type `Update`. -/
inductive TLValue.Update where
  | UpdateNewMessage | UpdateMessageID | UpdateReadMessagesContents
  | UpdateReadHistoryInbox | UpdateReadHistoryOutbox | UpdateDeleteMessages
  | UpdateUserTyping | UpdateChatUserTyping | UpdateChatParticipants
  | UpdateUserStatus | UpdateUserName | UpdateDcOptions
  | Other (code : Nat)
deriving DecidableEq, Repr

/-- The `TLValue` constructors of the TL type `Updates`. -/
inductive TLValue.Updates where
  | UpdatesTooLong | UpdateShortMessage | UpdateShortChatMessage | UpdateShort
  | UpdatesCombined | Updates
  | Other (code : Nat)
deriving DecidableEq, Repr

/-- The `TLValue` constructors of the TL type `updates.Difference`. -/
inductive TLValue.UpdatesDifference where
  | UpdatesDifferenceEmpty | UpdatesDifference | UpdatesDifferenceSlice
  | Other (code : Nat)
deriving DecidableEq, Repr

/-- The `TLValue` constructors of the TL type `Message`. -/
inductive TLValue.Message where
  | MessageEmpty | Message | MessageService
  | Other (code : Nat)
deriving DecidableEq, Repr

/-- The `TLValue` constructors of the TL type `MessageAction`. -/
inductive TLValue.MessageAction where
  | MessageActionEmpty | MessageActionChatCreate | MessageActionChatEditTitle
  | MessageActionChatEditPhoto | MessageActionChatDeletePhoto
  | MessageActionChatAddUser | MessageActionChatDeleteUser
  | Other (code : Nat)
deriving DecidableEq, Repr

/-- The `TLValue` constructors of the TL type `MessageMedia`. -/
inductive TLValue.MessageMedia where
  | MessageMediaEmpty | MessageMediaPhoto | MessageMediaVideo | MessageMediaGeo
  | MessageMediaContact | MessageMediaUnsupported | MessageMediaDocument
  | MessageMediaAudio
  | Other (code : Nat)
deriving DecidableEq, Repr

/-- The `TLValue` constructors of the TL type `Peer`. -/
inductive TLValue.Peer where
  | PeerUser | PeerChat
  | Other (code : Nat)
deriving DecidableEq, Repr

/-- The `TLValue` constructors of the TL type `InputPeer`. -/
inductive TLValue.InputPeer where
  | InputPeerEmpty | InputPeerSelf | InputPeerContact | InputPeerForeign | InputPeerChat
  | Other (code : Nat)
deriving DecidableEq, Repr

/-- The `TLValue` constructors of the TL type `InputUser`. -/
inductive TLValue.InputUser where
  | InputUserEmpty | InputUserSelf | InputUserContact | InputUserForeign
  | Other (code : Nat)
deriving DecidableEq, Repr

/-- The `TLValue` constructors of the TL type `User`. -/
inductive TLValue.User where
  | UserEmpty | UserSelf | UserContact | UserRequest | UserForeign | UserDeleted
  | Other (code : Nat)
deriving DecidableEq, Repr

/-- The `TLValue` constructors of the TL type `UserStatus`. -/
inductive TLValue.UserStatus where
  | UserStatusEmpty | UserStatusOnline | UserStatusOffline
  | Other (code : Nat)
deriving DecidableEq, Repr

/-- The `TLValue` constructors of the TL type `Photo`. -/
inductive TLValue.Photo where
  | PhotoEmpty | Photo
  | Other (code : Nat)
deriving DecidableEq, Repr

/-- The `TLValue` constructors of the TL type `InputFile`. -/
inductive TLValue.InputFile where
  | InputFile | InputFileBig
deriving DecidableEq, Repr

/-- The `TLValue` constructors of the TL type `InputFileLocation`. -/
inductive TLValue.InputFileLocation where
  | InputFileLocation | InputVideoFileLocation | InputAudioFileLocation
  | InputDocumentFileLocation
  | Other (code : Nat)
deriving DecidableEq, Repr

/-- The struct `TLDcOption`. -/
structure TLDcOption where
  id : Nat := 0
  ipAddress : String := ""
  port : Nat := 0
deriving DecidableEq, Repr

instance : Inhabited TLDcOption := ⟨{}⟩

/-- The struct `TLUpdatesState`. -/
structure TLUpdatesState where
  pts : Nat := 0
  qts : Nat := 0
  date : Nat := 0
  seq : Nat := 0
deriving DecidableEq, Repr

instance : Inhabited TLUpdatesState := ⟨{}⟩

/-- The struct `TLPeer`. -/
structure TLPeer where
  tlType : TLValue.Peer := .PeerUser
  userId : Nat := 0
  chatId : Nat := 0
deriving DecidableEq, Repr

instance : Inhabited TLPeer := ⟨{}⟩

/-- The struct `TLPhoto`, as far as the dispatcher copies it. -/
structure TLPhoto where
  tlType : TLValue.Photo := .PhotoEmpty
  id : Nat := 0
deriving DecidableEq, Repr

instance : Inhabited TLPhoto := ⟨{}⟩

/-- The struct `TLChatParticipant`. -/
structure TLChatParticipant where
  userId : Nat := 0
  inviterId : Nat := 0
  date : Nat := 0
deriving DecidableEq, Repr

instance : Inhabited TLChatParticipant := ⟨{}⟩

/-- The struct `TLChatParticipants`. -/
structure TLChatParticipants where
  chatId : Nat := 0
  participants : List TLChatParticipant := []
deriving DecidableEq, Repr

instance : Inhabited TLChatParticipants := ⟨{}⟩

/-- The struct `TLChat`. -/
structure TLChat where
  id : Nat := 0
  title : String := ""
  participantsCount : Nat := 0
  date : Nat := 0
  left : Bool := false
deriving DecidableEq, Repr

instance : Inhabited TLChat := ⟨{}⟩

/-- The struct `TLChatFull`. -/
structure TLChatFull where
  id : Nat := 0
  participants : TLChatParticipants := {}
  chatPhoto : TLPhoto := {}
deriving DecidableEq, Repr

instance : Inhabited TLChatFull := ⟨{}⟩

/-- The struct `TLMessageAction`. -/
structure TLMessageAction where
  tlType : TLValue.MessageAction := .MessageActionEmpty
  title : String := ""
  users : List Nat := []
  userId : Nat := 0
  photo : TLPhoto := {}
deriving DecidableEq, Repr

instance : Inhabited TLMessageAction := ⟨{}⟩

/-- The struct `TLMessageMedia`, as far as update processing reads it. -/
structure TLMessageMedia where
  tlType : TLValue.MessageMedia := .MessageMediaEmpty
deriving DecidableEq, Repr

instance : Inhabited TLMessageMedia := ⟨{}⟩

/-- The struct `TLMessage`. -/
structure TLMessage where
  tlType : TLValue.Message := .MessageEmpty
  id : Nat := 0
  flags : Nat := 0
  fromId : Nat := 0
  toId : TLPeer := {}
  fwdFromId : Nat := 0
  fwdDate : Nat := 0
  replyToMsgId : Nat := 0
  date : Nat := 0
  message : String := ""
  media : TLMessageMedia := {}
  action : TLMessageAction := {}
deriving DecidableEq, Repr

instance : Inhabited TLMessage := ⟨{}⟩

/-- The struct `TLUserStatus`. -/
structure TLUserStatus where
  tlType : TLValue.UserStatus := .UserStatusEmpty
  expires : Nat := 0
  wasOnline : Nat := 0
deriving DecidableEq, Repr

instance : Inhabited TLUserStatus := ⟨{}⟩

/-- The struct `TLUser`, as far as the dispatcher reads and writes it. -/
structure TLUser where
  tlType : TLValue.User := .UserEmpty
  id : Nat := 0
  firstName : String := ""
  lastName : String := ""
  username : String := ""
  phone : String := ""
  accessHash : Nat := 0
  status : TLUserStatus := {}
deriving DecidableEq, Repr

instance : Inhabited TLUser := ⟨{}⟩

/-- The struct `TLUpdate`. -/
structure TLUpdate where
  tlType : TLValue.Update := .UpdateNewMessage
  pts : Nat := 0
  ptsCount : Nat := 0
  message : TLMessage := {}
  randomId : Nat := 0
  id : Nat := 0
  userId : Nat := 0
  chatId : Nat := 0
  action : Nat := 0
  participants : TLChatParticipants := {}
  status : TLUserStatus := {}
  firstName : String := ""
  lastName : String := ""
  username : String := ""
  dcOptions : List TLDcOption := []
  peer : TLPeer := {}
  maxId : Nat := 0
deriving DecidableEq, Repr

instance : Inhabited TLUpdate := ⟨{}⟩

/-- The struct `TLUpdatesDifference`. -/
structure TLUpdatesDifference where
  tlType : TLValue.UpdatesDifference := .UpdatesDifferenceEmpty
  newMessages : List TLMessage := []
  otherUpdates : List TLUpdate := []
  chats : List TLChat := []
  state : TLUpdatesState := {}
  intermediateState : TLUpdatesState := {}
deriving DecidableEq, Repr

instance : Inhabited TLUpdatesDifference := ⟨{}⟩

/-- The struct `TLInputUser`. -/
structure TLInputUser where
  tlType : TLValue.InputUser := .InputUserEmpty
  userId : Nat := 0
  accessHash : Nat := 0
deriving DecidableEq, Repr

instance : Inhabited TLInputUser := ⟨{}⟩

/-- The struct `TLInputFileLocation`. -/
structure TLInputFileLocation where
  tlType : TLValue.InputFileLocation := .InputFileLocation
  volumeId : Nat := 0
  localId : Nat := 0
  secret : Nat := 0
  id : Nat := 0
  accessHash : Nat := 0
deriving DecidableEq, Repr

instance : Inhabited TLInputFileLocation := ⟨{}⟩

/-- The struct `TLInputFile`. -/
structure TLInputFile where
  tlType : TLValue.InputFile := .InputFile
  id : Nat := 0
  parts : Nat := 0
  name : String := ""
  md5Checksum : String := ""
deriving DecidableEq, Repr

instance : Inhabited TLInputFile := ⟨{}⟩

/-! ## Public API values -/

/-- The enum `TelegramNamespace::ConnectionState`. -/
inductive ConnectionState where
  | Disconnected | Connecting | Connected | AuthRequired | Authenticated | Ready
deriving DecidableEq, Repr

/-- The enum `TelegramNamespace::ContactStatus`. -/
inductive ContactStatus where
  | Unknown | Offline | Online
deriving DecidableEq, Repr

/-- The enum `TelegramNamespace::Peer::Type`. -/
inductive PeerType where
  | User | Chat
deriving DecidableEq, Repr

/-- The struct `TelegramNamespace::Peer`; a default-constructed peer is user 0. -/
structure Peer where
  id : Nat := 0
  type : PeerType := .User
deriving DecidableEq, Repr

/-- The struct `TelegramNamespace::Message`. -/
structure Message where
  userId : Nat := 0
  chatId : Nat := 0
  forwardContactId : Nat := 0
  fwdTimestamp : Nat := 0
  type : Nat := 0
  text : String := ""
  id : Nat := 0
  timestamp : Nat := 0
  flags : Nat := 0
deriving DecidableEq, Repr

/-- The value `TelegramNamespace::MessageActionNone`. -/
def MessageActionNone : Nat := 0

/-- The struct `TypingStatus` of the two typing lists. -/
structure TypingStatus where
  userId : Nat := 0
  chatId : Nat := 0
  typingTime : Int := 0
  action : Nat := MessageActionNone
deriving DecidableEq, Repr

/-- The wire flags `TelegramMessageFlags` of the dispatcher. -/
def TelegramMessageFlagUnread : Nat := 1

/-- Wire flag: outgoing message. -/
def TelegramMessageFlagOut : Nat := 2

/-- Wire flag: forwarded message. -/
def TelegramMessageFlagForward : Nat := 4

/-- Wire flag: reply. -/
def TelegramMessageFlagReply : Nat := 8

/-! ## Connections, signals and timers -/

/-- The enum `CTelegramConnection::AuthState`. -/
inductive AuthState where
  | AuthStateNone | AuthStateHaveAKey | AuthStateSignedIn
deriving DecidableEq, Repr

/-- The enum `CTelegramConnection::ConnectionStatus`. -/
inductive ConnectionStatus where
  | Disconnected | Connecting | Connected | Authenticated | Signed
deriving DecidableEq, Repr

/-- The calls the dispatcher makes on a `CTelegramConnection`. -/
inductive Request where
  | getConfiguration
  | usersGetUsers (users : List TLInputUser)
  | contactsGetContacts (hash : String)
  | messagesGetChats (chatIds : List Nat)
  | updatesGetState
  | updatesGetDifference (pts date qts : Nat)
  | messagesGetDialogs (offset maxId limit : Nat)
  | downloadFile (location : TLInputFileLocation) (offset limit requestId : Nat)
  | uploadFile (fileId part : Nat) (bytes : QByteArray) (requestId : Nat)
  | connectToDc
  | authImportAuthorization (id : Nat) (bytes : QByteArray)
  | authExportAuthorization (dc : Nat)
  | processRedirectedPackage (data : QByteArray)
  | requestPhoneCode (phoneNumber : String)
deriving DecidableEq, Repr

/-- Modelled from the spec: the class `CTelegramConnection` is not among the
sources; the record holds the session state the dispatcher reads through the
getters (`dcInfo`, `authState`, `status`, `deltaTime`, `authKey`,
`serverSalt`), and `requests` logs the calls made on the connection. The
getters' values change only through the setters the dispatcher calls and
through events of the connection itself, which are inputs of the model. -/
structure CTelegramConnection where
  dcInfo : TLDcOption := {}
  authState : AuthState := .AuthStateNone
  status : ConnectionStatus := .Disconnected
  deltaTime : Int := 0
  authKey : QByteArray := []
  serverSalt : Nat := 0
  requests : List Request := []
deriving DecidableEq, Repr

/-- The struct `TelegramNamespace::UploadInfo` (a `TLInputFile` with the size). -/
structure UploadInfo where
  file : TLInputFile := {}
  m_size : Nat := 0
deriving DecidableEq, Repr

/-- The Qt signals the dispatcher emits. -/
inductive Signal where
  | connectionStateChanged (state : ConnectionState)
  | sentMessageIdReceived (randomId id : Nat)
  | contactMessageActionChanged (userId action : Nat)
  | contactChatMessageActionChanged (chatId userId action : Nat)
  | contactStatusChanged (userId : Nat) (status : ContactStatus)
  | contactProfileChanged (userId : Nat)
  | messageReadInbox (peer : Peer) (maxId : Nat)
  | messageReadOutbox (peer : Peer) (maxId : Nat)
  | messageReceived (message : Message)
  | createdChatIdReceived (requestId chatId : Nat)
  | chatAdded (chatId : Nat)
  | chatChanged (chatId : Nat)
  | uploadingStatusUpdated (requestId offset size : Nat)
  | uploadFinished (requestId : Nat) (info : UploadInfo)
  | avatarReceived (userId : Nat) (bytes : QByteArray) (mimeType avatarToken : String)
  | messageMediaDataReceived (peer : Peer) (messageId : Nat) (bytes : QByteArray)
      (mimeType : String) (messageType offset size : Nat)
  | selfUserAvailable (userId : Nat)
  | userInfoReceived (userId : Nat)
  | contactListChanged
deriving DecidableEq, Repr

/-- The dispatcher slots that are started through `QTimer::singleShot`. -/
inductive Slot where
  | getDifference | getUpdatesState
deriving DecidableEq, Repr

/-- The observable state of the typing `QTimer`. -/
structure QTimer where
  isActive : Bool := false
  interval : Int := 0
  remainingTime : Int := -1
deriving DecidableEq, Repr

/-- The member `QTimer::start(int)`. -/
def QTimer.start (_t : QTimer) (msec : Int) : QTimer :=
  { isActive := true, interval := msec, remainingTime := msec }

/-- Helpers and constants the dispatcher uses whose definitions are in headers
and units outside the sources at hand; they are parameters of the embedding. -/
structure Externals where
  /-- The function `telegramMessageTypeToPublicMessageType` of `TelegramUtils`. -/
  telegramMessageTypeToPublicMessageType : TLValue.MessageMedia → Nat
  /-- The function `telegramMessageActionToPublicAction` of `TelegramUtils`. -/
  telegramMessageActionToPublicAction : Nat → Nat
  /-- The function `TypingStatus::indexForUser`. -/
  indexForUser : List TypingStatus → Nat → Int
  /-- The function `TypingStatus::indexForChatAndUser`. -/
  indexForChatAndUser : List TypingStatus → Nat → Nat → Int
  /-- The public flag `TelegramNamespace::MessageFlagNone`. -/
  MessageFlagNone : Nat
  /-- The public flag `TelegramNamespace::MessageFlagRead`. -/
  MessageFlagRead : Nat
  /-- The public flag `TelegramNamespace::MessageFlagOut`. -/
  MessageFlagOut : Nat
  /-- The public flag `TelegramNamespace::MessageFlagForwarded`. -/
  MessageFlagForwarded : Nat
  /-- The public flag `TelegramNamespace::MessageFlagIsReply`. -/
  MessageFlagIsReply : Nat
  /-- Default of the `seq` argument in the declaration of `ensureUpdateState`. -/
  defaultSeq : Nat
  /-- Default of the `date` argument in the declaration of `ensureUpdateState`. -/
  defaultDate : Nat
  /-- The digest function behind `QCryptographicHash::Md5`. -/
  md5 : QByteArray → QByteArray
  /-- The public flag `TelegramNamespace::MessageTypeText`. -/
  MessageTypeText : Nat
  /-- The function `mimeTypeByStorageFileType` of `TelegramUtils`, on the code
  of the storage file type. -/
  mimeTypeByStorageFileType : Nat → String
  /-- The value of `userAvatarToken`: a rendering of the location of the small
  profile photo, which the `TLUser` of the embedding does not carry. -/
  userAvatarToken : TLUser → String
  /-- The value of `MessageMediaInfo::mimeType` for the media of a message. -/
  mediaMimeType : TLMessageMedia → String
  /-- The getter `CTelegramConnection::authId` of a connection that holds the
  given auth key: the fingerprint of the key. -/
  authId : QByteArray → Nat

/-! ## File request descriptors -/

/-- The enum `FileRequestDescriptor::Type`. -/
inductive FileRequestType where
  | Invalid | Avatar | MessageMediaData | Upload
deriving DecidableEq, Repr

/-- The class `FileRequestDescriptor`. The member `m_hash` is the
`QCryptographicHash` pointer: `none` is the null pointer, `some acc` an
accumulator that has been fed the bytes `acc` so far. -/
structure FileRequestDescriptor where
  m_type : FileRequestType := .Invalid
  m_userId : Nat := 0
  m_messageId : Nat := 0
  m_dcId : Nat := 0
  m_inputLocation : TLInputFileLocation := {}
  m_size : Nat := 0
  m_offset : Nat := 0
  m_part : Nat := 0
  m_data : QByteArray := []
  m_fileName : String := ""
  m_fileId : Nat := 0
  m_hash : Option QByteArray := none
  m_md5Sum : QByteArray := []
deriving DecidableEq, Repr

instance : Inhabited FileRequestDescriptor := ⟨{}⟩

/-! ## The dispatcher -/

/-- The struct `TelegramNamespace::DcOption`: an address to connect to. -/
structure DcOption where
  address : String := ""
  port : Nat := 0
deriving DecidableEq, Repr

/-- The members of `CTelegramDispatcher` and the logs of its effects:
`emitted` (signals), `singleShots` (timers) and `deletedLater` (the connections
handed to `deleteLater()`). -/
structure CTelegramDispatcher where
  m_connectionState : ConnectionState := .Disconnected
  m_deltaTime : Int := 0
  m_messageReceivingFilterFlags : Nat := 0
  m_acceptableMessageTypes : Nat := 0
  m_autoReconnectionEnabled : Bool := false
  m_mediaDataBufferSize : Nat := 128 * 256
  m_initializationState : Nat := 0
  m_requestedSteps : Nat := 0
  m_wantedActiveDc : Nat := 0
  m_autoConnectionDcIndex : Int := -1
  m_mainConnection : Option CTelegramConnection := none
  m_extraConnections : List CTelegramConnection := []
  m_dcConfiguration : List TLDcOption := []
  m_updateRequestId : Nat := 0
  m_updatesState : TLUpdatesState := {}
  m_actualState : TLUpdatesState := {}
  m_updatesStateIsLocked : Bool := false
  m_selfUserId : Nat := 0
  m_fileRequestCounter : Nat := 0
  m_requestedFileDescriptors : QMap FileRequestDescriptor := []
  m_users : QMap TLUser := []
  m_contactIdList : List Nat := []
  m_chatIds : List Nat := []
  m_askedUserIds : List Nat := []
  m_chatInfo : QMap TLChat := []
  m_chatFullInfo : QMap TLChatFull := []
  m_knownMediaMessages : QMap TLMessage := []
  m_contactsMessageActions : List TypingStatus := []
  m_localMessageActions : List TypingStatus := []
  m_exportedAuthentications : QMap (Nat × QByteArray) := []
  m_delayedPackages : List (Nat × QByteArray) := []
  m_passwordInfo : List Nat := []
  m_typingUpdateTimer : QTimer := {}
  emitted : List Signal := []
  singleShots : List (Nat × Slot) := []
  m_connectionAddresses : List DcOption := []
  m_requestedCodeForPhone : String := ""
  deletedLater : List CTelegramConnection := []
deriving DecidableEq, Repr

/-- Record an emitted signal. -/
def emit (s : CTelegramDispatcher) (sig : Signal) : CTelegramDispatcher :=
  { s with emitted := s.emitted ++ [sig] }

/-- Record `QTimer::singleShot(msec, this, SLOT(slot))`. -/
def singleShot (s : CTelegramDispatcher) (msec : Nat) (slot : Slot) : CTelegramDispatcher :=
  { s with singleShots := s.singleShots ++ [(msec, slot)] }

/-- A call `activeConnection()->request(...)`; the active connection is the
main connection, and the call fails on a null pointer. -/
def callActive (s : CTelegramDispatcher) (r : Request) : Option CTelegramDispatcher :=
  match s.m_mainConnection with
  | none => none
  | some c => some { s with m_mainConnection := some { c with requests := c.requests ++ [r] } }

/-- The method `CTelegramDispatcher::setConnectionState`. -/
def setConnectionState (s : CTelegramDispatcher) (state : ConnectionState) : CTelegramDispatcher :=
  if s.m_connectionState = state then s
  else emit { s with m_connectionState := state } (.connectionStateChanged state)

/-- The method `CTelegramDispatcher::setUpdateState`. -/
def setUpdateState (s : CTelegramDispatcher) (pts seq date : Nat) : CTelegramDispatcher :=
  let s1 := if pts > s.m_updatesState.pts
    then { s with m_updatesState := { s.m_updatesState with pts := pts } } else s
  let s2 := if seq > s1.m_updatesState.seq
    then { s1 with m_updatesState := { s1.m_updatesState with seq := seq } } else s1
  if date > s2.m_updatesState.date
    then { s2 with m_updatesState := { s2.m_updatesState with date := date } } else s2

/-- The method `CTelegramDispatcher::ensureUpdateState`. -/
def ensureUpdateState (s : CTelegramDispatcher) (pts seq date : Nat) : CTelegramDispatcher :=
  if s.m_updatesStateIsLocked then s else setUpdateState s pts seq date

/-! ## Received messages and chats -/

/-- The method `CTelegramDispatcher::getPublicMessageFlags`. -/
def getPublicMessageFlags (ext : Externals) (flags : Nat) : Nat :=
  let r0 := ext.MessageFlagNone
  let r1 := if flags &&& TelegramMessageFlagUnread = 0 then r0 ||| ext.MessageFlagRead else r0
  let r2 := if flags &&& TelegramMessageFlagOut ≠ 0 then r1 ||| ext.MessageFlagOut else r1
  let r3 := if flags &&& TelegramMessageFlagForward ≠ 0 then r2 ||| ext.MessageFlagForwarded else r2
  if flags &&& TelegramMessageFlagReply ≠ 0 then r3 ||| ext.MessageFlagIsReply else r3

/-- The method `CTelegramDispatcher::filterReceivedMessage`. -/
def filterReceivedMessage (s : CTelegramDispatcher) (messageFlags : Nat) : Bool :=
  decide (s.m_messageReceivingFilterFlags &&& messageFlags ≠ 0)

/-- The method `CTelegramDispatcher::emitChatChanged`. -/
def emitChatChanged (s : CTelegramDispatcher) (id : Nat) : CTelegramDispatcher :=
  if !s.m_chatIds.contains id then
    let s1 := { s with m_chatIds := s.m_chatIds ++ [id] }
    let s2 := if s1.m_updateRequestId ≠ 0
      then emit s1 (.createdChatIdReceived s1.m_updateRequestId id) else s1
    emit s2 (.chatAdded id)
  else
    emit s (.chatChanged id)

/-- The method `CTelegramDispatcher::updateChat`. -/
def updateChat (s : CTelegramDispatcher) (newChat : TLChat) : CTelegramDispatcher :=
  let s1 := if !QMap.contains s.m_chatInfo newChat.id
    then { s with m_chatInfo := QMap.insert s.m_chatInfo newChat.id newChat }
    else { s with m_chatInfo := QMap.modify s.m_chatInfo newChat.id (fun _ => newChat) }
  emitChatChanged s1 newChat.id

/-- The method `CTelegramDispatcher::updateFullChat`. -/
def updateFullChat (s : CTelegramDispatcher) (newChat : TLChatFull) : CTelegramDispatcher :=
  let s1 := if !QMap.contains s.m_chatFullInfo newChat.id
    then { s with m_chatFullInfo := QMap.insert s.m_chatFullInfo newChat.id newChat }
    else { s with m_chatFullInfo := QMap.modify s.m_chatFullInfo newChat.id (fun _ => newChat) }
  emitChatChanged s1 newChat.id

/-- The service-message branch of `CTelegramDispatcher::processMessageReceived`. -/
def processServiceMessage (s : CTelegramDispatcher) (message : TLMessage) : CTelegramDispatcher :=
  let action := message.action
  let chatId := message.toId.chatId
  let chat : TLChat := { QMap.value s.m_chatInfo chatId with id := chatId }
  let fullChat : TLChatFull := { QMap.value s.m_chatFullInfo chatId with id := chatId }
  match action.tlType with
  | .MessageActionChatCreate =>
    updateChat s { chat with title := action.title, participantsCount := action.users.length }
  | .MessageActionChatAddUser =>
    let participants := fullChat.participants.participants
    if participants.any (fun p => decide (p.userId = action.userId)) then s
    else
      let participants1 := participants ++ [({ userId := action.userId } : TLChatParticipant)]
      let fullChat1 : TLChatFull :=
        { fullChat with participants := { fullChat.participants with participants := participants1 } }
      let chat1 : TLChat := { chat with participantsCount := participants1.length }
      updateFullChat (updateChat s chat1) fullChat1
  | .MessageActionChatDeleteUser =>
    let participants1 :=
      fullChat.participants.participants.eraseP (fun p => decide (p.userId = action.userId))
    let fullChat1 : TLChatFull :=
      { fullChat with participants := { fullChat.participants with participants := participants1 } }
    let chat1 : TLChat := { chat with participantsCount := participants1.length }
    updateFullChat (updateChat s chat1) fullChat1
  | .MessageActionChatEditTitle =>
    updateChat s { chat with title := action.title }
  | .MessageActionChatEditPhoto | .MessageActionChatDeletePhoto =>
    updateFullChat s { fullChat with chatPhoto := action.photo }
  | _ => s

/-- The `TelegramNamespace::Message` that `processMessageReceived` fills in
for a received message. -/
def toApiMessage (ext : Externals) (message : TLMessage) : Message :=
  let messageFlags := getPublicMessageFlags ext message.flags
  let m0 : Message := {}
  let m1 : Message := if messageFlags &&& ext.MessageFlagForwarded ≠ 0
    then { m0 with forwardContactId := message.fromId, fwdTimestamp := message.fwdDate } else m0
  let m2 : Message :=
    if message.toId.tlType = .PeerChat
      then { m1 with chatId := message.toId.chatId, userId := message.fromId }
    else if messageFlags &&& ext.MessageFlagOut ≠ 0
      then { m1 with userId := message.toId.userId }
    else { m1 with userId := message.fromId }
  { m2 with type := ext.telegramMessageTypeToPublicMessageType message.media.tlType,
            text := message.message, id := message.id,
            timestamp := message.date, flags := messageFlags }

/-- The method `CTelegramDispatcher::processMessageReceived`. -/
def processMessageReceived (ext : Externals) (s : CTelegramDispatcher) (message : TLMessage) :
    Option CTelegramDispatcher :=
  if message.tlType = .MessageEmpty then some s
  else if message.tlType = .MessageService then some (processServiceMessage s message)
  else if ext.telegramMessageTypeToPublicMessageType message.media.tlType &&&
      s.m_acceptableMessageTypes = 0 then some s
  else
    let s1 := if message.media.tlType ≠ .MessageMediaEmpty
      then { s with m_knownMediaMessages := QMap.insert s.m_knownMediaMessages message.id message }
      else s
    let apiMessage := toApiMessage ext message
    let s2 : Option CTelegramDispatcher :=
      if (!QMap.contains s1.m_users apiMessage.userId &&
          !s1.m_askedUserIds.contains apiMessage.userId) = true
        then callActive { s1 with m_askedUserIds := s1.m_askedUserIds ++ [apiMessage.userId] }
               (.messagesGetDialogs 0 ((message.id + 1) % quint32Mod) 1)
        else some s1
    s2.map (fun s3 => emit s3 (.messageReceived apiMessage))

/-- The method `CTelegramDispatcher::peerToPublicPeer` for a `TLPeer`. -/
def peerToPublicPeer (peer : TLPeer) : Peer :=
  match peer.tlType with
  | .PeerChat => { id := peer.chatId, type := .Chat }
  | .PeerUser => { id := peer.userId }
  | _ => {}

/-- The function `getApiContactStatus` of `TelegramNamespace.cpp`. -/
def getApiContactStatus (status : TLValue.UserStatus) : ContactStatus :=
  match status with
  | .UserStatusOnline => .Online
  | .UserStatusOffline => .Offline
  | _ => .Unknown

/-- The function `ensureDcOption`: replaces the option with the same id, and
reports whether there was one. -/
def ensureDcOption : List TLDcOption → TLDcOption → Bool × List TLDcOption
  | [], _ => (false, [])
  | o :: rest, option =>
    if o.id = option.id then (true, option :: rest)
    else ((ensureDcOption rest option).1, o :: (ensureDcOption rest option).2)

/-- The constant `s_userTypingActionPeriod`. -/
def s_userTypingActionPeriod : Int := 6000

/-- The method `CTelegramDispatcher::ensureTypingUpdateTimer` (Qt 5 branch). -/
def ensureTypingUpdateTimer (s : CTelegramDispatcher) (interval : Int) : CTelegramDispatcher :=
  if !s.m_typingUpdateTimer.isActive
    then { s with m_typingUpdateTimer := s.m_typingUpdateTimer.start interval }
    else s

/-! ## Update processing -/

/-- The update kinds of the first `switch` of `processUpdate`: the updates
that carry `pts` and `ptsCount`. -/
def carriesPts (t : TLValue.Update) : Bool :=
  match t with
  | .UpdateNewMessage | .UpdateReadMessagesContents | .UpdateReadHistoryInbox
  | .UpdateReadHistoryOutbox | .UpdateDeleteMessages => true
  | _ => false

/-- The typing branch (`UpdateUserTyping`, `UpdateChatUserTyping`) of the second
`switch` of `processUpdate` (Qt 5 branch). -/
def processTypingUpdate (ext : Externals) (s : CTelegramDispatcher) (update : TLUpdate) :
    Option CTelegramDispatcher :=
  if QMap.contains s.m_users update.userId then
    let action := ext.telegramMessageActionToPublicAction update.action
    let remainingTime : Int := s_userTypingActionPeriod + s.m_typingUpdateTimer.remainingTime
    let index : Int :=
      if update.tlType = .UpdateUserTyping
        then ext.indexForUser s.m_contactsMessageActions update.userId
        else ext.indexForChatAndUser s.m_contactsMessageActions update.chatId update.userId
    let s1 :=
      if update.tlType = .UpdateUserTyping
        then emit s (.contactMessageActionChanged update.userId action)
        else emit s (.contactChatMessageActionChanged update.chatId update.userId action)
    let status : TypingStatus :=
      if update.tlType = .UpdateChatUserTyping
        then { userId := update.userId, chatId := update.chatId }
        else { userId := update.userId }
    let index1 : Nat := if index < 0 then s1.m_contactsMessageActions.length else index.toNat
    let actions := if index < 0
      then s1.m_contactsMessageActions ++ [status] else s1.m_contactsMessageActions
    actions[index1]?.map fun entry =>
      let actions1 := actions.set index1 { entry with action := action, typingTime := remainingTime }
      ensureTypingUpdateTimer { s1 with m_contactsMessageActions := actions1 } remainingTime
  else some s

/-- The second `switch` of `CTelegramDispatcher::processUpdate`: the handling
of an update by its kind. -/
def handleUpdate (ext : Externals) (s : CTelegramDispatcher) (update : TLUpdate) :
    Option CTelegramDispatcher :=
  match update.tlType with
  | .UpdateNewMessage => processMessageReceived ext s update.message
  | .UpdateMessageID => some (emit s (.sentMessageIdReceived update.randomId update.id))
  | .UpdateUserTyping | .UpdateChatUserTyping => processTypingUpdate ext s update
  | .UpdateChatParticipants =>
    let newChatState : TLChatFull :=
      { QMap.value s.m_chatFullInfo update.participants.chatId with
        id := update.participants.chatId, participants := update.participants }
    some (updateFullChat s newChatState)
  | .UpdateUserStatus =>
    if update.userId = s.m_selfUserId then some s
    else
      match QMap.find s.m_users update.userId with
      | some _ =>
        some (emit
          { s with m_users := QMap.modify s.m_users update.userId
                                (fun user => { user with status := update.status }) }
          (.contactStatusChanged update.userId (getApiContactStatus update.status.tlType)))
      | none => some s
  | .UpdateUserName =>
    match QMap.find s.m_users update.userId with
    | some user =>
      let changed := decide (user.firstName = update.firstName) && decide (user.lastName = update.lastName)
      if changed then
        some (emit
          { s with m_users := QMap.modify s.m_users update.userId
                                (fun user => { user with firstName := update.firstName,
                                                         lastName := update.lastName,
                                                         username := update.username }) }
          (.contactProfileChanged update.userId))
      else some s
    | none => some s
  | .UpdateDcOptions =>
    some { s with m_dcConfiguration :=
                    update.dcOptions.foldl (fun cfg option => (ensureDcOption cfg option).2)
                      s.m_dcConfiguration }
  | .UpdateReadHistoryInbox =>
    some (emit s (.messageReadInbox (peerToPublicPeer update.peer) update.maxId))
  | .UpdateReadHistoryOutbox =>
    some (emit s (.messageReadOutbox (peerToPublicPeer update.peer) update.maxId))
  | _ => some s

/-- The method `CTelegramDispatcher::processUpdate`. -/
def processUpdate (ext : Externals) (s : CTelegramDispatcher) (update : TLUpdate) :
    Option CTelegramDispatcher :=
  if carriesPts update.tlType ∧
      (s.m_updatesState.pts + update.ptsCount) % quint32Mod ≠ update.pts then
    some (singleShot s 10 .getDifference)
  else
    let newPts := if carriesPts update.tlType then update.pts else s.m_updatesState.pts
    (handleUpdate ext s update).map
      (fun s1 => ensureUpdateState s1 newPts ext.defaultSeq ext.defaultDate)

/-! ## Initialization steps -/

/-- Modelled from the spec: the enum `InitializationStep` is declared in the
dispatcher's header; the spec gives the bitmask of completed steps
`DcConfiguration | SignIn | KnowSelf | ContactList | ChatInfo | Updates`, one
bit each in this order, `StepFirst` being the empty mask. -/
def StepFirst : Nat := 0

/-- Modelled from the spec: bit 0 of the step mask. -/
def StepDcConfiguration : Nat := 1

/-- Modelled from the spec: bit 1 of the step mask. -/
def StepSignIn : Nat := 2

/-- Modelled from the spec: bit 2 of the step mask. -/
def StepKnowSelf : Nat := 4

/-- Modelled from the spec: bit 3 of the step mask. -/
def StepContactList : Nat := 8

/-- Modelled from the spec: bit 4 of the step mask. -/
def StepChatInfo : Nat := 16

/-- Modelled from the spec: bit 5 of the step mask. -/
def StepUpdates : Nat := 32

/-- Modelled from the spec: the terminal state, all six bits set. -/
def StepDone : Nat := 63

/-- The method `CTelegramDispatcher::getDcConfiguration`. -/
def getDcConfiguration (s : CTelegramDispatcher) : Option CTelegramDispatcher :=
  callActive s .getConfiguration

/-- The method `CTelegramDispatcher::getInitialUsers`. -/
def getInitialUsers (s : CTelegramDispatcher) : Option CTelegramDispatcher :=
  callActive s (.usersGetUsers
    [{ tlType := .InputUserSelf }, { tlType := .InputUserContact, userId := 777000 }])

/-- The method `CTelegramDispatcher::getContacts`. -/
def getContacts (s : CTelegramDispatcher) : Option CTelegramDispatcher :=
  callActive s (.contactsGetContacts "")

/-- The method `CTelegramDispatcher::getUpdatesState`. -/
def getUpdatesState (s : CTelegramDispatcher) : Option CTelegramDispatcher :=
  callActive { s with m_updatesStateIsLocked := true } .updatesGetState

/-- The method `CTelegramDispatcher::getChatsInfo`; `continueInit` is the
method `continueInitialization` it calls back. -/
def getChatsInfo (continueInit : CTelegramDispatcher → Nat → Option CTelegramDispatcher)
    (s : CTelegramDispatcher) : Option CTelegramDispatcher :=
  if s.m_chatIds.isEmpty then continueInit s StepChatInfo
  else callActive s (.messagesGetChats s.m_chatIds)

/-- The first block of `continueInitialization`: the DC configuration is
requested unless it has been requested already. -/
def requestDcConfigurationStep (s : CTelegramDispatcher) : Option CTelegramDispatcher :=
  if s.m_requestedSteps &&& StepDcConfiguration = 0
    then (getDcConfiguration s).map
      (fun t => { t with m_requestedSteps := t.m_requestedSteps ||| StepDcConfiguration })
    else some s

/-- The block `if (justDone == StepDcConfiguration)` of `continueInitialization`. -/
def reportDcConfigurationStep (s : CTelegramDispatcher) (justDone : Nat) :
    Option CTelegramDispatcher :=
  if justDone = StepDcConfiguration then
    s.m_mainConnection.map (fun c =>
      if c.authState = .AuthStateHaveAKey
        then setConnectionState s .AuthRequired
        else setConnectionState s .Connected)
  else some s

/-- The requests inside the signed-in block of `continueInitialization`: the
initial users (with the early `return`, flagged `true` in the result), the
contact list and the chats. -/
def requestInitialData (continueInit : CTelegramDispatcher → Nat → Option CTelegramDispatcher)
    (s : CTelegramDispatcher) : Option (CTelegramDispatcher × Bool) :=
  if s.m_requestedSteps &&& StepKnowSelf = 0 then
    (getInitialUsers s).map
      (fun t => ({ t with m_requestedSteps := t.m_requestedSteps ||| StepKnowSelf }, true))
  else
    (if s.m_requestedSteps &&& StepContactList = 0
      then (getContacts s).map
        (fun t => { t with m_requestedSteps := t.m_requestedSteps ||| StepContactList })
      else some s).bind fun s5 =>
    (if s5.m_requestedSteps &&& StepChatInfo = 0
      then (getChatsInfo continueInit s5).map
        (fun t => { t with m_requestedSteps := t.m_requestedSteps ||| StepChatInfo })
      else some s5).map fun s6 => (s6, false)

/-- The block of `continueInitialization` for a signed-in connection with a
known DC configuration: the state `Authenticated`, the delta time of the
active connection, and the requests of the initial data. -/
def signedInSteps (continueInit : CTelegramDispatcher → Nat → Option CTelegramDispatcher)
    (s : CTelegramDispatcher) : Option (CTelegramDispatcher × Bool) :=
  if s.m_initializationState &&& StepDcConfiguration ≠ 0 ∧
      s.m_initializationState &&& StepSignIn ≠ 0 then
    s.m_mainConnection.bind fun c =>
      requestInitialData continueInit
        { setConnectionState s .Authenticated with m_deltaTime := c.deltaTime }
  else some (s, false)

/-- The end of `continueInitialization`: the state `Ready` when all steps are
done, otherwise the request of the updates state once the contact list is known. -/
def finishInitializationStep (s : CTelegramDispatcher) : Option CTelegramDispatcher :=
  if s.m_initializationState = StepDone then
    some { setConnectionState s .Ready with m_passwordInfo := [] }
  else if s.m_initializationState &&& StepContactList ≠ 0 then
    if s.m_requestedSteps &&& StepUpdates = 0
      then (getUpdatesState s).map
        (fun t => { t with m_requestedSteps := t.m_requestedSteps ||| StepUpdates })
      else some s
  else some s

/-- The method `CTelegramDispatcher::continueInitialization`, composed of its
blocks in the order of the source. The first argument bounds the depth of the
recursion through `getChatsInfo`. -/
def continueInitialization : Nat → CTelegramDispatcher → Nat → Option CTelegramDispatcher
  | 0, _, _ => none
  | depth + 1, s, justDone =>
    if justDone ≠ 0 ∧ (s.m_initializationState ||| justDone) = s.m_initializationState then
      some s
    else
      (requestDcConfigurationStep
        { s with m_initializationState := s.m_initializationState ||| justDone }).bind fun s2 =>
      if s2.m_initializationState &&& StepDcConfiguration = 0 then some s2
      else
        (reportDcConfigurationStep s2 justDone).bind fun s3 =>
        (signedInSteps (continueInitialization depth) s3).bind fun r =>
        if r.2 then some r.1 else finishInitializationStep r.1

/-! ## Difference recovery -/

/-- The slot `CTelegramDispatcher::getDifference`. -/
def getDifference (s : CTelegramDispatcher) : Option CTelegramDispatcher :=
  callActive s (.updatesGetDifference s.m_updatesState.pts s.m_updatesState.date s.m_updatesState.qts)

/-- The method `CTelegramDispatcher::checkStateAndCallGetDifference`. -/
def checkStateAndCallGetDifference (depth : Nat) (s : CTelegramDispatcher) :
    Option CTelegramDispatcher :=
  let s1 := { s with m_updatesStateIsLocked := decide (s.m_actualState.pts > s.m_updatesState.pts) }
  if s1.m_updatesStateIsLocked then some (singleShot s1 10 .getDifference)
  else continueInitialization depth s1 StepUpdates

/-- The method `CTelegramDispatcher::whenUpdatesStateReceived`. -/
def whenUpdatesStateReceived (depth : Nat) (s : CTelegramDispatcher)
    (updatesState : TLUpdatesState) : Option CTelegramDispatcher :=
  checkStateAndCallGetDifference depth { s with m_actualState := updatesState }

/-- The loop over `newMessages` in `whenUpdatesDifferenceReceived`. -/
def processDifferenceMessages (ext : Externals) :
    CTelegramDispatcher → List TLMessage → Option CTelegramDispatcher
  | s, [] => some s
  | s, message :: rest =>
    if message.tlType ≠ .MessageService ∧
        filterReceivedMessage s (getPublicMessageFlags ext message.flags) then
      processDifferenceMessages ext s rest
    else
      (processMessageReceived ext s message).bind fun s1 => processDifferenceMessages ext s1 rest

/-- The loop over `otherUpdates` in `whenUpdatesDifferenceReceived`. -/
def processDifferenceUpdates (ext : Externals) :
    CTelegramDispatcher → List TLUpdate → Option CTelegramDispatcher
  | s, [] => some s
  | s, update :: rest =>
    (processUpdate ext s update).bind fun s1 => processDifferenceUpdates ext s1 rest

/-- The method `CTelegramDispatcher::whenUpdatesDifferenceReceived`. -/
def whenUpdatesDifferenceReceived (ext : Externals) (depth : Nat) (s : CTelegramDispatcher)
    (updatesDifference : TLUpdatesDifference) : Option CTelegramDispatcher :=
  match updatesDifference.tlType with
  | .UpdatesDifference | .UpdatesDifferenceSlice =>
    let s1 := updatesDifference.chats.foldl updateChat s
    (processDifferenceMessages ext s1 updatesDifference.newMessages).bind fun s2 =>
    let s3 :=
      if updatesDifference.tlType = .UpdatesDifference then
        setUpdateState s2 updatesDifference.state.pts updatesDifference.state.seq
          updatesDifference.state.date
      else
        setUpdateState s2 updatesDifference.intermediateState.pts
          updatesDifference.intermediateState.seq updatesDifference.intermediateState.date
    (processDifferenceUpdates ext s3 updatesDifference.otherUpdates).bind fun s4 =>
    checkStateAndCallGetDifference depth s4
  | .UpdatesDifferenceEmpty => some (singleShot s 10 .getUpdatesState)
  | _ => checkStateAndCallGetDifference depth s

/-! ## Received users, chats and updates -/

/-- The struct `TLUpdates`. -/
structure TLUpdates where
  tlType : TLValue.Updates := .UpdatesTooLong
  id : Nat := 0
  flags : Nat := 0
  fromId : Nat := 0
  userId : Nat := 0
  chatId : Nat := 0
  message : String := ""
  pts : Nat := 0
  ptsCount : Nat := 0
  date : Nat := 0
  fwdFromId : Nat := 0
  fwdDate : Nat := 0
  replyToMsgId : Nat := 0
  update : TLUpdate := {}
  updates : List TLUpdate := []
  users : List TLUser := []
  chats : List TLChat := []
  seq : Nat := 0
deriving DecidableEq, Repr

/-- The body of the loop of `CTelegramDispatcher::onUsersReceived`, for one
received user. -/
def onUserReceived (depth : Nat) (s : CTelegramDispatcher) (user : TLUser) :
    Option CTelegramDispatcher :=
  let existsUser := QMap.contains s.m_users user.id
  let s1 := if existsUser
    then { s with m_users := QMap.modify s.m_users user.id (fun _ => user) }
    else { s with m_users := QMap.insert s.m_users user.id user }
  let s2 : Option CTelegramDispatcher :=
    if user.tlType = .UserSelf then
      if s1.m_selfUserId ≠ 0 then
        if s1.m_selfUserId ≠ user.id
          then some (emit { s1 with m_selfUserId := user.id } (.selfUserAvailable user.id))
          else some s1
      else
        continueInitialization depth
          (emit { s1 with m_selfUserId := user.id } (.selfUserAvailable user.id)) StepKnowSelf
    else some s1
  s2.map fun s3 =>
    let s4 := { s3 with m_askedUserIds := s3.m_askedUserIds.erase user.id }
    if !existsUser then emit s4 (.userInfoReceived user.id) else s4

/-- The slot `CTelegramDispatcher::onUsersReceived`. -/
def onUsersReceived (depth : Nat) :
    CTelegramDispatcher → List TLUser → Option CTelegramDispatcher
  | s, [] => some s
  | s, user :: rest => (onUserReceived depth s user).bind fun s1 => onUsersReceived depth s1 rest

/-- The slot `CTelegramDispatcher::onChatsReceived`. -/
def onChatsReceived (depth : Nat) (s : CTelegramDispatcher) (chats : List TLChat) :
    Option CTelegramDispatcher :=
  continueInitialization depth (chats.foldl updateChat s) StepChatInfo

/-- The full update that `onUpdatesReceived` reconstructs from a short update
(`UpdateShortMessage`, `UpdateShortChatMessage`). -/
def shortMessageUpdate (s : CTelegramDispatcher) (updates : TLUpdates) : TLUpdate :=
  let shortMessage : TLMessage :=
    { tlType := .Message, id := updates.id, flags := updates.flags, message := updates.message,
      date := updates.date, media := { tlType := .MessageMediaEmpty },
      fwdFromId := updates.fwdFromId, fwdDate := updates.fwdDate,
      replyToMsgId := updates.replyToMsgId }
  let shortMessage1 : TLMessage :=
    if updates.tlType = .UpdateShortMessage then
      if shortMessage.flags &&& TelegramMessageFlagOut ≠ 0 then
        { shortMessage with toId := { tlType := .PeerUser, userId := updates.userId },
                            fromId := s.m_selfUserId }
      else
        { shortMessage with toId := { tlType := .PeerUser, userId := s.m_selfUserId },
                            fromId := updates.userId }
    else
      { shortMessage with toId := { tlType := .PeerChat, chatId := updates.chatId },
                          fromId := updates.fromId }
  { tlType := .UpdateNewMessage, pts := updates.pts, ptsCount := updates.ptsCount,
    message := shortMessage1 }

/-- The member `QVector::remove(int)` on the typing list; an index out of range
is a failure. -/
def removeMessageAction (s : CTelegramDispatcher) (index : Int) : Option CTelegramDispatcher :=
  if index.toNat < s.m_contactsMessageActions.length then
    some { s with m_contactsMessageActions := s.m_contactsMessageActions.eraseIdx index.toNat }
  else none

/-- The cases `UpdateShortMessage` and `UpdateShortChatMessage` of
`onUpdatesReceived`: the state in which `processUpdate` is called (the typing
signal for the sender has been emitted), and what is done after it. -/
def shortMessageTyping (ext : Externals) (s : CTelegramDispatcher) (updates : TLUpdates) :
    Int × CTelegramDispatcher :=
  let messageActionIndex := ext.indexForUser s.m_contactsMessageActions updates.fromId
  (messageActionIndex,
   if messageActionIndex ≥ 0 then
     if updates.tlType = .UpdateShortMessage
       then emit s (.contactMessageActionChanged updates.fromId MessageActionNone)
       else emit s (.contactChatMessageActionChanged updates.chatId updates.fromId
         MessageActionNone)
   else s)

/-- The check of `onUpdatesReceived` that the updates of a container are
ordered by `pts`: `false` where the source asserts. -/
def updatesOrdered : Nat → List TLUpdate → Bool
  | _, [] => true
  | pts, update :: rest => !decide (update.pts < pts) && updatesOrdered update.pts rest

/-- The slot `CTelegramDispatcher::onUpdatesReceived`. The cases in which the
source asserts (`UpdatesCombined`, unordered updates) are failures. -/
def onUpdatesReceived (ext : Externals) (depth : Nat) (s : CTelegramDispatcher)
    (updates : TLUpdates) (id : Nat) : Option CTelegramDispatcher :=
  let s0 := { s with m_updateRequestId := id }
  let handled : Option CTelegramDispatcher :=
    match updates.tlType with
    | .UpdatesTooLong => getUpdatesState s0
    | .UpdateShortMessage | .UpdateShortChatMessage =>
      let typing := shortMessageTyping ext s0 updates
      (processUpdate ext typing.2 (shortMessageUpdate s0 updates)).bind fun s1 =>
        if typing.1 > 0 then removeMessageAction s1 typing.1 else some s1
    | .UpdateShort => processUpdate ext s0 updates.update
    | .UpdatesCombined => none
    | .Updates =>
      (onUsersReceived depth s0 updates.users).bind fun s1 =>
      (onChatsReceived depth s1 updates.chats).bind fun s2 =>
        match updates.updates with
        | [] => some s2
        | first :: rest =>
          if updatesOrdered first.pts (first :: rest)
            then processDifferenceUpdates ext s2 (first :: rest)
            else none
    | .Other _ => some s0
  handled.map fun t => { t with m_updateRequestId := 0 }

/-! ## File request descriptors: the methods -/

/-- The method `FileRequestDescriptor::chunkSize`. -/
def FileRequestDescriptor.chunkSize (d : FileRequestDescriptor) : Nat :=
  if d.m_type = .Upload then 256 else 128 * 256

/-- The getter `FileRequestDescriptor::size`. -/
def FileRequestDescriptor.size (d : FileRequestDescriptor) : Nat := d.m_size

/-- Modelled from the spec: the inline method `FileRequestDescriptor::isValid`
is declared in the dispatcher's header; a descriptor is invalid exactly when it
still has the type `Invalid` that the default constructor gives it, which is
what the factory functions return when they fail. -/
def FileRequestDescriptor.isValid (d : FileRequestDescriptor) : Bool :=
  decide (d.m_type ≠ .Invalid)

/-- The method `FileRequestDescriptor::parts`. -/
def FileRequestDescriptor.parts (d : FileRequestDescriptor) : Nat :=
  let parts := d.m_size / d.chunkSize
  if d.m_size % d.chunkSize ≠ 0 then (parts + 1) % quint32Mod else parts

/-- The method `FileRequestDescriptor::isBigFile`. -/
def FileRequestDescriptor.isBigFile (d : FileRequestDescriptor) : Bool :=
  decide (d.size > 10 * 1024 * 1024)

/-- The method `FileRequestDescriptor::finished`. -/
def FileRequestDescriptor.finished (d : FileRequestDescriptor) : Bool :=
  decide ((d.m_part * d.chunkSize) % quint32Mod ≥ d.size)

/-- The method `FileRequestDescriptor::data`: the chunk of the current part. -/
def FileRequestDescriptor.data (d : FileRequestDescriptor) : QByteArray :=
  QByteArray.mid d.m_data ((d.m_part * d.chunkSize) % quint32Mod) d.chunkSize

/-- The method `FileRequestDescriptor::bumpPart`; `md5` is the digest function
of the `QCryptographicHash` object behind `m_hash`. -/
def FileRequestDescriptor.bumpPart (md5 : QByteArray → QByteArray) (d : FileRequestDescriptor) :
    FileRequestDescriptor :=
  let hash1 := d.m_hash.map (fun acc => acc ++ d.data)
  let part := (d.m_part + 1) % quint32Mod
  let offset := (part * d.chunkSize) % quint32Mod
  let d1 : FileRequestDescriptor :=
    { d with m_hash := hash1, m_part := part,
             m_offset := if offset > d.m_size then d.m_size else offset }
  match d1.m_hash with
  | some acc => if d1.finished then { d1 with m_md5Sum := md5 acc, m_hash := none } else d1
  | none => d1

/-- The method `FileRequestDescriptor::inputFile`. The assignment of
`md5Checksum` is commented out in the source, so the field keeps its default. -/
def FileRequestDescriptor.inputFile (d : FileRequestDescriptor) : TLInputFile :=
  { tlType := if d.isBigFile then .InputFileBig else .InputFile,
    id := d.m_fileId, parts := d.parts, name := d.m_fileName }

/-- The factory `FileRequestDescriptor::uploadRequest`; `fileId` is the value
that `Utils::randomBytes` stores in `m_fileId`. -/
def FileRequestDescriptor.uploadRequest (data : QByteArray) (fileName : String) (dc fileId : Nat) :
    FileRequestDescriptor :=
  let result : FileRequestDescriptor :=
    { m_type := .Upload, m_data := data, m_size := data.length, m_fileName := fileName, m_dcId := dc }
  let result1 := if !result.isBigFile then { result with m_hash := some [] } else result
  { result1 with m_fileId := fileId }

/-- The upload of one job as the dispatcher drives it: the chunk `data()` of the
current part is sent (`processFileRequestForConnection`), its acknowledgement
runs `bumpPart()` (`whenFileDataUploaded`), and unless `finished()` holds the
next chunk is sent. Returns the parts sent (part number and chunk), the offsets
after each `bumpPart()` and the final descriptor; `none` when the budget of
steps ends before `finished()` holds. -/
def uploadLoop (md5 : QByteArray → QByteArray) :
    Nat → FileRequestDescriptor →
      Option (List (Nat × QByteArray) × List Nat × FileRequestDescriptor)
  | 0, _ => none
  | steps + 1, d =>
    let d1 := d.bumpPart md5
    if d1.finished then some ([(d.m_part, d.data)], [d1.m_offset], d1)
    else (uploadLoop md5 steps d1).map
      (fun r => ((d.m_part, d.data) :: r.1, d1.m_offset :: r.2.1, r.2.2))

/-! ## The file-job table and the extra connections -/

/-- A `CTelegramConnection *` held by the dispatcher: the main connection or
the extra connection at an index of `m_extraConnections`. -/
inductive ConnectionRef where
  | main
  | extra (index : Nat)
deriving DecidableEq, Repr

/-- The connection a reference points to. -/
def connectionAt (s : CTelegramDispatcher) : ConnectionRef → Option CTelegramConnection
  | .main => s.m_mainConnection
  | .extra i => s.m_extraConnections[i]?

/-- A call `connection->request(...)` on a referenced connection. -/
def callOn (s : CTelegramDispatcher) (ref : ConnectionRef) (r : Request) :
    Option CTelegramDispatcher :=
  match ref with
  | .main => callActive s r
  | .extra i =>
    s.m_extraConnections[i]?.map fun c =>
      { s with m_extraConnections :=
                 s.m_extraConnections.set i { c with requests := c.requests ++ [r] } }

/-- The method `CTelegramDispatcher::dcInfoById`. -/
def dcInfoById (s : CTelegramDispatcher) (dc : Nat) : TLDcOption :=
  (s.m_dcConfiguration.find? (fun option => decide (option.id = dc))).getD {}

/-- The method `CTelegramDispatcher::createConnection`: a new connection with
the given DC and the dispatcher's delta time. -/
def createConnection (s : CTelegramDispatcher) (dcInfo : TLDcOption) : CTelegramConnection :=
  { dcInfo := dcInfo, deltaTime := s.m_deltaTime }

/-- The search loop of `getExtraConnection`: the index of the first extra
connection of the given DC. -/
def indexOfDc : List CTelegramConnection → Nat → Option Nat
  | [], _ => none
  | c :: rest, dc => if c.dcInfo.id = dc then some 0 else (indexOfDc rest dc).map (· + 1)

/-- The method `CTelegramDispatcher::getExtraConnection`. The inner `none` is
the returned null pointer (unknown DC); the outer `none` is the dereference of
a null `activeConnection()`. -/
def getExtraConnection (s : CTelegramDispatcher) (dc : Nat) :
    Option (CTelegramDispatcher × Option Nat) :=
  match indexOfDc s.m_extraConnections dc with
  | some i => some (s, some i)
  | none =>
    let dcInfo := dcInfoById s dc
    if dcInfo.ipAddress.isEmpty then some (s, none)
    else
      let connection := createConnection s dcInfo
      s.m_mainConnection.map fun active =>
        let connection1 :=
          if active.dcInfo.id = dc then
            { connection with deltaTime := active.deltaTime, authKey := active.authKey,
                              serverSalt := active.serverSalt }
          else connection
        ({ s with m_extraConnections := s.m_extraConnections ++ [connection1] },
         some s.m_extraConnections.length)

/-- The `switch` of `processFileRequestForConnection`: the transfer request of
a job, by the type of its descriptor. -/
def transferRequest (mediaDataBufferSize : Nat) (descriptor : FileRequestDescriptor)
    (requestId : Nat) : Option Request :=
  match descriptor.m_type with
  | .Avatar => some (.downloadFile descriptor.m_inputLocation 0 (512 * 256) requestId)
  | .MessageMediaData =>
    some (.downloadFile descriptor.m_inputLocation descriptor.m_offset mediaDataBufferSize requestId)
  | .Upload => some (.uploadFile descriptor.m_fileId descriptor.m_part descriptor.data requestId)
  | .Invalid => none

/-- The method `CTelegramDispatcher::processFileRequestForConnection`. -/
def processFileRequestForConnection (s : CTelegramDispatcher) (ref : ConnectionRef)
    (requestId : Nat) : Option CTelegramDispatcher :=
  let descriptor := QMap.value s.m_requestedFileDescriptors requestId
  (connectionAt s ref).bind fun connection =>
    if connection.authState ≠ .AuthStateSignedIn then some s
    else
      match transferRequest s.m_mediaDataBufferSize descriptor requestId with
      | some r => callOn s ref r
      | none => some s

/-- The method `CTelegramDispatcher::ensureSignedConnection`. -/
def ensureSignedConnection (s : CTelegramDispatcher) (ref : ConnectionRef) :
    Option CTelegramDispatcher :=
  (connectionAt s ref).bind fun connection =>
    if connection.status = .Disconnected then callOn s ref .connectToDc
    else if connection.authState = .AuthStateHaveAKey then
      let dc := connection.dcInfo.id
      if dc = 0 then some s
      else if QMap.contains s.m_exportedAuthentications dc then
        callOn s ref (.authImportAuthorization (QMap.value s.m_exportedAuthentications dc).1
          (QMap.value s.m_exportedAuthentications dc).2)
      else
        s.m_mainConnection.bind fun active =>
          if active.authState = .AuthStateSignedIn then callActive s (.authExportAuthorization dc)
          else some s
    else some s

/-- The method `CTelegramDispatcher::requestFile`; returns the new state and
the returned id. -/
def requestFile (s : CTelegramDispatcher) (descriptor : FileRequestDescriptor) :
    Option (CTelegramDispatcher × Nat) :=
  if !descriptor.isValid then some (s, 0)
  else
    let counter := (s.m_fileRequestCounter + 1) % quint32Mod
    let s1 := { s with m_fileRequestCounter := counter,
                       m_requestedFileDescriptors :=
                         QMap.insert s.m_requestedFileDescriptors counter descriptor }
    (getExtraConnection s1 descriptor.m_dcId).bind fun r =>
      match r.2 with
      | none => none
      | some i =>
        (connectionAt r.1 (.extra i)).bind fun connection =>
          (if connection.authState = .AuthStateSignedIn
            then processFileRequestForConnection r.1 (.extra i) r.1.m_fileRequestCounter
            else ensureSignedConnection r.1 (.extra i)).map
            (fun s3 => (s3, s3.m_fileRequestCounter))

/-- The loop of `onConnectionAuthChanged` over the keys of the job table. -/
def processFileRequestsOfDc (ref : ConnectionRef) (dc : Nat) :
    CTelegramDispatcher → List Nat → Option CTelegramDispatcher
  | s, [] => some s
  | s, fileId :: rest =>
    if (QMap.value s.m_requestedFileDescriptors fileId).m_dcId ≠ dc then
      processFileRequestsOfDc ref dc s rest
    else
      (processFileRequestForConnection s ref fileId).bind fun s1 =>
        processFileRequestsOfDc ref dc s1 rest

/-- The loop of `onConnectionAuthChanged` over the delayed packages of a DC. -/
def processDelayedPackages (ref : ConnectionRef) :
    CTelegramDispatcher → List QByteArray → Option CTelegramDispatcher
  | s, [] => some s
  | s, data :: rest =>
    (callOn s ref (.processRedirectedPackage data)).bind fun s1 =>
      processDelayedPackages ref s1 rest

/-- The slot `CTelegramDispatcher::onConnectionAuthChanged`; `sender` is the
connection that emitted the signal (`none` when `sender()` is no connection). -/
def onConnectionAuthChanged (depth : Nat) (s : CTelegramDispatcher)
    (sender : Option ConnectionRef) (newState : AuthState) (dc : Nat) :
    Option CTelegramDispatcher :=
  match sender with
  | none => some s
  | some connection =>
    (if connection = .main then
      if newState = .AuthStateSignedIn then continueInitialization depth s StepSignIn
      else if newState = .AuthStateHaveAKey then continueInitialization depth s StepFirst
      else some s
     else
      if newState = .AuthStateSignedIn then
        processFileRequestsOfDc connection dc s (QMap.keys s.m_requestedFileDescriptors)
      else if newState = .AuthStateHaveAKey then ensureSignedConnection s connection
      else some s).bind fun s1 =>
    if newState ≠ .AuthStateNone then
      (if s1.m_delayedPackages.any (fun p => decide (p.1 = dc)) then
        (processDelayedPackages connection s1
          ((s1.m_delayedPackages.filter (fun p => decide (p.1 = dc))).map Prod.snd)).map
          (fun t => { t with m_delayedPackages :=
                               t.m_delayedPackages.filter (fun p => !decide (p.1 = dc)) })
       else some s1).bind fun s2 =>
      if connection = .main then continueInitialization depth s2 StepFirst else some s2
    else some s1

/-- The slot `CTelegramDispatcher::whenFileDataUploaded`. -/
def whenFileDataUploaded (ext : Externals) (s : CTelegramDispatcher)
    (sender : Option ConnectionRef) (requestId : Nat) : Option CTelegramDispatcher :=
  match QMap.find s.m_requestedFileDescriptors requestId with
  | none => some s
  | some descriptor0 =>
    if descriptor0.m_type ≠ .Upload then some s
    else
      let descriptor := descriptor0.bumpPart ext.md5
      let s1 := { s with m_requestedFileDescriptors :=
                           QMap.modify s.m_requestedFileDescriptors requestId (fun _ => descriptor) }
      let s2 := emit s1 (.uploadingStatusUpdated requestId descriptor.m_offset descriptor.size)
      if descriptor.finished then
        some (emit s2 (.uploadFinished requestId
          { file := descriptor.inputFile, m_size := descriptor.size }))
      else
        match sender with
        | some connection => processFileRequestForConnection s2 connection requestId
        | none => some s2

/-- The run of one upload job on a signed-in connection, seen from the
dispatcher: every acknowledgement (`fileDataSent`) of the connection runs
`whenFileDataUploaded`, until the descriptor of the job is finished. The first
chunk has been requested before by `processFileRequestForConnection`. -/
def driveUpload (ext : Externals) (sender : ConnectionRef) (requestId : Nat) :
    Nat → CTelegramDispatcher → Option CTelegramDispatcher
  | 0, _ => none
  | steps + 1, s =>
    (whenFileDataUploaded ext s (some sender) requestId).bind fun t =>
      if (QMap.value t.m_requestedFileDescriptors requestId).finished then some t
      else driveUpload ext sender requestId steps t

/-- The struct `TLUploadFile`; `type` is the code of the storage file type. -/
structure TLUploadFile where
  type : Nat := 0
  mtime : Nat := 0
  bytes : QByteArray := []
deriving DecidableEq, Repr

/-- The slot `CTelegramDispatcher::whenFileDataReceived`; `sender` is the
connection that emitted the signal (`none` when `sender()` is no connection). -/
def whenFileDataReceived (ext : Externals) (s : CTelegramDispatcher)
    (sender : Option ConnectionRef) (file : TLUploadFile) (requestId offset : Nat) :
    Option CTelegramDispatcher :=
  match QMap.find s.m_requestedFileDescriptors requestId with
  | none => some s
  | some descriptor =>
    let mimeType := ext.mimeTypeByStorageFileType file.type
    let chunkSize := file.bytes.length % quint32Mod
    match descriptor.m_type with
    | .Avatar =>
      if QMap.contains s.m_users descriptor.m_userId then
        some (emit s (.avatarReceived descriptor.m_userId file.bytes mimeType
          (ext.userAvatarToken (QMap.value s.m_users descriptor.m_userId))))
      else some s
    | .MessageMediaData =>
      let s1 :=
        if QMap.contains s.m_knownMediaMessages descriptor.m_messageId then
          let message := QMap.value s.m_knownMediaMessages descriptor.m_messageId
          let messageType := ext.telegramMessageTypeToPublicMessageType message.media.tlType
          let peer := peerToPublicPeer message.toId
          let mimeType1 :=
            if mimeType.isEmpty then
              (if QMap.contains s.m_knownMediaMessages message.id
                then ext.mediaMimeType (QMap.value s.m_knownMediaMessages message.id).media
                else ext.mediaMimeType {})
            else mimeType
          let peer1 : Peer :=
            if message.flags &&& TelegramMessageFlagOut = 0 ∧ peer.type = .User
              then { id := message.fromId } else peer
          emit s (.messageMediaDataReceived peer1 message.id file.bytes mimeType1 messageType
            offset descriptor.size)
        else s
      if (descriptor.m_offset + chunkSize) % quint32Mod = descriptor.size then
        some { s1 with m_requestedFileDescriptors :=
                         QMap.remove s1.m_requestedFileDescriptors requestId }
      else
        let s2 := { s1 with m_requestedFileDescriptors :=
                              QMap.modify s1.m_requestedFileDescriptors requestId
                                (fun d => { d with m_offset := (offset + chunkSize) % quint32Mod }) }
        match sender with
        | some connection => processFileRequestForConnection s2 connection requestId
        | none => some s2
    | _ => some s

/-! ## Construction and shutdown -/

/-- The constant `s_autoConnectionIndexInvalid`. -/
def s_autoConnectionIndexInvalid : Int := -1

/-- The constructor `CTelegramDispatcher::CTelegramDispatcher`: the state of a
new dispatcher. -/
def CTelegramDispatcher.constructed (ext : Externals) : CTelegramDispatcher :=
  { m_connectionState := .Disconnected,
    m_deltaTime := 0,
    m_messageReceivingFilterFlags := ext.MessageFlagRead,
    m_acceptableMessageTypes := ext.MessageTypeText,
    m_autoReconnectionEnabled := false,
    m_mediaDataBufferSize := 128 * 256,
    m_initializationState := 0,
    m_requestedSteps := 0,
    m_wantedActiveDc := 0,
    m_autoConnectionDcIndex := s_autoConnectionIndexInvalid,
    m_mainConnection := none,
    m_updateRequestId := 0,
    m_updatesStateIsLocked := false,
    m_selfUserId := 0,
    m_fileRequestCounter := 0 }

/-- The method `CTelegramDispatcher::clearMainConnection`: the main connection
is disconnected from the dispatcher's slots and handed to `deleteLater()`; the
pointer `m_mainConnection` itself is left as it is. -/
def clearMainConnection (s : CTelegramDispatcher) : CTelegramDispatcher :=
  match s.m_mainConnection with
  | none => s
  | some c => { s with deletedLater := s.deletedLater ++ [c] }

/-- The method `CTelegramDispatcher::clearExtraConnections`. -/
def clearExtraConnections (s : CTelegramDispatcher) : CTelegramDispatcher :=
  { s with deletedLater := s.deletedLater ++ s.m_extraConnections, m_extraConnections := [] }

/-- The method `CTelegramDispatcher::closeConnection`. -/
def closeConnection (s : CTelegramDispatcher) : CTelegramDispatcher :=
  let s1 := clearExtraConnections (clearMainConnection (setConnectionState s .Disconnected))
  { s1 with
    m_dcConfiguration := [],
    m_delayedPackages := [],
    m_users := [],
    m_contactIdList := [],
    m_requestedFileDescriptors := [],
    m_fileRequestCounter := 0,
    m_contactsMessageActions := [],
    m_localMessageActions := [],
    m_chatIds := [],
    m_chatInfo := [],
    m_chatFullInfo := [],
    m_wantedActiveDc := 0,
    m_autoConnectionDcIndex := s_autoConnectionIndexInvalid }

/-! ## Bringing the main connection up -/

/-- The member `QVector::at` with an `int` index; an index out of range is a
failure. -/
def QVector.at {α : Type} (l : List α) (i : Int) : Option α :=
  if i < 0 then none else l[i.toNat]?

/-- The value of an `int` after an arithmetic step, reduced to 32 bits in
two's complement. -/
def int32Wrap (x : Int) : Int :=
  (x + 2147483648) % 4294967296 - 2147483648

/-- The method `CTelegramDispatcher::initConnectionSharedClear`. -/
def initConnectionSharedClear (s : CTelegramDispatcher) : CTelegramDispatcher :=
  { s with
    m_autoConnectionDcIndex := s_autoConnectionIndexInvalid,
    m_deltaTime := 0,
    m_updateRequestId := 0,
    m_updatesState := { s.m_updatesState with pts := 1, qts := 1, date := 1 },
    m_chatIds := [] }

/-- The method `CTelegramDispatcher::initConnectionSharedFinal`. -/
def initConnectionSharedFinal (s : CTelegramDispatcher) : Option CTelegramDispatcher :=
  let s1 := setConnectionState
    { s with m_initializationState := StepFirst, m_requestedSteps := 0 } .Connecting
  callActive { s1 with m_updatesStateIsLocked := false, m_selfUserId := 0, m_actualState := {} }
    .connectToDc

/-- The method `CTelegramDispatcher::tryNextDcAddress`. -/
def tryNextDcAddress (s : CTelegramDispatcher) : Option CTelegramDispatcher :=
  if s.m_connectionAddresses.isEmpty then some s
  else
    let s1 := { s with m_autoConnectionDcIndex := int32Wrap (s.m_autoConnectionDcIndex + 1) }
    let next : Option CTelegramDispatcher :=
      if s1.m_autoConnectionDcIndex ≥ (s1.m_connectionAddresses.length : Int) then
        if s1.m_autoReconnectionEnabled then some { s1 with m_autoConnectionDcIndex := 0 }
        else none
      else some s1
    match next with
    | none => some (setConnectionState s1 .Disconnected)
    | some s2 =>
      (QVector.at s2.m_connectionAddresses s2.m_autoConnectionDcIndex).bind fun address =>
        let dcInfo : TLDcOption := { ipAddress := address.address, port := address.port }
        let s3 := clearMainConnection s2
        initConnectionSharedFinal { s3 with m_mainConnection := some (createConnection s3 dcInfo) }

/-- The method `CTelegramDispatcher::requestPhoneCode`. -/
def requestPhoneCode (s : CTelegramDispatcher) (phoneNumber : String) : CTelegramDispatcher :=
  match s.m_mainConnection with
  | none => s
  | some c =>
    if s.m_dcConfiguration.isEmpty then s
    else
      { s with
        m_requestedCodeForPhone := phoneNumber,
        m_mainConnection :=
          some { c with requests := c.requests ++ [.requestPhoneCode phoneNumber] } }

/-- The method `CTelegramDispatcher::ensureMainConnectToWantedDc`. -/
def ensureMainConnectToWantedDc (s : CTelegramDispatcher) : Option CTelegramDispatcher :=
  match s.m_mainConnection with
  | none => some s
  | some main =>
    if main.dcInfo.id = s.m_wantedActiveDc then some s
    else
      let wantedDcInfo := dcInfoById s s.m_wantedActiveDc
      if wantedDcInfo.ipAddress.isEmpty then
        if s.m_initializationState &&& StepDcConfiguration ≠ 0 then some s
        else getDcConfiguration s
      else
        let s1 := clearMainConnection s
        callActive { s1 with m_mainConnection := some (createConnection s1 wantedDcInfo) }
          .connectToDc

/-- The slot `CTelegramDispatcher::onPackageRedirected`. `none` is the
dereference of the null pointer that `getExtraConnection` returns for an
unknown DC (or of a null `activeConnection()` inside it). The multi-map
`m_delayedPackages` holds the most recently inserted package of a DC first. -/
def onPackageRedirected (s : CTelegramDispatcher) (data : QByteArray) (dc : Nat) :
    Option CTelegramDispatcher :=
  (getExtraConnection s dc).bind fun r =>
    match r.2 with
    | none => none
    | some i =>
      (connectionAt r.1 (.extra i)).bind fun connection =>
        if connection.authState ≠ .AuthStateNone then
          callOn r.1 (.extra i) (.processRedirectedPackage data)
        else
          let s1 := { r.1 with m_delayedPackages := (dc, data) :: r.1.m_delayedPackages }
          if connection.status = .Disconnected then callOn s1 (.extra i) .connectToDc
          else some s1

/-- The slot `CTelegramDispatcher::onWantedMainDcChanged`. -/
def onWantedMainDcChanged (s : CTelegramDispatcher) (dc : Nat) (dcForPhoneNumber : String) :
    Option CTelegramDispatcher :=
  if s.m_requestedCodeForPhone ≠ dcForPhoneNumber then some s
  else ensureMainConnectToWantedDc { s with m_wantedActiveDc := dc }

/-! ## The session-resume blob -/

/-- The constant `secretFormatVersion`. -/
def secretFormatVersion : Nat := 3

/-- Modelled from the spec: the class `CTelegramStream` is not among the
sources. The record holds its `operator<<` (`write...`, the bytes appended to
the output) and its `operator>>` (`read...`, the value read and the rest of the
input) for the types of the session-resume blob: `quint32`, `qint32`,
`quint64`, `QByteArray`, `QString`, `TLDcOption` and `QVector<quint32>`. -/
structure CTelegramStream where
  writeU32 : Nat → QByteArray
  readU32 : QByteArray → Nat × QByteArray
  writeI32 : Int → QByteArray
  readI32 : QByteArray → Int × QByteArray
  writeU64 : Nat → QByteArray
  readU64 : QByteArray → Nat × QByteArray
  writeBytes : QByteArray → QByteArray
  readBytes : QByteArray → QByteArray × QByteArray
  writeString : String → QByteArray
  readString : QByteArray → String × QByteArray
  writeDcOption : TLDcOption → QByteArray
  readDcOption : QByteArray → TLDcOption × QByteArray
  writeVectorU32 : List Nat → QByteArray
  readVectorU32 : QByteArray → List Nat × QByteArray

/-- Modelled from the spec: the round-trip law of the wire codec,
`decode(encode(v)) == v` for every well-formed value: a value within the range
of its C++ type that has been written is read back, and the reader is left at
the end of what was written. -/
def CTelegramStream.RoundTrip (stream : CTelegramStream) : Prop :=
  (∀ n rest, n < 2 ^ 32 → stream.readU32 (stream.writeU32 n ++ rest) = (n, rest)) ∧
  (∀ (x : Int) rest, -2 ^ 31 ≤ x → x < 2 ^ 31 →
    stream.readI32 (stream.writeI32 x ++ rest) = (x, rest)) ∧
  (∀ n rest, n < 2 ^ 64 → stream.readU64 (stream.writeU64 n ++ rest) = (n, rest)) ∧
  (∀ (b : QByteArray) rest, b.length < 2 ^ 31 →
    stream.readBytes (stream.writeBytes b ++ rest) = (b, rest)) ∧
  (∀ (str : String) rest, str.length < 2 ^ 31 →
    stream.readString (stream.writeString str ++ rest) = (str, rest)) ∧
  (∀ (o : TLDcOption) rest, o.id < 2 ^ 32 → o.port < 2 ^ 32 → o.ipAddress.length < 2 ^ 31 →
    stream.readDcOption (stream.writeDcOption o ++ rest) = (o, rest)) ∧
  (∀ (l : List Nat) rest, l.length < 2 ^ 31 → (∀ x ∈ l, x < 2 ^ 32) →
    stream.readVectorU32 (stream.writeVectorU32 l ++ rest) = (l, rest))

/-- The method `CTelegramDispatcher::connectionSecretInfo`. -/
def connectionSecretInfo (stream : CTelegramStream) (ext : Externals) (s : CTelegramDispatcher) :
    QByteArray :=
  match s.m_mainConnection with
  | none => []
  | some active =>
    if active.authKey.isEmpty then []
    else
      stream.writeU32 secretFormatVersion ++
      stream.writeI32 active.deltaTime ++
      stream.writeDcOption active.dcInfo ++
      stream.writeBytes active.authKey ++
      stream.writeU64 (ext.authId active.authKey) ++
      stream.writeU64 active.serverSalt ++
      stream.writeU32 s.m_updatesState.pts ++
      stream.writeU32 s.m_updatesState.qts ++
      stream.writeU32 s.m_updatesState.date ++
      stream.writeVectorU32 s.m_chatIds

/-- The method `CTelegramDispatcher::restoreConnection`; returns the new state
and the returned flag. -/
def restoreConnection (stream : CTelegramStream) (ext : Externals) (s : CTelegramDispatcher)
    (secret : QByteArray) : Option (CTelegramDispatcher × Bool) :=
  let format := stream.readU32 secret
  if format.1 > secretFormatVersion then some (s, false)
  else
    let deltaTime := stream.readI32 format.2
    let dcInfo := stream.readDcOption deltaTime.2
    let afterPhone := if format.1 < 3 then (stream.readString dcInfo.2).2 else dcInfo.2
    let authKey := stream.readBytes afterPhone
    if authKey.1.isEmpty then some (s, false)
    else
      let authId := stream.readU64 authKey.2
      let serverSalt := stream.readU64 authId.2
      let s1 := initConnectionSharedClear s
      let pts := stream.readU32 serverSalt.2
      let qts := stream.readU32 pts.2
      let date := stream.readU32 qts.2
      let s2 := if format.1 ≥ 1
        then { s1 with m_updatesState :=
                         { s1.m_updatesState with pts := pts.1, qts := qts.1, date := date.1 } }
        else s1
      let afterState := if format.1 ≥ 1 then date.2 else serverSalt.2
      let s3 := if format.1 ≥ 2
        then { s2 with m_chatIds := (stream.readVectorU32 afterState).1 } else s2
      let s4 := clearMainConnection { s3 with m_deltaTime := deltaTime.1 }
      let connection : CTelegramConnection :=
        { createConnection s4 dcInfo.1 with authKey := authKey.1, serverSalt := serverSalt.1 }
      let s5 := { s4 with m_mainConnection := some connection }
      if ext.authId authKey.1 ≠ authId.1 then some (s5, false)
      else (initConnectionSharedFinal s5).map (fun t => (t, true))

/-- The values that `connectionSecretInfo` writes are within the ranges of
their C++ types. -/
def SecretInRange (ext : Externals) (s : CTelegramDispatcher) (active : CTelegramConnection) :
    Prop :=
  -2 ^ 31 ≤ active.deltaTime ∧ active.deltaTime < 2 ^ 31 ∧
  active.dcInfo.id < 2 ^ 32 ∧ active.dcInfo.port < 2 ^ 32 ∧
  active.dcInfo.ipAddress.length < 2 ^ 31 ∧
  active.authKey.length < 2 ^ 31 ∧
  ext.authId active.authKey < 2 ^ 64 ∧ active.serverSalt < 2 ^ 64 ∧
  s.m_updatesState.pts < 2 ^ 32 ∧ s.m_updatesState.qts < 2 ^ 32 ∧
  s.m_updatesState.date < 2 ^ 32 ∧
  s.m_chatIds.length < 2 ^ 31 ∧ (∀ x ∈ s.m_chatIds, x < 2 ^ 32)

/-- A session-resume blob of the given format version, field by field in the
order of the reader: the legacy phone string is present below version 3, the
update state from version 1 on and the chat ids from version 2 on. -/
def secretBlob (stream : CTelegramStream) (format : Nat) (deltaTime : Int) (dcInfo : TLDcOption)
    (legacySelfPhone : String) (authKey : QByteArray) (authId serverSalt pts qts date : Nat)
    (chatIds : List Nat) : QByteArray :=
  stream.writeU32 format ++
  stream.writeI32 deltaTime ++
  stream.writeDcOption dcInfo ++
  (if format < 3 then stream.writeString legacySelfPhone else []) ++
  stream.writeBytes authKey ++
  stream.writeU64 authId ++
  stream.writeU64 serverSalt ++
  (if format ≥ 1
    then stream.writeU32 pts ++ stream.writeU32 qts ++ stream.writeU32 date else []) ++
  (if format ≥ 2 then stream.writeVectorU32 chatIds else [])

/-! A stream for evaluation: little-endian integers, and byte arrays, strings
(one 32-bit code point per character) and vectors behind a 32-bit length. -/

/-- Four bytes, little-endian. -/
def encodeU32 (n : Nat) : QByteArray :=
  [UInt8.ofNat (n % 256), UInt8.ofNat (n / 256 % 256), UInt8.ofNat (n / 65536 % 256),
   UInt8.ofNat (n / 16777216 % 256)]

/-- Reads four bytes, little-endian; missing bytes read as zero. -/
def decodeU32 (b : QByteArray) : Nat × QByteArray :=
  ((b.getD 0 0).toNat + 256 * (b.getD 1 0).toNat + 65536 * (b.getD 2 0).toNat +
    16777216 * (b.getD 3 0).toNat, b.drop 4)

/-- Reads `count` 32-bit values. -/
def decodeU32s : Nat → QByteArray → List Nat × QByteArray
  | 0, b => ([], b)
  | count + 1, b =>
    ((decodeU32 b).1 :: (decodeU32s count (decodeU32 b).2).1,
     (decodeU32s count (decodeU32 b).2).2)

/-- Writes a vector of 32-bit values behind its length. -/
def encodeVectorU32 (l : List Nat) : QByteArray :=
  encodeU32 l.length ++ l.flatMap encodeU32

/-- Reads a vector of 32-bit values behind its length. -/
def decodeVectorU32 (b : QByteArray) : List Nat × QByteArray :=
  decodeU32s (decodeU32 b).1 (decodeU32 b).2

/-- Writes a string as the vector of its code points. -/
def encodeString (str : String) : QByteArray :=
  encodeVectorU32 (str.toList.map Char.toNat)

/-- Reads a string written as the vector of its code points. -/
def decodeString (b : QByteArray) : String × QByteArray :=
  (String.mk ((decodeVectorU32 b).1.map Char.ofNat), (decodeVectorU32 b).2)

/-- The stream used for evaluation. -/
def CTelegramStream.sample : CTelegramStream where
  writeU32 := encodeU32
  readU32 := decodeU32
  writeI32 := fun x => encodeU32 (x % 4294967296).toNat
  readI32 := fun b =>
    (if (decodeU32 b).1 ≥ 2147483648 then ((decodeU32 b).1 : Int) - 4294967296
      else ((decodeU32 b).1 : Int), (decodeU32 b).2)
  writeU64 := fun n => encodeU32 (n % 4294967296) ++ encodeU32 (n / 4294967296)
  readU64 := fun b =>
    ((decodeU32 b).1 + 4294967296 * (decodeU32 (decodeU32 b).2).1, (decodeU32 (decodeU32 b).2).2)
  writeBytes := fun data => encodeU32 data.length ++ data
  readBytes := fun b => ((decodeU32 b).2.take (decodeU32 b).1, (decodeU32 b).2.drop (decodeU32 b).1)
  writeString := encodeString
  readString := decodeString
  writeDcOption := fun o => encodeU32 o.id ++ encodeString o.ipAddress ++ encodeU32 o.port
  readDcOption := fun b =>
    ({ id := (decodeU32 b).1, ipAddress := (decodeString (decodeU32 b).2).1,
       port := (decodeU32 (decodeString (decodeU32 b).2).2).1 },
     (decodeU32 (decodeString (decodeU32 b).2).2).2)
  writeVectorU32 := encodeVectorU32
  readVectorU32 := decodeVectorU32

/-- The states of the job table that the dispatcher reaches from its
constructor by `requestFile` (with the request counter below `2^32 - 1`),
`closeConnection`, and any other operation that leaves the job table and the
request counter as they are (bringing connections up, receiving the DC
configuration, ...). -/
inductive JobsReachable (ext : Externals) : CTelegramDispatcher → Prop where
  | constructed : JobsReachable ext (CTelegramDispatcher.constructed ext)
  | requested {s t : CTelegramDispatcher} {descriptor : FileRequestDescriptor} {id : Nat} :
      JobsReachable ext s → s.m_fileRequestCounter < quint32Mod - 1 →
      requestFile s descriptor = some (t, id) → JobsReachable ext t
  | closed {s : CTelegramDispatcher} :
      JobsReachable ext s → JobsReachable ext (closeConnection s)
  | other {s t : CTelegramDispatcher} :
      JobsReachable ext s →
      t.m_requestedFileDescriptors = s.m_requestedFileDescriptors →
      t.m_fileRequestCounter = s.m_fileRequestCounter → JobsReachable ext t

/-! ## Observing the file-transfer requests -/

/-- The file-transfer calls among the calls on a connection:
`downloadFile` and `uploadFile`. -/
def Request.isTransfer : Request → Bool
  | .downloadFile _ _ _ _ => true
  | .uploadFile _ _ _ _ => true
  | _ => false

/-- All file-transfer requests issued so far, on the main connection and on the
extra connections in their order. -/
def issuedTransfers (s : CTelegramDispatcher) : List Request :=
  (s.m_mainConnection.toList ++ s.m_extraConnections).flatMap
    (fun c => c.requests.filter Request.isTransfer)

/-- The jobs of the table that belong to a DC, in the order of the keys. -/
def jobsOfDc (s : CTelegramDispatcher) (dc : Nat) : List Nat :=
  (QMap.keys s.m_requestedFileDescriptors).filter
    (fun k => decide ((QMap.value s.m_requestedFileDescriptors k).m_dcId = dc))

/-- State `t` is state `s` after the further calls `rs` on the extra connection
at index `i`, with the job table, the main connection and the other extra
connections unchanged. -/
def ExtraCalled (i : Nat) (rs : List Request) (s t : CTelegramDispatcher) : Prop :=
  t.m_requestedFileDescriptors = s.m_requestedFileDescriptors ∧
  t.m_fileRequestCounter = s.m_fileRequestCounter ∧
  t.m_mediaDataBufferSize = s.m_mediaDataBufferSize ∧
  t.m_delayedPackages = s.m_delayedPackages ∧
  t.m_mainConnection = s.m_mainConnection ∧
  (∀ j, j ≠ i → t.m_extraConnections[j]? = s.m_extraConnections[j]?) ∧
  (∀ c, s.m_extraConnections[i]? = some c →
    t.m_extraConnections[i]? = some { c with requests := c.requests ++ rs })

/-! ## Observing the initialization requests -/

/-- The bit of the step mask that an initialization request belongs to:
`getConfiguration` (bit 0, DC configuration), `usersGetUsers` (bit 2, know
self), `contactsGetContacts` (bit 3, contact list), `messagesGetChats` (bit 4,
chats info) and `updatesGetState` (bit 5, updates state). -/
def initRequestBit : Request → Option Nat
  | .getConfiguration => some 0
  | .usersGetUsers _ => some 2
  | .contactsGetContacts _ => some 3
  | .messagesGetChats _ => some 4
  | .updatesGetState => some 5
  | _ => none

/-- How often the initialization request of bit `k` has been issued on the main
connection. -/
def issuedCount (s : CTelegramDispatcher) (k : Nat) : Nat :=
  match s.m_mainConnection with
  | none => 0
  | some c => c.requests.countP (fun r => initRequestBit r == some k)

/-- A run of the dispatcher between two resets of the initialization state:
calls of `continueInitialization` with any arguments, interleaved with other
operations that leave the mask of requested steps and the initialization
requests on the main connection as they are. -/
inductive InitRun : CTelegramDispatcher → CTelegramDispatcher → Prop where
  | start (s : CTelegramDispatcher) : InitRun s s
  | call {s t u : CTelegramDispatcher} (depth justDone : Nat) :
      InitRun s t → continueInitialization depth t justDone = some u → InitRun s u
  | other {s t u : CTelegramDispatcher} :
      InitRun s t → u.m_requestedSteps = t.m_requestedSteps →
      (∀ k, issuedCount u k = issuedCount t k) → InitRun s u

/-- A sequence of `continueInitialization` calls with the given arguments. -/
def runInitialization (depth : Nat) :
    CTelegramDispatcher → List Nat → Option CTelegramDispatcher
  | s, [] => some s
  | s, justDone :: rest =>
    (continueInitialization depth s justDone).bind fun t => runInitialization depth t rest

/-- Between `s` and `t` every initialization request has been issued at most
once, only if its bit was clear in the mask of requested steps of `s`, and its
bit is set in the mask of `t` once it has been issued. -/
def IssuedOnce (s t : CTelegramDispatcher) : Prop :=
  ∀ k, (s.m_requestedSteps.testBit k = true →
      t.m_requestedSteps.testBit k = true ∧ issuedCount t k = issuedCount s k) ∧
    (issuedCount t k = issuedCount s k ∨
      (issuedCount t k = issuedCount s k + 1 ∧ t.m_requestedSteps.testBit k = true))

/-- A step from `s` to `t` that emits no signal and keeps the connection
state, the mask of completed steps and the know-self bit of the mask of
requested steps. -/
def Silent (s t : CTelegramDispatcher) : Prop :=
  t.emitted = s.emitted ∧ t.m_connectionState = s.m_connectionState ∧
  t.m_initializationState = s.m_initializationState ∧
  t.m_requestedSteps.testBit 2 = s.m_requestedSteps.testBit 2

/-- The call `continueInitialization(justDone)` has nothing new to do: the step
is non-zero and already in the mask of completed steps. -/
def NothingNew (s : CTelegramDispatcher) (justDone : Nat) : Prop :=
  justDone ≠ 0 ∧ s.m_initializationState ||| justDone = s.m_initializationState

instance (s : CTelegramDispatcher) (justDone : Nat) : Decidable (NothingNew s justDone) :=
  inferInstanceAs (Decidable (_ ∧ _))

/-- What a call `continueInitialization(justDone)` from `s` to `t` does to the
mask of completed steps and to the connection state: the mask becomes the old
one with `justDone` added (and `StepChatInfo`, when the call recursed through
`getChatsInfo`); a call with nothing new changes nothing; and the state `Ready`
is signalled exactly when the call had something new, the final mask is
`StepDone` and the know-self request had been issued before the call. -/
def InitOutcome (s : CTelegramDispatcher) (justDone : Nat) (t : CTelegramDispatcher) : Prop :=
  (t.m_initializationState = s.m_initializationState ||| justDone ∨
    t.m_initializationState = s.m_initializationState ||| justDone ||| StepChatInfo) ∧
  (NothingNew s justDone → t = s) ∧
  ∃ new, t.emitted = s.emitted ++ new ∧
    (Signal.connectionStateChanged .Ready ∈ new ↔
      ¬ NothingNew s justDone ∧ t.m_initializationState = StepDone ∧
        s.m_requestedSteps.testBit 2 = true) ∧
    (Signal.connectionStateChanged .Ready ∈ new → t.m_connectionState = .Ready)

/-! ## Message ids of the client -/

/-- The operator `~` on an unsigned operand of `bits` bits. -/
def bitNot (bits x : Nat) : Nat :=
  (2 ^ bits - 1) ^^^ (x % 2 ^ bits)

/-- Modelled from the spec: `CTelegramCore::formatTimeStamp` is defined in
`CTelegramCore.cpp`, which is not among the sources at hand; the message id of
a time has the seconds in the high 32 bits and the milliseconds above bit
22. -/
def CTelegramCore.formatTimeStamp (timeInMs : Int) : Nat :=
  ((((timeInMs / 1000).toNat % 2 ^ 32) <<< 32) ||| ((timeInMs % 1000).toNat <<< 22)) % 2 ^ 64

/-- The inline function `CTelegramCore::formatClientTimeStamp`:
`formatTimeStamp(timeInMs) & ~3UL`. The literal `3UL` has the type
`unsigned long`, whose width `unsignedLongBits` is the platform's (64 on LP64,
32 on ILP32 and LLP64); `~3UL` is computed in that type and then converted,
value unchanged, to the 64 bits of the other operand. `formatTimeStamp` is the
function declared next to it. -/
def CTelegramCore.formatClientTimeStamp (unsignedLongBits : Nat) (formatTimeStamp : Int → Nat)
    (timeInMs : Int) : Nat :=
  ((formatTimeStamp timeInMs % 2 ^ 64) &&& bitNot unsignedLongBits 3) % 2 ^ 64

/-! ## The typing timer -/

/-- The first loop of `messageActionTimerTimeout`, over the indices below the
given one of the remote typing list, from the last one down; `interval` is
`m_typingUpdateTimer->interval()`. Returns the list, `minTime` and the signals
emitted. -/
def timeoutContactsLoop (interval : Int) :
    Nat → List TypingStatus → Int → List Signal → List TypingStatus × Int × List Signal
  | 0, actions, minTime, emitted => (actions, minTime, emitted)
  | i + 1, actions, minTime, emitted =>
    match actions[i]? with
    | none => timeoutContactsLoop interval i actions minTime emitted
    | some status =>
      let remainingTime := status.typingTime - interval
      if remainingTime < 15 then
        let sig : Signal :=
          if status.chatId ≠ 0
            then .contactChatMessageActionChanged status.chatId status.userId MessageActionNone
            else .contactMessageActionChanged status.userId MessageActionNone
        timeoutContactsLoop interval i (actions.eraseIdx i) minTime (emitted ++ [sig])
      else
        timeoutContactsLoop interval i
          (actions.set i { status with typingTime := remainingTime })
          (if minTime > remainingTime then remainingTime else minTime) emitted

/-- The second loop of `messageActionTimerTimeout`, over the local typing
list. -/
def timeoutLocalLoop (interval : Int) :
    Nat → List TypingStatus → Int → List TypingStatus × Int
  | 0, actions, minTime => (actions, minTime)
  | i + 1, actions, minTime =>
    match actions[i]? with
    | none => timeoutLocalLoop interval i actions minTime
    | some status =>
      let timeRemaining := status.typingTime - interval
      if timeRemaining < 15 then
        timeoutLocalLoop interval i (actions.eraseIdx i) minTime
      else
        timeoutLocalLoop interval i
          (actions.set i { status with typingTime := timeRemaining })
          (if minTime > timeRemaining then timeRemaining else minTime)

/-- The slot `CTelegramDispatcher::messageActionTimerTimeout` (Qt 5 branch). -/
def messageActionTimerTimeout (s : CTelegramDispatcher) : CTelegramDispatcher :=
  let minTime : Int := s_userTypingActionPeriod
  let interval := s.m_typingUpdateTimer.interval
  let contacts := timeoutContactsLoop interval s.m_contactsMessageActions.length
    s.m_contactsMessageActions minTime s.emitted
  let s1 := { s with m_contactsMessageActions := contacts.1, emitted := contacts.2.2 }
  let locals := timeoutLocalLoop interval s1.m_localMessageActions.length
    s1.m_localMessageActions contacts.2.1
  let s2 := { s1 with m_localMessageActions := locals.1 }
  if !s2.m_contactsMessageActions.isEmpty || !s2.m_localMessageActions.isEmpty
    then { s2 with m_typingUpdateTimer := s2.m_typingUpdateTimer.start locals.2 }
    else s2

/-- The entries of a typing list that outlive a timer interval, each with the
interval taken off its `typingTime`. -/
def remainingActions (interval : Int) (actions : List TypingStatus) : List TypingStatus :=
  (actions.filter (fun status => decide (status.typingTime - interval ≥ 15))).map
    (fun status => { status with typingTime := status.typingTime - interval })

/-! ## The contact list -/

/-- The call `std::sort(begin, end)` on a `QVector<quint32>`: the ascending
rearrangement of the elements. -/
def stdSort (v : List Nat) : List Nat :=
  v.insertionSort (fun a b => a ≤ b)

/-- The slot `CTelegramDispatcher::whenContactListReceived`. -/
def whenContactListReceived (depth : Nat) (s : CTelegramDispatcher) (contactList : List Nat) :
    Option CTelegramDispatcher :=
  let newContactList := stdSort contactList
  let s1 := if s.m_contactIdList ≠ newContactList
    then emit { s with m_contactIdList := newContactList } .contactListChanged
    else s
  continueInitialization depth s1 StepContactList

/-- The inner loop of `whenContactListChanged` (Qt 5.4 branch):
`for (int i = 0; i < newContactList.count(); ++i) newContactList.removeOne(contact)`,
from the index `i` on. -/
def removeOneLoop (contact : Nat) (i : Nat) (newContactList : List Nat) : List Nat :=
  if i < newContactList.length
    then removeOneLoop contact (i + 1) (newContactList.erase contact)
    else newContactList
termination_by newContactList.length - i
decreasing_by
  have hle : (newContactList.erase contact).length ≤ newContactList.length := by
    rw [List.length_erase]
    split_ifs <;> omega
  omega

/-- The slot `CTelegramDispatcher::whenContactListChanged`. -/
def whenContactListChanged (s : CTelegramDispatcher) (added removed : List Nat) :
    CTelegramDispatcher :=
  let newContactList0 := added.foldl
    (fun l contact => if !l.contains contact then l ++ [contact] else l) s.m_contactIdList
  let newContactList1 := removed.foldl
    (fun l contact => removeOneLoop contact 0 l) newContactList0
  let newContactList := stdSort newContactList1
  if s.m_contactIdList ≠ newContactList
    then emit { s with m_contactIdList := newContactList } .contactListChanged
    else s

/-- The contact list of a dispatcher, the number of `contactListChanged`
signals it has emitted, and its stored users. -/
def contactsView (s : CTelegramDispatcher) : List Nat × Nat × QMap TLUser :=
  (s.m_contactIdList, s.emitted.count .contactListChanged, s.m_users)

/-! ## Peers -/

/-- The struct `TLInputPeer`; a default-constructed one is `InputPeerEmpty`. -/
structure TLInputPeer where
  tlType : TLValue.InputPeer := .InputPeerEmpty
  userId : Nat := 0
  accessHash : Nat := 0
  chatId : Nat := 0
deriving DecidableEq, Repr

/-- The method `CTelegramDispatcher::selfId`. -/
def selfId (s : CTelegramDispatcher) : Nat := s.m_selfUserId

/-- The method `CTelegramDispatcher::publicPeerToInputPeer`. -/
def publicPeerToInputPeer (s : CTelegramDispatcher) (peer : Peer) : TLInputPeer :=
  if peer.type = .Chat then { tlType := .InputPeerChat, chatId := peer.id }
  else if peer.id = s.m_selfUserId then { tlType := .InputPeerSelf }
  else
    match QMap.find s.m_users peer.id with
    | some user =>
      if user.tlType = .UserContact then
        { tlType := .InputPeerContact, userId := user.id }
      else if user.tlType = .UserForeign then
        { tlType := .InputPeerForeign, userId := user.id, accessHash := user.accessHash }
      else if user.tlType = .UserRequest then
        { tlType := .InputPeerContact, userId := user.id, accessHash := user.accessHash }
      else {}
    | none => { tlType := .InputPeerContact, userId := peer.id }

/-- The method `CTelegramDispatcher::peerToPublicPeer` for a `TLInputPeer`. -/
def CTelegramDispatcher.peerToPublicPeer (s : CTelegramDispatcher) (inputPeer : TLInputPeer) :
    Peer :=
  match inputPeer.tlType with
  | .InputPeerSelf => { id := selfId s }
  | .InputPeerContact | .InputPeerForeign => { id := inputPeer.userId }
  | .InputPeerChat => { id := inputPeer.chatId, type := .Chat }
  | _ => {}

/-- The users of a dispatcher are stored under their own ids, as
`onUsersReceived` stores them. -/
def UsersKeyedById (s : CTelegramDispatcher) : Prop :=
  ∀ id user, QMap.find s.m_users id = some user → user.id = id

/-! ## The schema code generator: the order of the generated types -/

/-- The struct `TLParam` of the generator: a member of a constructor. -/
structure TLParam where
  name : String := ""
  type : String := ""
deriving DecidableEq, Repr

/-- The struct `TLSubType` of the generator: a constructor of a TL type. -/
structure TLSubType where
  name : String := ""
  id : Nat := 0
  members : List TLParam := []
deriving DecidableEq, Repr

/-- The struct `TLType` of the generator: a TL type with its constructors. -/
structure TLType where
  name : String := ""
  subTypes : List TLSubType := []
deriving DecidableEq, Repr

instance : Inhabited TLType := ⟨{}⟩

/-- A `QMap<QString, V>` without repeated keys: key/value pairs, iterated in
the stored order. -/
abbrev QStringMap (V : Type) := List (String × V)

/-- The member `QMap::value`: a default-constructed value when the key is
absent. -/
def QStringMap.value {V : Type} [Inhabited V] (m : QStringMap V) (key : String) : V :=
  (m.lookup key).getD default

/-- The member `QMap::remove`. -/
def QStringMap.remove {V : Type} (m : QStringMap V) (key : String) : QStringMap V :=
  m.filter (fun p => p.1 != key)

/-- The member `QMap::keys`. -/
def QStringMap.keys {V : Type} (m : QStringMap V) : List String :=
  m.map Prod.fst

/-- The constant `tlValueName`. -/
def tlValueName : String := "TLValue"

/-- The constant `tlVectorType`. -/
def tlVectorType : String := "TLVector"

/-- The constant `nativeTypes`. -/
def nativeTypes : List String :=
  ["bool", "quint32", "quint32", "quint64", "double", "QString", "QByteArray"]

/-- The member `QString::startsWith(const QString &)`. -/
def QString.startsWith (str start : String) : Bool :=
  str.toList.take start.length == start.toList

/-- The member `QString::indexOf(QChar)`: -1 when the character is absent. -/
def QString.indexOf (str : String) (c : Char) : Int :=
  match str.toList.findIdx? (fun x => x == c) with
  | some i => (i : Int)
  | none => -1

/-- The member `QString::mid(position, n)` for a position inside the string:
all the characters from the position on when `n` is negative or exceeds what
is left. -/
def QString.mid (str : String) (position n : Int) : String :=
  let rest := str.toList.drop position.toNat
  if n < 0 ∨ n.toNat > rest.length then String.mk rest else String.mk (rest.take n.toNat)

/-- The function `getTypeOrVectorType`. -/
def getTypeOrVectorType (str : String) : String :=
  if !QString.startsWith str (tlVectorType ++ "<") then str
  else
    let firstIndex := QString.indexOf str '<' + 1
    let lastIndex := QString.indexOf str '>'
    QString.mid str firstIndex (lastIndex - firstIndex)

/-- The case-insensitive members of `QString` that `solveTypes` calls; they
belong to Qt and are parameters of the embedding. -/
structure QStringCaseInsensitive where
  /-- The member `QString::remove(const QString &, Qt::CaseInsensitive)`. -/
  remove : String → String → String
  /-- The member `QString::compare(const QString &, Qt::CaseInsensitive)`. -/
  compare : String → String → Int

/-- The first inner loop of `solveTypes` for one type: the multi-map `members`
of the member names and their types, the most recently inserted pair first. -/
def collectMembers (type : TLType) : List (String × String) :=
  type.subTypes.foldl
    (fun members subType =>
      subType.members.foldl
        (fun members member =>
          if (members.lookup member.name).isSome ∧
              (members.lookup member.name).getD "" = member.type
            then members
            else (member.name, member.type) :: members)
        members)
    []

/-- The second inner loop of `solveTypes` for one member: a member whose name
has more than one type among the constructors gets the type appended to its
name. -/
def renameMember (q : QStringCaseInsensitive) (members : List (String × String))
    (member : TLParam) : TLParam :=
  if (members.filter (fun p => p.1 == member.name)).length > 1 then
    let typeWithoutTL0 :=
      if QString.startsWith member.type "TL"
        then QString.mid member.type 2 (-1) else member.type
    let typeWithoutTL := q.remove typeWithoutTL0 member.name
    if q.compare member.name typeWithoutTL ≠ 0
      then { member with name := member.name ++ typeWithoutTL }
      else member
  else member

/-- The body of the first loop of `solveTypes` for one type. -/
def renameMembers (q : QStringCaseInsensitive) (type : TLType) : TLType :=
  { type with
    subTypes := type.subTypes.map fun subType =>
      { subType with members := subType.members.map (renameMember q (collectMembers type)) } }

/-- The variables of the second loop of `solveTypes`. -/
structure SolveState where
  types : QStringMap TLType
  solvedTypes : List TLType
  solvedTypesNames : List String

/-- The two nested `foreach` of the second loop: every member type, with a
`TLVector<...>` unwrapped, is among the solved names. -/
def membersSolved (solvedTypesNames : List String) (type : TLType) : Bool :=
  type.subTypes.all fun subType =>
    subType.members.all fun member =>
      solvedTypesNames.contains (getTypeOrVectorType member.type)

/-- The body of the `foreach` over `types.keys()` in the second loop of
`solveTypes`. -/
def solveStep (st : SolveState) (typeName : String) : SolveState :=
  let type := QStringMap.value st.types typeName
  if nativeTypes.contains type.name then
    { st with types := QStringMap.remove st.types typeName }
  else if membersSolved st.solvedTypesNames type then
    { types := QStringMap.remove st.types typeName,
      solvedTypes := st.solvedTypes ++ [type],
      solvedTypesNames := st.solvedTypesNames ++ [typeName] }
  else st

/-- One pass of the `while` loop of `solveTypes`: the `foreach` over the keys
the map has when the pass starts. -/
def solvePass (st : SolveState) : SolveState :=
  (QStringMap.keys st.types).foldl solveStep st

/-- The `while` loop of `solveTypes`; the first argument bounds the number of
its condition checks, and `none` is an exhausted bound. -/
def solveLoop : Nat → SolveState → Int → Option (List TLType)
  | 0, _, _ => none
  | fuel + 1, st, previousSolvedTypesCount =>
    if (st.solvedTypes.length : Int) ≠ previousSolvedTypesCount
      then solveLoop fuel (solvePass st) st.solvedTypes.length
      else some st.solvedTypes

/-- The method `GeneratorNG::solveTypes`. -/
def GeneratorNG.solveTypes (q : QStringCaseInsensitive) (fuel : Nat) (types : QStringMap TLType) :
    Option (List TLType) :=
  solveLoop fuel
    { types := types.map (fun p => (p.1, renameMembers q p.2)),
      solvedTypes := [],
      solvedTypesNames := nativeTypes ++ [tlValueName] }
    (-1)

/-- The invariant of the second loop of `solveTypes`, against the map
`types0` the loop starts with. -/
structure SolveInv (types0 : QStringMap TLType) (st : SolveState) : Prop where
  names : st.solvedTypesNames =
    (nativeTypes ++ [tlValueName]) ++ st.solvedTypes.map (fun t => t.name)
  ordered : ∀ (i : Nat) (t : TLType), st.solvedTypes[i]? = some t →
    ∀ subType ∈ t.subTypes, ∀ member ∈ subType.members,
      getTypeOrVectorType member.type ∈
        (nativeTypes ++ [tlValueName]) ++ (st.solvedTypes.take i).map (fun t => t.name)
  nodup : (st.solvedTypes.map (fun t => t.name) ++ QStringMap.keys st.types).Nodup
  keyed : ∀ p ∈ st.types, p.2.name = p.1
  solvedFrom : ∀ t ∈ st.solvedTypes, (t.name, t) ∈ types0
  typesFrom : ∀ p ∈ st.types, p ∈ types0
  kept : ∀ p ∈ types0, nativeTypes.contains p.2.name = false →
    p ∈ st.types ∨ p.2 ∈ st.solvedTypes
  solvedNotNative : ∀ t ∈ st.solvedTypes, nativeTypes.contains t.name = false

/-- The types of a map that can be resolved: the least set of keys of types
that are not named as a native type and whose every member type (with a
`TLVector<...>` unwrapped) is a native type, `TLValue` or a resolvable key. -/
inductive Resolvable (types : QStringMap TLType) : String → Prop where
  | intro (p : String × TLType) (hp : p ∈ types)
      (hnative : nativeTypes.contains p.2.name = false)
      (hmembers : ∀ subType ∈ p.2.subTypes, ∀ member ∈ subType.members,
        getTypeOrVectorType member.type ∉ nativeTypes →
        getTypeOrVectorType member.type ≠ tlValueName →
        Resolvable types (getTypeOrVectorType member.type)) :
      Resolvable types p.1

/-! ## Concrete instances for evaluation -/

/-- An instance of the external helpers for evaluating the embedding on
concrete inputs: the typing lists are searched linearly, the public flags are
the bits 1, 2, 4 and 8, every media type is a text message, the defaults of
`ensureUpdateState` are 0, and the digest function is a stand-in that returns
the length of its input as one byte; the storage file type 1 is a JPEG image,
the avatar token is the user id, and the fingerprint of an auth key is a
stand-in computed from its length. -/
def Externals.sample : Externals where
  telegramMessageTypeToPublicMessageType := fun _ => 1
  telegramMessageActionToPublicAction := fun a => a
  indexForUser := fun l userId =>
    match l.findIdx? (fun st => decide (st.userId = userId)) with
    | some i => (i : Int)
    | none => -1
  indexForChatAndUser := fun l chatId userId =>
    match l.findIdx? (fun st => decide (st.chatId = chatId) && decide (st.userId = userId)) with
    | some i => (i : Int)
    | none => -1
  MessageFlagNone := 0
  MessageFlagRead := 1
  MessageFlagOut := 2
  MessageFlagForwarded := 4
  MessageFlagIsReply := 8
  defaultSeq := 0
  defaultDate := 0
  md5 := fun data => [UInt8.ofNat data.length]
  MessageTypeText := 1
  mimeTypeByStorageFileType := fun code => if code = 1 then "image/jpeg" else ""
  userAvatarToken := fun user => toString user.id
  mediaMimeType := fun _ => "application/octet-stream"
  authId := fun key => key.length + 1000

/-- A dispatcher with local `pts = 100`, unlocked, with a main connection. -/
def sampleDispatcher : CTelegramDispatcher :=
  { m_updatesState := { pts := 100, qts := 1, date := 1, seq := 0 },
    m_actualState := { pts := 100, qts := 1, date := 1, seq := 0 },
    m_acceptableMessageTypes := 1,
    m_mainConnection := some { dcInfo := { id := 2, ipAddress := "149.154.167.51", port := 443 },
                               authState := .AuthStateSignedIn, status := .Signed } }

/-- An `UpdateNewMessage` with `pts = 103` and `ptsCount = 1`: a gap after `pts = 100`. -/
def gapUpdate : TLUpdate :=
  { tlType := .UpdateNewMessage, pts := 103, ptsCount := 1,
    message := { tlType := .Message, id := 7, fromId := 5, message := "hi" } }

/-- An `UpdateNewMessage` with `pts = 101` and `ptsCount = 1`: the successor of `pts = 100`. -/
def nextUpdate : TLUpdate :=
  { tlType := .UpdateNewMessage, pts := 101, ptsCount := 1,
    message := { tlType := .MessageEmpty } }

/-- A locked dispatcher with local `pts = 100` whose last fetched server state
has `pts = 120`; all initialization requests have been issued. -/
def lockedDispatcher : CTelegramDispatcher :=
  { sampleDispatcher with
    m_updatesStateIsLocked := true,
    m_actualState := { pts := 120, qts := 1, date := 1, seq := 0 },
    m_initializationState := 31, m_requestedSteps := 63 }

/-- A locked dispatcher with local `pts = 100` and fetched server state
`pts = 100`, locked by `getUpdatesState` outside the initialization sequence:
the contact list is known and the updates state has not been requested by
`continueInitialization`. -/
def lockedEarlyDispatcher : CTelegramDispatcher :=
  { sampleDispatcher with
    m_updatesStateIsLocked := true,
    m_initializationState := 9, m_requestedSteps := 31 }

/-- An `UpdatesDifference` with new state `pts = 110` and no nested messages or updates. -/
def sampleDifference : TLUpdatesDifference :=
  { tlType := .UpdatesDifference, state := { pts := 110, qts := 1, date := 5, seq := 3 } }

/-- A blob of 12 MiB. -/
def blob12MiB : QByteArray := List.replicate (12 * 1024 * 1024) 0

/-- A file of 600 bytes. -/
def file600 : QByteArray := List.replicate 600 7

/-- An avatar job on DC 4. -/
def avatarJob : FileRequestDescriptor :=
  { m_type := .Avatar, m_userId := 5, m_dcId := 4,
    m_inputLocation := { volumeId := 11, localId := 12, secret := 13 } }

/-- A media download job on DC 5. -/
def mediaJob : FileRequestDescriptor :=
  { m_type := .MessageMediaData, m_messageId := 9, m_dcId := 5, m_size := 70000,
    m_inputLocation := { tlType := .InputDocumentFileLocation, id := 21, accessHash := 22 } }

/-- A dispatcher with a signed-in main connection on DC 2 and an extra
connection to DC 4 that has a key but is not signed in. -/
def queueDispatcher : CTelegramDispatcher :=
  { sampleDispatcher with
    m_dcConfiguration := [{ id := 2, ipAddress := "149.154.167.51", port := 443 },
                          { id := 4, ipAddress := "149.154.167.91", port := 443 }],
    m_extraConnections := [{ dcInfo := { id := 4, ipAddress := "149.154.167.91", port := 443 },
                             authState := .AuthStateHaveAKey, status := .Connected }] }

/-- The dispatcher `queueDispatcher` with the jobs 1 (avatar, DC 4) and 2
(media, DC 5) stored, after the extra connection to DC 4 has signed in. -/
def signedInDispatcher : CTelegramDispatcher :=
  { queueDispatcher with
    m_fileRequestCounter := 2,
    m_requestedFileDescriptors := [(1, avatarJob), (2, mediaJob)],
    m_extraConnections := [{ dcInfo := { id := 4, ipAddress := "149.154.167.91", port := 443 },
                             authState := .AuthStateSignedIn, status := .Signed,
                             requests := [.authImportAuthorization 3 [1, 2]] }] }

/-- The dispatcher `queueDispatcher` with the upload job 1 over `file600` on
DC 4 stored, the extra connection to DC 4 being signed in. -/
def uploadDispatcher : CTelegramDispatcher :=
  { queueDispatcher with
    m_fileRequestCounter := 1,
    m_requestedFileDescriptors := [(1, FileRequestDescriptor.uploadRequest file600 "f" 4 77)],
    m_extraConnections := [{ dcInfo := { id := 4, ipAddress := "149.154.167.91", port := 443 },
                             authState := .AuthStateSignedIn, status := .Signed }] }

/-- A media download job on DC 4 of 70000 bytes of which 69998 have arrived. -/
def lastChunkJob : FileRequestDescriptor :=
  { mediaJob with m_dcId := 4, m_offset := 69998 }

/-- The dispatcher `queueDispatcher` with a signed-in extra connection to DC 4
and the jobs 1 (avatar), 2 (media download waiting for its last two bytes) and
3 (upload of three bytes, its only part sent). -/
def finishingDispatcher : CTelegramDispatcher :=
  { queueDispatcher with
    m_fileRequestCounter := 3,
    m_requestedFileDescriptors :=
      [(1, avatarJob), (2, lastChunkJob),
       (3, FileRequestDescriptor.uploadRequest [1, 2, 3] "a.txt" 4 77)],
    m_extraConnections := [{ dcInfo := { id := 4, ipAddress := "149.154.167.91", port := 443 },
                             authState := .AuthStateSignedIn, status := .Signed }] }

/-- A dispatcher right after `initConnectionSharedFinal`: no step is done or
requested, and the new main connection has got its `connectToDc` only. -/
def resetDispatcher : CTelegramDispatcher :=
  { m_connectionState := .Connecting,
    m_mainConnection := some { dcInfo := { ipAddress := "149.154.167.51", port := 443 },
                               authState := .AuthStateHaveAKey, status := .Connected,
                               requests := [.connectToDc] } }

/-- A dispatcher in which every step but the DC configuration is done and only
the DC configuration has been requested. -/
def configurationLastDispatcher : CTelegramDispatcher :=
  { resetDispatcher with m_initializationState := 62, m_requestedSteps := 1 }

/-- A dispatcher in which the steps DcConfiguration, SignIn, KnowSelf and
ContactList are done and every request but the one for the chats has been
issued; the chat list is empty. -/
def chatsPendingDispatcher : CTelegramDispatcher :=
  { resetDispatcher with
    m_connectionState := .Connected, m_initializationState := 15, m_requestedSteps := 45 }

/-- A dispatcher in which every step but Updates is done and every request has
been issued. -/
def updatesPendingDispatcher : CTelegramDispatcher :=
  { resetDispatcher with
    m_connectionState := .Authenticated, m_initializationState := 31, m_requestedSteps := 63 }

/-- The built-in addresses `s_builtInDcs`. -/
def s_builtInDcs : List DcOption :=
  [{ address := "149.1.175.50", port := 443 },
   { address := "149.154.167.51", port := 443 },
   { address := "149.154.175.100", port := 443 },
   { address := "149.154.167.91", port := 443 },
   { address := "149.154.171.5", port := 443 }]

/-- A dispatcher that is connecting to the second built-in address. -/
def connectingDispatcher : CTelegramDispatcher :=
  { resetDispatcher with m_connectionAddresses := s_builtInDcs, m_autoConnectionDcIndex := 1 }

/-- A dispatcher whose main connection is on DC 1, has a key and knows the DC
configuration (DCs 1 and 4). -/
def migrateDispatcher : CTelegramDispatcher :=
  { m_connectionState := .AuthRequired,
    m_initializationState := 1, m_requestedSteps := 1,
    m_dcConfiguration := [{ id := 1, ipAddress := "149.154.175.50", port := 443 },
                          { id := 4, ipAddress := "149.154.167.91", port := 443 }],
    m_mainConnection := some { dcInfo := { id := 1, ipAddress := "149.154.175.50", port := 443 },
                               authState := .AuthStateHaveAKey, status := .Connected,
                               requests := [.connectToDc, .getConfiguration] } }

/-- Modelled from the spec: the class `CTelegramConnection` is not among the
sources. The state of a connection that has completed its key exchange, in
which it reports `AuthStateHaveAKey`: it holds an auth key and is connected. -/
def CTelegramConnection.withKey (c : CTelegramConnection) : CTelegramConnection :=
  { c with authState := .AuthStateHaveAKey, status := .Connected }

/-- The dispatcher when the referenced connection has completed its key
exchange, before the slot `onConnectionAuthChanged` runs. -/
def keyExchanged (s : CTelegramDispatcher) : ConnectionRef → CTelegramDispatcher
  | .main => { s with m_mainConnection := s.m_mainConnection.map CTelegramConnection.withKey }
  | .extra i =>
    match s.m_extraConnections[i]? with
    | some c => { s with m_extraConnections := s.m_extraConnections.set i c.withKey }
    | none => s

/-- The bytes of a package that a connection redirects to another DC. -/
def redirectedPackage : QByteArray := [77, 95, 141, 118]

/-- A signed-in dispatcher whose main connection holds an auth key, with the
update state `pts = 42`, `qts = 1`, `date = 1500000000` and the chats 7 and 11. -/
def resumableDispatcher : CTelegramDispatcher :=
  { m_connectionState := .Ready,
    m_updatesState := { pts := 42, qts := 1, date := 1500000000, seq := 5 },
    m_chatIds := [7, 11],
    m_mainConnection := some { dcInfo := { id := 2, ipAddress := "149.154.167.51", port := 443 },
                               authState := .AuthStateSignedIn, status := .Signed,
                               deltaTime := -2, authKey := [170, 170, 170, 170],
                               serverSalt := 51966 } }

/-- A short message from user 5 (`pts = 101`, `ptsCount = 1`, not outgoing). -/
def shortUserMessage : TLUpdates :=
  { tlType := .UpdateShortMessage, id := 70, flags := 1, userId := 5, message := "hello",
    pts := 101, ptsCount := 1, date := 1500000000, replyToMsgId := 69 }

/-- A short chat message from user 5 in chat 9 (`pts = 101`, `ptsCount = 1`). -/
def shortChatMessage : TLUpdates :=
  { tlType := .UpdateShortChatMessage, id := 71, flags := 1, fromId := 5, chatId := 9,
    message := "hi all", pts := 101, ptsCount := 1, date := 1500000001 }

/-- The dispatcher `sampleDispatcher` with self user 3 and three remote typing
entries: user 5 in chat 9, user 7 and user 8. -/
def typingDispatcher : CTelegramDispatcher :=
  { sampleDispatcher with
    m_selfUserId := 3,
    m_contactsMessageActions :=
      [{ userId := 5, chatId := 9, typingTime := 6000, action := 1 },
       { userId := 7, typingTime := 6000, action := 1 },
       { userId := 8, typingTime := 3000, action := 1 }] }

/-- The dispatcher `sampleDispatcher` with self user 3, the contact 5, the
foreign user 6, the user 7 of kind Request and the deleted user 8. -/
def peersDispatcher : CTelegramDispatcher :=
  { sampleDispatcher with
    m_selfUserId := 3,
    m_users := [(3, { tlType := .UserSelf, id := 3, firstName := "Me" }),
                (5, { tlType := .UserContact, id := 5, firstName := "Alice" }),
                (6, { tlType := .UserForeign, id := 6, firstName := "Bob", accessHash := 99 }),
                (7, { tlType := .UserRequest, id := 7, firstName := "Carol", accessHash := 98 }),
                (8, { tlType := .UserDeleted, id := 8 })] }

/-- The removal of every occurrence of a pattern from a string of ASCII
characters, whatever the case of the letters. -/
def removeAllCaseInsensitive (pattern : List Char) : Nat → List Char → List Char
  | 0, str => str
  | _ + 1, [] => []
  | budget + 1, c :: cs =>
    if pattern ≠ [] ∧
        ((c :: cs).take pattern.length).map Char.toLower = pattern.map Char.toLower
      then removeAllCaseInsensitive pattern budget ((c :: cs).drop pattern.length)
      else c :: removeAllCaseInsensitive pattern budget cs

/-- The case-insensitive members of `QString` on strings of ASCII characters. -/
def QStringCaseInsensitive.sample : QStringCaseInsensitive where
  remove := fun str pattern =>
    String.mk (removeAllCaseInsensitive pattern.toList str.length str.toList)
  compare := fun a b =>
    if a.toLower = b.toLower then 0 else if a.toLower < b.toLower then -1 else 1

/-- A type map for evaluation: `TLA` with a member of type `TLVector<TLB>`,
`TLB` with a native member, and `TLC` with a member of its own type. -/
def GeneratorNG.sampleTypes : QStringMap TLType :=
  [("TLA", { name := "TLA",
             subTypes := [{ name := "a",
                            members := [{ name := "bs", type := "TLVector<TLB>" }] }] }),
   ("TLB", { name := "TLB",
             subTypes := [{ name := "b",
                            members := [{ name := "y", type := "QString" }] }] }),
   ("TLC", { name := "TLC",
             subTypes := [{ name := "c",
                            members := [{ name := "next", type := "TLC" }] }] })]

/-! ## Frame conditions -/

/-- The calls that hand a request of another connection to a connection again:
the phone-code request itself and a redirected package. -/
def Request.reissues : Request → Bool
  | .requestPhoneCode _ => true
  | .processRedirectedPackage _ => true
  | _ => false

/-- The calls of a connection that hand it a phone-code request or a
redirected package, in the order they were made. -/
def reissueLog (c : CTelegramConnection) : List Request :=
  c.requests.filter Request.reissues

/-- The delayed packages, the extra connections and the calls on the main
connection that hand it a phone-code request or a redirected package. -/
def migrationView (s : CTelegramDispatcher) :
    List (Nat × QByteArray) × List CTelegramConnection × Option (List Request) :=
  (s.m_delayedPackages, s.m_extraConnections, s.m_mainConnection.map reissueLog)

/-- The packages that `m_delayedPackages.values(dc)` returns, as the calls
`processRedirectedPackage` of the replay. -/
def delayedCalls (s : CTelegramDispatcher) (dc : Nat) : List Request :=
  ((s.m_delayedPackages.filter (fun p => decide (p.1 = dc))).map Prod.snd).map
    Request.processRedirectedPackage

/-- Two dispatcher states agree on the update state, its lock and the pending
single-shot timers. -/
def SameUpdateFrame (s t : CTelegramDispatcher) : Prop :=
  t.m_updatesState = s.m_updatesState ∧
  t.m_updatesStateIsLocked = s.m_updatesStateIsLocked ∧
  t.singleShots = s.singleShots

/-- The updates state has been requested during initialization. -/
def UpdatesRequested (s : CTelegramDispatcher) : Prop :=
  s.m_requestedSteps &&& StepUpdates ≠ 0

/-- What `continueInitialization` keeps: the presence of the main connection,
and, once the updates state has been requested, the update state, its lock and
the request mark itself. -/
def InitCore (s t : CTelegramDispatcher) : Prop :=
  t.m_mainConnection.isSome = s.m_mainConnection.isSome ∧
  (UpdatesRequested s →
    t.m_updatesState = s.m_updatesState ∧
    t.m_updatesStateIsLocked = s.m_updatesStateIsLocked ∧
    UpdatesRequested t)

/-! ## Theorems: the update state -/

theorem setUpdateState_pts (s : CTelegramDispatcher) (pts seq date : Nat) :
    (setUpdateState s pts seq date).m_updatesState.pts = max s.m_updatesState.pts pts := by
  unfold setUpdateState
  by_cases h1 : pts > s.m_updatesState.pts <;> simp only [h1, if_true, if_false] <;>
    split_ifs <;> simp <;> omega

theorem setUpdateState_seq (s : CTelegramDispatcher) (pts seq date : Nat) :
    (setUpdateState s pts seq date).m_updatesState.seq = max s.m_updatesState.seq seq := by
  unfold setUpdateState
  by_cases h1 : pts > s.m_updatesState.pts <;> simp only [h1, if_true, if_false] <;>
    split_ifs <;> simp at * <;> omega

theorem setUpdateState_date (s : CTelegramDispatcher) (pts seq date : Nat) :
    (setUpdateState s pts seq date).m_updatesState.date = max s.m_updatesState.date date := by
  unfold setUpdateState
  by_cases h1 : pts > s.m_updatesState.pts <;> simp only [h1, if_true, if_false] <;>
    split_ifs <;> simp at * <;> omega

theorem setUpdateState_qts (s : CTelegramDispatcher) (pts seq date : Nat) :
    (setUpdateState s pts seq date).m_updatesState.qts = s.m_updatesState.qts := by
  unfold setUpdateState
  by_cases h1 : pts > s.m_updatesState.pts <;> simp only [h1, if_true, if_false] <;>
    split_ifs <;> rfl

theorem setUpdateState_eq (s : CTelegramDispatcher) (pts seq date : Nat) :
    setUpdateState s pts seq date =
      { s with m_updatesState :=
                 { pts := max s.m_updatesState.pts pts, qts := s.m_updatesState.qts,
                   date := max s.m_updatesState.date date,
                   seq := max s.m_updatesState.seq seq } } := by
  cases s
  rename_i x1 x2 x3 x4 x5 x6 x7 x8 x9 x10 x11 x12 x13 x14 ust x16 x17 x18 x19 x20 x21 x22 x23 x24
    x25 x26 x27 x28 x29 x30 x31 x32 x33 x34 x35 x36 x37 x38
  obtain ⟨p0, q0, d0, s0⟩ := ust
  by_cases h1 : pts > p0 <;> by_cases h2 : seq > s0 <;> by_cases h3 : date > d0 <;>
    simp [setUpdateState, h1, h2, h3] <;> omega

/-- C2: `setUpdateState` leaves each of `pts`, `seq`, `date` at the maximum of
its old value and the supplied one and leaves `qts` unchanged, so neither
`setUpdateState` nor `ensureUpdateState` ever decreases `pts`, `qts`, `seq` or
`date`. -/
theorem setUpdateState_monotone (s : CTelegramDispatcher) (pts seq date : Nat) :
    ((setUpdateState s pts seq date).m_updatesState.pts = max s.m_updatesState.pts pts ∧
     (setUpdateState s pts seq date).m_updatesState.seq = max s.m_updatesState.seq seq ∧
     (setUpdateState s pts seq date).m_updatesState.date = max s.m_updatesState.date date ∧
     (setUpdateState s pts seq date).m_updatesState.qts = s.m_updatesState.qts) ∧
    (s.m_updatesState.pts ≤ (setUpdateState s pts seq date).m_updatesState.pts ∧
     s.m_updatesState.qts ≤ (setUpdateState s pts seq date).m_updatesState.qts ∧
     s.m_updatesState.seq ≤ (setUpdateState s pts seq date).m_updatesState.seq ∧
     s.m_updatesState.date ≤ (setUpdateState s pts seq date).m_updatesState.date) ∧
    (s.m_updatesState.pts ≤ (ensureUpdateState s pts seq date).m_updatesState.pts ∧
     s.m_updatesState.qts ≤ (ensureUpdateState s pts seq date).m_updatesState.qts ∧
     s.m_updatesState.seq ≤ (ensureUpdateState s pts seq date).m_updatesState.seq ∧
     s.m_updatesState.date ≤ (ensureUpdateState s pts seq date).m_updatesState.date) := by
  have hp := setUpdateState_pts s pts seq date
  have hs := setUpdateState_seq s pts seq date
  have hd := setUpdateState_date s pts seq date
  have hq := setUpdateState_qts s pts seq date
  refine ⟨⟨hp, hs, hd, hq⟩, ⟨by omega, by omega, by omega, by omega⟩, ?_⟩
  unfold ensureUpdateState
  split_ifs
  · exact ⟨le_refl _, le_refl _, le_refl _, le_refl _⟩
  · exact ⟨by omega, by omega, by omega, by omega⟩

/-- C4: while the update-state lock is set `ensureUpdateState` changes nothing
(so `pts`, `qts`, `seq` and `date` stay), and while the lock is clear it is
`setUpdateState`. -/
theorem ensureUpdateState_gate (s : CTelegramDispatcher) (pts seq date : Nat) :
    (s.m_updatesStateIsLocked = true → ensureUpdateState s pts seq date = s) ∧
    (s.m_updatesStateIsLocked = false →
      ensureUpdateState s pts seq date = setUpdateState s pts seq date) := by
  constructor <;> intro h <;> simp [ensureUpdateState, h]

/-- Witness of C4 on a locked and on an unlocked state. -/
theorem ensureUpdateState_gate_witness :
    ensureUpdateState { sampleDispatcher with m_updatesStateIsLocked := true } 110 7 9 =
      { sampleDispatcher with m_updatesStateIsLocked := true } ∧
    (ensureUpdateState sampleDispatcher 110 7 9).m_updatesState =
      { pts := 110, qts := 1, date := 9, seq := 7 } :=
  ⟨(ensureUpdateState_gate { sampleDispatcher with m_updatesStateIsLocked := true } 110 7 9).1 rfl,
   by rw [(ensureUpdateState_gate sampleDispatcher 110 7 9).2 rfl]; decide⟩

/-! ## Theorems: processing an update -/

theorem SameUpdateFrame.rfl_frame (s : CTelegramDispatcher) : SameUpdateFrame s s :=
  ⟨rfl, rfl, rfl⟩

theorem SameUpdateFrame.trans_frame {a b c : CTelegramDispatcher}
    (h1 : SameUpdateFrame a b) (h2 : SameUpdateFrame b c) : SameUpdateFrame a c :=
  ⟨h2.1.trans h1.1, h2.2.1.trans h1.2.1, h2.2.2.trans h1.2.2⟩

theorem emit_frame (s : CTelegramDispatcher) (sig : Signal) : SameUpdateFrame s (emit s sig) :=
  ⟨rfl, rfl, rfl⟩

theorem emitChatChanged_frame (s : CTelegramDispatcher) (id : Nat) :
    SameUpdateFrame s (emitChatChanged s id) := by
  unfold emitChatChanged
  dsimp only
  split_ifs <;> exact ⟨rfl, rfl, rfl⟩

theorem updateChat_frame (s : CTelegramDispatcher) (newChat : TLChat) :
    SameUpdateFrame s (updateChat s newChat) := by
  unfold updateChat
  dsimp only
  split_ifs <;> exact SameUpdateFrame.trans_frame ⟨rfl, rfl, rfl⟩ (emitChatChanged_frame _ _)

theorem updateFullChat_frame (s : CTelegramDispatcher) (newChat : TLChatFull) :
    SameUpdateFrame s (updateFullChat s newChat) := by
  unfold updateFullChat
  dsimp only
  split_ifs <;> exact SameUpdateFrame.trans_frame ⟨rfl, rfl, rfl⟩ (emitChatChanged_frame _ _)

theorem processServiceMessage_frame (s : CTelegramDispatcher) (message : TLMessage) :
    SameUpdateFrame s (processServiceMessage s message) := by
  unfold processServiceMessage
  dsimp only
  split
  · exact updateChat_frame _ _
  · split_ifs
    · exact SameUpdateFrame.rfl_frame s
    · exact SameUpdateFrame.trans_frame (updateChat_frame _ _) (updateFullChat_frame _ _)
  · exact SameUpdateFrame.trans_frame (updateChat_frame _ _) (updateFullChat_frame _ _)
  · exact updateChat_frame _ _
  · exact updateFullChat_frame _ _
  · exact updateFullChat_frame _ _
  · exact SameUpdateFrame.rfl_frame s

theorem callActive_frame {s t : CTelegramDispatcher} {r : Request}
    (h : callActive s r = some t) : SameUpdateFrame s t := by
  unfold callActive at h
  split at h
  · exact absurd h (by simp)
  · obtain rfl := Option.some.inj h
    exact ⟨rfl, rfl, rfl⟩

theorem processMessageReceived_frame {ext : Externals} {s t : CTelegramDispatcher}
    {message : TLMessage} (h : processMessageReceived ext s message = some t) :
    SameUpdateFrame s t := by
  unfold processMessageReceived at h
  split_ifs at h with h1 h2 h3
  · obtain rfl := Option.some.inj h; exact SameUpdateFrame.rfl_frame _
  · obtain rfl := Option.some.inj h; exact processServiceMessage_frame s message
  · obtain rfl := Option.some.inj h; exact SameUpdateFrame.rfl_frame _
  all_goals
    dsimp only at h
    obtain ⟨u, hu, rfl⟩ := Option.map_eq_some'.mp h
    refine SameUpdateFrame.trans_frame ?_ (emit_frame _ _)
    split_ifs at hu
    · have hf := callActive_frame hu
      exact ⟨hf.1, hf.2.1, hf.2.2⟩
    · obtain rfl := Option.some.inj hu; exact ⟨rfl, rfl, rfl⟩

theorem ensureTypingUpdateTimer_frame (s : CTelegramDispatcher) (interval : Int) :
    SameUpdateFrame s (ensureTypingUpdateTimer s interval) := by
  unfold ensureTypingUpdateTimer
  split_ifs <;> exact ⟨rfl, rfl, rfl⟩

theorem processTypingUpdate_frame {ext : Externals} {s t : CTelegramDispatcher}
    {update : TLUpdate} (h : processTypingUpdate ext s update = some t) :
    SameUpdateFrame s t := by
  unfold processTypingUpdate at h
  by_cases h1 : QMap.contains s.m_users update.userId = true
  · rw [if_pos h1] at h
    dsimp only at h
    obtain ⟨entry, _, rfl⟩ := Option.map_eq_some'.mp h
    refine SameUpdateFrame.trans_frame ?_ (ensureTypingUpdateTimer_frame _ _)
    split_ifs <;> exact ⟨rfl, rfl, rfl⟩
  · rw [if_neg h1] at h
    obtain rfl := Option.some.inj h
    exact SameUpdateFrame.rfl_frame _

theorem handleUpdate_frame {ext : Externals} {s t : CTelegramDispatcher}
    {update : TLUpdate} (h : handleUpdate ext s update = some t) :
    SameUpdateFrame s t := by
  unfold handleUpdate at h
  split at h
  · exact processMessageReceived_frame h
  · obtain rfl := Option.some.inj h; exact emit_frame _ _
  · exact processTypingUpdate_frame h
  · exact processTypingUpdate_frame h
  · obtain rfl := Option.some.inj h; exact updateFullChat_frame _ _
  · split_ifs at h
    · obtain rfl := Option.some.inj h; exact SameUpdateFrame.rfl_frame _
    · split at h <;> obtain rfl := Option.some.inj h <;> exact ⟨rfl, rfl, rfl⟩
  · split at h
    · dsimp only at h
      split_ifs at h <;> obtain rfl := Option.some.inj h <;> exact ⟨rfl, rfl, rfl⟩
    · obtain rfl := Option.some.inj h; exact SameUpdateFrame.rfl_frame _
  · obtain rfl := Option.some.inj h; exact ⟨rfl, rfl, rfl⟩
  · obtain rfl := Option.some.inj h; exact emit_frame _ _
  · obtain rfl := Option.some.inj h; exact emit_frame _ _
  · obtain rfl := Option.some.inj h; exact SameUpdateFrame.rfl_frame _

/-- C1: for an update of a pts-carrying kind, `processUpdate` accepts the update
(it is handled by its kind and `update.pts` is passed to `ensureUpdateState`) if
and only if `local_pts + pts_count == update.pts` in 32-bit arithmetic; when the
equality fails nothing is handled, the state (so `pts`, `qts`, `seq`, `date`) is
unchanged, and `getDifference` is scheduled. The last conjunct is the
equivalence: `getDifference` is scheduled by the call exactly when the equality
fails. -/
theorem processUpdate_accepts_iff (ext : Externals) (s : CTelegramDispatcher)
    (update : TLUpdate) (hkind : carriesPts update.tlType = true) :
    ((s.m_updatesState.pts + update.ptsCount) % quint32Mod = update.pts →
      processUpdate ext s update =
        (handleUpdate ext s update).map
          (fun s1 => ensureUpdateState s1 update.pts ext.defaultSeq ext.defaultDate)) ∧
    ((s.m_updatesState.pts + update.ptsCount) % quint32Mod ≠ update.pts →
      processUpdate ext s update =
        some { s with singleShots := s.singleShots ++ [(10, Slot.getDifference)] }) ∧
    ((∃ t, processUpdate ext s update = some t ∧
        t.singleShots = s.singleShots ++ [(10, Slot.getDifference)]) ↔
      (s.m_updatesState.pts + update.ptsCount) % quint32Mod ≠ update.pts) := by
  have hacc : (s.m_updatesState.pts + update.ptsCount) % quint32Mod = update.pts →
      processUpdate ext s update =
        (handleUpdate ext s update).map
          (fun s1 => ensureUpdateState s1 update.pts ext.defaultSeq ext.defaultDate) := by
    intro heq
    simp [processUpdate, hkind, heq]
  have hrej : (s.m_updatesState.pts + update.ptsCount) % quint32Mod ≠ update.pts →
      processUpdate ext s update =
        some { s with singleShots := s.singleShots ++ [(10, Slot.getDifference)] } := by
    intro hne
    simp [processUpdate, hkind, hne, singleShot]
  refine ⟨hacc, hrej, ?_, ?_⟩
  · rintro ⟨t, ht, hshots⟩ heq
    rw [hacc heq] at ht
    obtain ⟨u, hu, rfl⟩ := Option.map_eq_some'.mp ht
    have hf := handleUpdate_frame hu
    have hshots' : (ensureUpdateState u update.pts ext.defaultSeq ext.defaultDate).singleShots
        = u.singleShots := by
      unfold ensureUpdateState
      split_ifs
      · rfl
      · rw [setUpdateState_eq]
    rw [hshots', hf.2.2] at hshots
    have hlen := congrArg List.length hshots
    simp at hlen
  · intro hne
    exact ⟨_, hrej hne, rfl⟩

/-- Witness of C1: the update with `pts = 103`, `ptsCount = 1` is rejected at
local `pts = 100`, and the one with `pts = 101` is accepted. -/
theorem processUpdate_accepts_iff_witness :
    processUpdate Externals.sample sampleDispatcher gapUpdate =
      some { sampleDispatcher with singleShots := [(10, Slot.getDifference)] } ∧
    processUpdate Externals.sample sampleDispatcher nextUpdate =
      (handleUpdate Externals.sample sampleDispatcher nextUpdate).map
        (fun s1 => ensureUpdateState s1 101 0 0) :=
  ⟨(processUpdate_accepts_iff Externals.sample sampleDispatcher gapUpdate (by decide)).2.1
      (by decide),
   (processUpdate_accepts_iff Externals.sample sampleDispatcher nextUpdate (by decide)).1
      (by decide)⟩

/-! ## Theorems: the initialization steps -/

theorem step_or_keeps_updates (r x : Nat) (h : r &&& StepUpdates ≠ 0) :
    (r ||| x) &&& StepUpdates ≠ 0 := by
  have h32 : StepUpdates = 2 ^ 5 := rfl
  rw [h32, Nat.and_two_pow] at h ⊢
  rw [Nat.testBit_or]
  cases hb : r.testBit 5
  · simp [hb] at h
  · simp

theorem InitCore.rfl_core (s : CTelegramDispatcher) : InitCore s s :=
  ⟨rfl, fun h => ⟨rfl, rfl, h⟩⟩

theorem InitCore.trans_core {a b c : CTelegramDispatcher}
    (h1 : InitCore a b) (h2 : InitCore b c) : InitCore a c :=
  ⟨h2.1.trans h1.1, fun h =>
    ⟨(h2.2 (h1.2 h).2.2).1.trans (h1.2 h).1, (h2.2 (h1.2 h).2.2).2.1.trans (h1.2 h).2.1,
     (h2.2 (h1.2 h).2.2).2.2⟩⟩

theorem callActive_core {s t : CTelegramDispatcher} {r : Request}
    (h : callActive s r = some t) :
    InitCore s t ∧ t.m_initializationState = s.m_initializationState ∧
      t.m_requestedSteps = s.m_requestedSteps := by
  unfold callActive at h
  split at h
  · exact absurd h (by simp)
  · rename_i c hc
    obtain rfl := Option.some.inj h
    exact ⟨⟨by simp [hc], fun hq => ⟨rfl, rfl, hq⟩⟩, rfl, rfl⟩

theorem callActive_isSome {s : CTelegramDispatcher} (r : Request)
    (h : s.m_mainConnection.isSome = true) : (callActive s r).isSome = true := by
  unfold callActive
  split
  · rename_i hc; simp [hc] at h
  · rfl

theorem setConnectionState_core (s : CTelegramDispatcher) (state : ConnectionState) :
    InitCore s (setConnectionState s state) ∧
      (setConnectionState s state).m_initializationState = s.m_initializationState ∧
      (setConnectionState s state).m_requestedSteps = s.m_requestedSteps := by
  unfold setConnectionState
  split_ifs
  · exact ⟨InitCore.rfl_core s, rfl, rfl⟩
  · exact ⟨⟨rfl, fun hq => ⟨rfl, rfl, hq⟩⟩, rfl, rfl⟩

theorem requestMark_core {s t : CTelegramDispatcher} {r : Request} (step : Nat)
    (h : callActive s r = some t) :
    InitCore s { t with m_requestedSteps := t.m_requestedSteps ||| step } ∧
      t.m_initializationState = s.m_initializationState := by
  obtain ⟨hc, hi, _⟩ := callActive_core h
  exact ⟨⟨hc.1, fun hq =>
    ⟨(hc.2 hq).1, (hc.2 hq).2.1, step_or_keeps_updates _ _ (hc.2 hq).2.2⟩⟩, hi⟩

theorem authenticated_core (s : CTelegramDispatcher) (deltaTime : Int) :
    InitCore s { setConnectionState s .Authenticated with m_deltaTime := deltaTime } ∧
      ({ setConnectionState s .Authenticated with m_deltaTime := deltaTime } :
        CTelegramDispatcher).m_initializationState = s.m_initializationState := by
  have hc := setConnectionState_core s .Authenticated
  exact ⟨⟨hc.1.1, fun hq => ⟨(hc.1.2 hq).1, (hc.1.2 hq).2.1, (hc.1.2 hq).2.2⟩⟩, hc.2.1⟩

theorem requestDcConfigurationStep_core {s t : CTelegramDispatcher}
    (h : requestDcConfigurationStep s = some t) :
    InitCore s t ∧ t.m_initializationState = s.m_initializationState := by
  unfold requestDcConfigurationStep at h
  split_ifs at h
  · obtain ⟨u, hu, rfl⟩ := Option.map_eq_some'.mp h
    exact requestMark_core _ hu
  · obtain rfl := Option.some.inj h
    exact ⟨InitCore.rfl_core _, rfl⟩

theorem requestDcConfigurationStep_isSome {s : CTelegramDispatcher}
    (h : s.m_mainConnection.isSome = true) : (requestDcConfigurationStep s).isSome = true := by
  unfold requestDcConfigurationStep getDcConfiguration
  split_ifs
  · rw [Option.isSome_map']; exact callActive_isSome _ h
  · rfl

theorem reportDcConfigurationStep_core {s t : CTelegramDispatcher} {justDone : Nat}
    (h : reportDcConfigurationStep s justDone = some t) :
    InitCore s t ∧ t.m_initializationState = s.m_initializationState := by
  unfold reportDcConfigurationStep at h
  split_ifs at h
  · obtain ⟨c, _, rfl⟩ := Option.map_eq_some'.mp h
    split_ifs
    · exact ⟨(setConnectionState_core _ _).1, (setConnectionState_core _ _).2.1⟩
    · exact ⟨(setConnectionState_core _ _).1, (setConnectionState_core _ _).2.1⟩
  · obtain rfl := Option.some.inj h
    exact ⟨InitCore.rfl_core _, rfl⟩

theorem reportDcConfigurationStep_isSome {s : CTelegramDispatcher} (justDone : Nat)
    (h : s.m_mainConnection.isSome = true) :
    (reportDcConfigurationStep s justDone).isSome = true := by
  unfold reportDcConfigurationStep
  split_ifs
  · rw [Option.isSome_map']; exact h
  · rfl

theorem finishInitializationStep_core {s t : CTelegramDispatcher}
    (h : finishInitializationStep s = some t) : InitCore s t := by
  unfold finishInitializationStep at h
  split_ifs at h with h1 h2 h3
  · obtain rfl := Option.some.inj h
    have hc := setConnectionState_core s .Ready
    exact ⟨hc.1.1, fun hq => ⟨(hc.1.2 hq).1, (hc.1.2 hq).2.1, (hc.1.2 hq).2.2⟩⟩
  · obtain ⟨u, hu, rfl⟩ := Option.map_eq_some'.mp h
    unfold getUpdatesState at hu
    have hc := (callActive_core hu).1
    exact ⟨hc.1, fun hq => absurd h3 hq⟩
  · obtain rfl := Option.some.inj h; exact InitCore.rfl_core _
  · obtain rfl := Option.some.inj h; exact InitCore.rfl_core _

theorem finishInitializationStep_isSome {s : CTelegramDispatcher}
    (h : s.m_mainConnection.isSome = true) : (finishInitializationStep s).isSome = true := by
  unfold finishInitializationStep getUpdatesState
  split_ifs
  · rfl
  · rw [Option.isSome_map']; exact callActive_isSome _ h
  · rfl
  · rfl

theorem requestInitialData_core
    {continueInit : CTelegramDispatcher → Nat → Option CTelegramDispatcher}
    {s4 : CTelegramDispatcher} {r : CTelegramDispatcher × Bool}
    (hrec : ∀ s1 t1, continueInit s1 StepChatInfo = some t1 → InitCore s1 t1)
    (h : requestInitialData continueInit s4 = some r) :
    InitCore s4 r.1 := by
  unfold requestInitialData at h
  by_cases hk : s4.m_requestedSteps &&& StepKnowSelf = 0
  · rw [if_pos hk] at h
    obtain ⟨u, hu, rfl⟩ := Option.map_eq_some'.mp h
    exact (requestMark_core _ hu).1
  · rw [if_neg hk] at h
    obtain ⟨s5, h5, hrest⟩ := Option.bind_eq_some.mp h
    obtain ⟨s6, h6, rfl⟩ := Option.map_eq_some'.mp hrest
    have k5 : InitCore s4 s5 := by
      split_ifs at h5
      · obtain ⟨u, hu, rfl⟩ := Option.map_eq_some'.mp h5
        exact (requestMark_core _ hu).1
      · obtain rfl := Option.some.inj h5; exact InitCore.rfl_core _
    have k6 : InitCore s5 s6 := by
      split_ifs at h6
      · obtain ⟨u, hu, rfl⟩ := Option.map_eq_some'.mp h6
        have ku : InitCore s5 u := by
          unfold getChatsInfo at hu
          split_ifs at hu
          · exact hrec _ _ hu
          · exact (callActive_core hu).1
        exact InitCore.trans_core ku
          ⟨rfl, fun hq => ⟨rfl, rfl, step_or_keeps_updates _ _ hq⟩⟩
      · obtain rfl := Option.some.inj h6; exact InitCore.rfl_core _
    exact InitCore.trans_core k5 k6

theorem signedInSteps_core
    {continueInit : CTelegramDispatcher → Nat → Option CTelegramDispatcher}
    {s : CTelegramDispatcher} {r : CTelegramDispatcher × Bool}
    (hrec : ∀ s1 t1, continueInit s1 StepChatInfo = some t1 → InitCore s1 t1)
    (h : signedInSteps continueInit s = some r) :
    InitCore s r.1 := by
  unfold signedInSteps at h
  split_ifs at h with hc
  · obtain ⟨c, _, h⟩ := Option.bind_eq_some.mp h
    exact InitCore.trans_core (authenticated_core s c.deltaTime).1
      (requestInitialData_core hrec h)
  · obtain rfl := Option.some.inj h
    exact InitCore.rfl_core _

theorem continueInitialization_core :
    ∀ (depth : Nat) (s t : CTelegramDispatcher) (justDone : Nat),
      continueInitialization depth s justDone = some t → InitCore s t := by
  intro depth
  induction depth with
  | zero => intro s t justDone h; simp [continueInitialization] at h
  | succ n ih =>
    intro s t justDone h
    unfold continueInitialization at h
    split_ifs at h with h0
    · obtain rfl := Option.some.inj h; exact InitCore.rfl_core _
    · obtain ⟨s2, h2, h⟩ := Option.bind_eq_some.mp h
      have k2 := (requestDcConfigurationStep_core h2).1
      have k1 : InitCore s s2 := ⟨k2.1, fun hq => k2.2 hq⟩
      split_ifs at h with hdc
      · obtain rfl := Option.some.inj h; exact k1
      · obtain ⟨s3, h3, h⟩ := Option.bind_eq_some.mp h
        have k3 := (reportDcConfigurationStep_core h3).1
        obtain ⟨r, hr, h⟩ := Option.bind_eq_some.mp h
        have k4 := signedInSteps_core (fun s1 t1 hs => ih s1 t1 StepChatInfo hs) hr
        split_ifs at h
        · obtain rfl := Option.some.inj h
          exact InitCore.trans_core k1 (InitCore.trans_core k3 k4)
        · exact InitCore.trans_core k1 (InitCore.trans_core k3
            (InitCore.trans_core k4 (finishInitializationStep_core h)))

theorem requestInitialData_isSome
    {continueInit : CTelegramDispatcher → Nat → Option CTelegramDispatcher}
    {s4 : CTelegramDispatcher}
    (hrec : ∀ s1 : CTelegramDispatcher, s1.m_mainConnection.isSome = true →
      s1.m_initializationState = s4.m_initializationState →
      (continueInit s1 StepChatInfo).isSome = true)
    (hmain : s4.m_mainConnection.isSome = true) :
    (requestInitialData continueInit s4).isSome = true := by
  unfold requestInitialData
  by_cases hk : s4.m_requestedSteps &&& StepKnowSelf = 0
  · rw [if_pos hk, Option.isSome_map']
    exact callActive_isSome _ hmain
  · rw [if_neg hk]
    have h5 : ∃ s5, (if s4.m_requestedSteps &&& StepContactList = 0
          then (getContacts s4).map
            (fun t => { t with m_requestedSteps := t.m_requestedSteps ||| StepContactList })
          else some s4) = some s5 ∧ s5.m_mainConnection.isSome = true ∧
          s5.m_initializationState = s4.m_initializationState := by
      split_ifs
      · obtain ⟨u, hu⟩ := Option.isSome_iff_exists.mp
          (callActive_isSome (.contactsGetContacts "") hmain)
        have hcore := callActive_core hu
        refine ⟨{ u with m_requestedSteps := u.m_requestedSteps ||| StepContactList },
          by simp [getContacts, hu], ?_, hcore.2.1⟩
        show u.m_mainConnection.isSome = true
        rw [hcore.1.1]; exact hmain
      · exact ⟨s4, rfl, hmain, rfl⟩
    obtain ⟨s5, e5, hmain5, hinit5⟩ := h5
    rw [e5, Option.some_bind, Option.isSome_map']
    split_ifs
    · rw [Option.isSome_map']
      unfold getChatsInfo
      split_ifs
      · exact hrec s5 hmain5 hinit5
      · exact callActive_isSome _ hmain5
    · rfl

theorem signedInSteps_isSome
    (continueInit : CTelegramDispatcher → Nat → Option CTelegramDispatcher)
    (s : CTelegramDispatcher)
    (hrec : ∀ s1 : CTelegramDispatcher, s1.m_mainConnection.isSome = true →
      s1.m_initializationState = s.m_initializationState →
      (continueInit s1 StepChatInfo).isSome = true)
    (hmain : s.m_mainConnection.isSome = true) :
    (signedInSteps continueInit s).isSome = true := by
  unfold signedInSteps
  split_ifs
  · obtain ⟨c, hc⟩ := Option.isSome_iff_exists.mp hmain
    rw [hc, Option.some_bind]
    have k4 := authenticated_core s c.deltaTime
    refine requestInitialData_isSome (fun s1 hm hi => hrec s1 hm (hi.trans k4.2)) ?_
    rw [k4.1.1]; exact hmain
  · rfl

theorem continueInitialization_isSome_succ (n : Nat) (s : CTelegramDispatcher) (justDone : Nat)
    (hmain : s.m_mainConnection.isSome = true)
    (hrec : ∀ s1 : CTelegramDispatcher, s1.m_mainConnection.isSome = true →
      s1.m_initializationState = s.m_initializationState ||| justDone →
      (continueInitialization n s1 StepChatInfo).isSome = true) :
    (continueInitialization (n + 1) s justDone).isSome = true := by
  unfold continueInitialization
  split_ifs with h0
  · rfl
  · obtain ⟨s2, h2⟩ := Option.isSome_iff_exists.mp
      (requestDcConfigurationStep_isSome
        (s := { s with m_initializationState := s.m_initializationState ||| justDone }) hmain)
    have k2 := requestDcConfigurationStep_core h2
    have hmain2 : s2.m_mainConnection.isSome = true := by rw [k2.1.1]; exact hmain
    rw [h2, Option.some_bind]
    split_ifs
    · rfl
    · obtain ⟨s3, h3⟩ := Option.isSome_iff_exists.mp
        (reportDcConfigurationStep_isSome (s := s2) justDone hmain2)
      have k3 := reportDcConfigurationStep_core h3
      have hmain3 : s3.m_mainConnection.isSome = true := by rw [k3.1.1]; exact hmain2
      rw [h3, Option.some_bind]
      obtain ⟨r, hr⟩ := Option.isSome_iff_exists.mp
        (signedInSteps_isSome (continueInitialization n) s3
          (fun s1 hm hi => hrec s1 hm (hi.trans (k3.2.trans k2.2))) hmain3)
      rw [hr, Option.some_bind]
      split_ifs
      · rfl
      · refine finishInitializationStep_isSome ?_
        have k4 := signedInSteps_core
          (fun s1 t1 hs => continueInitialization_core n s1 t1 StepChatInfo hs) hr
        rw [k4.1]; exact hmain3

theorem continueInitialization_chatInfo_done (n : Nat) (s : CTelegramDispatcher)
    (h : s.m_initializationState ||| StepChatInfo = s.m_initializationState) :
    continueInitialization (n + 1) s StepChatInfo = some s := by
  unfold continueInitialization
  rw [if_pos ⟨by decide, h⟩]

theorem continueInitialization_isSome (n : Nat) (s : CTelegramDispatcher) (justDone : Nat)
    (hmain : s.m_mainConnection.isSome = true) :
    (continueInitialization (n + 3) s justDone).isSome = true := by
  refine continueInitialization_isSome_succ (n + 2) s justDone hmain (fun s1 hm1 _ => ?_)
  refine continueInitialization_isSome_succ (n + 1) s1 StepChatInfo hm1 (fun s2 _ hi2 => ?_)
  rw [continueInitialization_chatInfo_done n s2 (by rw [hi2, Nat.or_assoc, Nat.or_self])]
  rfl

/-! ## Theorems: gap recovery -/

/-- C3 (the code at the failing input): at local `pts = 100` the update with
`pts = 103`, `ptsCount = 1` schedules `getDifference` but leaves the
update-state lock clear, and the next update (`pts = 101`, `ptsCount = 1`) then
advances the local `pts` to 101 while the recovery is still pending. -/
theorem processUpdate_gap_leaves_state_unlocked :
    (processUpdate Externals.sample sampleDispatcher gapUpdate).map
        (fun t => (t.singleShots, t.m_updatesStateIsLocked, t.m_updatesState.pts)) =
      some ([(10, Slot.getDifference)], false, 100) ∧
    ((processUpdate Externals.sample sampleDispatcher gapUpdate).bind
        (fun t => processUpdate Externals.sample t nextUpdate)).map
        (fun t => (t.singleShots, t.m_updatesStateIsLocked, t.m_updatesState.pts)) =
      some ([(10, Slot.getDifference)], false, 101) := by
  constructor <;> rfl

theorem updateChat_keeps (s : CTelegramDispatcher) (newChat : TLChat) :
    (updateChat s newChat).m_updatesState = s.m_updatesState ∧
    (updateChat s newChat).m_actualState = s.m_actualState ∧
    (updateChat s newChat).m_mainConnection = s.m_mainConnection ∧
    (updateChat s newChat).m_requestedSteps = s.m_requestedSteps ∧
    (updateChat s newChat).singleShots = s.singleShots := by
  unfold updateChat emitChatChanged
  dsimp only
  split_ifs <;> exact ⟨rfl, rfl, rfl, rfl, rfl⟩

theorem foldl_updateChat_keeps (chats : List TLChat) :
    ∀ s : CTelegramDispatcher,
      (chats.foldl updateChat s).m_updatesState = s.m_updatesState ∧
      (chats.foldl updateChat s).m_actualState = s.m_actualState ∧
      (chats.foldl updateChat s).m_mainConnection = s.m_mainConnection ∧
      (chats.foldl updateChat s).m_requestedSteps = s.m_requestedSteps ∧
      (chats.foldl updateChat s).singleShots = s.singleShots := by
  induction chats with
  | nil => intro s; exact ⟨rfl, rfl, rfl, rfl, rfl⟩
  | cons c rest ih =>
    intro s
    have h1 := ih (updateChat s c)
    have h2 := updateChat_keeps s c
    simp only [List.foldl_cons]
    exact ⟨h1.1.trans h2.1, h1.2.1.trans h2.2.1, h1.2.2.1.trans h2.2.2.1,
      h1.2.2.2.1.trans h2.2.2.2.1, h1.2.2.2.2.trans h2.2.2.2.2⟩

/-- C5 (as stated, refuted on two inputs): a locked dispatcher with local
`pts = 100` receives an `UpdatesDifference` with new state `pts = 110`. When the
last fetched server state has `pts = 120`, the local `pts` becomes 110 but the
lock stays set and `getDifference` is scheduled again; when the lock was taken
outside the initialization sequence, `continueInitialization(StepUpdates)`
requests the updates state and sets the lock again. -/
theorem difference_lock_not_released :
    (whenUpdatesDifferenceReceived Externals.sample 3 lockedDispatcher sampleDifference).map
        (fun t => (t.m_updatesState.pts, t.m_updatesStateIsLocked, t.singleShots)) =
      some (110, true, [(10, Slot.getDifference)]) ∧
    (whenUpdatesDifferenceReceived Externals.sample 3 lockedEarlyDispatcher sampleDifference).map
        (fun t => (t.m_updatesState.pts, t.m_updatesStateIsLocked,
          t.m_mainConnection.map (fun c => c.requests))) =
      some (110, true, some [Request.updatesGetState]) := by
  constructor <;> rfl

/-- C5 (amended): for a dispatcher with a main connection whose initialization
has already requested the updates state, with local `pts = L`, and an
`UpdatesDifference` with new state `pts = P > L` and no nested messages or
other updates, `whenUpdatesDifferenceReceived` returns, the local `pts` is `P`
afterwards, and the lock is set afterwards exactly when the last fetched
server state has `pts > P` (then `getDifference` is scheduled again); so the
lock is released when `m_actualState.pts <= P`. -/
theorem whenUpdatesDifferenceReceived_unlocks (ext : Externals) (n : Nat)
    (s : CTelegramDispatcher) (d : TLUpdatesDifference)
    (htype : d.tlType = .UpdatesDifference)
    (hmsg : d.newMessages = []) (hupd : d.otherUpdates = [])
    (hpts : d.state.pts > s.m_updatesState.pts)
    (hmain : s.m_mainConnection.isSome = true)
    (hreq : UpdatesRequested s) :
    ∃ t, whenUpdatesDifferenceReceived ext (n + 3) s d = some t ∧
      t.m_updatesState.pts = d.state.pts ∧
      (t.m_updatesStateIsLocked = true ↔ s.m_actualState.pts > d.state.pts) ∧
      (s.m_actualState.pts > d.state.pts →
        t.singleShots = s.singleShots ++ [(10, Slot.getDifference)]) := by
  have hk := foldl_updateChat_keeps d.chats s
  have hstep : whenUpdatesDifferenceReceived ext (n + 3) s d =
      checkStateAndCallGetDifference (n + 3)
        (setUpdateState (d.chats.foldl updateChat s) d.state.pts d.state.seq d.state.date) := by
    unfold whenUpdatesDifferenceReceived
    rw [htype, hmsg, hupd]
    simp [processDifferenceMessages, processDifferenceUpdates]
  rw [hstep, setUpdateState_eq]
  generalize d.chats.foldl updateChat s = s1 at hk
  obtain ⟨hk1, hk2, hk3, hk4, hk5⟩ := hk
  have hmax : max s1.m_updatesState.pts d.state.pts = d.state.pts := by
    rw [hk1]; omega
  unfold checkStateAndCallGetDifference
  dsimp only
  by_cases hact : s.m_actualState.pts > d.state.pts
  · have hlock : decide (s1.m_actualState.pts > max s1.m_updatesState.pts d.state.pts) = true := by
      rw [hmax, hk2]; exact decide_eq_true hact
    rw [hlock, if_pos rfl]
    refine ⟨_, rfl, hmax, ?_, fun _ => ?_⟩
    · simp [singleShot, hact]
    · simp [singleShot, hk5]
  · have hlock : decide (s1.m_actualState.pts > max s1.m_updatesState.pts d.state.pts) = false := by
      rw [hmax, hk2]; exact decide_eq_false hact
    rw [hlock]
    simp only [Bool.false_eq_true, if_false]
    generalize hs2 : ({ s1 with
      m_updatesState := { pts := max s1.m_updatesState.pts d.state.pts,
                          qts := s1.m_updatesState.qts,
                          date := max s1.m_updatesState.date d.state.date,
                          seq := max s1.m_updatesState.seq d.state.seq },
      m_updatesStateIsLocked := false } : CTelegramDispatcher) = s2
    have hmain2 : s2.m_mainConnection.isSome = true := by
      rw [← hs2]; show s1.m_mainConnection.isSome = true; rw [hk3]; exact hmain
    have hreq2 : UpdatesRequested s2 := by
      rw [← hs2]; show s1.m_requestedSteps &&& StepUpdates ≠ 0; rw [hk4]; exact hreq
    obtain ⟨t, ht⟩ := Option.isSome_iff_exists.mp
      (continueInitialization_isSome n s2 StepUpdates hmain2)
    have hcore := (continueInitialization_core _ _ _ _ ht).2 hreq2
    refine ⟨t, ht, ?_, ?_, fun h => absurd h hact⟩
    · rw [hcore.1, ← hs2]; exact hmax
    · rw [hcore.2.1, ← hs2]; simp [hact]

/-- Witness of C5 (amended): local `pts = 100`, fetched server state `pts = 100`,
difference with new state `pts = 110`: the local `pts` becomes 110 and the lock
is released. -/
theorem whenUpdatesDifferenceReceived_unlocks_witness :
    ∃ t, whenUpdatesDifferenceReceived Externals.sample 3
        { lockedDispatcher with m_actualState := { pts := 100, qts := 1, date := 1, seq := 0 } }
        sampleDifference = some t ∧
      t.m_updatesState.pts = 110 ∧
      (t.m_updatesStateIsLocked = true ↔ 100 > 110) ∧
      (100 > 110 → t.singleShots = [] ++ [(10, Slot.getDifference)]) :=
  whenUpdatesDifferenceReceived_unlocks Externals.sample 0
    { lockedDispatcher with m_actualState := { pts := 100, qts := 1, date := 1, seq := 0 } }
    sampleDifference rfl rfl rfl (by decide) rfl (by unfold UpdatesRequested; decide)

/-! ## Theorems: upload jobs -/

theorem bumpPart_fields (md5 : QByteArray → QByteArray) (d : FileRequestDescriptor) :
    (d.bumpPart md5).m_part = (d.m_part + 1) % quint32Mod ∧
    (d.bumpPart md5).m_offset =
      (if ((d.m_part + 1) % quint32Mod * d.chunkSize) % quint32Mod > d.m_size then d.m_size
       else ((d.m_part + 1) % quint32Mod * d.chunkSize) % quint32Mod) ∧
    (d.bumpPart md5).m_size = d.m_size ∧
    (d.bumpPart md5).m_data = d.m_data ∧
    (d.bumpPart md5).m_type = d.m_type := by
  unfold FileRequestDescriptor.bumpPart
  dsimp only
  split
  · split_ifs <;> exact ⟨rfl, rfl, rfl, rfl, rfl⟩
  · exact ⟨rfl, rfl, rfl, rfl, rfl⟩

theorem uploadLoop_spec (md5 : QByteArray → QByteArray) :
    ∀ (steps : Nat) (d : FileRequestDescriptor),
      d.m_type = .Upload → d.m_size = d.m_data.length → d.m_size < 2 ^ 31 →
      d.m_part * 256 ≤ d.m_size → 1 ≤ steps → d.m_size ≤ (d.m_part + steps) * 256 →
      ∃ sent offsets final,
        uploadLoop md5 steps d = some (sent, offsets, final) ∧
        (sent.map Prod.snd).flatten = d.m_data.drop (d.m_part * 256) ∧
        sent.map Prod.fst = (List.range sent.length).map (fun i => d.m_part + i) ∧
        sent.length = offsets.length ∧
        offsets = (List.range offsets.length).map
          (fun i => min ((d.m_part + 1 + i) * 256) d.m_size) ∧
        offsets.getLast? = some d.m_size ∧
        final.m_offset = d.m_size ∧ final.finished = true ∧ final.m_size = d.m_size := by
  intro steps
  induction steps with
  | zero => intro d _ _ _ _ h; omega
  | succ m ih =>
    intro d htype hsize hlt hpart _ hsteps
    obtain ⟨bp, bo, bs, bd, bt⟩ := bumpPart_fields md5 d
    have hchunk : d.chunkSize = 256 := by simp [FileRequestDescriptor.chunkSize, htype]
    have hchunk1 : (d.bumpPart md5).chunkSize = 256 := by
      simp [FileRequestDescriptor.chunkSize, bt, htype]
    have hq : quint32Mod = 4294967296 := rfl
    have hp1 : (d.m_part + 1) % quint32Mod = d.m_part + 1 := by
      apply Nat.mod_eq_of_lt; rw [hq]; omega
    have hm1 : ((d.m_part + 1) * 256) % quint32Mod = (d.m_part + 1) * 256 := by
      apply Nat.mod_eq_of_lt; rw [hq]; omega
    have hm0 : (d.m_part * 256) % quint32Mod = d.m_part * 256 := by
      apply Nat.mod_eq_of_lt; rw [hq]; omega
    rw [hp1] at bp
    rw [hp1, hchunk, hm1] at bo
    have hoff : (d.bumpPart md5).m_offset = min ((d.m_part + 1) * 256) d.m_size := by
      rw [bo]; split_ifs <;> omega
    have hdata : d.data = (d.m_data.drop (d.m_part * 256)).take 256 := by
      simp [FileRequestDescriptor.data, QByteArray.mid, hchunk, hm0]
    have hfin : (d.bumpPart md5).finished = decide ((d.m_part + 1) * 256 ≥ d.m_size) := by
      simp [FileRequestDescriptor.finished, FileRequestDescriptor.size, bp, bs, hchunk1, hm1]
    unfold uploadLoop
    dsimp only
    by_cases hdone : (d.m_part + 1) * 256 ≥ d.m_size
    · rw [hfin, decide_eq_true hdone, if_pos rfl]
      refine ⟨_, _, _, rfl, ?_, ?_, rfl, ?_, ?_, ?_, ?_, bs⟩
      · rw [hdata]
        simp only [List.map_cons, List.map_nil, List.flatten_cons, List.flatten_nil,
          List.append_nil]
        apply List.take_of_length_le
        rw [List.length_drop]; omega
      · simp [List.range_succ]
      · rw [hoff]; simp [List.range_succ]
      · simp [hoff]; omega
      · rw [hoff]; omega
      · rw [hfin]; exact decide_eq_true hdone
    · rw [hfin, decide_eq_false hdone]
      simp only [Bool.false_eq_true, if_false]
      have hrec := ih (d.bumpPart md5) (bt.trans htype) (by rw [bs, bd]; exact hsize)
        (by rw [bs]; exact hlt) (by rw [bp, bs]; omega) (by rw [bs, bp] at *; omega)
        (by rw [bs, bp]; omega)
      obtain ⟨sent, offsets, final, hloop, hflat, hparts, hlen, hoffs, hlast, hfo, hff, hfs⟩ :=
        hrec
      rw [hloop]
      refine ⟨(d.m_part, d.data) :: sent, (d.bumpPart md5).m_offset :: offsets, final, rfl,
        ?_, ?_, ?_, ?_, ?_, ?_, hff, ?_⟩
      · rw [List.map_cons, List.flatten_cons, hflat, hdata, bd, bp]
        rw [show (d.m_part + 1) * 256 = d.m_part * 256 + 256 by ring, ← List.drop_drop]
        exact List.take_append_drop 256 _
      · rw [List.length_cons, List.range_succ_eq_map, List.map_cons, List.map_cons,
          List.map_map, hparts, bp]
        refine congrArg₂ List.cons (by simp) (List.map_congr_left (fun i _ => ?_))
        simp only [Function.comp, Nat.succ_eq_add_one]
        ring
      · simp [hlen]
      · rw [List.length_cons, List.range_succ_eq_map, List.map_cons, List.map_map]
        rw [hoff]
        refine congrArg₂ List.cons (by simp) (hoffs.trans ?_)
        apply List.map_congr_left
        intro i _
        simp only [Function.comp, Nat.succ_eq_add_one, bp, bs]
        rw [show d.m_part + 1 + 1 + i = d.m_part + 1 + (i + 1) by ring]
      · rw [List.getLast?_cons, hlast, bs]; rfl
      · rw [hfo, bs]
      · rw [hfs, bs]

theorem bumpPart_fileId (md5 : QByteArray → QByteArray) (d : FileRequestDescriptor) :
    (d.bumpPart md5).m_fileId = d.m_fileId := by
  unfold FileRequestDescriptor.bumpPart
  dsimp only
  split
  · split_ifs <;> rfl
  · rfl

theorem QMap.find_modify_self {V : Type} (m : QMap V) (key : Nat) (f : V → V) :
    QMap.find (QMap.modify m key f) key = (QMap.find m key).map f := by
  induction m with
  | nil => rfl
  | cons p rest ih =>
    obtain ⟨k, w⟩ := p
    unfold QMap.modify
    split_ifs with h
    · simp [QMap.find, h]
    · simp [QMap.find, h, ih]

theorem QMap.value_of_find {V : Type} [Inhabited V] {m : QMap V} {key : Nat} {v : V}
    (h : QMap.find m key = some v) : QMap.value m key = v := by
  simp [QMap.value, h]

theorem uploadRequest_fields (data : QByteArray) (fileName : String) (dc fileId : Nat) :
    (FileRequestDescriptor.uploadRequest data fileName dc fileId).m_type = .Upload ∧
    (FileRequestDescriptor.uploadRequest data fileName dc fileId).m_data = data ∧
    (FileRequestDescriptor.uploadRequest data fileName dc fileId).m_size = data.length ∧
    (FileRequestDescriptor.uploadRequest data fileName dc fileId).m_part = 0 ∧
    (FileRequestDescriptor.uploadRequest data fileName dc fileId).m_offset = 0 ∧
    (FileRequestDescriptor.uploadRequest data fileName dc fileId).m_dcId = dc := by
  unfold FileRequestDescriptor.uploadRequest
  dsimp only
  split_ifs <;> exact ⟨rfl, rfl, rfl, rfl, rfl, rfl⟩

theorem upload_lengths (md5 : QByteArray → QByteArray) (data : QByteArray)
    (fileName : String) (dc fileId : Nat) (hn : data.length < 2 ^ 31) :
    ∃ sent offsets final,
      uploadLoop md5 (data.length / 256 + 1)
          (FileRequestDescriptor.uploadRequest data fileName dc fileId) =
        some (sent, offsets, final) ∧
      ((sent.map Prod.snd).map List.length).sum = data.length ∧
      (sent.map Prod.snd).flatten = data ∧
      sent.map Prod.fst = List.range sent.length ∧
      sent.length = offsets.length ∧
      offsets = (List.range offsets.length).map (fun i => min ((i + 1) * 256) data.length) ∧
      offsets.Pairwise (fun a b => a ≤ b) ∧
      offsets.getLast? = some data.length ∧
      final.m_offset = data.length ∧ final.finished = true := by
  obtain ⟨ht, hd, hs, hp, _, _⟩ := uploadRequest_fields data fileName dc fileId
  have hspec := uploadLoop_spec md5 (data.length / 256 + 1)
    (FileRequestDescriptor.uploadRequest data fileName dc fileId) ht (by rw [hs, hd])
    (by rw [hs]; exact hn) (by rw [hp]; omega) (by omega)
    (by rw [hs, hp]; have := Nat.div_add_mod data.length 256
        have := Nat.mod_lt data.length (show 256 > 0 by decide); omega)
  obtain ⟨sent, offsets, final, hloop, hflat, hparts, hlen, hoffs, hlast, hfo, hff, _⟩ := hspec
  rw [hd, hp] at hflat
  rw [hs] at hlast hfo
  rw [hs, hp] at hoffs
  rw [hp] at hparts
  have hflat' : (sent.map Prod.snd).flatten = data := by simpa using hflat
  have hparts' : sent.map Prod.fst = List.range sent.length := by
    rw [hparts]; simp
  have hoffs' : offsets =
      (List.range offsets.length).map (fun i => min ((i + 1) * 256) data.length) := by
    refine hoffs.trans (List.map_congr_left (fun i _ => ?_))
    rw [show 0 + 1 + i = i + 1 by ring]
  refine ⟨sent, offsets, final, hloop, ?_, hflat', hparts', hlen, hoffs', ?_, hlast, hfo, hff⟩
  · rw [← List.length_flatten, hflat']
  · rw [hoffs']
    refine List.Pairwise.map _ (fun a b hab => ?_) (List.pairwise_lt_range _)
    have : (a + 1) * 256 ≤ (b + 1) * 256 := by omega
    exact min_le_min this (le_refl _)

/-- C7 (the code at the failing input): a small upload of three bytes is
finished after one `bumpPart()`; the MD5 digest of the data has been computed
into `m_md5Sum` and the accumulator released, the value of `inputFile()` has
type `InputFile`, but its `md5Checksum` is empty; it is empty for every
descriptor. -/
theorem small_upload_md5_not_attached (md5 : QByteArray → QByteArray) :
    ((FileRequestDescriptor.uploadRequest [1, 2, 3] "a.txt" 2 77).bumpPart md5).finished = true ∧
    ((FileRequestDescriptor.uploadRequest [1, 2, 3] "a.txt" 2 77).bumpPart md5).m_md5Sum =
      md5 [1, 2, 3] ∧
    ((FileRequestDescriptor.uploadRequest [1, 2, 3] "a.txt" 2 77).bumpPart md5).m_hash = none ∧
    ((FileRequestDescriptor.uploadRequest [1, 2, 3] "a.txt" 2 77).bumpPart md5).inputFile.tlType =
      .InputFile ∧
    ((FileRequestDescriptor.uploadRequest [1, 2, 3] "a.txt" 2 77).bumpPart md5).inputFile.md5Checksum
      = "" ∧
    (∀ d : FileRequestDescriptor, d.inputFile.md5Checksum = "") :=
  ⟨rfl, rfl, rfl, rfl, rfl, fun _ => rfl⟩

theorem inputFile_parts (d : FileRequestDescriptor) : d.inputFile.parts = d.parts := rfl

theorem parts_ceil (d : FileRequestDescriptor) (hsize : d.m_size < quint32Mod) :
    d.parts = (d.m_size + d.chunkSize - 1) / d.chunkSize := by
  have hq : quint32Mod = 4294967296 := rfl
  have hcs : d.chunkSize = 256 ∨ d.chunkSize = 32768 := by
    unfold FileRequestDescriptor.chunkSize; split_ifs <;> simp
  unfold FileRequestDescriptor.parts
  dsimp only
  rw [hq] at hsize ⊢
  rcases hcs with h | h <;> rw [h] <;> split_ifs <;> omega

theorem upload_chunkSize (d : FileRequestDescriptor) (ht : d.m_type = .Upload) :
    d.chunkSize = 256 := by
  simp [FileRequestDescriptor.chunkSize, ht]

theorem blob12MiB_length : blob12MiB.length = 12582912 := by
  unfold blob12MiB; rw [List.length_replicate]

/-- C8 (as stated, refuted): an upload job over a blob of 12 MiB has
`parts() = 49152`, not 24, because the chunk size of an upload is 256. -/
theorem upload_12MiB_parts_not_24 :
    (FileRequestDescriptor.uploadRequest blob12MiB "blob" 2 1).parts = 49152 ∧
    (FileRequestDescriptor.uploadRequest blob12MiB "blob" 2 1).inputFile.parts ≠ 24 := by
  obtain ⟨ht, _, hs, _, _, _⟩ := uploadRequest_fields blob12MiB "blob" 2 1
  rw [blob12MiB_length] at hs
  have hparts : (FileRequestDescriptor.uploadRequest blob12MiB "blob" 2 1).parts = 49152 := by
    rw [parts_ceil _ (by rw [hs]; decide), upload_chunkSize _ ht, hs]
  refine ⟨hparts, ?_⟩
  rw [inputFile_parts, hparts]; decide

/-- C8 (amended): for every job of size below `2^32`, `parts()` (and so
`inputFile().parts`) is `ceil(size / chunkSize())`; the chunk size of an upload
job is 256, so an upload of 12 MiB has `ceil(12*1024*1024 / 256) = 49152` parts. -/
theorem parts_eq_ceil (d : FileRequestDescriptor) (hsize : d.m_size < quint32Mod) :
    d.parts = (d.m_size + d.chunkSize - 1) / d.chunkSize ∧
    d.inputFile.parts = d.parts ∧
    (d.m_type = .Upload → d.chunkSize = 256) ∧
    (d.m_type = .Upload → d.m_size = 12 * 1024 * 1024 → d.parts = 49152) := by
  refine ⟨parts_ceil d hsize, rfl, upload_chunkSize d, fun ht hs => ?_⟩
  rw [parts_ceil d hsize, upload_chunkSize d ht, hs]

/-- Witness of C8 (amended) on the upload job over the blob of 12 MiB. -/
theorem parts_eq_ceil_witness :
    (FileRequestDescriptor.uploadRequest blob12MiB "blob" 2 1).parts =
      ((FileRequestDescriptor.uploadRequest blob12MiB "blob" 2 1).m_size +
        (FileRequestDescriptor.uploadRequest blob12MiB "blob" 2 1).chunkSize - 1) /
        (FileRequestDescriptor.uploadRequest blob12MiB "blob" 2 1).chunkSize :=
  (parts_eq_ceil (FileRequestDescriptor.uploadRequest blob12MiB "blob" 2 1)
    (by rw [(uploadRequest_fields blob12MiB "blob" 2 1).2.2.1, blob12MiB_length]; decide)).1

/-- C9: `isBigFile()` holds iff the size exceeds `10 * 1024 * 1024 = 10485760`
bytes (a job of exactly 10 MiB is not big); `inputFile()` has type
`InputFileBig` exactly when `isBigFile()` holds, and `uploadRequest` creates an
MD5 accumulator exactly when it does not. -/
theorem isBigFile_iff (d : FileRequestDescriptor) (data : QByteArray) (fileName : String)
    (dc fileId : Nat) :
    (d.isBigFile = true ↔ d.size > 10485760) ∧
    ({ d with m_size := 10485760 } : FileRequestDescriptor).isBigFile = false ∧
    (d.inputFile.tlType = .InputFileBig ↔ d.isBigFile = true) ∧
    ((FileRequestDescriptor.uploadRequest data fileName dc fileId).m_hash.isSome = true ↔
      (FileRequestDescriptor.uploadRequest data fileName dc fileId).isBigFile = false) := by
  refine ⟨by simp [FileRequestDescriptor.isBigFile], by
    simp [FileRequestDescriptor.isBigFile, FileRequestDescriptor.size], ?_, ?_⟩
  · unfold FileRequestDescriptor.inputFile
    dsimp only
    split_ifs with h <;> simp [h]
  · have hbig : (FileRequestDescriptor.uploadRequest data fileName dc fileId).isBigFile =
        decide (data.length > 10 * 1024 * 1024) := by
      simp [FileRequestDescriptor.isBigFile, FileRequestDescriptor.size,
        (uploadRequest_fields data fileName dc fileId).2.2.1]
    rw [hbig]
    unfold FileRequestDescriptor.uploadRequest
    simp only [FileRequestDescriptor.isBigFile, FileRequestDescriptor.size]
    by_cases h : data.length > 10 * 1024 * 1024 <;> simp [h]

/-! ## Theorems: queued file jobs -/

theorem connection_requests_append_nil (c : CTelegramConnection) :
    ({ c with requests := c.requests ++ [] } : CTelegramConnection) = c := by
  cases c; simp

theorem ExtraCalled.rfl_called (i : Nat) (s : CTelegramDispatcher) : ExtraCalled i [] s s :=
  ⟨rfl, rfl, rfl, rfl, rfl, fun _ _ => rfl, fun c hc => by
    rw [hc, connection_requests_append_nil]⟩

theorem ExtraCalled.trans_called {i : Nat} {rs1 rs2 : List Request}
    {a b c : CTelegramDispatcher} (h1 : ExtraCalled i rs1 a b) (h2 : ExtraCalled i rs2 b c) :
    ExtraCalled i (rs1 ++ rs2) a c := by
  obtain ⟨a1, a2, a3, a4, a5, a6, a7⟩ := h1
  obtain ⟨b1, b2, b3, b4, b5, b6, b7⟩ := h2
  refine ⟨b1.trans a1, b2.trans a2, b3.trans a3, b4.trans a4, b5.trans a5,
    fun j hj => (b6 j hj).trans (a6 j hj), fun x hx => ?_⟩
  rw [b7 _ (a7 x hx)]
  simp [List.append_assoc]

theorem callOn_extra {s : CTelegramDispatcher} {i : Nat} {c : CTelegramConnection}
    (r : Request) (hc : s.m_extraConnections[i]? = some c) :
    ∃ t, callOn s (.extra i) r = some t ∧ ExtraCalled i [r] s t := by
  refine ⟨{ s with m_extraConnections :=
              s.m_extraConnections.set i { c with requests := c.requests ++ [r] } }, ?_, ?_⟩
  · simp [callOn, hc]
  · have hlt : i < s.m_extraConnections.length := (List.getElem?_eq_some.mp hc).1
    refine ⟨rfl, rfl, rfl, rfl, rfl, fun j hj => ?_, fun x hx => ?_⟩
    · exact List.getElem?_set_ne (Ne.symm hj)
    · rw [hc] at hx
      obtain rfl := Option.some.inj hx
      exact List.getElem?_set_self hlt

theorem transferRequest_isTransfer {buffer : Nat} {d : FileRequestDescriptor} {k : Nat}
    {r : Request} (h : transferRequest buffer d k = some r) : r.isTransfer = true := by
  unfold transferRequest at h
  split at h <;> first | (obtain rfl := Option.some.inj h; rfl) | exact absurd h (by simp)

theorem transferRequest_of_valid (buffer : Nat) (d : FileRequestDescriptor) (k : Nat)
    (h : d.isValid = true) : (transferRequest buffer d k).isSome = true := by
  unfold transferRequest
  unfold FileRequestDescriptor.isValid at h
  split <;> first | rfl | simp_all

theorem processFileRequestForConnection_extra {s : CTelegramDispatcher} {i : Nat}
    {c : CTelegramConnection} (k : Nat) (hc : s.m_extraConnections[i]? = some c)
    (hsigned : c.authState = .AuthStateSignedIn) :
    ∃ t, processFileRequestForConnection s (.extra i) k = some t ∧
      ExtraCalled i (transferRequest s.m_mediaDataBufferSize
        (QMap.value s.m_requestedFileDescriptors k) k).toList s t := by
  unfold processFileRequestForConnection
  simp only [connectionAt, hc, Option.some_bind, hsigned, ne_eq, not_true_eq_false, if_false]
  cases hreq : transferRequest s.m_mediaDataBufferSize
      (QMap.value s.m_requestedFileDescriptors k) k with
  | none => exact ⟨s, rfl, ExtraCalled.rfl_called i s⟩
  | some r => exact callOn_extra r hc

theorem processFileRequestsOfDc_extra (i dc : Nat) :
    ∀ (keys : List Nat) (s : CTelegramDispatcher) (c : CTelegramConnection),
      s.m_extraConnections[i]? = some c → c.authState = .AuthStateSignedIn →
      ∃ t, processFileRequestsOfDc (.extra i) dc s keys = some t ∧
        ExtraCalled i
          ((keys.filter (fun k =>
              decide ((QMap.value s.m_requestedFileDescriptors k).m_dcId = dc))).filterMap
            (fun k => transferRequest s.m_mediaDataBufferSize
              (QMap.value s.m_requestedFileDescriptors k) k)) s t := by
  intro keys
  induction keys with
  | nil => intro s c _ _; exact ⟨s, rfl, ExtraCalled.rfl_called i s⟩
  | cons k rest ih =>
    intro s c hc hsigned
    unfold processFileRequestsOfDc
    by_cases hdc : (QMap.value s.m_requestedFileDescriptors k).m_dcId = dc
    · rw [if_neg (not_not.mpr hdc)]
      obtain ⟨t1, ht1, hcalled1⟩ := processFileRequestForConnection_extra k hc hsigned
      have hc1 := hcalled1.2.2.2.2.2.2 c hc
      obtain ⟨t, ht, hcalled⟩ := ih t1 _ hc1 hsigned
      rw [hcalled1.1, hcalled1.2.2.1] at hcalled
      refine ⟨t, by rw [ht1, Option.some_bind, ht], ?_⟩
      have hlist : ((k :: rest).filter (fun k =>
              decide ((QMap.value s.m_requestedFileDescriptors k).m_dcId = dc))).filterMap
            (fun k => transferRequest s.m_mediaDataBufferSize
              (QMap.value s.m_requestedFileDescriptors k) k) =
          (transferRequest s.m_mediaDataBufferSize
            (QMap.value s.m_requestedFileDescriptors k) k).toList ++
          (rest.filter (fun k =>
              decide ((QMap.value s.m_requestedFileDescriptors k).m_dcId = dc))).filterMap
            (fun k => transferRequest s.m_mediaDataBufferSize
              (QMap.value s.m_requestedFileDescriptors k) k) := by
        rw [List.filter_cons_of_pos (by simpa using hdc), List.filterMap_cons]
        cases transferRequest s.m_mediaDataBufferSize
          (QMap.value s.m_requestedFileDescriptors k) k <;> rfl
      rw [hlist]
      exact ExtraCalled.trans_called hcalled1 hcalled
    · rw [if_pos hdc]
      obtain ⟨t, ht, hcalled⟩ := ih s c hc hsigned
      refine ⟨t, ht, ?_⟩
      rw [List.filter_cons_of_neg (by simpa using hdc)]
      exact hcalled

theorem processDelayedPackages_extra (i : Nat) :
    ∀ (datas : List QByteArray) (s : CTelegramDispatcher) (c : CTelegramConnection),
      s.m_extraConnections[i]? = some c →
      ∃ t, processDelayedPackages (.extra i) s datas = some t ∧
        ExtraCalled i (datas.map Request.processRedirectedPackage) s t := by
  intro datas
  induction datas with
  | nil => intro s c _; exact ⟨s, rfl, ExtraCalled.rfl_called i s⟩
  | cons data rest ih =>
    intro s c hc
    unfold processDelayedPackages
    obtain ⟨t1, ht1, hcalled1⟩ := callOn_extra (.processRedirectedPackage data) hc
    obtain ⟨t, ht, hcalled⟩ := ih t1 _ (hcalled1.2.2.2.2.2.2 c hc)
    exact ⟨t, by rw [ht1, Option.some_bind, ht], ExtraCalled.trans_called hcalled1 hcalled⟩

theorem ExtraCalled.transfers_kept {i : Nat} {rs : List Request}
    {s t : CTelegramDispatcher} {c : CTelegramConnection} (h : ExtraCalled i rs s t)
    (hc : s.m_extraConnections[i]? = some c)
    (hrs : rs.filter Request.isTransfer = []) :
    issuedTransfers t = issuedTransfers s := by
  obtain ⟨_, _, _, _, hmain, hother, hmine⟩ := h
  have hmap : t.m_extraConnections.map (fun c => c.requests.filter Request.isTransfer) =
      s.m_extraConnections.map (fun c => c.requests.filter Request.isTransfer) := by
    apply List.ext_getElem?
    intro j
    rw [List.getElem?_map, List.getElem?_map]
    by_cases hj : j = i
    · subst hj
      rw [hmine c hc, hc]
      simp [List.filter_append, hrs]
    · rw [hother j hj]
  unfold issuedTransfers
  rw [List.flatMap_append, List.flatMap_append, hmain, List.flatMap_def t.m_extraConnections,
    List.flatMap_def s.m_extraConnections, hmap]

theorem callActive_transfers_kept {s t : CTelegramDispatcher} {r : Request}
    (h : callActive s r = some t) (hr : r.isTransfer = false) :
    issuedTransfers t = issuedTransfers s ∧
      t.m_requestedFileDescriptors = s.m_requestedFileDescriptors ∧
      t.m_fileRequestCounter = s.m_fileRequestCounter := by
  unfold callActive at h
  split at h
  · exact absurd h (by simp)
  · rename_i c hc
    obtain rfl := Option.some.inj h
    refine ⟨?_, rfl, rfl⟩
    simp [issuedTransfers, hc, List.filter_append, hr]

theorem getExtraConnection_spec {s t : CTelegramDispatcher} {dc i : Nat}
    (h : getExtraConnection s dc = some (t, some i)) :
    t.m_requestedFileDescriptors = s.m_requestedFileDescriptors ∧
    t.m_fileRequestCounter = s.m_fileRequestCounter ∧
    t.m_mainConnection = s.m_mainConnection ∧
    issuedTransfers t = issuedTransfers s := by
  unfold getExtraConnection at h
  split at h
  · simp only [Option.some.injEq, Prod.mk.injEq] at h
    obtain ⟨rfl, _⟩ := h
    exact ⟨rfl, rfl, rfl, rfl⟩
  · dsimp only at h
    split_ifs at h
    · simp at h
    · obtain ⟨active, _, hmk⟩ := Option.map_eq_some'.mp h
      simp only [Prod.mk.injEq] at hmk
      obtain ⟨rfl, _⟩ := hmk
      refine ⟨rfl, rfl, rfl, ?_⟩
      unfold issuedTransfers
      dsimp only
      rw [← List.append_assoc, List.flatMap_append]
      have hnew : ∀ x : CTelegramConnection, x.requests = [] →
          [x].flatMap (fun c => c.requests.filter Request.isTransfer) = [] := by
        intro x hx; simp [hx]
      rw [hnew]
      · simp
      · unfold createConnection
        split_ifs <;> rfl

theorem ensureSignedConnection_extra {s : CTelegramDispatcher} {i : Nat}
    {c : CTelegramConnection} (hc : s.m_extraConnections[i]? = some c)
    (hmain : s.m_mainConnection.isSome = true) :
    ∃ t, ensureSignedConnection s (.extra i) = some t ∧
      t.m_requestedFileDescriptors = s.m_requestedFileDescriptors ∧
      t.m_fileRequestCounter = s.m_fileRequestCounter ∧
      issuedTransfers t = issuedTransfers s := by
  unfold ensureSignedConnection
  simp only [connectionAt, hc, Option.some_bind]
  split_ifs
  · obtain ⟨t, ht, hcalled⟩ := callOn_extra .connectToDc hc
    exact ⟨t, ht, hcalled.1, hcalled.2.1, hcalled.transfers_kept hc rfl⟩
  · exact ⟨s, rfl, rfl, rfl, rfl⟩
  · obtain ⟨t, ht, hcalled⟩ := callOn_extra
      (.authImportAuthorization (QMap.value s.m_exportedAuthentications c.dcInfo.id).1
        (QMap.value s.m_exportedAuthentications c.dcInfo.id).2) hc
    exact ⟨t, ht, hcalled.1, hcalled.2.1, hcalled.transfers_kept hc rfl⟩
  · obtain ⟨active, hactive⟩ := Option.isSome_iff_exists.mp hmain
    rw [hactive, Option.some_bind]
    split_ifs
    · obtain ⟨t, ht⟩ := Option.isSome_iff_exists.mp
        (callActive_isSome (.authExportAuthorization c.dcInfo.id) hmain)
      have hk := callActive_transfers_kept ht rfl
      exact ⟨t, ht, hk.2.1, hk.2.2, hk.1⟩
    · exact ⟨s, rfl, rfl, rfl, rfl⟩
  · exact ⟨s, rfl, rfl, rfl, rfl⟩

theorem QMap.find_insert_self {V : Type} (m : QMap V) (key : Nat) (v : V) :
    QMap.find (QMap.insert m key v) key = some v := by
  induction m with
  | nil => simp [QMap.insert, QMap.find]
  | cons p rest ih =>
    obtain ⟨k, w⟩ := p
    unfold QMap.insert
    split_ifs with h1 h2
    · simp [QMap.find]
    · simp [QMap.find]
    · have hne : ¬ k = key := fun h => h2 h.symm
      simp [QMap.find, hne, ih]

theorem getExtraConnection_congr (s : CTelegramDispatcher) (dc counter : Nat)
    (table : QMap FileRequestDescriptor) :
    getExtraConnection
        { s with m_fileRequestCounter := counter, m_requestedFileDescriptors := table } dc =
      (getExtraConnection s dc).map (fun r =>
        ({ r.1 with m_fileRequestCounter := counter, m_requestedFileDescriptors := table }, r.2)) := by
  unfold getExtraConnection
  dsimp only
  cases indexOfDc s.m_extraConnections dc with
  | some j => rfl
  | none =>
    dsimp only
    have hdc : dcInfoById
        { s with m_fileRequestCounter := counter, m_requestedFileDescriptors := table } dc =
        dcInfoById s dc := rfl
    rw [hdc]
    split_ifs
    · rfl
    · cases s.m_mainConnection <;> rfl

/-- C10: a valid descriptor whose DC connection (the one `getExtraConnection`
yields) is not signed in is stored by `requestFile` under the returned id, and
no download or upload request is issued on any connection; when an extra
connection that is signed in reports `SignedIn` for DC `dc`,
`onConnectionAuthChanged` keeps the job table and issues on that connection, in
the order of the keys, the transfer request of every stored job whose `dcId`
is `dc` and of no other job; every valid job has a transfer request. -/
theorem file_job_queued_until_signed_in :
    (∀ (s s2 : CTelegramDispatcher) (d : FileRequestDescriptor) (i : Nat)
        (c : CTelegramConnection),
      d.isValid = true → s.m_mainConnection.isSome = true →
      getExtraConnection s d.m_dcId = some (s2, some i) →
      s2.m_extraConnections[i]? = some c → c.authState ≠ .AuthStateSignedIn →
      ∃ t, requestFile s d = some (t, (s.m_fileRequestCounter + 1) % quint32Mod) ∧
        QMap.find t.m_requestedFileDescriptors ((s.m_fileRequestCounter + 1) % quint32Mod) =
          some d ∧
        issuedTransfers t = issuedTransfers s) ∧
    (∀ (depth : Nat) (s : CTelegramDispatcher) (i dc : Nat) (c : CTelegramConnection),
      s.m_extraConnections[i]? = some c → c.authState = .AuthStateSignedIn →
      ∃ t c1, onConnectionAuthChanged depth s (some (.extra i)) .AuthStateSignedIn dc = some t ∧
        t.m_requestedFileDescriptors = s.m_requestedFileDescriptors ∧
        t.m_mainConnection = s.m_mainConnection ∧
        (∀ j, j ≠ i → t.m_extraConnections[j]? = s.m_extraConnections[j]?) ∧
        t.m_extraConnections[i]? = some c1 ∧
        c1.requests.filter Request.isTransfer =
          c.requests.filter Request.isTransfer ++
            (jobsOfDc s dc).filterMap (fun k =>
              transferRequest s.m_mediaDataBufferSize
                (QMap.value s.m_requestedFileDescriptors k) k)) ∧
    (∀ (buffer : Nat) (d : FileRequestDescriptor) (k : Nat),
      d.isValid = true → (transferRequest buffer d k).isSome = true) := by
  refine ⟨?_, ?_, transferRequest_of_valid⟩
  · intro s s2 d i c hvalid hmain hget hc hauth
    have hspec := getExtraConnection_spec hget
    unfold requestFile
    rw [if_neg (by simp [hvalid])]
    dsimp only
    rw [getExtraConnection_congr, hget]
    simp only [Option.map_some', Option.some_bind, connectionAt]
    generalize hs3 : ({ s2 with
      m_fileRequestCounter := (s.m_fileRequestCounter + 1) % quint32Mod,
      m_requestedFileDescriptors :=
        QMap.insert s.m_requestedFileDescriptors ((s.m_fileRequestCounter + 1) % quint32Mod) d } :
      CTelegramDispatcher) = s3
    have hc3 : s3.m_extraConnections[i]? = some c := by rw [← hs3]; exact hc
    have hext : s2.m_extraConnections = s3.m_extraConnections := by rw [← hs3]
    rw [hext]
    have hmain3 : s3.m_mainConnection.isSome = true := by
      rw [← hs3]; show s2.m_mainConnection.isSome = true; rw [hspec.2.2.1]; exact hmain
    have htr3 : issuedTransfers s3 = issuedTransfers s := by
      rw [← hs3]; exact hspec.2.2.2
    rw [hc3, Option.some_bind, if_neg hauth]
    obtain ⟨t, ht, htable, hcounter, htr⟩ := ensureSignedConnection_extra hc3 hmain3
    rw [ht]
    refine ⟨t, ?_, ?_, htr.trans htr3⟩
    · simp only [Option.map_some']
      rw [hcounter, ← hs3]
    · rw [htable, ← hs3]
      exact QMap.find_insert_self _ _ _
  · intro depth s i dc c hc hsigned
    obtain ⟨t1, ht1, hcalled1⟩ :=
      processFileRequestsOfDc_extra i dc (QMap.keys s.m_requestedFileDescriptors) s c hc hsigned
    have hc1 := hcalled1.2.2.2.2.2.2 c hc
    obtain ⟨t2, ht2, hcalled2⟩ := processDelayedPackages_extra i
      ((t1.m_delayedPackages.filter (fun p => decide (p.1 = dc))).map Prod.snd) t1 _ hc1
    have hcalled := ExtraCalled.trans_called hcalled1 hcalled2
    have hc2 := hcalled.2.2.2.2.2.2 c hc
    have hfilter : ∀ (extra : List Request),
        (∀ r ∈ extra, r.isTransfer = false) →
        (c.requests ++ ((jobsOfDc s dc).filterMap (fun k =>
              transferRequest s.m_mediaDataBufferSize
                (QMap.value s.m_requestedFileDescriptors k) k) ++ extra)).filter
            Request.isTransfer =
          c.requests.filter Request.isTransfer ++
            (jobsOfDc s dc).filterMap (fun k =>
              transferRequest s.m_mediaDataBufferSize
                (QMap.value s.m_requestedFileDescriptors k) k) := by
      intro extra hextra
      rw [List.filter_append, List.filter_append]
      have h1 : ((jobsOfDc s dc).filterMap (fun k =>
              transferRequest s.m_mediaDataBufferSize
                (QMap.value s.m_requestedFileDescriptors k) k)).filter Request.isTransfer =
            (jobsOfDc s dc).filterMap (fun k =>
              transferRequest s.m_mediaDataBufferSize
                (QMap.value s.m_requestedFileDescriptors k) k) := by
        rw [List.filter_eq_self]
        intro r hr
        obtain ⟨k, _, hk⟩ := List.mem_filterMap.mp hr
        exact transferRequest_isTransfer hk
      have h2 : extra.filter Request.isTransfer = [] := by
        rw [List.filter_eq_nil_iff]
        intro r hr; rw [hextra r hr]; simp
      rw [h1, h2, List.append_nil]
    have hredirected : ∀ r ∈ ((t1.m_delayedPackages.filter (fun p => decide (p.1 = dc))).map
        Prod.snd).map Request.processRedirectedPackage, r.isTransfer = false := by
      intro r hr
      obtain ⟨data, _, rfl⟩ := List.mem_map.mp hr
      rfl
    unfold onConnectionAuthChanged
    simp only [reduceCtorEq, if_false, if_true, ht1, Option.some_bind, ne_eq, not_false_eq_true]
    split_ifs
    · rw [ht2]
      refine ⟨_, _, rfl, hcalled.1, hcalled.2.2.2.2.1, hcalled.2.2.2.2.2.1, hc2, ?_⟩
      exact hfilter _ hredirected
    · refine ⟨t1, _, rfl, hcalled1.1, hcalled1.2.2.2.2.1, hcalled1.2.2.2.2.2.1, hc1, ?_⟩
      have hnil := hfilter [] (fun _ h => absurd h (List.not_mem_nil _))
      rw [List.append_nil] at hnil
      exact hnil

/-- Witness of C10: the avatar job on DC 4 is stored under id 1 while the
connection to DC 4 is not signed in, and once that connection is signed in the
job 1 of DC 4 is requested on it and the job 2 of DC 5 is not. -/
theorem file_job_queued_until_signed_in_witness :
    (∃ t, requestFile queueDispatcher avatarJob = some (t, 1) ∧
      QMap.find t.m_requestedFileDescriptors 1 = some avatarJob ∧
      issuedTransfers t = issuedTransfers queueDispatcher) ∧
    (∃ t c1, onConnectionAuthChanged 3 signedInDispatcher (some (.extra 0))
          .AuthStateSignedIn 4 = some t ∧
      t.m_requestedFileDescriptors = signedInDispatcher.m_requestedFileDescriptors ∧
      t.m_mainConnection = signedInDispatcher.m_mainConnection ∧
      (∀ j, j ≠ 0 → t.m_extraConnections[j]? = signedInDispatcher.m_extraConnections[j]?) ∧
      t.m_extraConnections[0]? = some c1 ∧
      c1.requests.filter Request.isTransfer =
        [] ++ [Request.downloadFile avatarJob.m_inputLocation 0 (512 * 256) 1]) :=
  ⟨file_job_queued_until_signed_in.1 queueDispatcher queueDispatcher avatarJob 0
      { dcInfo := { id := 4, ipAddress := "149.154.167.91", port := 443 },
        authState := .AuthStateHaveAKey, status := .Connected }
      rfl rfl rfl rfl (by decide),
   file_job_queued_until_signed_in.2.1 3 signedInDispatcher 0 4
      { dcInfo := { id := 4, ipAddress := "149.154.167.91", port := 443 },
        authState := .AuthStateSignedIn, status := .Signed,
        requests := [.authImportAuthorization 3 [1, 2]] }
      rfl rfl⟩

/-! ## Theorems: the upload run of the dispatcher -/

theorem processFileRequestForConnection_emitted {s t : CTelegramDispatcher}
    {ref : ConnectionRef} {id : Nat}
    (h : processFileRequestForConnection s ref id = some t) : t.emitted = s.emitted := by
  unfold processFileRequestForConnection at h
  obtain ⟨c, _, h⟩ := Option.bind_eq_some.mp h
  split_ifs at h
  · obtain rfl := Option.some.inj h; rfl
  · split at h
    · unfold callOn at h
      split at h
      · unfold callActive at h
        split at h
        · exact absurd h (by simp)
        · obtain rfl := Option.some.inj h; rfl
      · obtain ⟨x, _, rfl⟩ := Option.map_eq_some'.mp h
        rfl
    · obtain rfl := Option.some.inj h; rfl

theorem whenFileDataUploaded_upload (ext : Externals) (s : CTelegramDispatcher)
    (sender : ConnectionRef) (id : Nat) (d : FileRequestDescriptor)
    (hfind : QMap.find s.m_requestedFileDescriptors id = some d) (htype : d.m_type = .Upload) :
    whenFileDataUploaded ext s (some sender) id =
      if (d.bumpPart ext.md5).finished then
        some (emit (emit
          { s with m_requestedFileDescriptors :=
                     QMap.modify s.m_requestedFileDescriptors id (fun _ => d.bumpPart ext.md5) }
          (.uploadingStatusUpdated id (d.bumpPart ext.md5).m_offset (d.bumpPart ext.md5).size))
          (.uploadFinished id
            { file := (d.bumpPart ext.md5).inputFile, m_size := (d.bumpPart ext.md5).size }))
      else
        processFileRequestForConnection (emit
          { s with m_requestedFileDescriptors :=
                     QMap.modify s.m_requestedFileDescriptors id (fun _ => d.bumpPart ext.md5) }
          (.uploadingStatusUpdated id (d.bumpPart ext.md5).m_offset (d.bumpPart ext.md5).size))
          sender id := by
  unfold whenFileDataUploaded
  rw [hfind]
  simp [htype]

theorem driveUpload_sends (ext : Externals) (i id : Nat) :
    ∀ (steps : Nat) (s : CTelegramDispatcher) (c : CTelegramConnection)
      (d final : FileRequestDescriptor) (sent : List (Nat × QByteArray)) (offsets : List Nat),
      s.m_extraConnections[i]? = some c → c.authState = .AuthStateSignedIn →
      QMap.find s.m_requestedFileDescriptors id = some d → d.m_type = .Upload →
      uploadLoop ext.md5 steps d = some (sent, offsets, final) →
      ∃ t, (processFileRequestForConnection s (.extra i) id).bind
            (driveUpload ext (.extra i) id steps) = some t ∧
        t.m_extraConnections[i]? = some { c with requests := (c.requests ++
          sent.map (fun pc => Request.uploadFile d.m_fileId pc.1 pc.2 id)) } ∧
        t.emitted = s.emitted ++
          offsets.map (fun o => Signal.uploadingStatusUpdated id o d.m_size) ++
          [Signal.uploadFinished id { file := final.inputFile, m_size := final.size }] ∧
        QMap.find t.m_requestedFileDescriptors id = some final := by
  intro steps
  induction steps with
  | zero => intro s c d final sent offsets _ _ _ _ h; simp [uploadLoop] at h
  | succ m ih =>
    intro s c d final sent offsets hc hsigned hfind htype hloop
    obtain ⟨sA, hA, hcalledA⟩ := processFileRequestForConnection_extra id hc hsigned
    rw [QMap.value_of_find hfind] at hcalledA
    have htr : transferRequest s.m_mediaDataBufferSize d id =
        some (.uploadFile d.m_fileId d.m_part d.data id) := by
      simp [transferRequest, htype]
    rw [htr] at hcalledA
    have hcA := hcalledA.2.2.2.2.2.2 c hc
    have hfindA : QMap.find sA.m_requestedFileDescriptors id = some d := by
      rw [hcalledA.1]; exact hfind
    have hemA : sA.emitted = s.emitted := processFileRequestForConnection_emitted hA
    rw [hA, Option.some_bind]
    unfold driveUpload
    rw [whenFileDataUploaded_upload ext sA (.extra i) id d hfindA htype]
    unfold uploadLoop at hloop
    dsimp only at hloop
    obtain ⟨_, _, bs, _, bt⟩ := bumpPart_fields ext.md5 d
    have hfind1 : QMap.find (QMap.modify sA.m_requestedFileDescriptors id
        (fun _ => d.bumpPart ext.md5)) id = some (d.bumpPart ext.md5) := by
      rw [QMap.find_modify_self, hfindA]; rfl
    by_cases hfin : (d.bumpPart ext.md5).finished = true
    · rw [hfin] at hloop ⊢
      simp only [if_true, Option.some.injEq, Prod.mk.injEq] at hloop
      obtain ⟨rfl, rfl, rfl⟩ := hloop
      have hval : ∀ a b, QMap.value (emit (emit
          { sA with m_requestedFileDescriptors :=
              (QMap.modify sA.m_requestedFileDescriptors id (fun _ => d.bumpPart ext.md5)) }
          a) b).m_requestedFileDescriptors id = d.bumpPart ext.md5 :=
        fun _ _ => QMap.value_of_find hfind1
      simp only [if_true, Option.some_bind, hval, hfin]
      refine ⟨_, rfl, ?_, ?_, hfind1⟩
      · show sA.m_extraConnections[i]? = _
        rw [hcA]; simp
      · show sA.emitted ++ _ ++ _ = _
        rw [hemA]
        simp [FileRequestDescriptor.size, bs]
    · have hfin' : (d.bumpPart ext.md5).finished = false := by
        cases h : (d.bumpPart ext.md5).finished
        · rfl
        · exact absurd h hfin
      rw [hfin'] at hloop ⊢
      simp only [Bool.false_eq_true, if_false] at hloop ⊢
      obtain ⟨r, hr, heq⟩ := Option.map_eq_some'.mp hloop
      obtain ⟨sent1, offsets1, final1⟩ := r
      simp only [Prod.mk.injEq] at heq
      obtain ⟨rfl, rfl, rfl⟩ := heq
      have hc2 : (emit { sA with m_requestedFileDescriptors :=
            (QMap.modify sA.m_requestedFileDescriptors id (fun _ => d.bumpPart ext.md5)) }
          (.uploadingStatusUpdated id (d.bumpPart ext.md5).m_offset
            (d.bumpPart ext.md5).size)).m_extraConnections[i]? =
          some { c with requests := c.requests ++
            [Request.uploadFile d.m_fileId d.m_part d.data id] } := hcA
      obtain ⟨t, ht, hreq, hem, hfinal⟩ := ih _ _ _ final1 sent1 offsets1 hc2 hsigned hfind1
        (bt.trans htype) hr
      obtain ⟨tP, hP, hcalledP⟩ := processFileRequestForConnection_extra id hc2 hsigned
      rw [hP, Option.some_bind] at ht ⊢
      have hvalP : QMap.value tP.m_requestedFileDescriptors id = d.bumpPart ext.md5 := by
        apply QMap.value_of_find
        rw [hcalledP.1]; exact hfind1
      rw [hvalP, hfin']
      simp only [Bool.false_eq_true, if_false]
      refine ⟨t, ht, ?_, ?_, hfinal⟩
      · rw [hreq, bumpPart_fileId]
        simp [List.append_assoc]
      · rw [hem]
        show sA.emitted ++ _ ++ _ ++ _ = _
        rw [hemA, bs]
        simp [FileRequestDescriptor.size, bs, List.append_assoc]

/-- C6: an upload job over `n < 2^31` bytes, driven as the dispatcher does
(send `data()` for the current part, `bumpPart()`, repeat until `finished()`),
terminates within `n / 256 + 1` parts, both as the loop over the descriptor and
as the run of `processFileRequestForConnection` and `whenFileDataUploaded` on a
signed-in connection; the connection receives exactly the chunks as `uploadFile`
calls with the part numbers `0, 1, ...`, the chunk lengths sum to `n` (the chunks
concatenate to the data), the offset reported after part `i` is
`min ((i + 1) * chunkSize, n)`, the offsets are non-decreasing, and the final
offset is `n`. -/
theorem upload_sends_all_data (ext : Externals) (s : CTelegramDispatcher)
    (c : CTelegramConnection) (i id : Nat) (data : QByteArray)
    (fileName : String) (dc fileId : Nat) (hn : data.length < 2 ^ 31)
    (hc : s.m_extraConnections[i]? = some c) (hsigned : c.authState = .AuthStateSignedIn)
    (hjob : QMap.find s.m_requestedFileDescriptors id =
      some (FileRequestDescriptor.uploadRequest data fileName dc fileId)) :
    ∃ sent offsets final t,
      uploadLoop ext.md5 (data.length / 256 + 1)
          (FileRequestDescriptor.uploadRequest data fileName dc fileId) =
        some (sent, offsets, final) ∧
      (processFileRequestForConnection s (.extra i) id).bind
          (driveUpload ext (.extra i) id (data.length / 256 + 1)) = some t ∧
      t.m_extraConnections[i]? = some { c with requests := (c.requests ++
          sent.map (fun pc => Request.uploadFile fileId pc.1 pc.2 id)) } ∧
      t.emitted = s.emitted ++
          offsets.map (fun o => Signal.uploadingStatusUpdated id o data.length) ++
          [Signal.uploadFinished id { file := final.inputFile, m_size := final.size }] ∧
      QMap.find t.m_requestedFileDescriptors id = some final ∧
      ((sent.map Prod.snd).map List.length).sum = data.length ∧
      (sent.map Prod.snd).flatten = data ∧
      sent.map Prod.fst = List.range sent.length ∧
      sent.length = offsets.length ∧
      (FileRequestDescriptor.uploadRequest data fileName dc fileId).chunkSize = 256 ∧
      offsets = (List.range offsets.length).map (fun i => min ((i + 1) * 256) data.length) ∧
      offsets.Pairwise (fun a b => a ≤ b) ∧
      offsets.getLast? = some data.length ∧
      final.m_offset = data.length ∧ final.finished = true := by
  obtain ⟨sent, offsets, final, hloop, hsum, hflat, hparts, hlen, hoffs, hmono, hlast, hfo, hff⟩ :=
    upload_lengths ext.md5 data fileName dc fileId hn
  obtain ⟨ht, _, hs, _, _, _⟩ := uploadRequest_fields data fileName dc fileId
  obtain ⟨t, hrun, hreq, hem, hfinal⟩ := driveUpload_sends ext i id _ s c _ final sent offsets
    hc hsigned hjob ht hloop
  have hfid : (FileRequestDescriptor.uploadRequest data fileName dc fileId).m_fileId = fileId := by
    unfold FileRequestDescriptor.uploadRequest
    dsimp only
  rw [hfid] at hreq
  rw [hs] at hem
  exact ⟨sent, offsets, final, t, hloop, hrun, hreq, hem, hfinal, hsum, hflat, hparts, hlen,
    upload_chunkSize _ ht, hoffs, hmono, hlast, hfo, hff⟩

theorem upload_sends_all_data_witness :
    ∃ sent offsets final t,
      uploadLoop Externals.sample.md5 (file600.length / 256 + 1)
          (FileRequestDescriptor.uploadRequest file600 "f" 4 77) =
        some (sent, offsets, final) ∧
      (processFileRequestForConnection uploadDispatcher (.extra 0) 1).bind
          (driveUpload Externals.sample (.extra 0) 1 (file600.length / 256 + 1)) = some t ∧
      t.m_extraConnections[0]? = some
        { ({ dcInfo := { id := 4, ipAddress := "149.154.167.91", port := 443 },
             authState := .AuthStateSignedIn, status := .Signed } : CTelegramConnection) with
          requests := (([] : List Request) ++
            sent.map (fun pc => Request.uploadFile 77 pc.1 pc.2 1)) } ∧
      t.emitted = uploadDispatcher.emitted ++
          offsets.map (fun o => Signal.uploadingStatusUpdated 1 o file600.length) ++
          [Signal.uploadFinished 1 { file := final.inputFile, m_size := final.size }] ∧
      QMap.find t.m_requestedFileDescriptors 1 = some final ∧
      ((sent.map Prod.snd).map List.length).sum = file600.length ∧
      (sent.map Prod.snd).flatten = file600 ∧
      sent.map Prod.fst = List.range sent.length ∧
      sent.length = offsets.length ∧
      (FileRequestDescriptor.uploadRequest file600 "f" 4 77).chunkSize = 256 ∧
      offsets = (List.range offsets.length).map (fun i => min ((i + 1) * 256) file600.length) ∧
      offsets.Pairwise (fun a b => a ≤ b) ∧
      offsets.getLast? = some file600.length ∧
      final.m_offset = file600.length ∧ final.finished = true :=
  upload_sends_all_data Externals.sample uploadDispatcher
    { dcInfo := { id := 4, ipAddress := "149.154.167.91", port := 443 },
      authState := .AuthStateSignedIn, status := .Signed } 0 1 file600 "f" 4 77
    (by unfold file600; rw [List.length_replicate]; norm_num) rfl rfl rfl

/-! ## Theorems: completed file jobs -/

theorem QMap.find_remove_self {V : Type} (m : QMap V) (key : Nat) :
    QMap.find (QMap.remove m key) key = none := by
  induction m with
  | nil => rfl
  | cons p rest ih =>
    obtain ⟨k, w⟩ := p
    unfold QMap.remove at ih ⊢
    by_cases hk : k = key
    · simp [List.filter, hk]
      exact ih
    · simp [List.filter, hk, QMap.find]
      exact ih

/-- C11 (the code on completed jobs): when the acknowledgement of the last part
of an upload arrives (`finished()` holds after `bumpPart()`),
`whenFileDataUploaded` returns with the descriptor still stored under its id;
when the data of an avatar arrives, `whenFileDataReceived` returns with the job
table unchanged; only for a media download whose final chunk arrives
(`offset + chunk length == size`) is the descriptor removed from the table. -/
theorem completed_upload_and_avatar_jobs_stay (ext : Externals) (s : CTelegramDispatcher)
    (sender : Option ConnectionRef) (id : Nat) (d : FileRequestDescriptor)
    (file : TLUploadFile) (offset : Nat)
    (hfind : QMap.find s.m_requestedFileDescriptors id = some d) :
    (d.m_type = .Upload → (d.bumpPart ext.md5).finished = true →
      ∃ t, whenFileDataUploaded ext s sender id = some t ∧
        QMap.find t.m_requestedFileDescriptors id = some (d.bumpPart ext.md5)) ∧
    (d.m_type = .Avatar →
      ∃ t, whenFileDataReceived ext s sender file id offset = some t ∧
        t.m_requestedFileDescriptors = s.m_requestedFileDescriptors) ∧
    (d.m_type = .MessageMediaData →
      (d.m_offset + file.bytes.length % quint32Mod) % quint32Mod = d.size →
      ∃ t, whenFileDataReceived ext s sender file id offset = some t ∧
        QMap.find t.m_requestedFileDescriptors id = none) := by
  refine ⟨?_, ?_, ?_⟩
  · intro htype hfin
    unfold whenFileDataUploaded
    rw [hfind]
    simp only [htype, ne_eq, not_true_eq_false, if_false, hfin, if_true]
    refine ⟨_, rfl, ?_⟩
    show QMap.find (QMap.modify s.m_requestedFileDescriptors id _) id = _
    rw [QMap.find_modify_self, hfind]
    rfl
  · intro htype
    unfold whenFileDataReceived
    rw [hfind]
    simp only [htype]
    split_ifs
    · exact ⟨_, rfl, rfl⟩
    · exact ⟨_, rfl, rfl⟩
  · intro htype hlast
    unfold whenFileDataReceived
    rw [hfind]
    simp only [htype, hlast, if_true]
    refine ⟨_, rfl, ?_⟩
    show QMap.find (QMap.remove _ id) id = none
    exact QMap.find_remove_self _ _

/-- Witness of C11: in `finishingDispatcher` the finished upload 3 and the
received avatar 1 stay in the job table, the completed media download 2 is
removed. -/
theorem completed_upload_and_avatar_jobs_stay_witness :
    (∃ t, whenFileDataUploaded Externals.sample finishingDispatcher (some (.extra 0)) 3 = some t ∧
      QMap.find t.m_requestedFileDescriptors 3 =
        some ((FileRequestDescriptor.uploadRequest [1, 2, 3] "a.txt" 4 77).bumpPart
          Externals.sample.md5)) ∧
    (∃ t, whenFileDataReceived Externals.sample finishingDispatcher (some (.extra 0))
        { type := 1, bytes := [9, 9] } 1 0 = some t ∧
      t.m_requestedFileDescriptors = finishingDispatcher.m_requestedFileDescriptors) ∧
    (∃ t, whenFileDataReceived Externals.sample finishingDispatcher (some (.extra 0))
        { type := 1, bytes := [9, 9] } 2 69998 = some t ∧
      QMap.find t.m_requestedFileDescriptors 2 = none) :=
  ⟨(completed_upload_and_avatar_jobs_stay Externals.sample finishingDispatcher
      (some (.extra 0)) 3 (FileRequestDescriptor.uploadRequest [1, 2, 3] "a.txt" 4 77)
      {} 0 rfl).1 rfl (by decide),
   (completed_upload_and_avatar_jobs_stay Externals.sample finishingDispatcher
      (some (.extra 0)) 1 avatarJob { type := 1, bytes := [9, 9] } 0 rfl).2.1 rfl,
   (completed_upload_and_avatar_jobs_stay Externals.sample finishingDispatcher
      (some (.extra 0)) 2 lastChunkJob { type := 1, bytes := [9, 9] } 69998 rfl).2.2 rfl
      (by decide)⟩

/-! ## Theorems: the ids of the file jobs -/

theorem QMap.mem_keys_insert {V : Type} (m : QMap V) (key : Nat) (v : V) (k : Nat)
    (h : k ∈ QMap.keys (QMap.insert m key v)) : k = key ∨ k ∈ QMap.keys m := by
  induction m with
  | nil =>
    simp [QMap.insert, QMap.keys] at h
    exact Or.inl h
  | cons p rest ih =>
    obtain ⟨k0, w⟩ := p
    unfold QMap.insert at h
    split_ifs at h with h1 h2
    · simp only [QMap.keys, List.map_cons, List.mem_cons] at h ⊢
      exact h
    · simp only [QMap.keys, List.map_cons, List.mem_cons] at h ⊢
      rcases h with h | h
      · exact Or.inl h
      · exact Or.inr (Or.inr h)
    · simp only [QMap.keys, List.map_cons, List.mem_cons] at h ⊢
      rcases h with h | h
      · exact Or.inr (Or.inl h)
      · rcases ih h with h | h
        · exact Or.inl h
        · exact Or.inr (Or.inr h)

theorem QMap.find_insert_ne {V : Type} (m : QMap V) (key : Nat) (v : V) (k : Nat)
    (hk : k ≠ key) : QMap.find (QMap.insert m key v) k = QMap.find m k := by
  induction m with
  | nil => simp [QMap.insert, QMap.find, Ne.symm hk]
  | cons p rest ih =>
    obtain ⟨k0, w⟩ := p
    unfold QMap.insert
    split_ifs with h1 h2
    · simp [QMap.find, Ne.symm hk]
    · subst h2
      simp [QMap.find, Ne.symm hk]
    · by_cases h0 : k0 = k
      · simp [QMap.find, h0]
      · simp [QMap.find, h0, ih]

theorem QMap.find_isSome_mem_keys {V : Type} (m : QMap V) (k : Nat) (v : V)
    (h : QMap.find m k = some v) : k ∈ QMap.keys m := by
  induction m with
  | nil => simp [QMap.find] at h
  | cons p rest ih =>
    obtain ⟨k0, w⟩ := p
    unfold QMap.find at h
    split_ifs at h with h0
    · simp [QMap.keys, h0]
    · simp only [QMap.keys, List.map_cons, List.mem_cons]
      exact Or.inr (ih h)

theorem callOn_jobs {s t : CTelegramDispatcher} {ref : ConnectionRef} {r : Request}
    (h : callOn s ref r = some t) :
    t.m_requestedFileDescriptors = s.m_requestedFileDescriptors ∧
      t.m_fileRequestCounter = s.m_fileRequestCounter := by
  unfold callOn at h
  split at h
  · unfold callActive at h
    split at h
    · exact absurd h (by simp)
    · obtain rfl := Option.some.inj h; exact ⟨rfl, rfl⟩
  · obtain ⟨x, _, rfl⟩ := Option.map_eq_some'.mp h
    exact ⟨rfl, rfl⟩

theorem processFileRequestForConnection_jobs {s t : CTelegramDispatcher}
    {ref : ConnectionRef} {id : Nat}
    (h : processFileRequestForConnection s ref id = some t) :
    t.m_requestedFileDescriptors = s.m_requestedFileDescriptors ∧
      t.m_fileRequestCounter = s.m_fileRequestCounter := by
  unfold processFileRequestForConnection at h
  obtain ⟨c, _, h⟩ := Option.bind_eq_some.mp h
  split_ifs at h
  · obtain rfl := Option.some.inj h; exact ⟨rfl, rfl⟩
  · split at h
    · exact callOn_jobs h
    · obtain rfl := Option.some.inj h; exact ⟨rfl, rfl⟩

theorem ensureSignedConnection_jobs {s t : CTelegramDispatcher} {ref : ConnectionRef}
    (h : ensureSignedConnection s ref = some t) :
    t.m_requestedFileDescriptors = s.m_requestedFileDescriptors ∧
      t.m_fileRequestCounter = s.m_fileRequestCounter := by
  unfold ensureSignedConnection at h
  obtain ⟨c, _, h⟩ := Option.bind_eq_some.mp h
  dsimp only at h
  split_ifs at h
  · exact callOn_jobs h
  · obtain rfl := Option.some.inj h; exact ⟨rfl, rfl⟩
  · exact callOn_jobs h
  · obtain ⟨a, _, h⟩ := Option.bind_eq_some.mp h
    split_ifs at h
    · have hk := callActive_transfers_kept h rfl
      exact ⟨hk.2.1, hk.2.2⟩
    · obtain rfl := Option.some.inj h; exact ⟨rfl, rfl⟩
  · obtain rfl := Option.some.inj h; exact ⟨rfl, rfl⟩

theorem getExtraConnection_jobs {s : CTelegramDispatcher} {dc : Nat}
    {r : CTelegramDispatcher × Option Nat} (h : getExtraConnection s dc = some r) :
    r.1.m_requestedFileDescriptors = s.m_requestedFileDescriptors ∧
      r.1.m_fileRequestCounter = s.m_fileRequestCounter := by
  unfold getExtraConnection at h
  split at h
  · obtain rfl := Option.some.inj h; exact ⟨rfl, rfl⟩
  · dsimp only at h
    split_ifs at h
    · obtain rfl := Option.some.inj h; exact ⟨rfl, rfl⟩
    · obtain ⟨active, _, rfl⟩ := Option.map_eq_some'.mp h
      exact ⟨rfl, rfl⟩

theorem requestFile_valid {s t : CTelegramDispatcher} {d : FileRequestDescriptor} {id : Nat}
    (hvalid : d.isValid = true) (h : requestFile s d = some (t, id)) :
    id = (s.m_fileRequestCounter + 1) % quint32Mod ∧ t.m_fileRequestCounter = id ∧
      t.m_requestedFileDescriptors = QMap.insert s.m_requestedFileDescriptors id d := by
  unfold requestFile at h
  rw [if_neg (by simp [hvalid])] at h
  dsimp only at h
  obtain ⟨r, hr, h⟩ := Option.bind_eq_some.mp h
  have hj := getExtraConnection_jobs hr
  split at h
  · exact absurd h (by simp)
  · rename_i i hi
    obtain ⟨c, hc, h⟩ := Option.bind_eq_some.mp h
    obtain ⟨s3, h3, heq⟩ := Option.map_eq_some'.mp h
    simp only [Prod.mk.injEq] at heq
    obtain ⟨rfl, rfl⟩ := heq
    have h3j : s3.m_requestedFileDescriptors = r.1.m_requestedFileDescriptors ∧
        s3.m_fileRequestCounter = r.1.m_fileRequestCounter := by
      split_ifs at h3
      · exact processFileRequestForConnection_jobs h3
      · exact ensureSignedConnection_jobs h3
    refine ⟨h3j.2.trans hj.2, rfl, ?_⟩
    rw [h3j.1, hj.1, h3j.2, hj.2]

theorem requestFile_isSome {s s2 : CTelegramDispatcher} {d : FileRequestDescriptor} {i : Nat}
    (hvalid : d.isValid = true) (hmain : s.m_mainConnection.isSome = true)
    (hget : getExtraConnection s d.m_dcId = some (s2, some i)) :
    (requestFile s d).isSome = true := by
  have hspec := getExtraConnection_spec hget
  unfold requestFile
  rw [if_neg (by simp [hvalid])]
  dsimp only
  rw [getExtraConnection_congr, hget]
  simp only [Option.map_some', Option.some_bind, connectionAt]
  generalize hs3 : ({ s2 with
    m_fileRequestCounter := (s.m_fileRequestCounter + 1) % quint32Mod,
    m_requestedFileDescriptors :=
      QMap.insert s.m_requestedFileDescriptors ((s.m_fileRequestCounter + 1) % quint32Mod) d } :
    CTelegramDispatcher) = s3
  have hext : s2.m_extraConnections = s3.m_extraConnections := by rw [← hs3]
  have hmain3 : s3.m_mainConnection.isSome = true := by
    rw [← hs3]; show s2.m_mainConnection.isSome = true; rw [hspec.2.2.1]; exact hmain
  have hi : ∃ c, s3.m_extraConnections[i]? = some c := by
    rw [← hext]
    unfold getExtraConnection at hget
    split at hget
    · rename_i j hj
      simp only [Option.some.injEq, Prod.mk.injEq] at hget
      obtain ⟨rfl, rfl⟩ := hget
      clear hspec hext hs3 hmain3
      generalize s.m_extraConnections = l at hj
      induction l generalizing j with
      | nil => simp [indexOfDc] at hj
      | cons x rest ih =>
        unfold indexOfDc at hj
        split_ifs at hj
        · obtain rfl := Option.some.inj hj
          exact ⟨x, by simp⟩
        · obtain ⟨j0, hj0, rfl⟩ := Option.map_eq_some'.mp hj
          obtain ⟨c, hc⟩ := ih j0 hj0
          exact ⟨c, by simpa using hc⟩
    · dsimp only at hget
      split_ifs at hget
      · simp at hget
      · obtain ⟨active, _, hmk⟩ := Option.map_eq_some'.mp hget
        simp only [Prod.mk.injEq, Option.some.injEq] at hmk
        obtain ⟨rfl, rfl⟩ := hmk
        simp
  obtain ⟨c, hc⟩ := hi
  rw [hext, hc, Option.some_bind]
  split_ifs with hsigned
  · obtain ⟨t, ht, _⟩ := processFileRequestForConnection_extra
      ((s.m_fileRequestCounter + 1) % quint32Mod) hc hsigned
    rw [ht]; rfl
  · obtain ⟨t, ht, _⟩ := ensureSignedConnection_extra hc hmain3
    rw [ht]; rfl

theorem JobsReachable.keys_le {ext : Externals} {s : CTelegramDispatcher}
    (h : JobsReachable ext s) :
    ∀ k ∈ QMap.keys s.m_requestedFileDescriptors, k ≤ s.m_fileRequestCounter := by
  induction h with
  | constructed => intro k hk; simp [CTelegramDispatcher.constructed, QMap.keys] at hk
  | @requested s t d id _ hlt hreq ih =>
    intro k hk
    by_cases hvalid : d.isValid = true
    · obtain ⟨hid, hcounter, htable⟩ := requestFile_valid hvalid hreq
      have hq : quint32Mod = 4294967296 := rfl
      rw [hq] at hlt hid
      rw [Nat.mod_eq_of_lt (by omega)] at hid
      rw [htable] at hk
      rw [hcounter, hid]
      rcases QMap.mem_keys_insert _ _ _ _ hk with h | h
      · omega
      · have := ih k h; omega
    · unfold requestFile at hreq
      rw [if_pos (by simp [hvalid])] at hreq
      simp only [Option.some.injEq, Prod.mk.injEq] at hreq
      obtain ⟨rfl, _⟩ := hreq
      exact ih k hk
  | closed _ _ => intro k hk; simp [closeConnection, QMap.keys] at hk
  | other _ htable hcounter ih =>
    intro k hk
    rw [htable] at hk
    rw [hcounter]
    exact ih k hk

/-- C12: in every state reached from the constructor by `requestFile` (request
counter below `2^32 - 1`), `closeConnection` and operations that leave the job
table and the counter alone, every key of the job table is at most the request
counter. Hence `requestFile` with an invalid descriptor returns 0 and changes
nothing; with a valid descriptor it returns, whenever `getExtraConnection`
yields a connection and there is a main connection, and the returned id is
the counter plus one: non-zero, not a key of the table before the call, stored
with the descriptor, with every other entry of the table unchanged (no job is
overwritten), and smaller than the id of the next successful call. -/
theorem requestFile_fresh_ids (ext : Externals) (s : CTelegramDispatcher)
    (hreach : JobsReachable ext s) :
    (∀ k ∈ QMap.keys s.m_requestedFileDescriptors, k ≤ s.m_fileRequestCounter) ∧
    (∀ d : FileRequestDescriptor, d.isValid = false → requestFile s d = some (s, 0)) ∧
    (∀ (d : FileRequestDescriptor) (s2 : CTelegramDispatcher) (i : Nat),
      d.isValid = true → s.m_mainConnection.isSome = true →
      getExtraConnection s d.m_dcId = some (s2, some i) → (requestFile s d).isSome = true) ∧
    (∀ (d : FileRequestDescriptor) (t : CTelegramDispatcher) (id : Nat),
      d.isValid = true → s.m_fileRequestCounter < quint32Mod - 1 →
      requestFile s d = some (t, id) →
      id = s.m_fileRequestCounter + 1 ∧ id ≠ 0 ∧
      id ∉ QMap.keys s.m_requestedFileDescriptors ∧
      QMap.find s.m_requestedFileDescriptors id = none ∧
      t.m_fileRequestCounter = id ∧
      QMap.find t.m_requestedFileDescriptors id = some d ∧
      (∀ k, k ≠ id →
        QMap.find t.m_requestedFileDescriptors k = QMap.find s.m_requestedFileDescriptors k) ∧
      (∀ k ∈ QMap.keys t.m_requestedFileDescriptors, k ≤ t.m_fileRequestCounter) ∧
      (∀ (d2 : FileRequestDescriptor) (u : CTelegramDispatcher) (id2 : Nat),
        d2.isValid = true → t.m_fileRequestCounter < quint32Mod - 1 →
        requestFile t d2 = some (u, id2) → id < id2)) := by
  have hkeys := hreach.keys_le
  refine ⟨hkeys, ?_, ?_, ?_⟩
  · intro d hd
    unfold requestFile
    rw [if_pos (by simp [hd])]
  · intro d s2 i hvalid hmain hget
    exact requestFile_isSome hvalid hmain hget
  · intro d t id hvalid hlt hreq
    obtain ⟨hid, hcounter, htable⟩ := requestFile_valid hvalid hreq
    have hq : quint32Mod = 4294967296 := rfl
    have hid1 : id = s.m_fileRequestCounter + 1 := by
      rw [hq] at hlt hid
      rw [Nat.mod_eq_of_lt (by omega)] at hid
      exact hid
    have hnot : id ∉ QMap.keys s.m_requestedFileDescriptors := by
      intro hmem
      have := hkeys id hmem
      omega
    have hnone : QMap.find s.m_requestedFileDescriptors id = none := by
      cases hf : QMap.find s.m_requestedFileDescriptors id with
      | none => rfl
      | some v => exact absurd (QMap.find_isSome_mem_keys _ _ _ hf) hnot
    refine ⟨hid1, by omega, hnot, hnone, hcounter, ?_, ?_, ?_, ?_⟩
    · rw [htable]; exact QMap.find_insert_self _ _ _
    · intro k hk
      rw [htable]; exact QMap.find_insert_ne _ _ _ _ hk
    · exact (JobsReachable.requested hreach hlt hreq).keys_le
    · intro d2 u id2 hvalid2 hlt2 hreq2
      obtain ⟨hid2, _, _⟩ := requestFile_valid hvalid2 hreq2
      rw [hq] at hlt2 hid2
      rw [Nat.mod_eq_of_lt (by omega)] at hid2
      omega

/-- Witness of C12: `queueDispatcher` differs from a new dispatcher only outside
the job table; there the avatar job gets the id 1, and an invalid descriptor
gets 0. -/
theorem requestFile_fresh_ids_witness :
    requestFile queueDispatcher {} = some (queueDispatcher, 0) ∧
    ∃ t, requestFile queueDispatcher avatarJob = some (t, 1) ∧
      QMap.find t.m_requestedFileDescriptors 1 = some avatarJob ∧
      t.m_fileRequestCounter = 1 := by
  have hreach : JobsReachable Externals.sample queueDispatcher :=
    JobsReachable.other JobsReachable.constructed rfl rfl
  have h := requestFile_fresh_ids Externals.sample queueDispatcher hreach
  refine ⟨h.2.1 {} rfl, ?_⟩
  obtain ⟨r, hr⟩ := Option.isSome_iff_exists.mp
    (h.2.2.1 avatarJob queueDispatcher 0 rfl rfl rfl)
  obtain ⟨t, id⟩ := r
  obtain ⟨hid, _, _, _, hcounter, hfind, _⟩ := h.2.2.2 avatarJob t id rfl (by decide) hr
  have hid1 : id = 1 := hid
  subst hid1
  exact ⟨t, hr, hfind, hcounter⟩

/-! ## Theorems: initialization requests are issued once -/

theorem and_step_eq_zero (n k : Nat) : n &&& 2 ^ k = 0 ↔ n.testBit k = false := by
  rw [Nat.and_two_pow]
  cases n.testBit k <;> simp

theorem IssuedOnce.rfl_issued (s : CTelegramDispatcher) : IssuedOnce s s :=
  fun _ => ⟨fun h => ⟨h, rfl⟩, Or.inl rfl⟩

theorem IssuedOnce.trans_issued {a b c : CTelegramDispatcher}
    (h1 : IssuedOnce a b) (h2 : IssuedOnce b c) : IssuedOnce a c := by
  intro k
  obtain ⟨h1a, h1b⟩ := h1 k
  obtain ⟨h2a, h2b⟩ := h2 k
  refine ⟨fun ha => ?_, ?_⟩
  · obtain ⟨hb, hc1⟩ := h1a ha
    obtain ⟨hc, hc2⟩ := h2a hb
    exact ⟨hc, hc2.trans hc1⟩
  · rcases h1b with h | ⟨h, hb⟩
    · rcases h2b with h' | ⟨h', hc⟩
      · exact Or.inl (h'.trans h)
      · exact Or.inr ⟨by omega, hc⟩
    · obtain ⟨hc, hc2⟩ := h2a hb
      exact Or.inr ⟨by omega, hc⟩

theorem IssuedOnce.of_eq {s t : CTelegramDispatcher}
    (hreq : t.m_requestedSteps = s.m_requestedSteps)
    (hmain : t.m_mainConnection = s.m_mainConnection) : IssuedOnce s t := by
  intro k
  have hcount : issuedCount t k = issuedCount s k := by
    unfold issuedCount; rw [hmain]
  exact ⟨fun h => ⟨by rw [hreq]; exact h, hcount⟩, Or.inl hcount⟩

theorem IssuedOnce.mark {s u : CTelegramDispatcher} (step : Nat) (h : IssuedOnce s u) :
    IssuedOnce s { u with m_requestedSteps := u.m_requestedSteps ||| step } := by
  intro k
  obtain ⟨ha, hb⟩ := h k
  refine ⟨fun hs => ⟨?_, (ha hs).2⟩, ?_⟩
  · show (u.m_requestedSteps ||| step).testBit k = true
    rw [Nat.testBit_or, (ha hs).1]; rfl
  · rcases hb with h | ⟨h, hu⟩
    · exact Or.inl h
    · refine Or.inr ⟨h, ?_⟩
      show (u.m_requestedSteps ||| step).testBit k = true
      rw [Nat.testBit_or, hu]; rfl

theorem callActive_issuedCount {s t : CTelegramDispatcher} {r : Request}
    (h : callActive s r = some t) (k : Nat) :
    issuedCount t k = issuedCount s k + if initRequestBit r = some k then 1 else 0 := by
  unfold callActive at h
  split at h
  · exact absurd h (by simp)
  · rename_i c hc
    obtain rfl := Option.some.inj h
    unfold issuedCount
    rw [hc]
    simp only [List.countP_append, List.countP_singleton, beq_iff_eq]

theorem requestMark_issued {s u : CTelegramDispatcher} {r : Request} {b : Nat} (step : Nat)
    (hstep : step = 2 ^ b) (hu : callActive s r = some u)
    (hbit : initRequestBit r = some b) (hclear : s.m_requestedSteps.testBit b = false) :
    IssuedOnce s { u with m_requestedSteps := u.m_requestedSteps ||| step } := by
  intro k
  have hcount := callActive_issuedCount hu k
  have hreq : u.m_requestedSteps = s.m_requestedSteps := (callActive_core hu).2.2
  have hcount' : issuedCount
      ({ u with m_requestedSteps := u.m_requestedSteps ||| step } : CTelegramDispatcher) k =
      issuedCount u k := rfl
  have hbit' : ({ u with m_requestedSteps := u.m_requestedSteps ||| step } :
      CTelegramDispatcher).m_requestedSteps.testBit k =
      (s.m_requestedSteps.testBit k || decide (b = k)) := by
    show (u.m_requestedSteps ||| step).testBit k = _
    rw [Nat.testBit_or, hreq, hstep, Nat.testBit_two_pow]
  rw [hcount', hbit', hcount, hbit]
  by_cases hk : b = k
  · subst hk
    simp [hclear]
  · have hne : ¬ (some b = some k) := fun h => hk (Option.some.inj h)
    simp [hk, hne]

theorem requestDcConfigurationStep_issued {s t : CTelegramDispatcher}
    (h : requestDcConfigurationStep s = some t) : IssuedOnce s t := by
  unfold requestDcConfigurationStep at h
  split_ifs at h with hc
  · obtain ⟨u, hu, rfl⟩ := Option.map_eq_some'.mp h
    exact requestMark_issued (b := 0) _ rfl hu rfl ((and_step_eq_zero _ 0).mp hc)
  · obtain rfl := Option.some.inj h
    exact IssuedOnce.rfl_issued _

theorem setConnectionState_issued (s : CTelegramDispatcher) (state : ConnectionState) :
    IssuedOnce s (setConnectionState s state) := by
  unfold setConnectionState
  split_ifs
  · exact IssuedOnce.rfl_issued _
  · exact IssuedOnce.of_eq rfl rfl

theorem reportDcConfigurationStep_issued {s t : CTelegramDispatcher} {justDone : Nat}
    (h : reportDcConfigurationStep s justDone = some t) : IssuedOnce s t := by
  unfold reportDcConfigurationStep at h
  split_ifs at h
  · obtain ⟨c, _, rfl⟩ := Option.map_eq_some'.mp h
    split_ifs
    · exact setConnectionState_issued _ _
    · exact setConnectionState_issued _ _
  · obtain rfl := Option.some.inj h
    exact IssuedOnce.rfl_issued _

theorem finishInitializationStep_issued {s t : CTelegramDispatcher}
    (h : finishInitializationStep s = some t) : IssuedOnce s t := by
  unfold finishInitializationStep at h
  split_ifs at h with h1 h2 h3
  · obtain rfl := Option.some.inj h
    exact IssuedOnce.trans_issued (setConnectionState_issued s .Ready) (IssuedOnce.of_eq rfl rfl)
  · obtain ⟨u, hu, rfl⟩ := Option.map_eq_some'.mp h
    unfold getUpdatesState at hu
    exact IssuedOnce.trans_issued
      (IssuedOnce.of_eq (t := { s with m_updatesStateIsLocked := true }) rfl rfl)
      (requestMark_issued (b := 5) _ rfl hu rfl ((and_step_eq_zero _ 5).mp h3))
  · obtain rfl := Option.some.inj h; exact IssuedOnce.rfl_issued _
  · obtain rfl := Option.some.inj h; exact IssuedOnce.rfl_issued _

theorem requestInitialData_issued
    {continueInit : CTelegramDispatcher → Nat → Option CTelegramDispatcher}
    {s4 : CTelegramDispatcher} {r : CTelegramDispatcher × Bool}
    (hrec : ∀ s1 t1, continueInit s1 StepChatInfo = some t1 → IssuedOnce s1 t1)
    (h : requestInitialData continueInit s4 = some r) :
    IssuedOnce s4 r.1 := by
  unfold requestInitialData at h
  by_cases hk : s4.m_requestedSteps &&& StepKnowSelf = 0
  · rw [if_pos hk] at h
    obtain ⟨u, hu, rfl⟩ := Option.map_eq_some'.mp h
    exact requestMark_issued (b := 2) _ rfl hu rfl ((and_step_eq_zero _ 2).mp hk)
  · rw [if_neg hk] at h
    obtain ⟨s5, h5, hrest⟩ := Option.bind_eq_some.mp h
    obtain ⟨s6, h6, rfl⟩ := Option.map_eq_some'.mp hrest
    have k5 : IssuedOnce s4 s5 := by
      split_ifs at h5 with hc
      · obtain ⟨u, hu, rfl⟩ := Option.map_eq_some'.mp h5
        exact requestMark_issued (b := 3) _ rfl hu rfl ((and_step_eq_zero _ 3).mp hc)
      · obtain rfl := Option.some.inj h5; exact IssuedOnce.rfl_issued _
    have k6 : IssuedOnce s5 s6 := by
      split_ifs at h6 with hc
      · obtain ⟨u, hu, rfl⟩ := Option.map_eq_some'.mp h6
        unfold getChatsInfo at hu
        split_ifs at hu
        · exact IssuedOnce.mark _ (hrec _ _ hu)
        · exact requestMark_issued (b := 4) _ rfl hu rfl ((and_step_eq_zero _ 4).mp hc)
      · obtain rfl := Option.some.inj h6; exact IssuedOnce.rfl_issued _
    exact IssuedOnce.trans_issued k5 k6

theorem signedInSteps_issued
    {continueInit : CTelegramDispatcher → Nat → Option CTelegramDispatcher}
    {s : CTelegramDispatcher} {r : CTelegramDispatcher × Bool}
    (hrec : ∀ s1 t1, continueInit s1 StepChatInfo = some t1 → IssuedOnce s1 t1)
    (h : signedInSteps continueInit s = some r) :
    IssuedOnce s r.1 := by
  unfold signedInSteps at h
  split_ifs at h with hc
  · obtain ⟨c, _, h⟩ := Option.bind_eq_some.mp h
    refine IssuedOnce.trans_issued ?_ (requestInitialData_issued hrec h)
    exact IssuedOnce.trans_issued (setConnectionState_issued s .Authenticated)
      (IssuedOnce.of_eq rfl rfl)
  · obtain rfl := Option.some.inj h
    exact IssuedOnce.rfl_issued _

theorem continueInitialization_issued :
    ∀ (depth : Nat) (s t : CTelegramDispatcher) (justDone : Nat),
      continueInitialization depth s justDone = some t → IssuedOnce s t := by
  intro depth
  induction depth with
  | zero => intro s t justDone h; simp [continueInitialization] at h
  | succ n ih =>
    intro s t justDone h
    unfold continueInitialization at h
    split_ifs at h with h0
    · obtain rfl := Option.some.inj h; exact IssuedOnce.rfl_issued _
    · obtain ⟨s2, h2, h⟩ := Option.bind_eq_some.mp h
      have k2 := requestDcConfigurationStep_issued h2
      have k1 : IssuedOnce s s2 := IssuedOnce.trans_issued (IssuedOnce.of_eq rfl rfl) k2
      split_ifs at h with hdc
      · obtain rfl := Option.some.inj h; exact k1
      · obtain ⟨s3, h3, h⟩ := Option.bind_eq_some.mp h
        have k3 := reportDcConfigurationStep_issued h3
        obtain ⟨r, hr, h⟩ := Option.bind_eq_some.mp h
        have k4 := signedInSteps_issued (fun s1 t1 hs => ih s1 t1 StepChatInfo hs) hr
        split_ifs at h
        · obtain rfl := Option.some.inj h
          exact IssuedOnce.trans_issued k1 (IssuedOnce.trans_issued k3 k4)
        · exact IssuedOnce.trans_issued k1 (IssuedOnce.trans_issued k3
            (IssuedOnce.trans_issued k4 (finishInitializationStep_issued h)))

theorem InitRun.issued {s t : CTelegramDispatcher} (h : InitRun s t) : IssuedOnce s t := by
  induction h with
  | start => exact IssuedOnce.rfl_issued _
  | call depth justDone _ hcall ih =>
    exact IssuedOnce.trans_issued ih (continueInitialization_issued _ _ _ _ hcall)
  | other _ hreq hcount ih =>
    refine IssuedOnce.trans_issued ih (fun k => ?_)
    exact ⟨fun h => ⟨by rw [hreq]; exact h, hcount k⟩, Or.inl (hcount k)⟩

theorem InitRun.prepend {s u t : CTelegramDispatcher} {depth justDone : Nat}
    (hu : continueInitialization depth s justDone = some u) (h : InitRun u t) : InitRun s t := by
  induction h with
  | start => exact InitRun.call depth justDone (InitRun.start _) hu
  | call d2 j2 _ hcall ih => exact InitRun.call d2 j2 ih hcall
  | other _ hreq hcount ih => exact InitRun.other ih hreq hcount

theorem runInitialization_run (depth : Nat) :
    ∀ (steps : List Nat) (s t : CTelegramDispatcher),
      runInitialization depth s steps = some t → InitRun s t := by
  intro steps
  induction steps with
  | nil =>
    intro s t h
    obtain rfl := Option.some.inj h
    exact InitRun.start _
  | cons j rest ih =>
    intro s t h
    unfold runInitialization at h
    obtain ⟨u, hu, h⟩ := Option.bind_eq_some.mp h
    exact InitRun.prepend hu (ih u t h)

/-- C13: over every run of the dispatcher that consists of calls of
`continueInitialization` with any arguments (the recursive call through
`getChatsInfo` is part of the call) and of operations that neither reset the
mask of requested steps nor touch the initialization requests of the main
connection, each initialization request - bit 0 `getConfiguration`, bit 2
`usersGetUsers`, bit 3 `contactsGetContacts`, bit 4 `messagesGetChats`, bit 5
`updatesGetState` - is issued at most once, and not at all when its bit was
already set in the mask of requested steps at the start. -/
theorem initialization_requests_issued_once (s t : CTelegramDispatcher)
    (hrun : InitRun s t) (k : Nat) :
    issuedCount t k ≤ issuedCount s k + 1 ∧
    (s.m_requestedSteps.testBit k = true → issuedCount t k = issuedCount s k) ∧
    (issuedCount s k < issuedCount t k → t.m_requestedSteps.testBit k = true) := by
  obtain ⟨ha, hb⟩ := hrun.issued k
  refine ⟨?_, fun h => (ha h).2, fun hlt => ?_⟩
  · rcases hb with h | ⟨h, _⟩ <;> omega
  · rcases hb with h | ⟨_, h⟩
    · omega
    · exact h

/-- Witness of C13: from the reset state, the calls for `StepFirst`,
`StepDcConfiguration`, `StepSignIn`, `StepKnowSelf`, `StepContactList`,
`StepFirst`, `StepUpdates` and again `StepSignIn` return, and afterwards each of
the five requests has been issued at most once. -/
theorem initialization_requests_issued_once_witness :
    ∃ t, runInitialization 3 resetDispatcher [0, 1, 2, 4, 8, 0, 32, 2] = some t ∧
      ∀ k, issuedCount t k ≤ issuedCount resetDispatcher k + 1 := by
  obtain ⟨t, ht⟩ := Option.isSome_iff_exists.mp
    (show (runInitialization 3 resetDispatcher [0, 1, 2, 4, 8, 0, 32, 2]).isSome = true by decide)
  exact ⟨t, ht, fun k =>
    (initialization_requests_issued_once resetDispatcher t (runInitialization_run 3 _ _ _ ht) k).1⟩

/-! ## Theorems: the completed steps and the state `Ready` -/

theorem Silent.rfl_silent (s : CTelegramDispatcher) : Silent s s := ⟨rfl, rfl, rfl, rfl⟩

theorem Silent.trans_silent {a b c : CTelegramDispatcher} (h1 : Silent a b) (h2 : Silent b c) :
    Silent a c :=
  ⟨h2.1.trans h1.1, h2.2.1.trans h1.2.1, h2.2.2.1.trans h1.2.2.1, h2.2.2.2.trans h1.2.2.2⟩

theorem callActive_silent {s t : CTelegramDispatcher} {r : Request}
    (h : callActive s r = some t) : Silent s t := by
  unfold callActive at h
  split at h
  · exact absurd h (by simp)
  · obtain rfl := Option.some.inj h
    exact ⟨rfl, rfl, rfl, rfl⟩

theorem mark_silent (u : CTelegramDispatcher) (step : Nat) (hstep : step.testBit 2 = false) :
    Silent u { u with m_requestedSteps := u.m_requestedSteps ||| step } := by
  refine ⟨rfl, rfl, rfl, ?_⟩
  show (u.m_requestedSteps ||| step).testBit 2 = _
  rw [Nat.testBit_or, hstep, Bool.or_false]

theorem requestMark_silent {s u : CTelegramDispatcher} {r : Request} (step : Nat)
    (hstep : step.testBit 2 = false) (h : callActive s r = some u) :
    Silent s { u with m_requestedSteps := u.m_requestedSteps ||| step } :=
  Silent.trans_silent (callActive_silent h) (mark_silent u step hstep)

theorem requestDcConfigurationStep_silent {s t : CTelegramDispatcher}
    (h : requestDcConfigurationStep s = some t) : Silent s t := by
  unfold requestDcConfigurationStep at h
  split_ifs at h
  · obtain ⟨u, hu, rfl⟩ := Option.map_eq_some'.mp h
    exact requestMark_silent _ (by decide) hu
  · obtain rfl := Option.some.inj h
    exact Silent.rfl_silent _

theorem setConnectionState_outcome (s : CTelegramDispatcher) (state : ConnectionState) :
    (setConnectionState s state).m_connectionState = state ∧
    (setConnectionState s state).m_initializationState = s.m_initializationState ∧
    (setConnectionState s state).m_requestedSteps = s.m_requestedSteps ∧
    (setConnectionState s state).emitted =
      s.emitted ++ (if s.m_connectionState = state then []
        else [Signal.connectionStateChanged state]) := by
  unfold setConnectionState
  split_ifs with h
  · exact ⟨h, rfl, rfl, by simp⟩
  · exact ⟨rfl, rfl, rfl, rfl⟩

theorem setConnectionState_no_ready (s : CTelegramDispatcher) (state : ConnectionState)
    (hstate : state ≠ .Ready) :
    ∃ e, (setConnectionState s state).emitted = s.emitted ++ e ∧
      Signal.connectionStateChanged .Ready ∉ e := by
  refine ⟨_, (setConnectionState_outcome s state).2.2.2, ?_⟩
  split_ifs
  · simp
  · simp only [List.mem_singleton, Signal.connectionStateChanged.injEq]
    exact fun h => hstate h.symm

theorem reportDcConfigurationStep_outcome {s t : CTelegramDispatcher} {justDone : Nat}
    (h : reportDcConfigurationStep s justDone = some t) :
    t.m_initializationState = s.m_initializationState ∧
    t.m_requestedSteps = s.m_requestedSteps ∧
    ∃ e, t.emitted = s.emitted ++ e ∧ Signal.connectionStateChanged .Ready ∉ e := by
  unfold reportDcConfigurationStep at h
  split_ifs at h
  · obtain ⟨c, _, rfl⟩ := Option.map_eq_some'.mp h
    split_ifs
    · exact ⟨(setConnectionState_outcome _ _).2.1, (setConnectionState_outcome _ _).2.2.1,
        setConnectionState_no_ready _ _ (by decide)⟩
    · exact ⟨(setConnectionState_outcome _ _).2.1, (setConnectionState_outcome _ _).2.2.1,
        setConnectionState_no_ready _ _ (by decide)⟩
  · obtain rfl := Option.some.inj h
    exact ⟨rfl, rfl, [], by simp, by simp⟩

theorem finishInitializationStep_outcome {s t : CTelegramDispatcher}
    (h : finishInitializationStep s = some t) :
    t.m_initializationState = s.m_initializationState ∧
    ((s.m_initializationState = StepDone ∧ t.m_connectionState = .Ready ∧
        t.emitted = s.emitted ++ (if s.m_connectionState = .Ready then []
          else [Signal.connectionStateChanged .Ready])) ∨
      (s.m_initializationState ≠ StepDone ∧ t.emitted = s.emitted ∧
        t.m_connectionState = s.m_connectionState)) := by
  unfold finishInitializationStep at h
  split_ifs at h with h1 h2 h3
  · obtain rfl := Option.some.inj h
    have ho := setConnectionState_outcome s .Ready
    exact ⟨ho.2.1, Or.inl ⟨h1, ho.1, ho.2.2.2⟩⟩
  · obtain ⟨u, hu, rfl⟩ := Option.map_eq_some'.mp h
    unfold getUpdatesState at hu
    have hs := callActive_silent hu
    exact ⟨hs.2.2.1, Or.inr ⟨h1, hs.1, hs.2.1⟩⟩
  · obtain rfl := Option.some.inj h
    exact ⟨rfl, Or.inr ⟨h1, rfl, rfl⟩⟩
  · obtain rfl := Option.some.inj h
    exact ⟨rfl, Or.inr ⟨h1, rfl, rfl⟩⟩

theorem finish_after_silent {s5 s6 t : CTelegramDispatcher} (hs : Silent s5 s6)
    (hconn : s5.m_connectionState = .Authenticated)
    (hfin : finishInitializationStep s6 = some t) :
    t.m_initializationState = s5.m_initializationState ∧
    ∃ new, t.emitted = s5.emitted ++ new ∧
      (Signal.connectionStateChanged .Ready ∈ new ↔ t.m_initializationState = StepDone) ∧
      (Signal.connectionStateChanged .Ready ∈ new → t.m_connectionState = .Ready) := by
  obtain ⟨hst, ho⟩ := finishInitializationStep_outcome hfin
  obtain ⟨hem, hc, hstate, _⟩ := hs
  refine ⟨hst.trans hstate, ?_⟩
  rcases ho with ⟨hdone, hready, hemit⟩ | ⟨hnot, hemit, _⟩
  · rw [hc, hconn, if_neg (by decide), hem] at hemit
    exact ⟨_, hemit, by simp [hst, hdone], fun _ => hready⟩
  · rw [hem] at hemit
    refine ⟨[], by simp [hemit], ?_, by simp⟩
    simp only [List.not_mem_nil, false_iff]
    rw [hst]; exact hnot

theorem chatInfoStep_outcome
    {continueInit : CTelegramDispatcher → Nat → Option CTelegramDispatcher}
    {s5 s6 t : CTelegramDispatcher}
    (hconn : s5.m_connectionState = .Authenticated)
    (hks : s5.m_requestedSteps.testBit 2 = true)
    (hrec : ∀ t1, continueInit s5 StepChatInfo = some t1 → InitOutcome s5 StepChatInfo t1)
    (h6 : (if s5.m_requestedSteps &&& StepChatInfo = 0
      then (getChatsInfo continueInit s5).map
        (fun t => { t with m_requestedSteps := t.m_requestedSteps ||| StepChatInfo })
      else some s5) = some s6)
    (hfin : finishInitializationStep s6 = some t) :
    (t.m_initializationState = s5.m_initializationState ∨
      t.m_initializationState = s5.m_initializationState ||| StepChatInfo) ∧
    ∃ new, t.emitted = s5.emitted ++ new ∧
      (Signal.connectionStateChanged .Ready ∈ new ↔ t.m_initializationState = StepDone) ∧
      (Signal.connectionStateChanged .Ready ∈ new → t.m_connectionState = .Ready) := by
  have hsilent : Silent s5 s6 →
      (t.m_initializationState = s5.m_initializationState ∨
        t.m_initializationState = s5.m_initializationState ||| StepChatInfo) ∧
      ∃ new, t.emitted = s5.emitted ++ new ∧
        (Signal.connectionStateChanged .Ready ∈ new ↔ t.m_initializationState = StepDone) ∧
        (Signal.connectionStateChanged .Ready ∈ new → t.m_connectionState = .Ready) := by
    intro hs
    obtain ⟨h1, h2⟩ := finish_after_silent hs hconn hfin
    exact ⟨Or.inl h1, h2⟩
  split_ifs at h6 with hc
  · obtain ⟨u, hu, rfl⟩ := Option.map_eq_some'.mp h6
    unfold getChatsInfo at hu
    split_ifs at hu
    · obtain ⟨hstate, hnothing, newI, hemI, hiff, hreadyI⟩ := hrec u hu
      have hustate : u.m_initializationState = s5.m_initializationState ||| StepChatInfo := by
        rcases hstate with h | h
        · exact h
        · rw [h, Nat.or_assoc, Nat.or_self]
      obtain ⟨hst, ho⟩ := finishInitializationStep_outcome hfin
      have hst' : t.m_initializationState = u.m_initializationState := hst
      refine ⟨Or.inr (hst'.trans hustate), ?_⟩
      rcases ho with ⟨hdone, hready, hemit⟩ | ⟨hnot, hemit, _⟩
      · have hdone' : u.m_initializationState = StepDone := hdone
        have hemit' : t.emitted = u.emitted ++
            (if u.m_connectionState = .Ready then []
              else [Signal.connectionStateChanged .Ready]) := hemit
        refine ⟨newI ++ (if u.m_connectionState = .Ready then []
              else [Signal.connectionStateChanged .Ready]), ?_, ?_, fun _ => hready⟩
        · rw [hemit', hemI, List.append_assoc]
        · rw [hst', hdone']
          simp only [iff_true, List.mem_append]
          by_cases hur : u.m_connectionState = .Ready
          · left
            refine hiff.mpr ⟨fun hn => ?_, hdone', hks⟩
            rw [hnothing hn, hconn] at hur
            exact absurd hur (by decide)
          · right
            rw [if_neg hur]
            exact List.mem_singleton.mpr rfl
      · have hnot' : u.m_initializationState ≠ StepDone := hnot
        have hemit' : t.emitted = u.emitted := hemit
        refine ⟨newI, by rw [hemit', hemI], ?_, ?_⟩
        · rw [hst']
          exact ⟨fun h => (hiff.mp h).2.1, fun h => absurd h hnot'⟩
        · intro h
          exact absurd (hiff.mp h).2.1 hnot'
    · exact hsilent (requestMark_silent _ (by decide) hu)
  · obtain rfl := Option.some.inj h6
    exact hsilent (Silent.rfl_silent _)

theorem continueInitialization_outcome :
    ∀ (depth : Nat) (s t : CTelegramDispatcher) (justDone : Nat),
      continueInitialization depth s justDone = some t → InitOutcome s justDone t := by
  intro depth
  induction depth with
  | zero => intro s t justDone h; simp [continueInitialization] at h
  | succ n ih =>
    intro s t justDone h
    unfold continueInitialization at h
    by_cases h0 : justDone ≠ 0 ∧
        (s.m_initializationState ||| justDone) = s.m_initializationState
    · rw [if_pos h0] at h
      obtain rfl := Option.some.inj h
      refine ⟨Or.inl h0.2.symm, fun _ => rfl, [], by simp, ?_, by simp⟩
      simp only [List.not_mem_nil, false_iff, not_and]
      intro hn
      exact absurd h0 hn
    · rw [if_neg h0] at h
      have hnew : ¬ NothingNew s justDone := h0
      obtain ⟨s2, h2, h⟩ := Option.bind_eq_some.mp h
      obtain ⟨hem2, hconn2, hst2, hks2⟩ := requestDcConfigurationStep_silent h2
      have hem2' : s2.emitted = s.emitted := hem2
      have hst2' : s2.m_initializationState = s.m_initializationState ||| justDone := hst2
      have hks2' : s2.m_requestedSteps.testBit 2 = s.m_requestedSteps.testBit 2 := hks2
      by_cases hdc : s2.m_initializationState &&& StepDcConfiguration = 0
      · rw [if_pos hdc] at h
        obtain rfl := Option.some.inj h
        refine ⟨Or.inl hst2', fun hn => absurd hn hnew, [], by simp [hem2'], ?_, by simp⟩
        simp only [List.not_mem_nil, false_iff, not_and]
        intro _ hdone
        rw [hdone] at hdc
        exact absurd hdc (by decide)
      · rw [if_neg hdc] at h
        obtain ⟨s3, h3, h⟩ := Option.bind_eq_some.mp h
        obtain ⟨hst3, hreq3, e3, hem3, hno3⟩ := reportDcConfigurationStep_outcome h3
        obtain ⟨r, hr, h⟩ := Option.bind_eq_some.mp h
        unfold signedInSteps at hr
        by_cases hsi : s3.m_initializationState &&& StepDcConfiguration ≠ 0 ∧
            s3.m_initializationState &&& StepSignIn ≠ 0
        · rw [if_pos hsi] at hr
          obtain ⟨c, _, hrd⟩ := Option.bind_eq_some.mp hr
          have ho4 := setConnectionState_outcome s3 .Authenticated
          obtain ⟨e4, hem4, hno4⟩ := setConnectionState_no_ready s3 .Authenticated (by decide)
          generalize hs4 : ({ setConnectionState s3 .Authenticated with
            m_deltaTime := c.deltaTime } : CTelegramDispatcher) = s4 at hrd
          have hconn4 : s4.m_connectionState = .Authenticated := by rw [← hs4]; exact ho4.1
          have hst4 : s4.m_initializationState = s.m_initializationState ||| justDone := by
            rw [← hs4]; exact ho4.2.1.trans (hst3.trans hst2')
          have hks4 : s4.m_requestedSteps.testBit 2 = s.m_requestedSteps.testBit 2 := by
            rw [← hs4]
            show (setConnectionState s3 .Authenticated).m_requestedSteps.testBit 2 = _
            rw [ho4.2.2.1, hreq3, hks2']
          have hem4' : s4.emitted = s.emitted ++ (e3 ++ e4) := by
            rw [← hs4]
            show (setConnectionState s3 .Authenticated).emitted = _
            rw [hem4, hem3, hem2', List.append_assoc]
          have hno34 : Signal.connectionStateChanged .Ready ∉ e3 ++ e4 := by
            simp only [List.mem_append, not_or]
            exact ⟨hno3, hno4⟩
          unfold requestInitialData at hrd
          by_cases hk : s4.m_requestedSteps &&& StepKnowSelf = 0
          · rw [if_pos hk] at hrd
            obtain ⟨u, hu, rfl⟩ := Option.map_eq_some'.mp hrd
            simp only [if_true, Option.some.injEq] at h
            subst h
            have hsu := callActive_silent hu
            have hkbit : s.m_requestedSteps.testBit 2 = false := by
              rw [← hks4]; exact (and_step_eq_zero _ 2).mp hk
            refine ⟨Or.inl (hsu.2.2.1.trans hst4), fun hn => absurd hn hnew, e3 ++ e4, ?_, ?_, ?_⟩
            · show u.emitted = _
              rw [hsu.1, hem4']
            · constructor
              · intro hmem; exact absurd hmem hno34
              · intro hr; rw [hkbit] at hr; exact absurd hr.2.2 (by decide)
            · intro hmem; exact absurd hmem hno34
          · rw [if_neg hk] at hrd
            obtain ⟨s5, h5, hrest⟩ := Option.bind_eq_some.mp hrd
            obtain ⟨s6, h6, rfl⟩ := Option.map_eq_some'.mp hrest
            simp only [Bool.false_eq_true, if_false] at h
            have k5 : Silent s4 s5 := by
              split_ifs at h5
              · obtain ⟨u, hu, rfl⟩ := Option.map_eq_some'.mp h5
                exact requestMark_silent _ (by decide) hu
              · obtain rfl := Option.some.inj h5; exact Silent.rfl_silent _
            have hkbit4 : s4.m_requestedSteps.testBit 2 = true := by
              cases hb : s4.m_requestedSteps.testBit 2
              · exact absurd ((and_step_eq_zero _ 2).mpr hb) hk
              · rfl
            obtain ⟨hstate, new, hemt, hiff, hready⟩ := chatInfoStep_outcome
              (k5.2.1.trans hconn4) (k5.2.2.2.trans hkbit4)
              (fun t1 ht1 => ih s5 t1 StepChatInfo ht1) h6 h
            rw [k5.2.2.1, hst4] at hstate
            refine ⟨hstate, fun hn => absurd hn hnew, e3 ++ e4 ++ new, ?_, ?_, ?_⟩
            · rw [hemt, k5.1, hem4', List.append_assoc]
            · rw [List.mem_append]
              constructor
              · rintro (hmem | hmem)
                · exact absurd hmem hno34
                · exact ⟨hnew, hiff.mp hmem, hks4 ▸ hkbit4⟩
              · intro hr
                exact Or.inr (hiff.mpr hr.2.1)
            · rw [List.mem_append]
              rintro (hmem | hmem)
              · exact absurd hmem hno34
              · exact hready hmem
        · rw [if_neg hsi] at hr
          obtain rfl := Option.some.inj hr
          simp only [Bool.false_eq_true, if_false] at h
          obtain ⟨hst, ho⟩ := finishInitializationStep_outcome h
          have hstt : t.m_initializationState = s.m_initializationState ||| justDone :=
            hst.trans (hst3.trans hst2')
          rcases ho with ⟨hdone, _, _⟩ | ⟨hnot, hemit, _⟩
          · rw [hdone] at hsi
            exact absurd hsi (by decide)
          · refine ⟨Or.inl hstt, fun hn => absurd hn hnew, e3, ?_, ?_, ?_⟩
            · rw [hemit, hem3, hem2']
            · constructor
              · intro hmem; exact absurd hmem hno3
              · intro hr
                rw [hst] at hr
                exact absurd hr.2.1 hnot
            · intro hmem; exact absurd hmem hno3

/-- C14 (as stated, refuted on two inputs). When every step but the DC
configuration is done and the know-self request has not been issued, the call
for `StepDcConfiguration` completes the mask (all six bits) but issues the
know-self request and returns: the connection state is `Authenticated`, not
`Ready`. When the steps DcConfiguration, SignIn, KnowSelf and ContactList are
done, the chat list is empty and the chats have not been requested, the call for
`StepUpdates` gives a mask that lacks `StepChatInfo`, yet the recursion through
`getChatsInfo` completes the mask and the state `Ready` is signalled. -/
theorem ready_not_iff_mask_after_adding_step :
    (configurationLastDispatcher.m_initializationState ||| StepDcConfiguration = StepDone ∧
      (continueInitialization 3 configurationLastDispatcher StepDcConfiguration).map
          (fun t => (t.m_initializationState, t.m_connectionState, t.emitted)) =
        some (63, .Authenticated,
          [Signal.connectionStateChanged .AuthRequired,
           Signal.connectionStateChanged .Authenticated])) ∧
    (chatsPendingDispatcher.m_initializationState ||| StepUpdates ≠ StepDone ∧
      (continueInitialization 3 chatsPendingDispatcher StepUpdates).map
          (fun t => (t.m_initializationState, t.m_connectionState, t.emitted)) =
        some (63, .Ready,
          [Signal.connectionStateChanged .Authenticated,
           Signal.connectionStateChanged .Ready])) := by
  refine ⟨⟨by decide, rfl⟩, ⟨by decide, rfl⟩⟩

/-- C14 (amended): for a dispatcher with a main connection,
`continueInitialization(step)` returns; the mask of completed steps afterwards
is the old mask with `step` added, or with `step` and `StepChatInfo` added (the
recursion through `getChatsInfo`), so bits are only added; a call whose
non-zero step is already in the mask changes nothing and issues nothing; and the
call signals the connection state `Ready` (which is then the connection state)
if and only if it is not such a call, the mask after the call is `StepDone` (all
six bits and no other), and the know-self request had been issued before the
call. In particular a call that is not such a call, that makes the mask
`StepDone` by adding `step`, with the know-self request issued, signals
`Ready`. -/
theorem continueInitialization_ready_iff (n : Nat) (s : CTelegramDispatcher) (justDone : Nat)
    (hmain : s.m_mainConnection.isSome = true) :
    ∃ t new, continueInitialization (n + 3) s justDone = some t ∧
      (t.m_initializationState = s.m_initializationState ||| justDone ∨
        t.m_initializationState = s.m_initializationState ||| justDone ||| StepChatInfo) ∧
      s.m_initializationState ||| t.m_initializationState = t.m_initializationState ∧
      (justDone ≠ 0 ∧ s.m_initializationState ||| justDone = s.m_initializationState → t = s) ∧
      t.emitted = s.emitted ++ new ∧
      (Signal.connectionStateChanged .Ready ∈ new ↔
        ¬ (justDone ≠ 0 ∧ s.m_initializationState ||| justDone = s.m_initializationState) ∧
          t.m_initializationState = StepDone ∧ s.m_requestedSteps &&& StepKnowSelf ≠ 0) ∧
      (Signal.connectionStateChanged .Ready ∈ new → t.m_connectionState = .Ready) ∧
      (¬ (justDone ≠ 0 ∧ s.m_initializationState ||| justDone = s.m_initializationState) →
        s.m_initializationState ||| justDone = StepDone →
        s.m_requestedSteps &&& StepKnowSelf ≠ 0 →
        Signal.connectionStateChanged .Ready ∈ new) := by
  obtain ⟨t, ht⟩ := Option.isSome_iff_exists.mp (continueInitialization_isSome n s justDone hmain)
  obtain ⟨hstate, hnothing, new, hem, hiff, hready⟩ :=
    continueInitialization_outcome _ _ _ _ ht
  have hks : s.m_requestedSteps &&& StepKnowSelf ≠ 0 ↔ s.m_requestedSteps.testBit 2 = true := by
    have h := and_step_eq_zero s.m_requestedSteps 2
    constructor
    · intro hne
      cases hb : s.m_requestedSteps.testBit 2
      · exact absurd (h.mpr hb) hne
      · rfl
    · intro hb hz
      rw [h.mp hz] at hb
      exact absurd hb (by decide)
  have hiff' : Signal.connectionStateChanged .Ready ∈ new ↔
      ¬ (justDone ≠ 0 ∧ s.m_initializationState ||| justDone = s.m_initializationState) ∧
        t.m_initializationState = StepDone ∧ s.m_requestedSteps &&& StepKnowSelf ≠ 0 := by
    rw [hks]; exact hiff
  refine ⟨t, new, ht, hstate, ?_, hnothing, hem, hiff', hready, ?_⟩
  · rcases hstate with h | h
    · rw [h, ← Nat.or_assoc, Nat.or_self]
    · rw [h, ← Nat.or_assoc, ← Nat.or_assoc, Nat.or_self]
  · intro hnew hdone hk
    refine hiff'.mpr ⟨hnew, ?_, hk⟩
    rcases hstate with h | h
    · rw [h, hdone]
    · rw [h, hdone]; rfl

/-- Witness of C14: with the first five steps done and every request issued,
the call for `StepUpdates` signals `Ready`. -/
theorem continueInitialization_ready_iff_witness :
    ∃ t new, continueInitialization 3 updatesPendingDispatcher StepUpdates = some t ∧
      t.emitted = updatesPendingDispatcher.emitted ++ new ∧
      Signal.connectionStateChanged .Ready ∈ new ∧ t.m_connectionState = .Ready ∧
      t.m_initializationState = StepDone := by
  obtain ⟨t, new, ht, _, _, _, hem, hiff, hready, hdone⟩ :=
    continueInitialization_ready_iff 0 updatesPendingDispatcher StepUpdates rfl
  have hmem := hdone (by decide) (by decide) (by decide)
  exact ⟨t, new, ht, hem, hmem, hready hmem, (hiff.mp hmem).2.1⟩

/-! ## Theorems: the next DC address -/

theorem int32Wrap_eq (x : Int) (h1 : -2147483648 ≤ x) (h2 : x < 2147483648) :
    int32Wrap x = x := by
  unfold int32Wrap
  omega

theorem clearMainConnection_fields (s : CTelegramDispatcher) :
    (clearMainConnection s).deletedLater = s.deletedLater ++ s.m_mainConnection.toList ∧
    (clearMainConnection s).m_autoConnectionDcIndex = s.m_autoConnectionDcIndex ∧
    (clearMainConnection s).m_deltaTime = s.m_deltaTime ∧
    (clearMainConnection s).m_connectionState = s.m_connectionState ∧
    (clearMainConnection s).emitted = s.emitted ∧
    (clearMainConnection s).m_wantedActiveDc = s.m_wantedActiveDc ∧
    (clearMainConnection s).m_extraConnections = s.m_extraConnections := by
  unfold clearMainConnection
  cases s.m_mainConnection with
  | none => simp
  | some c => simp

theorem initConnectionSharedFinal_fields (s : CTelegramDispatcher) (c : CTelegramConnection)
    (hmain : s.m_mainConnection = some c) :
    ∃ t, initConnectionSharedFinal s = some t ∧
      t.m_mainConnection = some { c with requests := c.requests ++ [.connectToDc] } ∧
      t.m_autoConnectionDcIndex = s.m_autoConnectionDcIndex ∧
      t.deletedLater = s.deletedLater ∧
      t.m_connectionState = .Connecting ∧
      t.m_initializationState = StepFirst ∧ t.m_requestedSteps = 0 ∧
      t.m_updatesStateIsLocked = false ∧
      t.m_updatesState = s.m_updatesState ∧ t.m_chatIds = s.m_chatIds ∧
      t.m_deltaTime = s.m_deltaTime := by
  unfold initConnectionSharedFinal callActive setConnectionState
  by_cases hconn : s.m_connectionState = .Connecting
  · simp [hconn, hmain]
  · simp [hconn, hmain, emit]

/-- C15: for a non-empty address list of length `n` and an index `i >= -1`
(below the largest `int`), `tryNextDcAddress` returns; if `i + 1 < n` the index
becomes `i + 1`, the old main connection is handed to `deleteLater()` and a new
main connection to the address at `i + 1` is created and told to connect; if
`i + 1 >= n` and auto-reconnection is enabled the same happens with the index 0
and the address at 0; if `i + 1 >= n` and auto-reconnection is disabled the
connection state becomes `Disconnected` and the connections are left as they
are. In the first two cases the address is read at an index within `[0, n)`. -/
theorem tryNextDcAddress_spec (s : CTelegramDispatcher)
    (hne : s.m_connectionAddresses ≠ [])
    (hi : -1 ≤ s.m_autoConnectionDcIndex) (hmax : s.m_autoConnectionDcIndex < 2147483647) :
    (s.m_autoConnectionDcIndex + 1 < (s.m_connectionAddresses.length : Int) →
      ∃ a t, QVector.at s.m_connectionAddresses (s.m_autoConnectionDcIndex + 1) = some a ∧
        tryNextDcAddress s = some t ∧
        t.m_autoConnectionDcIndex = s.m_autoConnectionDcIndex + 1 ∧
        0 ≤ t.m_autoConnectionDcIndex ∧
        t.m_autoConnectionDcIndex < (s.m_connectionAddresses.length : Int) ∧
        t.m_mainConnection = some { dcInfo := { ipAddress := a.address, port := a.port },
                                    deltaTime := s.m_deltaTime, requests := [.connectToDc] } ∧
        t.deletedLater = s.deletedLater ++ s.m_mainConnection.toList ∧
        t.m_connectionState = .Connecting) ∧
    ((s.m_connectionAddresses.length : Int) ≤ s.m_autoConnectionDcIndex + 1 →
      s.m_autoReconnectionEnabled = true →
      ∃ a t, QVector.at s.m_connectionAddresses 0 = some a ∧
        tryNextDcAddress s = some t ∧
        t.m_autoConnectionDcIndex = 0 ∧
        (0 : Int) < (s.m_connectionAddresses.length : Int) ∧
        t.m_mainConnection = some { dcInfo := { ipAddress := a.address, port := a.port },
                                    deltaTime := s.m_deltaTime, requests := [.connectToDc] } ∧
        t.deletedLater = s.deletedLater ++ s.m_mainConnection.toList ∧
        t.m_connectionState = .Connecting) ∧
    ((s.m_connectionAddresses.length : Int) ≤ s.m_autoConnectionDcIndex + 1 →
      s.m_autoReconnectionEnabled = false →
      ∃ t, tryNextDcAddress s = some t ∧
        t.m_connectionState = .Disconnected ∧
        t.m_mainConnection = s.m_mainConnection ∧
        t.m_extraConnections = s.m_extraConnections ∧
        t.deletedLater = s.deletedLater) := by
  have hwrap : int32Wrap (s.m_autoConnectionDcIndex + 1) = s.m_autoConnectionDcIndex + 1 :=
    int32Wrap_eq _ (by omega) (by omega)
  have hempty : s.m_connectionAddresses.isEmpty = false := by
    cases h : s.m_connectionAddresses with
    | nil => exact absurd h hne
    | cons a rest => rfl
  have hpos : 0 < s.m_connectionAddresses.length := List.length_pos.mpr hne
  have htail : ∀ (s2 : CTelegramDispatcher) (a : DcOption),
      s2.m_deltaTime = s.m_deltaTime → s2.deletedLater = s.deletedLater →
      s2.m_mainConnection = s.m_mainConnection →
      ∃ t, initConnectionSharedFinal
          { clearMainConnection s2 with
            m_mainConnection := some (createConnection (clearMainConnection s2)
              { ipAddress := a.address, port := a.port }) } = some t ∧
        t.m_autoConnectionDcIndex = s2.m_autoConnectionDcIndex ∧
        t.m_mainConnection = some { dcInfo := { ipAddress := a.address, port := a.port },
                                    deltaTime := s.m_deltaTime, requests := [.connectToDc] } ∧
        t.deletedLater = s.deletedLater ++ s.m_mainConnection.toList ∧
        t.m_connectionState = .Connecting := by
    intro s2 a hdt hdel hm
    obtain ⟨hcd, hci, hct, _⟩ := clearMainConnection_fields s2
    obtain ⟨t, ht, htm, hti, htd, htc, _⟩ := initConnectionSharedFinal_fields
      { clearMainConnection s2 with
        m_mainConnection := some (createConnection (clearMainConnection s2)
          { ipAddress := a.address, port := a.port }) } _ rfl
    refine ⟨t, ht, hti.trans hci, ?_, ?_, htc⟩
    · rw [htm]
      unfold createConnection
      rw [hct, hdt]
      rfl
    · rw [htd]
      show (clearMainConnection s2).deletedLater = _
      rw [hcd, hdel, hm]
  refine ⟨?_, ?_, ?_⟩
  · intro hlt
    have hidx : (s.m_autoConnectionDcIndex + 1).toNat < s.m_connectionAddresses.length := by
      omega
    have hat : QVector.at s.m_connectionAddresses (s.m_autoConnectionDcIndex + 1) =
        some (s.m_connectionAddresses[(s.m_autoConnectionDcIndex + 1).toNat]) := by
      unfold QVector.at
      rw [if_neg (by omega), List.getElem?_eq_getElem hidx]
    obtain ⟨t, ht, hti, htm, htd, htc⟩ := htail
      { s with m_autoConnectionDcIndex := s.m_autoConnectionDcIndex + 1 }
      (s.m_connectionAddresses[(s.m_autoConnectionDcIndex + 1).toNat]) rfl rfl rfl
    refine ⟨_, t, hat, ?_, hti, ?_, ?_, htm, htd, htc⟩
    · unfold tryNextDcAddress
      rw [hempty]
      simp only [Bool.false_eq_true, if_false, hwrap, ge_iff_le]
      rw [if_neg (by omega)]
      simp only [hat, Option.some_bind]
      exact ht
    · rw [hti]; show 0 ≤ s.m_autoConnectionDcIndex + 1; omega
    · rw [hti]; exact hlt
  · intro hge hauto
    have hat : QVector.at s.m_connectionAddresses 0 = some (s.m_connectionAddresses[0]) := by
      unfold QVector.at
      rw [if_neg (by omega)]
      exact List.getElem?_eq_getElem hpos
    obtain ⟨t, ht, hti, htm, htd, htc⟩ := htail
      { s with m_autoConnectionDcIndex := 0 } (s.m_connectionAddresses[0]) rfl rfl rfl
    refine ⟨_, t, hat, ?_, hti, by omega, htm, htd, htc⟩
    unfold tryNextDcAddress
    rw [hempty]
    simp only [Bool.false_eq_true, if_false, hwrap, ge_iff_le]
    rw [if_pos hge, if_pos hauto]
    simp only [hat, Option.some_bind]
    exact ht
  · intro hge hauto
    refine ⟨setConnectionState
      { s with m_autoConnectionDcIndex := s.m_autoConnectionDcIndex + 1 } .Disconnected,
      ?_, (setConnectionState_outcome _ _).1, ?_, ?_, ?_⟩
    · unfold tryNextDcAddress
      rw [hempty]
      simp only [Bool.false_eq_true, if_false, hwrap, ge_iff_le]
      rw [if_pos hge, if_neg (by simp [hauto])]
    · unfold setConnectionState; split_ifs <;> rfl
    · unfold setConnectionState; split_ifs <;> rfl
    · unfold setConnectionState; split_ifs <;> rfl

/-- Witness of C15: with the five built-in addresses and the index 1 the next
address is the one at index 2; with the index 4 and auto-reconnection enabled it
is the one at index 0. -/
theorem tryNextDcAddress_spec_witness :
    (∃ a t, QVector.at s_builtInDcs 2 = some a ∧ tryNextDcAddress connectingDispatcher = some t ∧
      t.m_autoConnectionDcIndex = 2 ∧
      t.m_mainConnection = some { dcInfo := { ipAddress := a.address, port := a.port },
                                  requests := [.connectToDc] }) ∧
    (∃ a t, QVector.at s_builtInDcs 0 = some a ∧
      tryNextDcAddress { connectingDispatcher with
        m_autoConnectionDcIndex := 4, m_autoReconnectionEnabled := true } = some t ∧
      t.m_autoConnectionDcIndex = 0 ∧
      t.m_mainConnection = some { dcInfo := { ipAddress := a.address, port := a.port },
                                  requests := [.connectToDc] }) := by
  constructor
  · obtain ⟨a, t, ha, ht, hi, _, _, hm, _⟩ :=
      (tryNextDcAddress_spec connectingDispatcher (by decide) (by decide) (by decide)).1
        (by decide)
    exact ⟨a, t, ha, ht, hi, hm⟩
  · obtain ⟨a, t, ha, ht, hi, _, hm, _⟩ :=
      (tryNextDcAddress_spec { connectingDispatcher with
        m_autoConnectionDcIndex := 4, m_autoReconnectionEnabled := true }
        (by decide) (by decide) (by decide)).2.1 (by decide) rfl
    exact ⟨a, t, ha, ht, hi, hm⟩

/-! ## Theorems: migration of the main connection -/

theorem dcInfoById_id (s : CTelegramDispatcher) (dc : Nat)
    (h : (dcInfoById s dc).ipAddress.isEmpty = false) : (dcInfoById s dc).id = dc := by
  unfold dcInfoById at h ⊢
  cases hf : s.m_dcConfiguration.find? (fun option => decide (option.id = dc)) with
  | none =>
    rw [hf] at h
    exact absurd h (by decide)
  | some o =>
    have := List.find?_some hf
    simpa using this

theorem dcInfoById_config_nonempty (s : CTelegramDispatcher) (dc : Nat)
    (h : (dcInfoById s dc).ipAddress.isEmpty = false) : s.m_dcConfiguration.isEmpty = false := by
  cases hc : s.m_dcConfiguration with
  | nil =>
    unfold dcInfoById at h
    rw [hc] at h
    simp only [List.find?_nil, Option.getD_none] at h
    exact absurd h (by decide)
  | cons a rest => rfl

theorem getExtraConnection_known (s : CTelegramDispatcher) (dc : Nat)
    (hmain : s.m_mainConnection.isSome = true)
    (hknown : (indexOfDc s.m_extraConnections dc).isSome = true ∨
      (dcInfoById s dc).ipAddress.isEmpty = false) :
    ∃ t i, getExtraConnection s dc = some (t, some i) := by
  unfold getExtraConnection
  cases hi : indexOfDc s.m_extraConnections dc with
  | some j => exact ⟨_, _, rfl⟩
  | none =>
    rw [hi] at hknown
    have hk : (dcInfoById s dc).ipAddress.isEmpty = false := by
      rcases hknown with h | h
      · exact absurd h (by simp)
      · exact h
    dsimp only
    rw [if_neg (by simp [hk])]
    obtain ⟨active, hactive⟩ := Option.isSome_iff_exists.mp hmain
    rw [hactive]
    exact ⟨_, _, rfl⟩

theorem callActive_migrationView {s t : CTelegramDispatcher} {r : Request}
    (h : callActive s r = some t) (hr : r.reissues = false) :
    migrationView t = migrationView s := by
  unfold callActive at h
  split at h
  · exact absurd h (by simp)
  · rename_i c hc
    obtain rfl := Option.some.inj h
    simp [migrationView, reissueLog, hc, List.filter_append, hr]

theorem setConnectionState_migrationView (s : CTelegramDispatcher) (state : ConnectionState) :
    migrationView (setConnectionState s state) = migrationView s := by
  unfold setConnectionState
  split_ifs
  · rfl
  · rfl

theorem requestDcConfigurationStep_migrationView {s t : CTelegramDispatcher}
    (h : requestDcConfigurationStep s = some t) : migrationView t = migrationView s := by
  unfold requestDcConfigurationStep at h
  split_ifs at h
  · obtain ⟨u, hu, rfl⟩ := Option.map_eq_some'.mp h
    exact (callActive_migrationView hu rfl :)
  · obtain rfl := Option.some.inj h; rfl

theorem reportDcConfigurationStep_migrationView {s t : CTelegramDispatcher} {justDone : Nat}
    (h : reportDcConfigurationStep s justDone = some t) : migrationView t = migrationView s := by
  unfold reportDcConfigurationStep at h
  split_ifs at h
  · obtain ⟨c, _, rfl⟩ := Option.map_eq_some'.mp h
    split_ifs <;> exact setConnectionState_migrationView _ _
  · obtain rfl := Option.some.inj h; rfl

theorem finishInitializationStep_migrationView {s t : CTelegramDispatcher}
    (h : finishInitializationStep s = some t) : migrationView t = migrationView s := by
  unfold finishInitializationStep at h
  split_ifs at h
  · obtain rfl := Option.some.inj h
    exact (setConnectionState_migrationView s .Ready :)
  · obtain ⟨u, hu, rfl⟩ := Option.map_eq_some'.mp h
    unfold getUpdatesState at hu
    exact (callActive_migrationView hu rfl :)
  · obtain rfl := Option.some.inj h; rfl
  · obtain rfl := Option.some.inj h; rfl

theorem requestInitialData_migrationView
    {continueInit : CTelegramDispatcher → Nat → Option CTelegramDispatcher}
    {s4 : CTelegramDispatcher} {r : CTelegramDispatcher × Bool}
    (hrec : ∀ s1 t1, continueInit s1 StepChatInfo = some t1 → migrationView t1 = migrationView s1)
    (h : requestInitialData continueInit s4 = some r) :
    migrationView r.1 = migrationView s4 := by
  unfold requestInitialData at h
  by_cases hk : s4.m_requestedSteps &&& StepKnowSelf = 0
  · rw [if_pos hk] at h
    obtain ⟨u, hu, rfl⟩ := Option.map_eq_some'.mp h
    exact (callActive_migrationView hu rfl :)
  · rw [if_neg hk] at h
    obtain ⟨s5, h5, hrest⟩ := Option.bind_eq_some.mp h
    obtain ⟨s6, h6, rfl⟩ := Option.map_eq_some'.mp hrest
    have k5 : migrationView s5 = migrationView s4 := by
      split_ifs at h5
      · obtain ⟨u, hu, rfl⟩ := Option.map_eq_some'.mp h5
        exact (callActive_migrationView hu rfl :)
      · obtain rfl := Option.some.inj h5; rfl
    have k6 : migrationView s6 = migrationView s5 := by
      split_ifs at h6
      · obtain ⟨u, hu, rfl⟩ := Option.map_eq_some'.mp h6
        show migrationView u = _
        unfold getChatsInfo at hu
        split_ifs at hu
        · exact hrec _ _ hu
        · exact (callActive_migrationView hu rfl :)
      · obtain rfl := Option.some.inj h6; rfl
    exact k6.trans k5

theorem signedInSteps_migrationView
    {continueInit : CTelegramDispatcher → Nat → Option CTelegramDispatcher}
    {s : CTelegramDispatcher} {r : CTelegramDispatcher × Bool}
    (hrec : ∀ s1 t1, continueInit s1 StepChatInfo = some t1 → migrationView t1 = migrationView s1)
    (h : signedInSteps continueInit s = some r) :
    migrationView r.1 = migrationView s := by
  unfold signedInSteps at h
  split_ifs at h with hc
  · obtain ⟨c, _, h⟩ := Option.bind_eq_some.mp h
    have k1 := requestInitialData_migrationView hrec h
    have k1' : migrationView r.1 = migrationView (setConnectionState s .Authenticated) := k1
    exact k1'.trans (setConnectionState_migrationView s .Authenticated)
  · obtain rfl := Option.some.inj h; rfl

theorem continueInitialization_migrationView :
    ∀ (depth : Nat) (s t : CTelegramDispatcher) (justDone : Nat),
      continueInitialization depth s justDone = some t → migrationView t = migrationView s := by
  intro depth
  induction depth with
  | zero => intro s t justDone h; simp [continueInitialization] at h
  | succ n ih =>
    intro s t justDone h
    unfold continueInitialization at h
    split_ifs at h with h0
    · obtain rfl := Option.some.inj h; rfl
    · obtain ⟨s2, h2, h⟩ := Option.bind_eq_some.mp h
      have k2' := requestDcConfigurationStep_migrationView h2
      have k2 : migrationView s2 = migrationView s := k2'
      split_ifs at h with hdc
      · obtain rfl := Option.some.inj h; exact k2
      · obtain ⟨s3, h3, h⟩ := Option.bind_eq_some.mp h
        have k3 := reportDcConfigurationStep_migrationView h3
        obtain ⟨r, hr, h⟩ := Option.bind_eq_some.mp h
        have k4 := signedInSteps_migrationView (fun s1 t1 hs => ih s1 t1 StepChatInfo hs) hr
        split_ifs at h
        · obtain rfl := Option.some.inj h
          exact k4.trans (k3.trans k2)
        · exact (finishInitializationStep_migrationView h).trans (k4.trans (k3.trans k2))

theorem processDelayedPackages_main :
    ∀ (datas : List QByteArray) (s : CTelegramDispatcher) (c : CTelegramConnection),
      s.m_mainConnection = some c →
      processDelayedPackages .main s datas =
        some { s with
               m_mainConnection :=
                 some { c with
                        requests := c.requests ++ datas.map Request.processRedirectedPackage } } := by
  intro datas
  induction datas with
  | nil =>
    intro s c hc
    unfold processDelayedPackages
    rw [List.map_nil, connection_requests_append_nil, ← hc]
  | cons data rest ih =>
    intro s c hc
    unfold processDelayedPackages
    have h1 : callOn s .main (.processRedirectedPackage data) =
        some { s with
               m_mainConnection :=
                 some { c with requests := c.requests ++ [.processRedirectedPackage data] } } := by
      simp [callOn, callActive, hc]
    rw [h1, Option.some_bind, ih _ _ rfl]
    simp [List.append_assoc]

theorem reissueLog_append_redirected (c : CTelegramConnection) (datas : List QByteArray) :
    reissueLog { c with requests := c.requests ++ datas.map Request.processRedirectedPackage } =
      reissueLog c ++ datas.map Request.processRedirectedPackage := by
  unfold reissueLog
  rw [List.filter_append]
  congr 1
  rw [List.filter_eq_self]
  intro r hr
  obtain ⟨d, _, rfl⟩ := List.mem_map.mp hr
  rfl

theorem delayedPackages_none_of_dc (l : List (Nat × QByteArray)) (dc : Nat)
    (h : ¬ l.any (fun p => decide (p.1 = dc)) = true) :
    l.filter (fun p => decide (p.1 = dc)) = [] ∧
      l.filter (fun p => !decide (p.1 = dc)) = l := by
  simp only [List.any_eq_true, decide_eq_true_eq, not_exists, not_and] at h
  constructor
  · rw [List.filter_eq_nil_iff]
    intro p hp
    simpa using h p hp
  · rw [List.filter_eq_self]
    intro p hp
    simpa using h p hp

theorem replayDelayed_main (s : CTelegramDispatcher) (dc : Nat)
    (hmain : s.m_mainConnection.isSome = true) :
    ∃ t, (if s.m_delayedPackages.any (fun p => decide (p.1 = dc)) then
        (processDelayedPackages .main s
          ((s.m_delayedPackages.filter (fun p => decide (p.1 = dc))).map Prod.snd)).map
          (fun t => { t with m_delayedPackages :=
                               t.m_delayedPackages.filter (fun p => !decide (p.1 = dc)) })
       else some s) = some t ∧
      migrationView t =
        (s.m_delayedPackages.filter (fun p => !decide (p.1 = dc)), s.m_extraConnections,
          s.m_mainConnection.map (fun c => reissueLog c ++ delayedCalls s dc)) := by
  obtain ⟨c, hc⟩ := Option.isSome_iff_exists.mp hmain
  by_cases hany : s.m_delayedPackages.any (fun p => decide (p.1 = dc)) = true
  · rw [if_pos hany, processDelayedPackages_main _ s c hc]
    refine ⟨_, rfl, ?_⟩
    unfold migrationView
    simp only [Option.map_some', hc]
    rw [reissueLog_append_redirected]
    rfl
  · rw [if_neg hany]
    obtain ⟨h1, h2⟩ := delayedPackages_none_of_dc _ dc hany
    refine ⟨s, rfl, ?_⟩
    unfold migrationView delayedCalls
    rw [h1, h2, hc]
    simp

theorem migrationView_isSome {s t : CTelegramDispatcher}
    (h : migrationView t = migrationView s) :
    t.m_mainConnection.isSome = s.m_mainConnection.isSome := by
  unfold migrationView at h
  have h3 := congrArg (fun v => v.2.2.isSome) h
  simpa using h3

theorem onConnectionAuthChanged_main_replays (depth : Nat) (u : CTelegramDispatcher)
    (newState : AuthState) (dc : Nat) (hmain : u.m_mainConnection.isSome = true)
    (hstate : newState ≠ .AuthStateNone) :
    ∃ t, onConnectionAuthChanged (depth + 3) u (some .main) newState dc = some t ∧
      migrationView t =
        (u.m_delayedPackages.filter (fun p => !decide (p.1 = dc)), u.m_extraConnections,
          u.m_mainConnection.map (fun c => reissueLog c ++ delayedCalls u dc)) := by
  have hfirst : ∃ s1, (if newState = .AuthStateSignedIn
        then continueInitialization (depth + 3) u StepSignIn
        else if newState = .AuthStateHaveAKey then continueInitialization (depth + 3) u StepFirst
        else some u) = some s1 ∧ migrationView s1 = migrationView u := by
    split_ifs
    · obtain ⟨s1, h1⟩ := Option.isSome_iff_exists.mp
        (continueInitialization_isSome depth u StepSignIn hmain)
      exact ⟨s1, h1, continueInitialization_migrationView _ _ _ _ h1⟩
    · obtain ⟨s1, h1⟩ := Option.isSome_iff_exists.mp
        (continueInitialization_isSome depth u StepFirst hmain)
      exact ⟨s1, h1, continueInitialization_migrationView _ _ _ _ h1⟩
    · exact ⟨u, rfl, rfl⟩
  obtain ⟨s1, h1, v1⟩ := hfirst
  have hmain1 : s1.m_mainConnection.isSome = true := by
    rw [migrationView_isSome v1]; exact hmain
  obtain ⟨s2, h2, v2⟩ := replayDelayed_main s1 dc hmain1
  have hmain2 : s2.m_mainConnection.isSome = true := by
    have := congrArg (fun v => v.2.2.isSome) v2
    simp only [migrationView, Option.isSome_map'] at this
    rw [this]; exact hmain1
  obtain ⟨t, h3⟩ := Option.isSome_iff_exists.mp
    (continueInitialization_isSome depth s2 StepFirst hmain2)
  have v3 := continueInitialization_migrationView _ _ _ _ h3
  refine ⟨t, ?_, ?_⟩
  · unfold onConnectionAuthChanged
    simp only [if_true]
    rw [h1, Option.some_bind, if_pos hstate, h2, Option.some_bind, h3]
  · rw [v3, v2]
    have e1 : s1.m_delayedPackages = u.m_delayedPackages := congrArg (fun v => v.1) v1
    have e2 : s1.m_extraConnections = u.m_extraConnections := congrArg (fun v => v.2.1) v1
    have e3 : s1.m_mainConnection.map reissueLog = u.m_mainConnection.map reissueLog :=
      congrArg (fun v => v.2.2) v1
    have e4 : delayedCalls s1 dc = delayedCalls u dc := by unfold delayedCalls; rw [e1]
    rw [e1, e2, e4]
    congr 2
    have := congrArg (Option.map (fun l => l ++ delayedCalls u dc)) e3
    simpa [Option.map_map, Function.comp] using this

theorem reissueLog_append_other (c : CTelegramConnection) (r : Request)
    (hr : r.reissues = false) :
    reissueLog { c with requests := c.requests ++ [r] } = reissueLog c := by
  simp [reissueLog, List.filter_append, hr]

theorem ensureSignedConnection_extra_reissue {s : CTelegramDispatcher} {i : Nat}
    {c : CTelegramConnection} (hc : s.m_extraConnections[i]? = some c)
    (hmain : s.m_mainConnection.isSome = true) :
    ∃ t c1, ensureSignedConnection s (.extra i) = some t ∧
      t.m_delayedPackages = s.m_delayedPackages ∧
      t.m_mainConnection.map reissueLog = s.m_mainConnection.map reissueLog ∧
      t.m_extraConnections[i]? = some c1 ∧ reissueLog c1 = reissueLog c := by
  have hcall : ∀ r : Request, r.reissues = false →
      ∃ t c1, callOn s (.extra i) r = some t ∧
        t.m_delayedPackages = s.m_delayedPackages ∧
        t.m_mainConnection.map reissueLog = s.m_mainConnection.map reissueLog ∧
        t.m_extraConnections[i]? = some c1 ∧ reissueLog c1 = reissueLog c := by
    intro r hr
    obtain ⟨t, ht, hcalled⟩ := callOn_extra r hc
    exact ⟨t, _, ht, hcalled.2.2.2.1, by rw [hcalled.2.2.2.2.1], hcalled.2.2.2.2.2.2 c hc,
      reissueLog_append_other c r hr⟩
  unfold ensureSignedConnection
  simp only [connectionAt, hc, Option.some_bind]
  split_ifs
  · exact hcall .connectToDc rfl
  · exact ⟨s, c, rfl, rfl, rfl, hc, rfl⟩
  · exact hcall _ rfl
  · obtain ⟨active, hactive⟩ := Option.isSome_iff_exists.mp hmain
    rw [hactive, Option.some_bind]
    split_ifs
    · obtain ⟨t, ht⟩ := Option.isSome_iff_exists.mp
        (callActive_isSome (.authExportAuthorization c.dcInfo.id) hmain)
      have hv := callActive_migrationView ht rfl
      have h3 : t.m_mainConnection.map reissueLog = s.m_mainConnection.map reissueLog :=
        congrArg (fun v => v.2.2) hv
      have h2 : t.m_extraConnections = s.m_extraConnections := congrArg (fun v => v.2.1) hv
      rw [hactive] at h3
      exact ⟨t, c, ht, congrArg (fun v => v.1) hv, h3, by rw [h2]; exact hc, rfl⟩
    · exact ⟨s, c, rfl, rfl, by rw [hactive], hc, rfl⟩
  · exact ⟨s, c, rfl, rfl, rfl, hc, rfl⟩

theorem onConnectionAuthChanged_extra_replays (depth : Nat) (u : CTelegramDispatcher)
    (dc i : Nat) (c : CTelegramConnection) (hmain : u.m_mainConnection.isSome = true)
    (hc : u.m_extraConnections[i]? = some c) :
    ∃ t c1, onConnectionAuthChanged depth u (some (.extra i)) .AuthStateHaveAKey dc = some t ∧
      t.m_delayedPackages = u.m_delayedPackages.filter (fun p => !decide (p.1 = dc)) ∧
      t.m_mainConnection.map reissueLog = u.m_mainConnection.map reissueLog ∧
      t.m_extraConnections[i]? = some c1 ∧
      reissueLog c1 = reissueLog c ++ delayedCalls u dc := by
  obtain ⟨s1, c1, h1, d1, m1, e1, l1⟩ := ensureSignedConnection_extra_reissue hc hmain
  unfold onConnectionAuthChanged
  simp only [reduceCtorEq, if_false, if_true, h1, Option.some_bind, ne_eq, not_false_eq_true]
  by_cases hany : s1.m_delayedPackages.any (fun p => decide (p.1 = dc)) = true
  · rw [if_pos hany]
    obtain ⟨t2, ht2, hcalled⟩ := processDelayedPackages_extra i
      ((s1.m_delayedPackages.filter (fun p => decide (p.1 = dc))).map Prod.snd) s1 c1 e1
    rw [ht2]
    refine ⟨_, _, rfl, ?_, ?_, hcalled.2.2.2.2.2.2 c1 e1, ?_⟩
    · show t2.m_delayedPackages.filter _ = _
      rw [hcalled.2.2.2.1, d1]
    · show t2.m_mainConnection.map reissueLog = _
      rw [hcalled.2.2.2.2.1, m1]
    · rw [reissueLog_append_redirected, l1]
      unfold delayedCalls
      rw [d1]
  · rw [if_neg hany]
    obtain ⟨f1, f2⟩ := delayedPackages_none_of_dc _ dc hany
    refine ⟨s1, c1, rfl, ?_, m1, e1, ?_⟩
    · rw [← d1, f2]
    · unfold delayedCalls
      rw [← d1, f1, l1]
      simp

theorem onPackageRedirected_keeps_main {u t : CTelegramDispatcher} {data : QByteArray}
    {dc : Nat} (h : onPackageRedirected u data dc = some t) :
    t.m_mainConnection = u.m_mainConnection := by
  unfold onPackageRedirected at h
  obtain ⟨r, hr, h⟩ := Option.bind_eq_some.mp h
  obtain ⟨u1, oi⟩ := r
  cases oi with
  | none => exact absurd h (by simp)
  | some i =>
    have hspec := getExtraConnection_spec hr
    dsimp only at h
    obtain ⟨connection, hconn, h⟩ := Option.bind_eq_some.mp h
    have hconn1 : u1.m_extraConnections[i]? = some connection := hconn
    split_ifs at h
    · obtain ⟨t1, ht1, hcalled⟩ := callOn_extra (.processRedirectedPackage data) hconn1
      rw [ht1] at h
      obtain rfl := Option.some.inj h
      rw [hcalled.2.2.2.2.1, hspec.2.2.1]
    · obtain ⟨t1, ht1, hcalled⟩ := callOn_extra
        (s := { u1 with m_delayedPackages := (dc, data) :: u1.m_delayedPackages })
        .connectToDc hconn1
      rw [ht1] at h
      obtain rfl := Option.some.inj h
      rw [hcalled.2.2.2.2.1]
      exact hspec.2.2.1
    · obtain rfl := Option.some.inj h
      exact hspec.2.2.1

theorem indexOfDc_spec : ∀ (l : List CTelegramConnection) (dc i : Nat),
    indexOfDc l dc = some i → ∃ c, l[i]? = some c ∧ c.dcInfo.id = dc := by
  intro l
  induction l with
  | nil => intro dc i h; simp [indexOfDc] at h
  | cons a rest ih =>
    intro dc i h
    unfold indexOfDc at h
    split_ifs at h with ha
    · obtain rfl := Option.some.inj h
      exact ⟨a, by simp, ha⟩
    · obtain ⟨j, hj, rfl⟩ := Option.map_eq_some'.mp h
      obtain ⟨c, hc, hdc⟩ := ih dc j hj
      exact ⟨c, by simpa using hc, hdc⟩

theorem getExtraConnection_dc {u u1 : CTelegramDispatcher} {dc i : Nat}
    (h : getExtraConnection u dc = some (u1, some i)) :
    u1.m_delayedPackages = u.m_delayedPackages ∧
      ∃ c, u1.m_extraConnections[i]? = some c ∧ c.dcInfo.id = dc := by
  unfold getExtraConnection at h
  split at h
  · rename_i j hj
    simp only [Option.some.injEq, Prod.mk.injEq] at h
    obtain ⟨rfl, rfl⟩ := h
    exact ⟨rfl, indexOfDc_spec _ _ _ hj⟩
  · dsimp only at h
    split_ifs at h with hempty
    · simp at h
    · obtain ⟨active, _, hmk⟩ := Option.map_eq_some'.mp h
      simp only [Prod.mk.injEq, Option.some.injEq] at hmk
      obtain ⟨rfl, rfl⟩ := hmk
      have hid : (dcInfoById u dc).id = dc := dcInfoById_id u dc (by simpa using hempty)
      refine ⟨rfl, _, List.getElem?_concat_length _ _, ?_⟩
      unfold createConnection
      split_ifs <;> exact hid

theorem onPackageRedirected_spec {u t : CTelegramDispatcher} {data : QByteArray}
    {dc : Nat} (h : onPackageRedirected u data dc = some t) :
    t.m_mainConnection = u.m_mainConnection ∧
      ∃ (i : Nat) (c : CTelegramConnection), t.m_extraConnections[i]? = some c ∧
        c.dcInfo.id = dc ∧
        ((c.authState ≠ .AuthStateNone ∧ t.m_delayedPackages = u.m_delayedPackages ∧
            c.requests.getLast? = some (.processRedirectedPackage data)) ∨
         (c.authState = .AuthStateNone ∧
            t.m_delayedPackages = (dc, data) :: u.m_delayedPackages)) := by
  refine ⟨onPackageRedirected_keeps_main h, ?_⟩
  unfold onPackageRedirected at h
  obtain ⟨r, hr, h⟩ := Option.bind_eq_some.mp h
  obtain ⟨u1, oi⟩ := r
  cases oi with
  | none => exact absurd h (by simp)
  | some i =>
    obtain ⟨hdelayed, c, hc, hdc⟩ := getExtraConnection_dc hr
    dsimp only at h
    simp only [connectionAt, hc, Option.some_bind] at h
    split_ifs at h with hauth hstatus
    · obtain ⟨t1, ht1, hcalled⟩ := callOn_extra (.processRedirectedPackage data) hc
      rw [ht1] at h
      obtain rfl := Option.some.inj h
      refine ⟨i, _, hcalled.2.2.2.2.2.2 c hc, hdc, Or.inl ⟨hauth, ?_, ?_⟩⟩
      · rw [hcalled.2.2.2.1, hdelayed]
      · simp
    · obtain ⟨t1, ht1, hcalled⟩ := callOn_extra
        (s := { u1 with m_delayedPackages := (dc, data) :: u1.m_delayedPackages })
        .connectToDc hc
      rw [ht1] at h
      obtain rfl := Option.some.inj h
      refine ⟨i, _, hcalled.2.2.2.2.2.2 c hc, hdc, Or.inr ⟨not_not.mp hauth, ?_⟩⟩
      rw [hcalled.2.2.2.1]
      show (dc, data) :: u1.m_delayedPackages = _
      rw [hdelayed]
    · obtain rfl := Option.some.inj h
      refine ⟨i, c, hc, hdc, Or.inr ⟨not_not.mp hauth, ?_⟩⟩
      show (dc, data) :: u1.m_delayedPackages = _
      rw [hdelayed]

theorem onWantedMainDcChanged_eq (s : CTelegramDispatcher) (main : CTelegramConnection)
    (x : Nat) (n : String)
    (hmain : s.m_mainConnection = some main) (hx : x ≠ main.dcInfo.id)
    (hlisted : (dcInfoById s x).ipAddress.isEmpty = false) :
    onWantedMainDcChanged (requestPhoneCode s n) x n =
      some { s with
             m_requestedCodeForPhone := n,
             m_wantedActiveDc := x,
             deletedLater := s.deletedLater ++
               [{ main with requests := main.requests ++ [.requestPhoneCode n] }],
             m_mainConnection :=
               some { dcInfo := dcInfoById s x, deltaTime := s.m_deltaTime,
                      requests := [.connectToDc] } } := by
  have hcfg := dcInfoById_config_nonempty s x hlisted
  have hreq : requestPhoneCode s n =
      { s with
        m_requestedCodeForPhone := n,
        m_mainConnection :=
          some { main with requests := main.requests ++ [.requestPhoneCode n] } } := by
    unfold requestPhoneCode
    rw [hmain]
    simp only [hcfg, Bool.false_eq_true, if_false]
  rw [hreq]
  unfold onWantedMainDcChanged
  rw [if_neg (by simp)]
  unfold ensureMainConnectToWantedDc
  dsimp only
  rw [if_neg (fun h => hx h.symm)]
  have hdc : ∀ (w : Nat) (code : String) (c : Option CTelegramConnection),
      dcInfoById { s with m_wantedActiveDc := w, m_requestedCodeForPhone := code,
                          m_mainConnection := c } x = dcInfoById s x := fun _ _ _ => rfl
  rw [hdc, hlisted]
  simp [clearMainConnection, createConnection, hdc, callActive]

theorem onPackageRedirected_new_extra (t : CTelegramDispatcher) (active : CTelegramConnection)
    (x : Nat) (data : QByteArray)
    (hactive : t.m_mainConnection = some active)
    (hfresh : active.authKey = [] ∧ active.serverSalt = 0 ∧ active.deltaTime = t.m_deltaTime)
    (hlisted : (dcInfoById t x).ipAddress.isEmpty = false)
    (hextra : indexOfDc t.m_extraConnections x = none) :
    onPackageRedirected t data x =
      some { t with
             m_extraConnections := t.m_extraConnections ++
               [{ dcInfo := dcInfoById t x, deltaTime := t.m_deltaTime,
                  requests := [.connectToDc] }],
             m_delayedPackages := (x, data) :: t.m_delayedPackages } := by
  obtain ⟨h1, h2, h3⟩ := hfresh
  unfold onPackageRedirected getExtraConnection
  rw [hextra]
  dsimp only
  rw [if_neg (by simp [hlisted]), hactive]
  simp only [Option.map_some', Option.some_bind, connectionAt, List.getElem?_concat_length,
    createConnection]
  split_ifs <;> simp_all [callOn, List.getElem?_concat_length]

theorem onPackageRedirected_isSome (u : CTelegramDispatcher) (data : QByteArray) (dc : Nat)
    (hmain : u.m_mainConnection.isSome = true)
    (hknown : (indexOfDc u.m_extraConnections dc).isSome = true ∨
      (dcInfoById u dc).ipAddress.isEmpty = false) :
    ∃ t, onPackageRedirected u data dc = some t := by
  obtain ⟨u1, i, hget⟩ := getExtraConnection_known u dc hmain hknown
  obtain ⟨_, c, hc, _⟩ := getExtraConnection_dc hget
  unfold onPackageRedirected
  rw [hget]
  simp only [Option.some_bind, connectionAt, hc]
  split_ifs
  · obtain ⟨t, ht, _⟩ := callOn_extra (.processRedirectedPackage data) hc
    exact ⟨t, ht⟩
  · obtain ⟨t, ht, _⟩ := callOn_extra
      (s := { u1 with m_delayedPackages := (dc, data) :: u1.m_delayedPackages })
      .connectToDc hc
    exact ⟨t, ht⟩
  · exact ⟨_, rfl⟩

/-- C16 (as stated, refuted at the witness of the claim): the main connection
is on DC 1, the phone code has been requested for `+155512345`, and the
migration signal for DC 4 and this number arrives. The old main connection is
handed to `deleteLater()` and the new main connection is bound to DC 4, but
the only call made on it is `connectToDc`, and it stays the only call when the
new main connection reports its auth key. When the package of the request is
redirected to DC 4 before the signal, it is delayed for a new extra connection
to DC 4; that connection reports its auth key first and is handed the package,
and the new main connection, reporting its key after it, is handed nothing:
the phone-code request is not issued on the new main connection. -/
theorem migration_reissue_misses_new_main :
    (onWantedMainDcChanged (requestPhoneCode migrateDispatcher "+155512345") 4 "+155512345").map
        (fun t => (t.m_mainConnection.map (fun c => (c.dcInfo, c.requests)),
          t.deletedLater.map (fun c => (c.dcInfo.id, c.requests)))) =
      some (some ({ id := 4, ipAddress := "149.154.167.91", port := 443 }, [Request.connectToDc]),
        [(1, [Request.connectToDc, Request.getConfiguration,
              Request.requestPhoneCode "+155512345"])]) ∧
    ((onWantedMainDcChanged (requestPhoneCode migrateDispatcher "+155512345") 4
          "+155512345").bind fun t1 =>
        (onConnectionAuthChanged 3 (keyExchanged t1 .main) (some .main) .AuthStateHaveAKey 4).map
          fun t => (t.m_mainConnection.map (fun c => (c.dcInfo.id, c.requests)),
            t.m_extraConnections.map (fun c => (c.dcInfo.id, c.requests)),
            t.m_delayedPackages)) =
      some (some (4, [Request.connectToDc]), [], []) ∧
    ((onPackageRedirected (requestPhoneCode migrateDispatcher "+155512345")
          redirectedPackage 4).bind fun t1 =>
        (onWantedMainDcChanged t1 4 "+155512345").bind fun t2 =>
        (onConnectionAuthChanged 3 (keyExchanged t2 (.extra 0)) (some (.extra 0))
          .AuthStateHaveAKey 4).bind fun t3 =>
        (onConnectionAuthChanged 3 (keyExchanged t3 .main) (some .main) .AuthStateHaveAKey 4).map
          fun t => (t.m_mainConnection.map (fun c => (c.dcInfo.id, c.requests)),
            t.m_extraConnections.map (fun c => (c.dcInfo.id, c.requests)),
            t.m_delayedPackages)) =
      some (some (4, [Request.connectToDc]),
        [(4, [Request.connectToDc, Request.processRedirectedPackage redirectedPackage])],
        []) := by
  refine ⟨rfl, rfl, rfl⟩

/-- C16 (amended): for a dispatcher whose main connection is on DC `a`, after
the phone-code request for the number `n`, the migration signal
`onWantedMainDcChanged(x, n)` with `x != a` and `x` listed in the DC
configuration (with an address) records `x` as the wanted DC, hands the main
connection to `deleteLater()`, and makes a new connection bound to the listed
option of DC `x` the main connection, on which it calls `connectToDc` and nothing
else, leaving the extra connections and the delayed packages as they are; a
package redirected to DC `x` after it, with no extra connection to DC `x` yet,
is delayed for a new extra connection to DC `x`, on which `connectToDc` is
called; a signal for a phone number other than `n` changes nothing. A
redirected package (`onPackageRedirected`, for a DC that has an extra
connection or is listed with an address) is never passed to the main
connection: it is passed to the extra connection of its DC when that has an
auth key, and is delayed for it otherwise. A connection that reports an auth
key (`onConnectionAuthChanged`), the main or an extra one, is passed the
delayed packages of the reported DC, which are removed; apart from them no
phone-code request and no redirected package is passed to the main or to that
connection. -/
theorem onWantedMainDcChanged_migrates (s : CTelegramDispatcher) (main : CTelegramConnection)
    (x : Nat) (n : String)
    (hmain : s.m_mainConnection = some main) (hx : x ≠ main.dcInfo.id)
    (hlisted : (dcInfoById s x).ipAddress.isEmpty = false) :
    (requestPhoneCode s n).m_mainConnection =
      some { main with requests := main.requests ++ [.requestPhoneCode n] } ∧
    (dcInfoById s x).id = x ∧
    (∃ t, onWantedMainDcChanged (requestPhoneCode s n) x n = some t ∧
      t.m_wantedActiveDc = x ∧
      t.deletedLater = s.deletedLater ++
        [{ main with requests := main.requests ++ [.requestPhoneCode n] }] ∧
      t.m_mainConnection =
        some { dcInfo := dcInfoById s x, deltaTime := s.m_deltaTime,
               requests := [.connectToDc] } ∧
      t.m_extraConnections = s.m_extraConnections ∧
      t.m_delayedPackages = s.m_delayedPackages ∧
      (indexOfDc s.m_extraConnections x = none → ∀ data : QByteArray,
        ∃ t2, onPackageRedirected t data x = some t2 ∧
          t2.m_mainConnection = t.m_mainConnection ∧
          t2.m_extraConnections = s.m_extraConnections ++
            [{ dcInfo := dcInfoById s x, deltaTime := s.m_deltaTime,
               requests := [.connectToDc] }] ∧
          t2.m_delayedPackages = (x, data) :: s.m_delayedPackages)) ∧
    (∀ (x2 : Nat) (n2 : String), n2 ≠ n →
      onWantedMainDcChanged (requestPhoneCode s n) x2 n2 = some (requestPhoneCode s n)) ∧
    (∀ (u : CTelegramDispatcher) (data : QByteArray) (dc : Nat),
      u.m_mainConnection.isSome = true →
      ((indexOfDc u.m_extraConnections dc).isSome = true ∨
        (dcInfoById u dc).ipAddress.isEmpty = false) →
      ∃ t, onPackageRedirected u data dc = some t ∧
        t.m_mainConnection = u.m_mainConnection ∧
        ∃ (i : Nat) (c : CTelegramConnection), t.m_extraConnections[i]? = some c ∧
          c.dcInfo.id = dc ∧
          ((c.authState ≠ .AuthStateNone ∧ t.m_delayedPackages = u.m_delayedPackages ∧
              c.requests.getLast? = some (.processRedirectedPackage data)) ∨
           (c.authState = .AuthStateNone ∧
              t.m_delayedPackages = (dc, data) :: u.m_delayedPackages))) ∧
    (∀ (depth : Nat) (u : CTelegramDispatcher) (newState : AuthState) (dc : Nat),
      u.m_mainConnection.isSome = true → newState ≠ .AuthStateNone →
      ∃ t, onConnectionAuthChanged (depth + 3) u (some .main) newState dc = some t ∧
        t.m_delayedPackages = u.m_delayedPackages.filter (fun p => !decide (p.1 = dc)) ∧
        t.m_extraConnections = u.m_extraConnections ∧
        t.m_mainConnection.map reissueLog =
          u.m_mainConnection.map (fun c => reissueLog c ++ delayedCalls u dc)) ∧
    (∀ (depth : Nat) (u : CTelegramDispatcher) (dc i : Nat) (c : CTelegramConnection),
      u.m_mainConnection.isSome = true → u.m_extraConnections[i]? = some c →
      ∃ t c1, onConnectionAuthChanged depth u (some (.extra i)) .AuthStateHaveAKey dc = some t ∧
        t.m_delayedPackages = u.m_delayedPackages.filter (fun p => !decide (p.1 = dc)) ∧
        t.m_mainConnection.map reissueLog = u.m_mainConnection.map reissueLog ∧
        t.m_extraConnections[i]? = some c1 ∧
        reissueLog c1 = reissueLog c ++ delayedCalls u dc) := by
  have hcfg := dcInfoById_config_nonempty s x hlisted
  have hreq : requestPhoneCode s n =
      { s with
        m_requestedCodeForPhone := n,
        m_mainConnection :=
          some { main with requests := main.requests ++ [.requestPhoneCode n] } } := by
    unfold requestPhoneCode
    rw [hmain]
    simp only [hcfg, Bool.false_eq_true, if_false]
  refine ⟨by rw [hreq], dcInfoById_id s x hlisted, ?_, ?_, ?_, ?_, ?_⟩
  · refine ⟨_, onWantedMainDcChanged_eq s main x n hmain hx hlisted, rfl, rfl, rfl, rfl, rfl, ?_⟩
    intro hextra data
    refine ⟨_, onPackageRedirected_new_extra _ _ x data rfl ⟨rfl, rfl, rfl⟩ hlisted hextra,
      rfl, rfl, rfl⟩
  · intro x2 n2 hne
    unfold onWantedMainDcChanged
    rw [if_pos]
    rw [hreq]
    exact fun h => hne h.symm
  · intro u data dc hu hknown
    obtain ⟨t, ht⟩ := onPackageRedirected_isSome u data dc hu hknown
    exact ⟨t, ht, onPackageRedirected_spec ht⟩
  · intro depth u newState dc hu hstate
    obtain ⟨t, ht, hv⟩ := onConnectionAuthChanged_main_replays depth u newState dc hu hstate
    exact ⟨t, ht, congrArg (fun v => v.1) hv, congrArg (fun v => v.2.1) hv,
      congrArg (fun v => v.2.2) hv⟩
  · intro depth u dc i c hu hc
    exact onConnectionAuthChanged_extra_replays depth u dc i c hu hc

/-- Witness of C16: the migration from DC 1 to DC 4 for `+155512345`; a package
redirected to DC 4 after it is delayed, and the new main connection, reporting
its auth key first, is passed the package. -/
theorem onWantedMainDcChanged_migrates_witness :
    ∃ t t2 t3, onWantedMainDcChanged (requestPhoneCode migrateDispatcher "+155512345") 4
        "+155512345" = some t ∧
      t.m_wantedActiveDc = 4 ∧
      t.m_mainConnection =
        some { dcInfo := dcInfoById migrateDispatcher 4,
               deltaTime := migrateDispatcher.m_deltaTime, requests := [.connectToDc] } ∧
      onPackageRedirected t redirectedPackage 4 = some t2 ∧
      t2.m_delayedPackages = [(4, redirectedPackage)] ∧
      onConnectionAuthChanged 3 t2 (some .main) .AuthStateHaveAKey 4 = some t3 ∧
      t3.m_delayedPackages = [] ∧
      t3.m_mainConnection.map reissueLog =
        some [.processRedirectedPackage redirectedPackage] := by
  obtain ⟨_, _, ⟨t, ht, hw, _, hm, _, _, hredirect⟩, _, _, hreplay, _⟩ :=
    onWantedMainDcChanged_migrates migrateDispatcher
      { dcInfo := { id := 1, ipAddress := "149.154.175.50", port := 443 },
        authState := .AuthStateHaveAKey, status := .Connected,
        requests := [.connectToDc, .getConfiguration] } 4 "+155512345" rfl (by decide) rfl
  obtain ⟨t2, ht2, hm2, _, hd2⟩ := hredirect rfl redirectedPackage
  obtain ⟨t3, ht3, hd3, _, hm3⟩ := hreplay 0 t2 .AuthStateHaveAKey 4
    (by rw [hm2, hm]; rfl) (by decide)
  refine ⟨t, t2, t3, ht, hw, hm, ht2, hd2, ht3, ?_, ?_⟩
  · rw [hd3, hd2]
    rfl
  · rw [hm3, hm2, hm]
    unfold delayedCalls
    rw [hd2]
    rfl

/-! ## Theorems: the session-resume blob -/

theorem decodeU32_encodeU32 (n : Nat) (rest : QByteArray) (h : n < 2 ^ 32) :
    decodeU32 (encodeU32 n ++ rest) = (n, rest) := by
  have e : ∀ m, m < 256 → (UInt8.ofNat m).toNat = m := fun m hm => UInt8.toNat_ofNat_of_lt hm
  unfold decodeU32 encodeU32
  simp only [List.cons_append, List.nil_append, List.getD_cons_zero, List.getD_cons_succ,
    List.drop_succ_cons, List.drop_zero, Prod.mk.injEq, and_true]
  rw [e _ (Nat.mod_lt _ (by decide)), e _ (Nat.mod_lt _ (by decide)),
    e _ (Nat.mod_lt _ (by decide)), e _ (Nat.mod_lt _ (by decide))]
  omega

theorem decodeU32s_flatMap (l : List Nat) (rest : QByteArray) (h : ∀ x ∈ l, x < 2 ^ 32) :
    decodeU32s l.length (l.flatMap encodeU32 ++ rest) = (l, rest) := by
  induction l with
  | nil => rfl
  | cons x xs ih =>
    have hx : x < 2 ^ 32 := h x (List.mem_cons_self _ _)
    have hxs : ∀ y ∈ xs, y < 2 ^ 32 := fun y hy => h y (List.mem_cons_of_mem _ hy)
    simp only [List.length_cons, List.flatMap_cons, List.append_assoc, decodeU32s,
      decodeU32_encodeU32 x _ hx, ih hxs]

theorem decodeVectorU32_encodeVectorU32 (l : List Nat) (rest : QByteArray)
    (hlen : l.length < 2 ^ 32) (h : ∀ x ∈ l, x < 2 ^ 32) :
    decodeVectorU32 (encodeVectorU32 l ++ rest) = (l, rest) := by
  unfold decodeVectorU32 encodeVectorU32
  rw [List.append_assoc, decodeU32_encodeU32 _ _ hlen]
  exact decodeU32s_flatMap l rest h

theorem decodeString_encodeString (str : String) (rest : QByteArray)
    (hlen : str.length < 2 ^ 32) :
    decodeString (encodeString str ++ rest) = (str, rest) := by
  unfold decodeString encodeString
  have hchars : ∀ x ∈ str.toList.map Char.toNat, x < 2 ^ 32 := by
    intro x hx
    obtain ⟨c, _, rfl⟩ := List.mem_map.mp hx
    exact c.val.toNat_lt
  rw [decodeVectorU32_encodeVectorU32 _ _ (by simpa using hlen) hchars]
  simp only [List.map_map, Prod.mk.injEq, and_true]
  have : (Char.ofNat ∘ Char.toNat) = id := by
    funext c; simp
  rw [this, List.map_id]
  cases str
  rfl

theorem CTelegramStream.sample_roundTrip : CTelegramStream.sample.RoundTrip := by
  refine ⟨?_, ?_, ?_, ?_, ?_, ?_, ?_⟩
  · intro n rest h
    exact decodeU32_encodeU32 n rest h
  · intro x rest h1 h2
    dsimp only [CTelegramStream.sample]
    rw [decodeU32_encodeU32 _ _ (by omega)]
    simp only [ge_iff_le, Prod.mk.injEq, and_true]
    split_ifs <;> omega
  · intro n rest h
    dsimp only [CTelegramStream.sample]
    rw [List.append_assoc, decodeU32_encodeU32 _ _ (by omega)]
    dsimp only
    rw [decodeU32_encodeU32 _ _ (by omega)]
    simp only [Prod.mk.injEq, and_true]
    omega
  · intro b rest h
    dsimp only [CTelegramStream.sample]
    rw [List.append_assoc, decodeU32_encodeU32 _ _ (by omega)]
    simp
  · intro str rest h
    exact decodeString_encodeString str rest (by omega)
  · intro o rest h1 h2 h3
    dsimp only [CTelegramStream.sample]
    rw [List.append_assoc, List.append_assoc, decodeU32_encodeU32 _ _ h1]
    dsimp only
    rw [decodeString_encodeString _ _ (by omega)]
    dsimp only
    rw [decodeU32_encodeU32 _ _ h2]
  · intro l rest h1 h2
    exact decodeVectorU32_encodeVectorU32 l rest (by omega) h2


theorem initConnectionSharedFinal_restored (x : CTelegramDispatcher) (c : CTelegramConnection)
    (hmain : x.m_mainConnection = some c) (p : CTelegramDispatcher → Prop)
    (hp : ∀ t, t.m_mainConnection = some { c with requests := c.requests ++ [.connectToDc] } →
      t.m_deltaTime = x.m_deltaTime → t.m_updatesState = x.m_updatesState →
      t.m_chatIds = x.m_chatIds → t.deletedLater = x.deletedLater → p t) :
    ∃ t, Option.map (fun t => (t, true)) (initConnectionSharedFinal x) = some (t, true) ∧ p t := by
  obtain ⟨t, ht, hm, _, hd, _, _, _, _, hu, hc, hdt⟩ := initConnectionSharedFinal_fields x c hmain
  exact ⟨t, by rw [ht]; rfl, hp t hm hdt hu hc hd⟩

theorem restoreConnection_layout (stream : CTelegramStream) (ext : Externals)
    (s : CTelegramDispatcher) (hlaw : stream.RoundTrip)
    (format : Nat) (deltaTime : Int) (dcInfo : TLDcOption) (phone : String)
    (authKey : QByteArray) (serverSalt pts qts date : Nat) (chatIds : List Nat)
    (rest : QByteArray)
    (hformat : format ≤ secretFormatVersion)
    (hdt1 : -2 ^ 31 ≤ deltaTime) (hdt2 : deltaTime < 2 ^ 31)
    (hid : dcInfo.id < 2 ^ 32) (hport : dcInfo.port < 2 ^ 32)
    (hip : dcInfo.ipAddress.length < 2 ^ 31) (hphone : phone.length < 2 ^ 31)
    (hkey : authKey ≠ []) (hkeylen : authKey.length < 2 ^ 31)
    (hauth : ext.authId authKey < 2 ^ 64) (hsalt : serverSalt < 2 ^ 64)
    (hpts : pts < 2 ^ 32) (hqts : qts < 2 ^ 32) (hdate : date < 2 ^ 32)
    (hchats : chatIds.length < 2 ^ 31) (hchat : ∀ x ∈ chatIds, x < 2 ^ 32) :
    ∃ t, restoreConnection stream ext s
        (secretBlob stream format deltaTime dcInfo phone authKey (ext.authId authKey)
          serverSalt pts qts date chatIds ++ rest) = some (t, true) ∧
      t.m_deltaTime = deltaTime ∧
      t.m_mainConnection = some { dcInfo := dcInfo, deltaTime := deltaTime, authKey := authKey,
                                  serverSalt := serverSalt, requests := [.connectToDc] } ∧
      t.m_updatesState.pts = (if format ≥ 1 then pts else 1) ∧
      t.m_updatesState.qts = (if format ≥ 1 then qts else 1) ∧
      t.m_updatesState.date = (if format ≥ 1 then date else 1) ∧
      t.m_chatIds = (if format ≥ 2 then chatIds else []) ∧
      t.deletedLater = s.deletedLater ++ s.m_mainConnection.toList := by
  obtain ⟨hU32, hI32, hU64, hB, hS, hD, hV⟩ := hlaw
  have hf : format = 0 ∨ format = 1 ∨ format = 2 ∨ format = 3 := by
    unfold secretFormatVersion at hformat; omega
  have hkeyE : authKey.isEmpty = false := by
    cases authKey with
    | nil => exact absurd rfl hkey
    | cons a l => rfl
  have r0 := fun r => hU32 0 r (by norm_num)
  have r1 := fun r => hU32 1 r (by norm_num)
  have r2 := fun r => hU32 2 r (by norm_num)
  have r3 := fun r => hU32 3 r (by norm_num)
  have rdt := fun r => hI32 deltaTime r hdt1 hdt2
  have rdc := fun r => hD dcInfo r hid hport hip
  have rphone := fun r => hS phone r hphone
  have rkey := fun r => hB authKey r hkeylen
  have rauth := fun r => hU64 (ext.authId authKey) r hauth
  have rsalt := fun r => hU64 serverSalt r hsalt
  have rpts := fun r => hU32 pts r hpts
  have rqts := fun r => hU32 qts r hqts
  have rdate := fun r => hU32 date r hdate
  have rchats := fun r => hV chatIds r hchats hchat
  rcases hf with rfl | rfl | rfl | rfl <;>
  · unfold restoreConnection secretBlob
    simp +decide only [secretFormatVersion, List.append_assoc, List.nil_append, if_true, if_false,
      r0, r1, r2, r3, rdt, rdc, rphone, rkey, rauth, rsalt, rpts, rqts, rdate, rchats, hkeyE,
      Bool.false_eq_true, ne_eq, not_true_eq_false]
    refine initConnectionSharedFinal_restored _ _ rfl _ (fun t h1 h2 h3 h4 h5 => ?_)
    rw [h1, h2, h3, h4, h5]
    cases hm : s.m_mainConnection <;>
      simp [clearMainConnection, initConnectionSharedClear, createConnection, hm]

theorem connectionSecretInfo_eq (stream : CTelegramStream) (ext : Externals)
    (s : CTelegramDispatcher) (active : CTelegramConnection)
    (hmain : s.m_mainConnection = some active) (hkey : active.authKey ≠ []) :
    connectionSecretInfo stream ext s =
      stream.writeU32 3 ++ (stream.writeI32 active.deltaTime ++
        (stream.writeDcOption active.dcInfo ++ (stream.writeBytes active.authKey ++
          (stream.writeU64 (ext.authId active.authKey) ++ (stream.writeU64 active.serverSalt ++
            (stream.writeU32 s.m_updatesState.pts ++ (stream.writeU32 s.m_updatesState.qts ++
              (stream.writeU32 s.m_updatesState.date ++
                stream.writeVectorU32 s.m_chatIds)))))))) := by
  have hkeyE : active.authKey.isEmpty = false := by
    cases h : active.authKey with
    | nil => exact absurd h hkey
    | cons a l => rfl
  unfold connectionSecretInfo
  rw [hmain]
  simp only [hkeyE, Bool.false_eq_true, if_false, secretFormatVersion, List.append_assoc]

/-- C17: for a dispatcher whose active connection holds a non-empty auth key
(the auth id being the fingerprint of that key), with the written values within
the ranges of their types, and a stream that obeys the round-trip law of the
codec, `connectionSecretInfo` writes the format version 3, the delta time, the
DC info, the auth key, the auth id, the server salt, `pts`, `qts`, `date` and
the chat ids, in this order, and `restoreConnection` on that blob (in any
dispatcher) returns true with the delta time, a main connection with the DC
info, auth key and server salt, and `pts`, `qts`, `date` and the chat ids equal
to the encoded ones. -/
theorem restoreConnection_roundTrip (stream : CTelegramStream) (ext : Externals)
    (s s0 : CTelegramDispatcher) (active : CTelegramConnection)
    (hlaw : stream.RoundTrip) (hmain : s.m_mainConnection = some active)
    (hkey : active.authKey ≠ []) (hrange : SecretInRange ext s active) :
    connectionSecretInfo stream ext s =
      stream.writeU32 3 ++ (stream.writeI32 active.deltaTime ++
        (stream.writeDcOption active.dcInfo ++ (stream.writeBytes active.authKey ++
          (stream.writeU64 (ext.authId active.authKey) ++ (stream.writeU64 active.serverSalt ++
            (stream.writeU32 s.m_updatesState.pts ++ (stream.writeU32 s.m_updatesState.qts ++
              (stream.writeU32 s.m_updatesState.date ++
                stream.writeVectorU32 s.m_chatIds)))))))) ∧
    ∃ t, restoreConnection stream ext s0 (connectionSecretInfo stream ext s) = some (t, true) ∧
      t.m_deltaTime = active.deltaTime ∧
      t.m_mainConnection =
        some { dcInfo := active.dcInfo, deltaTime := active.deltaTime,
               authKey := active.authKey, serverSalt := active.serverSalt,
               requests := [.connectToDc] } ∧
      t.m_updatesState.pts = s.m_updatesState.pts ∧
      t.m_updatesState.qts = s.m_updatesState.qts ∧
      t.m_updatesState.date = s.m_updatesState.date ∧
      t.m_chatIds = s.m_chatIds := by
  obtain ⟨h1, h2, h3, h4, h5, h6, h7, h8, h9, h10, h11, h12, h13⟩ := hrange
  have hinfo := connectionSecretInfo_eq stream ext s active hmain hkey
  refine ⟨hinfo, ?_⟩
  obtain ⟨t, ht, hdt, hm, hpts, hqts, hdate, hchats, _⟩ :=
    restoreConnection_layout stream ext s0 hlaw 3 active.deltaTime active.dcInfo ""
      active.authKey active.serverSalt s.m_updatesState.pts s.m_updatesState.qts
      s.m_updatesState.date s.m_chatIds [] (by decide) h1 h2 h3 h4 h5 (by decide) hkey h6 h7 h8
      h9 h10 h11 h12 h13
  have hblob : secretBlob stream 3 active.deltaTime active.dcInfo "" active.authKey
      (ext.authId active.authKey) active.serverSalt s.m_updatesState.pts s.m_updatesState.qts
      s.m_updatesState.date s.m_chatIds ++ [] = connectionSecretInfo stream ext s := by
    rw [hinfo]
    unfold secretBlob
    simp +decide only [if_true, if_false, List.append_assoc, List.append_nil, List.nil_append]
  rw [hblob] at ht
  exact ⟨t, ht, hdt, hm, by simpa using hpts, by simpa using hqts, by simpa using hdate,
    by simpa using hchats⟩

/-- Witness of C17: the blob of `resumableDispatcher` (delta time -2, DC 2,
`pts = 42`, `qts = 1`, `date = 1500000000`, chats 7 and 11), restored in a new
dispatcher. -/
theorem restoreConnection_roundTrip_witness :
    ∃ t, restoreConnection CTelegramStream.sample Externals.sample {}
        (connectionSecretInfo CTelegramStream.sample Externals.sample resumableDispatcher) =
        some (t, true) ∧
      t.m_deltaTime = -2 ∧ t.m_updatesState.pts = 42 ∧ t.m_updatesState.qts = 1 ∧
      t.m_updatesState.date = 1500000000 ∧ t.m_chatIds = [7, 11] := by
  obtain ⟨t, ht, hdt, _, hpts, hqts, hdate, hchats⟩ :=
    (restoreConnection_roundTrip CTelegramStream.sample Externals.sample resumableDispatcher {}
      { dcInfo := { id := 2, ipAddress := "149.154.167.51", port := 443 },
        authState := .AuthStateSignedIn, status := .Signed,
        deltaTime := -2, authKey := [170, 170, 170, 170], serverSalt := 51966 }
      CTelegramStream.sample_roundTrip rfl (by decide)
      (by unfold SecretInRange; decide)).2
  exact ⟨t, ht, hdt, hpts, hqts, hdate, hchats⟩

/-- C18 (as stated, refuted on two inputs): from a version-2 blob with the chat
ids 7 and 11 `restoreConnection` reads the chat ids; from a version-1 blob it
reads the server salt 7 and `pts = 42`, `qts = 1`, `date = 1500000000`, and
leaves only the chat ids at their default. -/
theorem old_versions_read_more_fields :
    (restoreConnection CTelegramStream.sample Externals.sample {}
        (secretBlob CTelegramStream.sample 2 (-2)
          { id := 2, ipAddress := "149.154.167.51", port := 443 } "+155512345" [170, 170]
          (Externals.sample.authId [170, 170]) 7 42 1 1500000000 [7, 11])).map
        (fun r => (r.2, r.1.m_chatIds)) = some (true, [7, 11]) ∧
    (restoreConnection CTelegramStream.sample Externals.sample {}
        (secretBlob CTelegramStream.sample 1 (-2)
          { id := 2, ipAddress := "149.154.167.51", port := 443 } "+155512345" [170, 170]
          (Externals.sample.authId [170, 170]) 7 42 1 1500000000 [])).map
        (fun r => (r.2, r.1.m_mainConnection.map (fun c => c.serverSalt),
          r.1.m_updatesState.pts, r.1.m_updatesState.qts, r.1.m_updatesState.date,
          r.1.m_chatIds)) = some (true, some 7, 42, 1, 1500000000, []) := by
  constructor <;> rfl

/-- C18 (amended): with a stream that obeys the round-trip law,
`restoreConnection` rejects every blob of a format version above 3 (it returns
false and the state it was called in), and accepts every blob of a version up
to 3 that carries a non-empty auth key with its auth id, reading the
versioned layout: the legacy phone string after the DC info for every version
below 3; the auth id and the server salt for every version; `pts`, `qts` and
`date` from version 1 on (version 0 keeps the defaults 1, 1, 1); the chat ids
from version 2 on (versions 0 and 1 keep the empty list). The writer always
emits version 3. -/
theorem restoreConnection_versions (stream : CTelegramStream) (ext : Externals)
    (hlaw : stream.RoundTrip) :
    (∀ (s : CTelegramDispatcher) (format : Nat) (rest : QByteArray),
      secretFormatVersion < format → format < 2 ^ 32 →
      restoreConnection stream ext s (stream.writeU32 format ++ rest) = some (s, false)) ∧
    (∀ (s : CTelegramDispatcher) (format : Nat) (deltaTime : Int) (dcInfo : TLDcOption)
        (phone : String) (authKey : QByteArray) (serverSalt pts qts date : Nat)
        (chatIds : List Nat),
      format ≤ secretFormatVersion →
      -2 ^ 31 ≤ deltaTime → deltaTime < 2 ^ 31 →
      dcInfo.id < 2 ^ 32 → dcInfo.port < 2 ^ 32 → dcInfo.ipAddress.length < 2 ^ 31 →
      phone.length < 2 ^ 31 → authKey ≠ [] → authKey.length < 2 ^ 31 →
      ext.authId authKey < 2 ^ 64 → serverSalt < 2 ^ 64 →
      pts < 2 ^ 32 → qts < 2 ^ 32 → date < 2 ^ 32 →
      chatIds.length < 2 ^ 31 → (∀ x ∈ chatIds, x < 2 ^ 32) →
      ∃ t, restoreConnection stream ext s
          (secretBlob stream format deltaTime dcInfo phone authKey (ext.authId authKey)
            serverSalt pts qts date chatIds) = some (t, true) ∧
        t.m_deltaTime = deltaTime ∧
        t.m_mainConnection = some { dcInfo := dcInfo, deltaTime := deltaTime,
                                    authKey := authKey, serverSalt := serverSalt,
                                    requests := [.connectToDc] } ∧
        t.m_updatesState.pts = (if format ≥ 1 then pts else 1) ∧
        t.m_updatesState.qts = (if format ≥ 1 then qts else 1) ∧
        t.m_updatesState.date = (if format ≥ 1 then date else 1) ∧
        t.m_chatIds = (if format ≥ 2 then chatIds else [])) ∧
    (∀ (s : CTelegramDispatcher) (active : CTelegramConnection),
      s.m_mainConnection = some active → active.authKey ≠ [] →
      ∃ tail, connectionSecretInfo stream ext s = stream.writeU32 3 ++ tail) := by
  refine ⟨?_, ?_, ?_⟩
  · intro s format rest hgt hlt
    unfold restoreConnection
    simp only [hlaw.1 format rest hlt, hgt, if_true]
  · intro s format deltaTime dcInfo phone authKey serverSalt pts qts date chatIds
      h0 h1 h2 h3 h4 h5 h6 h7 h8 h9 h10 h11 h12 h13 h14 h15
    obtain ⟨t, ht, hdt, hm, hpts, hqts, hdate, hchats, _⟩ :=
      restoreConnection_layout stream ext s hlaw format deltaTime dcInfo phone authKey
        serverSalt pts qts date chatIds [] h0 h1 h2 h3 h4 h5 h6 h7 h8 h9 h10 h11 h12 h13 h14 h15
    rw [List.append_nil] at ht
    exact ⟨t, ht, hdt, hm, hpts, hqts, hdate, hchats⟩
  · intro s active hmain hkey
    exact ⟨_, connectionSecretInfo_eq stream ext s active hmain hkey⟩

/-- Witness of C18: a blob of version 5 is rejected without touching the state,
and a blob of version 0 is accepted with `pts`, `qts`, `date` and the chat ids at
their defaults. -/
theorem restoreConnection_versions_witness :
    restoreConnection CTelegramStream.sample Externals.sample resumableDispatcher
        (CTelegramStream.sample.writeU32 5 ++ [1, 2, 3]) = some (resumableDispatcher, false) ∧
    ∃ t, restoreConnection CTelegramStream.sample Externals.sample resumableDispatcher
        (secretBlob CTelegramStream.sample 0 (-2)
          { id := 2, ipAddress := "149.154.167.51", port := 443 } "+155512345" [170, 170]
          (Externals.sample.authId [170, 170]) 7 42 1 1500000000 [7, 11]) = some (t, true) ∧
      t.m_updatesState.pts = 1 ∧ t.m_updatesState.qts = 1 ∧ t.m_updatesState.date = 1 ∧
      t.m_chatIds = [] := by
  have h := restoreConnection_versions CTelegramStream.sample Externals.sample
    CTelegramStream.sample_roundTrip
  refine ⟨h.1 resumableDispatcher 5 [1, 2, 3] (by decide) (by decide), ?_⟩
  obtain ⟨t, ht, _, _, hpts, hqts, hdate, hchats⟩ :=
    h.2.1 resumableDispatcher 0 (-2) { id := 2, ipAddress := "149.154.167.51", port := 443 }
      "+155512345" [170, 170] 7 42 1 1500000000 [7, 11] (by decide) (by decide) (by decide)
      (by decide) (by decide) (by decide) (by decide) (by decide) (by decide) (by decide)
      (by decide) (by decide) (by decide) (by decide) (by decide) (by decide)
  exact ⟨t, ht, hpts, hqts, hdate, hchats⟩

/-! ## Theorems: the DC options of an update -/

theorem ensureDcOption_ids (cfg : List TLDcOption) (option : TLDcOption) :
    (ensureDcOption cfg option).2.map (fun o => o.id) = cfg.map (fun o => o.id) := by
  induction cfg with
  | nil => rfl
  | cons c rest ih =>
    unfold ensureDcOption
    split_ifs with h
    · simp [h]
    · simp [ih]

theorem foldl_ensureDcOption_ids (options : List TLDcOption) :
    ∀ cfg : List TLDcOption,
      (options.foldl (fun cfg option => (ensureDcOption cfg option).2) cfg).map (fun o => o.id) =
        cfg.map (fun o => o.id) := by
  induction options with
  | nil => intro cfg; rfl
  | cons o rest ih =>
    intro cfg
    rw [List.foldl_cons, ih, ensureDcOption_ids]

theorem dcInfoById_unlisted (s : CTelegramDispatcher) (dc : Nat)
    (h : dc ∉ s.m_dcConfiguration.map (fun o => o.id)) : dcInfoById s dc = {} := by
  unfold dcInfoById
  have hnone : s.m_dcConfiguration.find? (fun option => decide (option.id = dc)) = none := by
    rw [List.find?_eq_none]
    intro o ho hdec
    exact h (List.mem_map.mpr ⟨o, ho, by simpa using hdec⟩)
  rw [hnone]
  rfl

theorem ensureUpdateState_dcConfiguration (s : CTelegramDispatcher) (pts seq date : Nat) :
    (ensureUpdateState s pts seq date).m_dcConfiguration = s.m_dcConfiguration := by
  unfold ensureUpdateState
  split_ifs
  · rfl
  · rw [setUpdateState_eq]

theorem ensureDcOption_find (cfg : List TLDcOption) (option : TLDcOption) (dc : Nat) :
    (ensureDcOption cfg option).2.find? (fun o => decide (o.id = dc)) =
      if dc = option.id ∧ option.id ∈ cfg.map (fun o => o.id) then some option
      else cfg.find? (fun o => decide (o.id = dc)) := by
  induction cfg with
  | nil => simp [ensureDcOption]
  | cons c rest ih =>
    unfold ensureDcOption
    by_cases h : c.id = option.id
    · rw [if_pos h]
      by_cases hd : dc = option.id
      · simp [h, hd]
      · have hc : ¬ c.id = dc := fun e => hd (by rw [← e, h])
        have ho : ¬ option.id = dc := fun e => hd e.symm
        simp [hd, hc, ho, List.find?_cons]
    · rw [if_neg h]
      dsimp only
      rw [List.find?_cons, List.find?_cons, ih]
      by_cases hc : c.id = dc
      · have hd : ¬ dc = option.id := fun e => h (by rw [hc, e])
        simp [hc, hd]
      · have hne : ¬ option.id = c.id := fun e => h e.symm
        simp [hc, hne]

theorem foldl_ensureDcOption_find_other (options : List TLDcOption) (dc : Nat)
    (hother : ∀ o ∈ options, o.id ≠ dc) :
    ∀ cfg : List TLDcOption,
      (options.foldl (fun cfg option => (ensureDcOption cfg option).2) cfg).find?
          (fun o => decide (o.id = dc)) = cfg.find? (fun o => decide (o.id = dc)) := by
  induction options with
  | nil => intro cfg; rfl
  | cons o rest ih =>
    intro cfg
    rw [List.foldl_cons, ih (fun x hx => hother x (List.mem_cons_of_mem _ hx)),
      ensureDcOption_find]
    have hne : ¬ dc = o.id := fun e => hother o (List.mem_cons_self _ _) e.symm
    simp [hne]

theorem foldl_ensureDcOption_find_listed (options : List TLDcOption)
    (hdistinct : options.Pairwise (fun a b => a.id ≠ b.id)) (option : TLDcOption)
    (hmem : option ∈ options) :
    ∀ cfg : List TLDcOption, option.id ∈ cfg.map (fun o => o.id) →
      (options.foldl (fun cfg option => (ensureDcOption cfg option).2) cfg).find?
          (fun o => decide (o.id = option.id)) = some option := by
  induction options with
  | nil => exact absurd hmem (List.not_mem_nil _)
  | cons o rest ih =>
    intro cfg hlisted
    rw [List.pairwise_cons] at hdistinct
    rw [List.foldl_cons]
    rcases List.mem_cons.mp hmem with heq | hrest
    · subst heq
      rw [foldl_ensureDcOption_find_other rest option.id
        (fun x hx e => hdistinct.1 x hx e.symm), ensureDcOption_find]
      simp [hlisted]
    · exact ih hdistinct.2 hrest _ (by rw [ensureDcOption_ids]; exact hlisted)

/-- C19 (what the code does with the options of an update): `processUpdate` of
an `UpdateDcOptions` update returns with the ids of the DC configuration exactly
as they were, in their order. An option of the update (ids distinct) whose id
was already listed replaces the listed one: `dcInfoById` of its id returns it.
An option whose id was not listed is not added: `dcInfoById` of its id still
returns the default (empty) option. -/
theorem updateDcOptions_never_adds (ext : Externals) (s : CTelegramDispatcher)
    (update : TLUpdate) (htype : update.tlType = .UpdateDcOptions) :
    ∃ t, processUpdate ext s update = some t ∧
      t.m_dcConfiguration.map (fun o => o.id) = s.m_dcConfiguration.map (fun o => o.id) ∧
      (update.dcOptions.Pairwise (fun a b => a.id ≠ b.id) →
        ∀ o ∈ update.dcOptions, o.id ∈ s.m_dcConfiguration.map (fun c => c.id) →
          dcInfoById t o.id = o) ∧
      ∀ o ∈ update.dcOptions, o.id ∉ s.m_dcConfiguration.map (fun c => c.id) →
        dcInfoById t o.id = {} := by
  have hcfg : (ensureUpdateState
      { s with m_dcConfiguration :=
                 update.dcOptions.foldl (fun cfg option => (ensureDcOption cfg option).2)
                   s.m_dcConfiguration }
      s.m_updatesState.pts ext.defaultSeq ext.defaultDate).m_dcConfiguration =
        update.dcOptions.foldl (fun cfg option => (ensureDcOption cfg option).2)
          s.m_dcConfiguration := by
    rw [ensureUpdateState_dcConfiguration]
  have hids : ((ensureUpdateState
      { s with m_dcConfiguration :=
                 update.dcOptions.foldl (fun cfg option => (ensureDcOption cfg option).2)
                   s.m_dcConfiguration }
      s.m_updatesState.pts ext.defaultSeq ext.defaultDate).m_dcConfiguration).map
        (fun o => o.id) = s.m_dcConfiguration.map (fun o => o.id) := by
    rw [hcfg]
    exact foldl_ensureDcOption_ids _ _
  refine ⟨_, ?_, hids, ?_, fun o _ hnew => dcInfoById_unlisted _ _ (by rw [hids]; exact hnew)⟩
  · unfold processUpdate
    simp only [htype, carriesPts, Bool.false_eq_true, false_and, if_false, handleUpdate,
      Option.map_some']
  · intro hdistinct o ho hlisted
    unfold dcInfoById
    rw [hcfg, foldl_ensureDcOption_find_listed _ hdistinct o ho _ hlisted]
    rfl

/-- Witness of C19: the configuration lists DC 2; the update carries a new
option for DC 2 and an option for DC 4. Afterwards DC 2 has the new option and
DC 4 is still unknown. -/
theorem updateDcOptions_never_adds_witness :
    ∃ t, processUpdate Externals.sample
        { queueDispatcher with
          m_dcConfiguration := [{ id := 2, ipAddress := "149.154.167.51", port := 443 }] }
        { tlType := .UpdateDcOptions,
          dcOptions := [{ id := 2, ipAddress := "10.0.0.2", port := 80 },
                        { id := 4, ipAddress := "149.154.167.91", port := 443 }] } = some t ∧
      dcInfoById t 2 = { id := 2, ipAddress := "10.0.0.2", port := 80 } ∧
      dcInfoById t 4 = {} := by
  obtain ⟨t, ht, _, hold, hnew⟩ := updateDcOptions_never_adds Externals.sample
    { queueDispatcher with
      m_dcConfiguration := [{ id := 2, ipAddress := "149.154.167.51", port := 443 }] }
    { tlType := .UpdateDcOptions,
      dcOptions := [{ id := 2, ipAddress := "10.0.0.2", port := 80 },
                    { id := 4, ipAddress := "149.154.167.91", port := 443 }] } rfl
  exact ⟨t, ht,
    hold (by decide) { id := 2, ipAddress := "10.0.0.2", port := 80 } (by simp) (by decide),
    hnew { id := 4, ipAddress := "149.154.167.91", port := 443 } (by simp) (by decide)⟩

/-! ## Theorems: short updates -/

/-- C20: for an `UpdateShortMessage` or `UpdateShortChatMessage`,
`onUpdatesReceived` calls `processUpdate` once, on the reconstructed update,
and afterwards only removes the typing entry and resets the request id; the
reconstructed update is an `UpdateNewMessage` with the `pts` and `ptsCount` of
the short update and a message with the same id, flags, text, date, forward and
reply fields and empty media. For a user message `toId` is a user peer, and
`(toId.userId, fromId)` is `(updates.userId, self id)` when the Out flag (bit 1)
is set and `(self id, updates.userId)` otherwise; for a chat message `toId` is
the chat peer `updates.chatId` and `fromId` is `updates.fromId`. -/
theorem onUpdatesReceived_short (ext : Externals) (depth : Nat) (s : CTelegramDispatcher)
    (updates : TLUpdates) (id : Nat)
    (hshort : updates.tlType = .UpdateShortMessage ∨ updates.tlType = .UpdateShortChatMessage) :
    onUpdatesReceived ext depth s updates id =
      ((processUpdate ext (shortMessageTyping ext { s with m_updateRequestId := id } updates).2
          (shortMessageUpdate { s with m_updateRequestId := id } updates)).bind
        (fun s1 =>
          if (shortMessageTyping ext { s with m_updateRequestId := id } updates).1 > 0
            then removeMessageAction s1
              (shortMessageTyping ext { s with m_updateRequestId := id } updates).1
            else some s1)).map (fun t => { t with m_updateRequestId := 0 }) ∧
    (shortMessageUpdate { s with m_updateRequestId := id } updates).tlType = .UpdateNewMessage ∧
    (shortMessageUpdate { s with m_updateRequestId := id } updates).pts = updates.pts ∧
    (shortMessageUpdate { s with m_updateRequestId := id } updates).ptsCount = updates.ptsCount ∧
    (shortMessageUpdate { s with m_updateRequestId := id } updates).message.tlType = .Message ∧
    (shortMessageUpdate { s with m_updateRequestId := id } updates).message.id = updates.id ∧
    (shortMessageUpdate { s with m_updateRequestId := id } updates).message.flags =
      updates.flags ∧
    (shortMessageUpdate { s with m_updateRequestId := id } updates).message.message =
      updates.message ∧
    (shortMessageUpdate { s with m_updateRequestId := id } updates).message.date = updates.date ∧
    (shortMessageUpdate { s with m_updateRequestId := id } updates).message.fwdFromId =
      updates.fwdFromId ∧
    (shortMessageUpdate { s with m_updateRequestId := id } updates).message.fwdDate =
      updates.fwdDate ∧
    (shortMessageUpdate { s with m_updateRequestId := id } updates).message.replyToMsgId =
      updates.replyToMsgId ∧
    (shortMessageUpdate { s with m_updateRequestId := id } updates).message.media =
      { tlType := .MessageMediaEmpty } ∧
    (updates.tlType = .UpdateShortMessage →
      (shortMessageUpdate { s with m_updateRequestId := id } updates).message.toId.tlType =
        .PeerUser ∧
      (updates.flags &&& 2 ≠ 0 →
        (shortMessageUpdate { s with m_updateRequestId := id } updates).message.toId.userId =
          updates.userId ∧
        (shortMessageUpdate { s with m_updateRequestId := id } updates).message.fromId =
          s.m_selfUserId) ∧
      (updates.flags &&& 2 = 0 →
        (shortMessageUpdate { s with m_updateRequestId := id } updates).message.toId.userId =
          s.m_selfUserId ∧
        (shortMessageUpdate { s with m_updateRequestId := id } updates).message.fromId =
          updates.userId)) ∧
    (updates.tlType = .UpdateShortChatMessage →
      (shortMessageUpdate { s with m_updateRequestId := id } updates).message.toId =
        { tlType := .PeerChat, chatId := updates.chatId } ∧
      (shortMessageUpdate { s with m_updateRequestId := id } updates).message.fromId =
        updates.fromId) := by
  have hcall : onUpdatesReceived ext depth s updates id =
      ((processUpdate ext (shortMessageTyping ext { s with m_updateRequestId := id } updates).2
          (shortMessageUpdate { s with m_updateRequestId := id } updates)).bind
        (fun s1 =>
          if (shortMessageTyping ext { s with m_updateRequestId := id } updates).1 > 0
            then removeMessageAction s1
              (shortMessageTyping ext { s with m_updateRequestId := id } updates).1
            else some s1)).map (fun t => { t with m_updateRequestId := 0 }) := by
    unfold onUpdatesReceived
    rcases hshort with h | h <;> simp only [h]
  refine ⟨hcall, ?_⟩
  unfold shortMessageUpdate
  dsimp only
  by_cases hu : updates.tlType = .UpdateShortMessage
  · by_cases hout : updates.flags &&& TelegramMessageFlagOut ≠ 0
    · have hout2 : updates.flags &&& 2 ≠ 0 := hout
      rw [if_pos hu, if_pos hout]
      refine ⟨rfl, rfl, rfl, rfl, rfl, rfl, rfl, rfl, rfl, rfl, rfl, rfl, ?_, ?_⟩
      · intro _
        exact ⟨rfl, fun _ => ⟨rfl, rfl⟩, fun h => absurd h hout2⟩
      · intro h
        rw [hu] at h
        exact absurd h (by decide)
    · have hout2 : updates.flags &&& 2 = 0 := not_not.mp hout
      rw [if_pos hu, if_neg hout]
      refine ⟨rfl, rfl, rfl, rfl, rfl, rfl, rfl, rfl, rfl, rfl, rfl, rfl, ?_, ?_⟩
      · intro _
        exact ⟨rfl, fun h => absurd hout2 h, fun _ => ⟨rfl, rfl⟩⟩
      · intro h
        rw [hu] at h
        exact absurd h (by decide)
  · rw [if_neg hu]
    refine ⟨rfl, rfl, rfl, rfl, rfl, rfl, rfl, rfl, rfl, rfl, rfl, rfl, ?_, ?_⟩
    · intro h
      exact absurd h hu
    · intro _
      exact ⟨rfl, rfl⟩

/-- Witness of C20: the short message of user 5 to the self user 3, and the
same message with the Out flag set. -/
theorem onUpdatesReceived_short_witness :
    (shortMessageUpdate { sampleDispatcher with m_selfUserId := 3, m_updateRequestId := 0 }
        shortUserMessage).message.toId.userId = 3 ∧
    (shortMessageUpdate { sampleDispatcher with m_selfUserId := 3, m_updateRequestId := 0 }
        shortUserMessage).message.fromId = 5 ∧
    (shortMessageUpdate { sampleDispatcher with m_selfUserId := 3, m_updateRequestId := 0 }
        { shortUserMessage with flags := 3 }).message.toId.userId = 5 ∧
    (shortMessageUpdate { sampleDispatcher with m_selfUserId := 3, m_updateRequestId := 0 }
        { shortUserMessage with flags := 3 }).message.fromId = 3 :=
  ⟨((onUpdatesReceived_short Externals.sample 3 { sampleDispatcher with m_selfUserId := 3 }
      shortUserMessage 0 (Or.inl rfl)).2.2.2.2.2.2.2.2.2.2.2.2.2.1 rfl).2.2 (by decide) |>.1,
   ((onUpdatesReceived_short Externals.sample 3 { sampleDispatcher with m_selfUserId := 3 }
      shortUserMessage 0 (Or.inl rfl)).2.2.2.2.2.2.2.2.2.2.2.2.2.1 rfl).2.2 (by decide) |>.2,
   ((onUpdatesReceived_short Externals.sample 3 { sampleDispatcher with m_selfUserId := 3 }
      { shortUserMessage with flags := 3 } 0 (Or.inl rfl)).2.2.2.2.2.2.2.2.2.2.2.2.2.1 rfl).2.1
      (by decide) |>.1,
   ((onUpdatesReceived_short Externals.sample 3 { sampleDispatcher with m_selfUserId := 3 }
      { shortUserMessage with flags := 3 } 0 (Or.inl rfl)).2.2.2.2.2.2.2.2.2.2.2.2.2.1 rfl).2.1
      (by decide) |>.2⟩

/-! ## Theorems: the public message flags -/

theorem and_two_pow_eq_self (x k : Nat) : (x &&& 2 ^ k = 2 ^ k) ↔ x.testBit k = true := by
  rw [Nat.and_two_pow]
  cases h : x.testBit k
  · simp only [Bool.toNat_false, zero_mul, Bool.false_eq_true, iff_false]
    exact (Nat.pos_of_ne_zero (by positivity)).ne
  · simp

theorem getPublicMessageFlags_testBit (ext : Externals) (a b c d : Nat)
    (hnone : ext.MessageFlagNone = 0)
    (hread : ext.MessageFlagRead = 2 ^ a) (hout : ext.MessageFlagOut = 2 ^ b)
    (hforwarded : ext.MessageFlagForwarded = 2 ^ c) (hreply : ext.MessageFlagIsReply = 2 ^ d)
    (flags i : Nat) :
    (getPublicMessageFlags ext flags).testBit i =
      ((decide (a = i) && !flags.testBit 0) || (decide (b = i) && flags.testBit 1) ||
       (decide (c = i) && flags.testBit 2) || (decide (d = i) && flags.testBit 3)) := by
  have h0 : (flags &&& 1 = 0) = (flags.testBit 0 = false) := propext (and_step_eq_zero flags 0)
  have h1 : (flags &&& 2 = 0) = (flags.testBit 1 = false) := propext (and_step_eq_zero flags 1)
  have h2 : (flags &&& 4 = 0) = (flags.testBit 2 = false) := propext (and_step_eq_zero flags 2)
  have h3 : (flags &&& 8 = 0) = (flags.testBit 3 = false) := propext (and_step_eq_zero flags 3)
  unfold getPublicMessageFlags
  simp only [TelegramMessageFlagUnread, TelegramMessageFlagOut, TelegramMessageFlagForward,
    TelegramMessageFlagReply, hnone, hread, hout, hforwarded, hreply, ne_eq, h0, h1, h2, h3]
  cases flags.testBit 0 <;> cases flags.testBit 1 <;>
    cases flags.testBit 2 <;> cases flags.testBit 3 <;>
    simp [Nat.testBit_or, Nat.testBit_two_pow]

/-- C21: with the public flags four distinct bits and `MessageFlagNone` zero,
`getPublicMessageFlags` of a wire flags word contains `MessageFlagRead` exactly
when bit 0 (Unread) is clear, `MessageFlagOut` exactly when bit 1 is set,
`MessageFlagForwarded` exactly when bit 2 is set and `MessageFlagIsReply`
exactly when bit 3 is set; every bit of the result is one of these four flags;
and the result is that of the four low bits of the word. -/
theorem getPublicMessageFlags_spec (ext : Externals) (a b c d : Nat)
    (hnone : ext.MessageFlagNone = 0)
    (hread : ext.MessageFlagRead = 2 ^ a) (hout : ext.MessageFlagOut = 2 ^ b)
    (hforwarded : ext.MessageFlagForwarded = 2 ^ c) (hreply : ext.MessageFlagIsReply = 2 ^ d)
    (hdistinct : [a, b, c, d].Nodup) (flags : Nat) :
    (getPublicMessageFlags ext flags &&& ext.MessageFlagRead = ext.MessageFlagRead ↔
      flags.testBit 0 = false) ∧
    (getPublicMessageFlags ext flags &&& ext.MessageFlagOut = ext.MessageFlagOut ↔
      flags.testBit 1 = true) ∧
    (getPublicMessageFlags ext flags &&& ext.MessageFlagForwarded = ext.MessageFlagForwarded ↔
      flags.testBit 2 = true) ∧
    (getPublicMessageFlags ext flags &&& ext.MessageFlagIsReply = ext.MessageFlagIsReply ↔
      flags.testBit 3 = true) ∧
    (∀ i, (getPublicMessageFlags ext flags).testBit i = true →
      i = a ∨ i = b ∨ i = c ∨ i = d) ∧
    getPublicMessageFlags ext flags = getPublicMessageFlags ext (flags % 16) := by
  have hbit := getPublicMessageFlags_testBit ext a b c d hnone hread hout hforwarded hreply
  simp only [List.nodup_cons, List.mem_cons, List.mem_singleton, not_or, List.not_mem_nil,
    not_false_eq_true, List.nodup_nil, and_true] at hdistinct
  obtain ⟨⟨hab, hac, had⟩, ⟨hbc, hbd⟩, hcd⟩ := hdistinct
  have hba : ¬ b = a := fun e => hab e.symm
  have hca : ¬ c = a := fun e => hac e.symm
  have hda : ¬ d = a := fun e => had e.symm
  have hcb : ¬ c = b := fun e => hbc e.symm
  have hdb : ¬ d = b := fun e => hbd e.symm
  have hdc : ¬ d = c := fun e => hcd e.symm
  refine ⟨?_, ?_, ?_, ?_, ?_, ?_⟩
  · rw [hread, and_two_pow_eq_self, hbit]
    simp [hba, hca, hda]
  · rw [hout, and_two_pow_eq_self, hbit]
    simp [hab, hcb, hdb]
  · rw [hforwarded, and_two_pow_eq_self, hbit]
    simp [hac, hbc, hdc]
  · rw [hreply, and_two_pow_eq_self, hbit]
    simp [had, hbd, hcd]
  · intro i hi
    rw [hbit] at hi
    simp only [Bool.or_eq_true, Bool.and_eq_true, decide_eq_true_eq] at hi
    rcases hi with ((h | h) | h) | h
    · exact Or.inl h.1.symm
    · exact Or.inr (Or.inl h.1.symm)
    · exact Or.inr (Or.inr (Or.inl h.1.symm))
    · exact Or.inr (Or.inr (Or.inr h.1.symm))
  · apply Nat.eq_of_testBit_eq
    intro i
    rw [hbit, hbit]
    have hmod : ∀ j, j < 4 → (flags % 16).testBit j = flags.testBit j := by
      intro j hj
      rw [show (16 : Nat) = 2 ^ 4 from rfl, Nat.testBit_mod_two_pow]
      simp [hj]
    rw [hmod 0 (by decide), hmod 1 (by decide), hmod 2 (by decide), hmod 3 (by decide)]

/-- Witness of C21: the public flags 1, 2, 4, 8 and the wire word 6 (read,
outgoing, forwarded). -/
theorem getPublicMessageFlags_spec_witness :
    getPublicMessageFlags Externals.sample 6 &&& 1 = 1 ∧
    getPublicMessageFlags Externals.sample 6 = getPublicMessageFlags Externals.sample (6 % 16) :=
  ⟨(getPublicMessageFlags_spec Externals.sample 0 1 2 3 rfl rfl rfl rfl rfl (by decide) 6).1.mpr
      (by decide),
   (getPublicMessageFlags_spec Externals.sample 0 1 2 3 rfl rfl rfl rfl rfl (by decide)
      6).2.2.2.2.2⟩

/-! ## Theorems: the message ids of the client -/

theorem formatClientTimeStamp_testBit (bits : Nat) (hbits : 2 ≤ bits) (hle : bits ≤ 64)
    (formatTimeStamp : Int → Nat) (timeInMs : Int) (i : Nat) :
    (CTelegramCore.formatClientTimeStamp bits formatTimeStamp timeInMs).testBit i =
      (decide (2 ≤ i) && decide (i < bits) && (formatTimeStamp timeInMs % 2 ^ 64).testBit i) := by
  unfold CTelegramCore.formatClientTimeStamp bitNot
  have h3 : 3 % 2 ^ bits = 2 ^ 2 - 1 := by
    apply Nat.mod_eq_of_lt
    calc 3 < 2 ^ 2 := by decide
      _ ≤ 2 ^ bits := Nat.pow_le_pow_right (by decide) hbits
  rw [h3, Nat.testBit_mod_two_pow, Nat.testBit_and, Nat.testBit_xor,
    Nat.testBit_two_pow_sub_one, Nat.testBit_two_pow_sub_one, Nat.testBit_mod_two_pow]
  by_cases h2 : 2 ≤ i <;> by_cases hb : i < bits <;> by_cases h64 : i < 64 <;>
    simp [h2, hb, h64] <;> omega

theorem roundDown4_testBit (x i : Nat) :
    (x / 4 * 4).testBit i = (decide (2 ≤ i) && x.testBit i) := by
  rw [show x / 4 * 4 = 2 ^ 2 * (x / 2 ^ 2) from by rw [Nat.mul_comm]; rfl, Nat.testBit_mul_pow_two,
    ← Nat.shiftRight_eq_div_pow, Nat.testBit_shiftRight]
  by_cases h2 : 2 ≤ i
  · simp [h2, show 2 + (i - 2) = i from by omega]
  · simp [h2]

/-- C22 (by the width of `unsigned long`): where `unsigned long` has 64 bits,
`formatClientTimeStamp(t)` is `formatTimeStamp(t)` rounded down to a multiple
of 4: bits 0 and 1 are zero and every higher bit is that of
`formatTimeStamp(t)`. Where `unsigned long` has 32 bits, the mask `~3UL` also
clears the bits 32 to 63: the result is the low 32 bits of `formatTimeStamp(t)`
rounded down to a multiple of 4, which is smaller than the rounded
`formatTimeStamp(t)` as soon as that has a bit above bit 31. -/
theorem formatClientTimeStamp_by_width (formatTimeStamp : Int → Nat) (timeInMs : Int) :
    (CTelegramCore.formatClientTimeStamp 64 formatTimeStamp timeInMs =
        formatTimeStamp timeInMs % 2 ^ 64 / 4 * 4 ∧
      (CTelegramCore.formatClientTimeStamp 64 formatTimeStamp timeInMs).testBit 0 = false ∧
      (CTelegramCore.formatClientTimeStamp 64 formatTimeStamp timeInMs).testBit 1 = false ∧
      ∀ i, 2 ≤ i →
        (CTelegramCore.formatClientTimeStamp 64 formatTimeStamp timeInMs).testBit i =
          (formatTimeStamp timeInMs % 2 ^ 64).testBit i) ∧
    (CTelegramCore.formatClientTimeStamp 32 formatTimeStamp timeInMs =
        formatTimeStamp timeInMs % 2 ^ 32 / 4 * 4 ∧
      (2 ^ 32 ≤ formatTimeStamp timeInMs % 2 ^ 64 →
        CTelegramCore.formatClientTimeStamp 32 formatTimeStamp timeInMs <
          formatTimeStamp timeInMs % 2 ^ 64 / 4 * 4)) := by
  have h64 := formatClientTimeStamp_testBit 64 (by decide) (by decide) formatTimeStamp timeInMs
  have h32 := formatClientTimeStamp_testBit 32 (by decide) (by decide) formatTimeStamp timeInMs
  have hlt : ∀ i, (formatTimeStamp timeInMs % 2 ^ 64).testBit i = true → i < 64 := by
    intro i hi
    rw [Nat.testBit_mod_two_pow, Bool.and_eq_true, decide_eq_true_eq] at hi
    exact hi.1
  have e64 : CTelegramCore.formatClientTimeStamp 64 formatTimeStamp timeInMs =
      formatTimeStamp timeInMs % 2 ^ 64 / 4 * 4 := by
    apply Nat.eq_of_testBit_eq
    intro i
    rw [h64, roundDown4_testBit]
    by_cases hi : i < 64
    · simp [hi]
    · have : (formatTimeStamp timeInMs % 2 ^ 64).testBit i = false := by
        cases hb : (formatTimeStamp timeInMs % 2 ^ 64).testBit i
        · rfl
        · exact absurd (hlt i hb) hi
      rw [this, Bool.and_false, Bool.and_false]
  have e32 : CTelegramCore.formatClientTimeStamp 32 formatTimeStamp timeInMs =
      formatTimeStamp timeInMs % 2 ^ 32 / 4 * 4 := by
    apply Nat.eq_of_testBit_eq
    intro i
    rw [h32, roundDown4_testBit, Nat.testBit_mod_two_pow, Nat.testBit_mod_two_pow]
    by_cases hi : i < 32
    · simp [hi, show i < 64 from by omega]
    · simp [hi]
  refine ⟨⟨e64, ?_, ?_, ?_⟩, e32, ?_⟩
  · rw [h64]; rfl
  · rw [h64]; rfl
  · intro i hi
    rw [h64]
    by_cases h : i < 64
    · simp [hi, h]
    · have : (formatTimeStamp timeInMs % 2 ^ 64).testBit i = false := by
        cases hb : (formatTimeStamp timeInMs % 2 ^ 64).testBit i
        · rfl
        · exact absurd (hlt i hb) h
      rw [this, Bool.and_false]
  · intro hbig
    rw [e32]
    have := Nat.mod_lt (formatTimeStamp timeInMs) (show 0 < 2 ^ 32 from by decide)
    omega

/-- Failing input of C22: with a 32-bit `unsigned long`, the client message id
of the time 1 700 000 000 000 ms is 0, while the message id of that time is
1 700 000 000 * 2^32 (which is also the client message id with a 64-bit
`unsigned long`). -/
theorem formatClientTimeStamp_by_width_witness :
    CTelegramCore.formatTimeStamp 1700000000000 = 1700000000 * 2 ^ 32 ∧
    CTelegramCore.formatClientTimeStamp 64 CTelegramCore.formatTimeStamp 1700000000000 =
      1700000000 * 2 ^ 32 ∧
    CTelegramCore.formatClientTimeStamp 32 CTelegramCore.formatTimeStamp 1700000000000 = 0 ∧
    CTelegramCore.formatClientTimeStamp 32 CTelegramCore.formatTimeStamp 1700000000000 <
      CTelegramCore.formatTimeStamp 1700000000000 % 2 ^ 64 / 4 * 4 :=
  ⟨by decide, by decide, by decide,
   (formatClientTimeStamp_by_width CTelegramCore.formatTimeStamp 1700000000000).2.2
     (by decide)⟩

/-! ## Theorems: the MD5 accumulator of an upload -/

theorem bumpPart_hash (md5 : QByteArray → QByteArray) (d : FileRequestDescriptor)
    (acc : QByteArray) (hh : d.m_hash = some acc) :
    (d.bumpPart md5).m_hash =
      (if (d.bumpPart md5).finished then none else some (acc ++ d.data)) ∧
    (d.bumpPart md5).m_md5Sum =
      (if (d.bumpPart md5).finished then md5 (acc ++ d.data) else d.m_md5Sum) := by
  have hb : ∀ d1 : FileRequestDescriptor,
      d1 = { d with m_hash := some (acc ++ d.data), m_part := (d.m_part + 1) % quint32Mod,
                    m_offset :=
                      if ((d.m_part + 1) % quint32Mod * d.chunkSize) % quint32Mod > d.m_size
                        then d.m_size
                        else ((d.m_part + 1) % quint32Mod * d.chunkSize) % quint32Mod } →
      d.bumpPart md5 =
        if d1.finished then { d1 with m_md5Sum := md5 (acc ++ d.data), m_hash := none }
        else d1 := by
    intro d1 h1
    subst h1
    unfold FileRequestDescriptor.bumpPart
    simp only [hh, Option.map_some']
  obtain ⟨d1, hm, hh1, hbump⟩ : ∃ d1 : FileRequestDescriptor,
      d1.m_md5Sum = d.m_md5Sum ∧ d1.m_hash = some (acc ++ d.data) ∧
      d.bumpPart md5 =
        if d1.finished then { d1 with m_md5Sum := md5 (acc ++ d.data), m_hash := none }
        else d1 :=
    ⟨{ d with m_hash := some (acc ++ d.data), m_part := (d.m_part + 1) % quint32Mod,
              m_offset :=
                if ((d.m_part + 1) % quint32Mod * d.chunkSize) % quint32Mod > d.m_size
                  then d.m_size
                  else ((d.m_part + 1) % quint32Mod * d.chunkSize) % quint32Mod },
      rfl, rfl, hb _ rfl⟩
  rw [hbump]
  by_cases hf : d1.finished = true
  · have hf1 : ({ d1 with m_md5Sum := md5 (acc ++ d.data), m_hash := none } :
        FileRequestDescriptor).finished = true := hf
    rw [if_pos hf, if_pos hf1, if_pos hf1]
    exact ⟨rfl, rfl⟩
  · rw [if_neg hf, if_neg hf, if_neg hf]
    exact ⟨hh1, hm⟩

theorem chunks_flatten_take (data : QByteArray) (m : Nat) :
    ((List.range m).map (fun k => QByteArray.mid data (k * 256) 256)).flatten =
      data.take (m * 256) := by
  induction m with
  | zero => simp
  | succ m ih =>
    rw [List.range_succ, List.map_append, List.flatten_append, ih, List.map_singleton,
      List.flatten_singleton, Nat.succ_mul, List.take_add]
    rfl

/-- The state of a small upload job after `k` calls of `bumpPart()`, as long as
the job has data beyond the first `k` chunks. -/
theorem bumpPart_iterate_small (md5 : QByteArray → QByteArray) (data : QByteArray)
    (fileName : String) (dc fileId : Nat) (hsmall : data.length ≤ 10 * 1024 * 1024) :
    ∀ k, (k = 0 ∨ k * 256 < data.length) →
      ((FileRequestDescriptor.bumpPart md5)^[k]
        (FileRequestDescriptor.uploadRequest data fileName dc fileId)).m_part = k ∧
      ((FileRequestDescriptor.bumpPart md5)^[k]
        (FileRequestDescriptor.uploadRequest data fileName dc fileId)).m_hash =
          some (data.take (k * 256)) ∧
      ((FileRequestDescriptor.bumpPart md5)^[k]
        (FileRequestDescriptor.uploadRequest data fileName dc fileId)).m_md5Sum = [] ∧
      ((FileRequestDescriptor.bumpPart md5)^[k]
        (FileRequestDescriptor.uploadRequest data fileName dc fileId)).m_data = data ∧
      ((FileRequestDescriptor.bumpPart md5)^[k]
        (FileRequestDescriptor.uploadRequest data fileName dc fileId)).m_size = data.length ∧
      ((FileRequestDescriptor.bumpPart md5)^[k]
        (FileRequestDescriptor.uploadRequest data fileName dc fileId)).m_type = .Upload := by
  intro k
  induction k with
  | zero =>
    intro _
    obtain ⟨ht, hd, hs, hp, _, _⟩ := uploadRequest_fields data fileName dc fileId
    refine ⟨hp, ?_, ?_, hd, hs, ht⟩
    · unfold FileRequestDescriptor.uploadRequest FileRequestDescriptor.isBigFile
        FileRequestDescriptor.size
      have : ¬ data.length > 10 * 1024 * 1024 := by omega
      simp [this]
    · unfold FileRequestDescriptor.uploadRequest
      dsimp only
      split_ifs <;> rfl
  | succ k ih =>
    intro hk
    have hk1 : (k + 1) * 256 < data.length := by
      rcases hk with h | h
      · omega
      · exact h
    obtain ⟨ip, ih1, im, id, is, it⟩ := ih (Or.inr (by omega))
    rw [Function.iterate_succ_apply']
    obtain ⟨bp, _, bs, bd, bt⟩ := bumpPart_fields md5
      ((FileRequestDescriptor.bumpPart md5)^[k]
        (FileRequestDescriptor.uploadRequest data fileName dc fileId))
    obtain ⟨bh, bm⟩ := bumpPart_hash md5 _ _ ih1
    have hq : quint32Mod = 4294967296 := rfl
    have hp1 : (k + 1) % quint32Mod = k + 1 := by
      apply Nat.mod_eq_of_lt; rw [hq]; omega
    have hm1 : ((k + 1) * 256) % quint32Mod = (k + 1) * 256 := by
      apply Nat.mod_eq_of_lt; rw [hq]; omega
    have hm0 : (k * 256) % quint32Mod = k * 256 := by
      apply Nat.mod_eq_of_lt; rw [hq]; omega
    rw [ip, hp1] at bp
    have hfin : (FileRequestDescriptor.bumpPart md5
        ((FileRequestDescriptor.bumpPart md5)^[k]
          (FileRequestDescriptor.uploadRequest data fileName dc fileId))).finished = false := by
      unfold FileRequestDescriptor.finished FileRequestDescriptor.size
      rw [bp, upload_chunkSize _ (bt.trans it), hm1, bs, is]
      simp only [ge_iff_le, decide_eq_false_iff_not, not_le]
      exact hk1
    rw [hfin] at bh bm
    refine ⟨bp, ?_, ?_, bd.trans id, bs.trans is, bt.trans it⟩
    · rw [bh]
      simp only [Bool.false_eq_true, if_false]
      unfold FileRequestDescriptor.data
      rw [ip, upload_chunkSize _ it, hm0, id, Nat.succ_mul, List.take_add]
      rfl
    · rw [bm]
      simp only [Bool.false_eq_true, if_false]
      exact im

/-- C23: for an upload of at most 10 MiB, let `n = max 1 (ceil (size / 256))`
be the number of `bumpPart()` calls of the job. Before call `k + 1` (for
`k < n`) the MD5 accumulator exists, has been fed exactly the first `k` chunks
of the data and no digest is stored; call `k + 1` feeds it the chunk `data()` of
part `k`. After the calls `1 .. n - 1` the job is not `finished()`; after call
`n` it is, the accumulator is released and `m_md5Sum` is the digest of the whole
data. The chunks fed, concatenated in call order, are the whole data. -/
theorem small_upload_md5_covers_file (md5 : QByteArray → QByteArray) (data : QByteArray)
    (fileName : String) (dc fileId : Nat) (hsmall : data.length ≤ 10 * 1024 * 1024) :
    (∀ k, k < max 1 ((data.length + 255) / 256) →
      ((FileRequestDescriptor.bumpPart md5)^[k]
        (FileRequestDescriptor.uploadRequest data fileName dc fileId)).m_hash =
          some (data.take (k * 256)) ∧
      ((FileRequestDescriptor.bumpPart md5)^[k]
        (FileRequestDescriptor.uploadRequest data fileName dc fileId)).data =
          QByteArray.mid data (k * 256) 256 ∧
      ((FileRequestDescriptor.bumpPart md5)^[k]
        (FileRequestDescriptor.uploadRequest data fileName dc fileId)).m_md5Sum = []) ∧
    (∀ k, 1 ≤ k → k < max 1 ((data.length + 255) / 256) →
      ((FileRequestDescriptor.bumpPart md5)^[k]
        (FileRequestDescriptor.uploadRequest data fileName dc fileId)).finished = false) ∧
    ((FileRequestDescriptor.bumpPart md5)^[max 1 ((data.length + 255) / 256)]
      (FileRequestDescriptor.uploadRequest data fileName dc fileId)).finished = true ∧
    ((FileRequestDescriptor.bumpPart md5)^[max 1 ((data.length + 255) / 256)]
      (FileRequestDescriptor.uploadRequest data fileName dc fileId)).m_hash = none ∧
    ((FileRequestDescriptor.bumpPart md5)^[max 1 ((data.length + 255) / 256)]
      (FileRequestDescriptor.uploadRequest data fileName dc fileId)).m_md5Sum = md5 data ∧
    ((List.range (max 1 ((data.length + 255) / 256))).map (fun k =>
      ((FileRequestDescriptor.bumpPart md5)^[k]
        (FileRequestDescriptor.uploadRequest data fileName dc fileId)).data)).flatten = data := by
  have hinv := bumpPart_iterate_small md5 data fileName dc fileId hsmall
  have hq : quint32Mod = 4294967296 := rfl
  obtain ⟨n, hn⟩ : ∃ n, n = max 1 ((data.length + 255) / 256) := ⟨_, rfl⟩
  rw [← hn]
  have hn1 : 1 ≤ n := by rw [hn]; exact le_max_left _ _
  have hcover : data.length ≤ n * 256 := by
    have : (data.length + 255) / 256 ≤ n := by rw [hn]; exact le_max_right _ _
    omega
  have hlt : ∀ k, k < n → k = 0 ∨ k * 256 < data.length := by
    intro k hk
    rcases Nat.eq_zero_or_pos k with h0 | hpos
    · exact Or.inl h0
    · right
      have : n = (data.length + 255) / 256 := by
        rw [hn]
        apply max_eq_right
        omega
      omega
  have hdata : ∀ k, k < n →
      ((FileRequestDescriptor.bumpPart md5)^[k]
        (FileRequestDescriptor.uploadRequest data fileName dc fileId)).data =
          QByteArray.mid data (k * 256) 256 := by
    intro k hk
    obtain ⟨ip, _, _, id, _, it⟩ := hinv k (hlt k hk)
    unfold FileRequestDescriptor.data
    rw [ip, upload_chunkSize _ it, id, Nat.mod_eq_of_lt (by rw [hq]; rcases hlt k hk with h | h <;> omega)]
  obtain ⟨m, hm⟩ : ∃ m, n = m + 1 := ⟨n - 1, by omega⟩
  obtain ⟨ip, ih, im, id, is, it⟩ := hinv m (hlt m (by omega))
  obtain ⟨bp, _, bs, _, bt⟩ := bumpPart_fields md5
    ((FileRequestDescriptor.bumpPart md5)^[m]
      (FileRequestDescriptor.uploadRequest data fileName dc fileId))
  obtain ⟨bh, bm⟩ := bumpPart_hash md5 _ _ ih
  have hfin : ((FileRequestDescriptor.bumpPart md5)^[n]
      (FileRequestDescriptor.uploadRequest data fileName dc fileId)).finished = true := by
    rw [hm, Function.iterate_succ_apply']
    unfold FileRequestDescriptor.finished FileRequestDescriptor.size
    rw [bp, ip, upload_chunkSize _ (bt.trans it), bs, is,
      Nat.mod_eq_of_lt (show m + 1 < quint32Mod by rw [hq]; rcases hlt m (by omega) with h | h <;> omega),
      Nat.mod_eq_of_lt (show (m + 1) * 256 < quint32Mod by
        rw [hq]; rcases hlt m (by omega) with h | h <;> omega)]
    simp only [ge_iff_le, decide_eq_true_eq]
    rw [← hm]
    exact hcover
  have hwhole : data.take (m * 256) ++ QByteArray.mid data (m * 256) 256 = data := by
    have h1 : data.take (m * 256) ++ QByteArray.mid data (m * 256) 256 =
        data.take (m * 256 + 256) := by
      rw [List.take_add]; rfl
    rw [h1]
    apply List.take_of_length_le
    rw [hm] at hcover
    omega
  refine ⟨fun k hk => ⟨(hinv k (hlt k hk)).2.1, hdata k hk, (hinv k (hlt k hk)).2.2.1⟩,
    fun k hk1 hk => ?_, hfin, ?_, ?_, ?_⟩
  · obtain ⟨kp, _, _, _, ks, kt⟩ := hinv k (hlt k hk)
    have hkl : k * 256 < data.length := by
      rcases hlt k hk with h | h
      · omega
      · exact h
    unfold FileRequestDescriptor.finished FileRequestDescriptor.size
    rw [kp, upload_chunkSize _ kt, ks, Nat.mod_eq_of_lt (by rw [hq]; omega)]
    simp only [ge_iff_le, decide_eq_false_iff_not, not_le]
    exact hkl
  · rw [hm, Function.iterate_succ_apply'] at hfin ⊢
    rw [bh, hfin]
    rfl
  · rw [hm, Function.iterate_succ_apply'] at hfin ⊢
    rw [bm, hfin, if_pos rfl, hdata m (by omega), hwhole]
  · rw [List.map_congr_left (fun k hk => hdata k (List.mem_range.mp hk)), chunks_flatten_take]
    exact List.take_of_length_le hcover

/-- Witness of C23: the upload of the three bytes 1, 2, 3. -/
theorem small_upload_md5_covers_file_witness :
    ((FileRequestDescriptor.bumpPart Externals.sample.md5)^[max 1
        ((([1, 2, 3] : QByteArray).length + 255) / 256)]
      (FileRequestDescriptor.uploadRequest [1, 2, 3] "a.txt" 2 77)).m_md5Sum =
        Externals.sample.md5 [1, 2, 3] :=
  (small_upload_md5_covers_file Externals.sample.md5 [1, 2, 3] "a.txt" 2 77 (by decide)).2.2.2.2.1

/-! ## Theorems: the typing timer -/

theorem List.getElem?_append_length_cons {α : Type} (pre : List α) (x : α) (suf : List α) :
    (pre ++ x :: suf)[pre.length]? = some x := by
  induction pre with
  | nil => simp
  | cons a pre ih => simpa using ih

theorem List.eraseIdx_append_length_cons {α : Type} (pre : List α) (x : α) (suf : List α) :
    (pre ++ x :: suf).eraseIdx pre.length = pre ++ suf := by
  induction pre with
  | nil => rfl
  | cons a pre ih => simpa using ih

theorem List.set_append_length_cons {α : Type} (pre : List α) (x y : α) (suf : List α) :
    (pre ++ x :: suf).set pre.length y = pre ++ y :: suf := by
  induction pre with
  | nil => rfl
  | cons a pre ih => simp

theorem foldr_min_min (a m : Int) (l : List Int) :
    l.foldr min (min a m) = min a (l.foldr min m) := by
  induction l with
  | nil => rfl
  | cons x l ih => rw [List.foldr_cons, List.foldr_cons, ih, min_left_comm]

theorem foldr_min_swap (m : Int) (l1 l2 : List Int) :
    l1.foldr min (l2.foldr min m) = l2.foldr min (l1.foldr min m) := by
  induction l1 with
  | nil => rfl
  | cons x l1 ih => rw [List.foldr_cons, List.foldr_cons, ih, foldr_min_min]

theorem remainingActions_append_singleton (interval : Int) (l : List TypingStatus)
    (status : TypingStatus) :
    remainingActions interval (l ++ [status]) =
      remainingActions interval l ++
        (if status.typingTime - interval < 15 then []
         else [{ status with typingTime := status.typingTime - interval }]) := by
  unfold remainingActions
  rw [List.filter_append, List.map_append]
  congr 1
  by_cases h : status.typingTime - interval < 15
  · have : ¬ status.typingTime - interval ≥ 15 := by omega
    simp [h, this]
  · have : status.typingTime - interval ≥ 15 := by omega
    simp [h, this]

theorem timeoutLocalLoop_spec (interval : Int) (pre : List TypingStatus) :
    ∀ (suf : List TypingStatus) (minTime : Int),
      timeoutLocalLoop interval pre.length (pre ++ suf) minTime =
        (remainingActions interval pre ++ suf,
         ((remainingActions interval pre).map (fun st => st.typingTime)).foldr min minTime) := by
  induction pre using List.reverseRecOn with
  | nil => intro suf minTime; rfl
  | append_singleton pre x ih =>
    intro suf minTime
    rw [List.length_append, List.length_singleton, List.append_assoc, List.singleton_append]
    unfold timeoutLocalLoop
    rw [List.getElem?_append_length_cons]
    dsimp only
    rw [remainingActions_append_singleton]
    by_cases h : x.typingTime - interval < 15
    · rw [if_pos h, if_pos h, List.eraseIdx_append_length_cons, ih, List.append_nil]
    · rw [if_neg h, if_neg h, List.set_append_length_cons, ih, List.append_assoc,
        List.singleton_append, List.map_append, List.foldr_append]
      congr 2
      simp only [List.map_cons, List.map_nil, List.foldr_cons, List.foldr_nil, gt_iff_lt]
      split_ifs with hm
      · exact (min_eq_left (le_of_lt hm)).symm
      · exact (min_eq_right (not_lt.mp hm)).symm

theorem timeoutContactsLoop_spec (interval : Int) (pre : List TypingStatus) :
    ∀ (suf : List TypingStatus) (minTime : Int) (emitted : List Signal),
      (timeoutContactsLoop interval pre.length (pre ++ suf) minTime emitted).1 =
        remainingActions interval pre ++ suf ∧
      (timeoutContactsLoop interval pre.length (pre ++ suf) minTime emitted).2.1 =
        ((remainingActions interval pre).map (fun st => st.typingTime)).foldr min minTime := by
  induction pre using List.reverseRecOn with
  | nil => intro suf minTime emitted; exact ⟨rfl, rfl⟩
  | append_singleton pre x ih =>
    intro suf minTime emitted
    rw [List.length_append, List.length_singleton, List.append_assoc, List.singleton_append]
    unfold timeoutContactsLoop
    rw [List.getElem?_append_length_cons]
    dsimp only
    rw [remainingActions_append_singleton]
    by_cases h : x.typingTime - interval < 15
    · rw [if_pos h, if_pos h, List.eraseIdx_append_length_cons, List.append_nil]
      exact ih _ _ _
    · rw [if_neg h, if_neg h, List.set_append_length_cons]
      obtain ⟨h1, h2⟩ := ih ({ x with typingTime := x.typingTime - interval } :: suf)
        (if minTime > x.typingTime - interval then x.typingTime - interval else minTime) emitted
      rw [h1, h2, List.append_assoc, List.singleton_append, List.map_append, List.foldr_append]
      refine ⟨rfl, ?_⟩
      congr 1
      simp only [List.map_cons, List.map_nil, List.foldr_cons, List.foldr_nil, gt_iff_lt]
      split_ifs with hm
      · exact (min_eq_left (le_of_lt hm)).symm
      · exact (min_eq_right (not_lt.mp hm)).symm

/-- C24: after `messageActionTimerTimeout` (Qt 5 branch), with `I` the timer
interval, each typing list is its former entries with `typingTime - I >= 15`,
in their order, each with `typingTime` reduced by `I`. When both lists are then
empty the timer is left as it was (not started); otherwise it is started with
the smallest of 6000 and the remaining `typingTime` values. -/
theorem messageActionTimerTimeout_spec (s : CTelegramDispatcher) :
    (messageActionTimerTimeout s).m_contactsMessageActions =
      remainingActions s.m_typingUpdateTimer.interval s.m_contactsMessageActions ∧
    (messageActionTimerTimeout s).m_localMessageActions =
      remainingActions s.m_typingUpdateTimer.interval s.m_localMessageActions ∧
    (messageActionTimerTimeout s).m_typingUpdateTimer =
      (if remainingActions s.m_typingUpdateTimer.interval s.m_contactsMessageActions = [] ∧
          remainingActions s.m_typingUpdateTimer.interval s.m_localMessageActions = []
        then s.m_typingUpdateTimer
        else s.m_typingUpdateTimer.start
          (((remainingActions s.m_typingUpdateTimer.interval s.m_contactsMessageActions ++
              remainingActions s.m_typingUpdateTimer.interval s.m_localMessageActions).map
            (fun st => st.typingTime)).foldr min 6000)) := by
  have hc := timeoutContactsLoop_spec s.m_typingUpdateTimer.interval s.m_contactsMessageActions []
    s_userTypingActionPeriod s.emitted
  rw [List.append_nil, List.append_nil] at hc
  obtain ⟨hc1, hc2⟩ := hc
  have hl := timeoutLocalLoop_spec s.m_typingUpdateTimer.interval s.m_localMessageActions []
    (timeoutContactsLoop s.m_typingUpdateTimer.interval s.m_contactsMessageActions.length
      s.m_contactsMessageActions s_userTypingActionPeriod s.emitted).2.1
  rw [List.append_nil, List.append_nil] at hl
  unfold messageActionTimerTimeout
  dsimp only
  rw [hl, hc1]
  dsimp only
  rw [hc2, List.map_append, List.foldr_append, foldr_min_swap]
  cases hrc : remainingActions s.m_typingUpdateTimer.interval s.m_contactsMessageActions with
  | nil =>
    cases hrl : remainingActions s.m_typingUpdateTimer.interval s.m_localMessageActions with
    | nil => simp
    | cons b rest => simp [s_userTypingActionPeriod]
  | cons a rest => simp [s_userTypingActionPeriod]

/-! ## Theorems: the connection of a file request -/

theorem getExtraConnection_unknown (s : CTelegramDispatcher) (dc : Nat)
    (hextra : indexOfDc s.m_extraConnections dc = none)
    (hunknown : (dcInfoById s dc).ipAddress.isEmpty = true) :
    getExtraConnection s dc = some (s, none) := by
  unfold getExtraConnection
  rw [hextra]
  dsimp only
  rw [if_pos hunknown]

/-- C25 (when `requestFile` returns): for a valid descriptor and a dispatcher
with a main connection, `requestFile` returns exactly when there is an extra
connection of the descriptor's DC or the DC is listed in the DC configuration
with a non-empty address. Otherwise `getExtraConnection` returns the null
pointer and `requestFile` dereferences it. -/
theorem requestFile_returns_iff (s : CTelegramDispatcher) (d : FileRequestDescriptor)
    (hvalid : d.isValid = true) (hmain : s.m_mainConnection.isSome = true) :
    ((requestFile s d).isSome = true ↔
      ((indexOfDc s.m_extraConnections d.m_dcId).isSome = true ∨
        (dcInfoById s d.m_dcId).ipAddress.isEmpty = false)) ∧
    (indexOfDc s.m_extraConnections d.m_dcId = none →
      (dcInfoById s d.m_dcId).ipAddress.isEmpty = true →
      getExtraConnection s d.m_dcId = some (s, none) ∧ requestFile s d = none) := by
  have hnone : indexOfDc s.m_extraConnections d.m_dcId = none →
      (dcInfoById s d.m_dcId).ipAddress.isEmpty = true →
      getExtraConnection s d.m_dcId = some (s, none) ∧ requestFile s d = none := by
    intro hextra hunknown
    have hget := getExtraConnection_unknown s d.m_dcId hextra hunknown
    refine ⟨hget, ?_⟩
    unfold requestFile
    rw [if_neg (by simp [hvalid])]
    dsimp only
    rw [getExtraConnection_congr, hget]
    rfl
  refine ⟨⟨fun h => ?_, fun h => ?_⟩, hnone⟩
  · by_contra hcon
    rw [not_or] at hcon
    have h1 : indexOfDc s.m_extraConnections d.m_dcId = none := by
      cases hi : indexOfDc s.m_extraConnections d.m_dcId with
      | none => rfl
      | some j => rw [hi] at hcon; exact absurd rfl hcon.1
    have h2 : (dcInfoById s d.m_dcId).ipAddress.isEmpty = true := by
      cases hb : (dcInfoById s d.m_dcId).ipAddress.isEmpty with
      | true => rfl
      | false => exact absurd hb hcon.2
    rw [(hnone h1 h2).2] at h
    exact absurd h (by simp)
  · obtain ⟨t, i, hget⟩ := getExtraConnection_known s d.m_dcId hmain h
    exact requestFile_isSome hvalid hmain hget

/-- Failing input of C25: the media job on DC 5 with a DC configuration that
lists the DCs 2 and 4 only, and an upload to DC 0 with an empty DC
configuration. -/
theorem requestFile_returns_iff_witness :
    getExtraConnection queueDispatcher mediaJob.m_dcId = some (queueDispatcher, none) ∧
    requestFile queueDispatcher mediaJob = none ∧
    requestFile sampleDispatcher (FileRequestDescriptor.uploadRequest [1, 2, 3] "a.txt" 0 77) =
      none :=
  ⟨((requestFile_returns_iff queueDispatcher mediaJob rfl rfl).2 rfl rfl).1,
   ((requestFile_returns_iff queueDispatcher mediaJob rfl rfl).2 rfl rfl).2,
   ((requestFile_returns_iff sampleDispatcher
      (FileRequestDescriptor.uploadRequest [1, 2, 3] "a.txt" 0 77) rfl rfl).2 rfl rfl).2⟩

/-! ## Theorems: the name of a user -/

theorem ensureUpdateState_users_emitted (s : CTelegramDispatcher) (pts seq date : Nat) :
    (ensureUpdateState s pts seq date).m_users = s.m_users ∧
    (ensureUpdateState s pts seq date).emitted = s.emitted := by
  unfold ensureUpdateState
  split_ifs
  · exact ⟨rfl, rfl⟩
  · rw [setUpdateState_eq]
    exact ⟨rfl, rfl⟩

/-- C26 (what the code does with a name update): for a known user,
`processUpdate` of an `UpdateUserName` update returns. When the stored first
name and last name both equal the update's, the three names of the update are
stored and `contactProfileChanged` is emitted; when the first name or the last
name differs, the stored user is left as it was and no signal is emitted. -/
theorem updateUserName_only_when_unchanged (ext : Externals) (s : CTelegramDispatcher)
    (update : TLUpdate) (user : TLUser) (htype : update.tlType = .UpdateUserName)
    (hknown : QMap.find s.m_users update.userId = some user) :
    ∃ t, processUpdate ext s update = some t ∧
      (user.firstName = update.firstName ∧ user.lastName = update.lastName →
        QMap.find t.m_users update.userId =
          some { user with firstName := update.firstName, lastName := update.lastName,
                           username := update.username } ∧
        t.emitted = s.emitted ++ [.contactProfileChanged update.userId]) ∧
      (user.firstName ≠ update.firstName ∨ user.lastName ≠ update.lastName →
        t.m_users = s.m_users ∧ t.emitted = s.emitted) := by
  unfold processUpdate
  simp only [htype, carriesPts, Bool.false_eq_true, false_and, if_false, handleUpdate, hknown]
  by_cases hsame : user.firstName = update.firstName ∧ user.lastName = update.lastName
  · have hchanged : (decide (user.firstName = update.firstName) &&
        decide (user.lastName = update.lastName)) = true := by
      simp [hsame.1, hsame.2]
    rw [if_pos hchanged]
    refine ⟨_, rfl, fun _ => ?_, fun hne => ?_⟩
    · beta_reduce
      rw [(ensureUpdateState_users_emitted _ _ _ _).1, (ensureUpdateState_users_emitted _ _ _ _).2]
      refine ⟨?_, rfl⟩
      show QMap.find (QMap.modify s.m_users update.userId _) update.userId = _
      rw [QMap.find_modify_self, hknown]
      rfl
    · rcases hne with h | h
      · exact absurd hsame.1 h
      · exact absurd hsame.2 h
  · have hchanged : ¬ (decide (user.firstName = update.firstName) &&
        decide (user.lastName = update.lastName)) = true := by
      simpa using hsame
    rw [if_neg hchanged]
    refine ⟨_, rfl, fun h => absurd h hsame, fun _ => ?_⟩
    beta_reduce
    exact ensureUpdateState_users_emitted s s.m_updatesState.pts ext.defaultSeq ext.defaultDate

/-- Failing input of C26: the stored user 5 is Alice Smith (`alice`), and the
update renames user 5 to Bob Smith (`bob`). Afterwards the stored user is
still Alice Smith (`alice`) and no signal was emitted. -/
theorem updateUserName_only_when_unchanged_witness :
    ∃ t, processUpdate Externals.sample
        { sampleDispatcher with
          m_users := [(5, { tlType := .UserContact, id := 5, firstName := "Alice",
                            lastName := "Smith", username := "alice" })] }
        { tlType := .UpdateUserName, userId := 5, firstName := "Bob", lastName := "Smith",
          username := "bob" } = some t ∧
      t.m_users = [(5, { tlType := .UserContact, id := 5, firstName := "Alice",
                         lastName := "Smith", username := "alice" })] ∧
      t.emitted = [] := by
  obtain ⟨t, ht, _, hdiff⟩ := updateUserName_only_when_unchanged Externals.sample
    { sampleDispatcher with
      m_users := [(5, { tlType := .UserContact, id := 5, firstName := "Alice",
                        lastName := "Smith", username := "alice" })] }
    { tlType := .UpdateUserName, userId := 5, firstName := "Bob", lastName := "Smith",
      username := "bob" }
    { tlType := .UserContact, id := 5, firstName := "Alice", lastName := "Smith",
      username := "alice" } rfl rfl
  exact ⟨t, ht, hdiff (Or.inl (by decide))⟩

/-! ## Theorems: the typing entry of the sender of a short message -/

theorem ensureUpdateState_contactsMessageActions (s : CTelegramDispatcher) (pts seq date : Nat) :
    (ensureUpdateState s pts seq date).m_contactsMessageActions = s.m_contactsMessageActions := by
  unfold ensureUpdateState
  split_ifs
  · rfl
  · rw [setUpdateState_eq]

theorem callActive_contactsMessageActions {s t : CTelegramDispatcher} {r : Request}
    (h : callActive s r = some t) :
    t.m_contactsMessageActions = s.m_contactsMessageActions := by
  unfold callActive at h
  split at h
  · exact absurd h (by simp)
  · obtain rfl := Option.some.inj h; rfl

theorem processMessageReceived_contactsMessageActions {ext : Externals}
    {s t : CTelegramDispatcher} {message : TLMessage}
    (hmessage : message.tlType = .Message)
    (h : processMessageReceived ext s message = some t) :
    t.m_contactsMessageActions = s.m_contactsMessageActions := by
  unfold processMessageReceived at h
  rw [if_neg (by rw [hmessage]; decide), if_neg (by rw [hmessage]; decide)] at h
  by_cases hfilter : ext.telegramMessageTypeToPublicMessageType message.media.tlType &&&
      s.m_acceptableMessageTypes = 0
  · rw [if_pos hfilter] at h
    obtain rfl := Option.some.inj h; rfl
  · rw [if_neg hfilter] at h
    dsimp only at h
    obtain ⟨u, hu, rfl⟩ := Option.map_eq_some'.mp h
    show u.m_contactsMessageActions = _
    split_ifs at hu <;>
      first
        | exact (callActive_contactsMessageActions hu).trans rfl
        | (obtain rfl := Option.some.inj hu; rfl)

theorem processUpdate_newMessage_contactsMessageActions {ext : Externals}
    {s t : CTelegramDispatcher} {update : TLUpdate}
    (htype : update.tlType = .UpdateNewMessage) (hmessage : update.message.tlType = .Message)
    (h : processUpdate ext s update = some t) :
    t.m_contactsMessageActions = s.m_contactsMessageActions := by
  unfold processUpdate at h
  by_cases hgap : carriesPts update.tlType ∧
      (s.m_updatesState.pts + update.ptsCount) % quint32Mod ≠ update.pts
  · rw [if_pos hgap] at h
    obtain rfl := Option.some.inj h; rfl
  · rw [if_neg hgap] at h
    dsimp only at h
    obtain ⟨u, hu, rfl⟩ := Option.map_eq_some'.mp h
    rw [ensureUpdateState_contactsMessageActions]
    unfold handleUpdate at hu
    rw [htype] at hu
    exact processMessageReceived_contactsMessageActions hmessage hu

theorem shortMessageUpdate_kind (s : CTelegramDispatcher) (updates : TLUpdates) :
    (shortMessageUpdate s updates).tlType = .UpdateNewMessage ∧
    (shortMessageUpdate s updates).message.tlType = .Message := by
  unfold shortMessageUpdate
  dsimp only
  split_ifs <;> exact ⟨rfl, rfl⟩

/-- C27 (what the code removes): when `onUpdatesReceived` returns for an
`UpdateShortMessage` or `UpdateShortChatMessage`, the remote typing list is the
former one without the entry at the index that `TypingStatus::indexForUser`
gives for `updates.fromId` if that index is greater than 0, and it is the former
list unchanged otherwise: an entry at index 0 is never removed, and the
`userId` of an `UpdateShortMessage` is not looked up. -/
theorem short_update_typing_entry (ext : Externals) (depth : Nat)
    (s t : CTelegramDispatcher) (updates : TLUpdates) (id : Nat)
    (hshort : updates.tlType = .UpdateShortMessage ∨ updates.tlType = .UpdateShortChatMessage)
    (h : onUpdatesReceived ext depth s updates id = some t) :
    t.m_contactsMessageActions =
      (if ext.indexForUser s.m_contactsMessageActions updates.fromId > 0
        then s.m_contactsMessageActions.eraseIdx
          (ext.indexForUser s.m_contactsMessageActions updates.fromId).toNat
        else s.m_contactsMessageActions) := by
  have hk := shortMessageUpdate_kind { s with m_updateRequestId := id } updates
  have htyping : (shortMessageTyping ext { s with m_updateRequestId := id } updates).1 =
      ext.indexForUser s.m_contactsMessageActions updates.fromId ∧
      (shortMessageTyping ext { s with m_updateRequestId := id }
        updates).2.m_contactsMessageActions = s.m_contactsMessageActions := by
    unfold shortMessageTyping
    dsimp only
    refine ⟨rfl, ?_⟩
    split_ifs <;> rfl
  unfold onUpdatesReceived at h
  have hbody : ((processUpdate ext (shortMessageTyping ext { s with m_updateRequestId := id }
        updates).2 (shortMessageUpdate { s with m_updateRequestId := id } updates)).bind
      (fun s1 =>
        if (shortMessageTyping ext { s with m_updateRequestId := id } updates).1 > 0
          then removeMessageAction s1
            (shortMessageTyping ext { s with m_updateRequestId := id } updates).1
          else some s1)).map (fun t => { t with m_updateRequestId := 0 }) = some t := by
    rcases hshort with hs | hs <;> simpa only [hs] using h
  obtain ⟨u, hu, rfl⟩ := Option.map_eq_some'.mp hbody
  obtain ⟨v, hv, hrem⟩ := Option.bind_eq_some.mp hu
  have hkeep := processUpdate_newMessage_contactsMessageActions hk.1 hk.2 hv
  rw [htyping.2] at hkeep
  rw [htyping.1] at hrem
  show u.m_contactsMessageActions = _
  split_ifs at hrem ⊢ with hpos
  · unfold removeMessageAction at hrem
    split_ifs at hrem
    obtain rfl := Option.some.inj hrem
    show v.m_contactsMessageActions.eraseIdx _ = _
    rw [hkeep]
  · obtain rfl := Option.some.inj hrem
    exact hkeep

/-- Failing inputs of C27: the chat message of user 5, whose typing entry is at
index 0, and the short message of user 8 (`userId = 8`, `fromId = 0`), whose
typing entry is at index 2: `onUpdatesReceived` returns and the typing list is
as before. -/
theorem short_update_typing_entry_witness :
    ((onUpdatesReceived Externals.sample 3 typingDispatcher shortChatMessage 0).isSome = true ∧
      ∀ t, onUpdatesReceived Externals.sample 3 typingDispatcher shortChatMessage 0 = some t →
        t.m_contactsMessageActions = typingDispatcher.m_contactsMessageActions) ∧
    ((onUpdatesReceived Externals.sample 3 typingDispatcher
        { shortUserMessage with userId := 8 } 0).isSome = true ∧
      ∀ t, onUpdatesReceived Externals.sample 3 typingDispatcher
          { shortUserMessage with userId := 8 } 0 = some t →
        t.m_contactsMessageActions = typingDispatcher.m_contactsMessageActions) :=
  ⟨⟨rfl, fun t h =>
      short_update_typing_entry Externals.sample 3 typingDispatcher t shortChatMessage 0
        (Or.inr rfl) h⟩,
   ⟨rfl, fun t h =>
      short_update_typing_entry Externals.sample 3 typingDispatcher t
        { shortUserMessage with userId := 8 } 0 (Or.inl rfl) h⟩⟩

/-! ## Theorems: the contact list -/

theorem callActive_contactsView {s t : CTelegramDispatcher} {r : Request}
    (h : callActive s r = some t) : contactsView t = contactsView s := by
  unfold callActive at h
  split at h
  · exact absurd h (by simp)
  · obtain rfl := Option.some.inj h; rfl

theorem setConnectionState_contactsView (s : CTelegramDispatcher) (state : ConnectionState) :
    contactsView (setConnectionState s state) = contactsView s := by
  unfold setConnectionState
  split_ifs
  · rfl
  · unfold contactsView emit
    simp

theorem requestDcConfigurationStep_contactsView {s t : CTelegramDispatcher}
    (h : requestDcConfigurationStep s = some t) : contactsView t = contactsView s := by
  unfold requestDcConfigurationStep at h
  split_ifs at h
  · obtain ⟨u, hu, rfl⟩ := Option.map_eq_some'.mp h
    exact (callActive_contactsView hu :)
  · obtain rfl := Option.some.inj h; rfl

theorem reportDcConfigurationStep_contactsView {s t : CTelegramDispatcher} {justDone : Nat}
    (h : reportDcConfigurationStep s justDone = some t) : contactsView t = contactsView s := by
  unfold reportDcConfigurationStep at h
  split_ifs at h
  · obtain ⟨c, _, rfl⟩ := Option.map_eq_some'.mp h
    split_ifs <;> exact setConnectionState_contactsView _ _
  · obtain rfl := Option.some.inj h; rfl

theorem finishInitializationStep_contactsView {s t : CTelegramDispatcher}
    (h : finishInitializationStep s = some t) : contactsView t = contactsView s := by
  unfold finishInitializationStep at h
  split_ifs at h
  · obtain rfl := Option.some.inj h
    exact (setConnectionState_contactsView s .Ready :)
  · obtain ⟨u, hu, rfl⟩ := Option.map_eq_some'.mp h
    unfold getUpdatesState at hu
    exact (callActive_contactsView hu :)
  · obtain rfl := Option.some.inj h; rfl
  · obtain rfl := Option.some.inj h; rfl

theorem requestInitialData_contactsView
    {continueInit : CTelegramDispatcher → Nat → Option CTelegramDispatcher}
    {s4 : CTelegramDispatcher} {r : CTelegramDispatcher × Bool}
    (hrec : ∀ s1 t1, continueInit s1 StepChatInfo = some t1 → contactsView t1 = contactsView s1)
    (h : requestInitialData continueInit s4 = some r) :
    contactsView r.1 = contactsView s4 := by
  unfold requestInitialData at h
  by_cases hk : s4.m_requestedSteps &&& StepKnowSelf = 0
  · rw [if_pos hk] at h
    obtain ⟨u, hu, rfl⟩ := Option.map_eq_some'.mp h
    exact (callActive_contactsView hu :)
  · rw [if_neg hk] at h
    obtain ⟨s5, h5, hrest⟩ := Option.bind_eq_some.mp h
    obtain ⟨s6, h6, rfl⟩ := Option.map_eq_some'.mp hrest
    have k5 : contactsView s5 = contactsView s4 := by
      split_ifs at h5
      · obtain ⟨u, hu, rfl⟩ := Option.map_eq_some'.mp h5
        exact (callActive_contactsView hu :)
      · obtain rfl := Option.some.inj h5; rfl
    have k6 : contactsView s6 = contactsView s5 := by
      split_ifs at h6
      · obtain ⟨u, hu, rfl⟩ := Option.map_eq_some'.mp h6
        show contactsView u = _
        unfold getChatsInfo at hu
        split_ifs at hu
        · exact hrec _ _ hu
        · exact (callActive_contactsView hu :)
      · obtain rfl := Option.some.inj h6; rfl
    exact k6.trans k5

theorem signedInSteps_contactsView
    {continueInit : CTelegramDispatcher → Nat → Option CTelegramDispatcher}
    {s : CTelegramDispatcher} {r : CTelegramDispatcher × Bool}
    (hrec : ∀ s1 t1, continueInit s1 StepChatInfo = some t1 → contactsView t1 = contactsView s1)
    (h : signedInSteps continueInit s = some r) :
    contactsView r.1 = contactsView s := by
  unfold signedInSteps at h
  split_ifs at h with hc
  · obtain ⟨c, _, h⟩ := Option.bind_eq_some.mp h
    have k1 := requestInitialData_contactsView hrec h
    have k1' : contactsView r.1 = contactsView (setConnectionState s .Authenticated) := k1
    exact k1'.trans (setConnectionState_contactsView s .Authenticated)
  · obtain rfl := Option.some.inj h; rfl

theorem continueInitialization_contactsView :
    ∀ (depth : Nat) (s t : CTelegramDispatcher) (justDone : Nat),
      continueInitialization depth s justDone = some t → contactsView t = contactsView s := by
  intro depth
  induction depth with
  | zero => intro s t justDone h; simp [continueInitialization] at h
  | succ n ih =>
    intro s t justDone h
    unfold continueInitialization at h
    split_ifs at h with h0
    · obtain rfl := Option.some.inj h; rfl
    · obtain ⟨s2, h2, h⟩ := Option.bind_eq_some.mp h
      have k2' := requestDcConfigurationStep_contactsView h2
      have k2 : contactsView s2 = contactsView s := k2'
      split_ifs at h with hdc
      · obtain rfl := Option.some.inj h; exact k2
      · obtain ⟨s3, h3, h⟩ := Option.bind_eq_some.mp h
        have k3 := reportDcConfigurationStep_contactsView h3
        obtain ⟨r, hr, h⟩ := Option.bind_eq_some.mp h
        have k4 := signedInSteps_contactsView (fun s1 t1 hs => ih s1 t1 StepChatInfo hs) hr
        split_ifs at h
        · obtain rfl := Option.some.inj h
          exact k4.trans (k3.trans k2)
        · exact (finishInitializationStep_contactsView h).trans (k4.trans (k3.trans k2))

theorem removeOneLoop_of_not_mem (contact : Nat) :
    ∀ (n i : Nat) (l : List Nat), l.length - i = n → contact ∉ l →
      removeOneLoop contact i l = l := by
  intro n
  induction n with
  | zero =>
    intro i l hn _
    rw [removeOneLoop, if_neg (by omega)]
  | succ n ih =>
    intro i l hn hmem
    rw [removeOneLoop, if_pos (by omega), List.erase_of_not_mem hmem]
    exact ih (i + 1) l (by omega) hmem

theorem removeOneLoop_nodup (contact : Nat) (l : List Nat) (hnodup : l.Nodup) :
    removeOneLoop contact 0 l = l.erase contact := by
  rw [removeOneLoop]
  split_ifs with h
  · exact removeOneLoop_of_not_mem contact _ 1 _ rfl (hnodup.not_mem_erase)
  · have : l = [] := List.eq_nil_of_length_eq_zero (by omega)
    rw [this]; rfl

theorem addedLoop_spec (added : List Nat) :
    ∀ l : List Nat, l.Nodup →
      (added.foldl (fun l contact => if !l.contains contact then l ++ [contact] else l) l).Nodup ∧
      ∀ x, x ∈ added.foldl
          (fun l contact => if !l.contains contact then l ++ [contact] else l) l ↔
        x ∈ l ∨ x ∈ added := by
  induction added with
  | nil => intro l hl; exact ⟨hl, fun x => by simp⟩
  | cons a rest ih =>
    intro l hl
    by_cases ha : a ∈ l
    · have hc : (!l.contains a) = false := by simp [ha]
      simp only [List.foldl_cons, hc, Bool.false_eq_true, if_false]
      obtain ⟨h1, h2⟩ := ih l hl
      refine ⟨h1, fun x => ?_⟩
      rw [h2 x, List.mem_cons]
      constructor
      · rintro (h | h)
        · exact Or.inl h
        · exact Or.inr (Or.inr h)
      · rintro (h | h | h)
        · exact Or.inl h
        · exact Or.inl (h ▸ ha)
        · exact Or.inr h
    · have hc : (!l.contains a) = true := by simp [ha]
      simp only [List.foldl_cons, hc, if_true]
      obtain ⟨h1, h2⟩ := ih (l ++ [a]) (by
        rw [List.nodup_append]
        refine ⟨hl, List.nodup_singleton a, ?_⟩
        intro x hx hxa
        rw [List.mem_singleton] at hxa
        exact ha (hxa ▸ hx))
      refine ⟨h1, fun x => ?_⟩
      rw [h2 x, List.mem_append, List.mem_singleton, List.mem_cons]
      tauto

theorem removedLoop_spec (removed : List Nat) :
    ∀ l : List Nat, l.Nodup →
      (removed.foldl (fun l contact => removeOneLoop contact 0 l) l).Nodup ∧
      ∀ x, x ∈ removed.foldl (fun l contact => removeOneLoop contact 0 l) l ↔
        x ∈ l ∧ x ∉ removed := by
  induction removed with
  | nil => intro l hl; exact ⟨hl, fun x => by simp⟩
  | cons a rest ih =>
    intro l hl
    rw [List.foldl_cons, removeOneLoop_nodup a l hl]
    obtain ⟨h1, h2⟩ := ih (l.erase a) (hl.erase a)
    refine ⟨h1, fun x => ?_⟩
    rw [h2 x, hl.mem_erase_iff, List.mem_cons]
    tauto

theorem stdSort_spec (v : List Nat) :
    (stdSort v).Sorted (fun a b => a ≤ b) ∧ (stdSort v).Perm v :=
  ⟨List.sorted_insertionSort (fun a b => a ≤ b) v, List.perm_insertionSort (fun a b => a ≤ b) v⟩

theorem whenContactListChanged_list (s : CTelegramDispatcher) (added removed : List Nat) :
    (whenContactListChanged s added removed).m_contactIdList =
      stdSort (removed.foldl (fun l contact => removeOneLoop contact 0 l)
        (added.foldl (fun l contact => if !l.contains contact then l ++ [contact] else l)
          s.m_contactIdList)) ∧
    (whenContactListChanged s added removed).emitted =
      s.emitted ++
        (if (whenContactListChanged s added removed).m_contactIdList = s.m_contactIdList then []
         else [Signal.contactListChanged]) := by
  unfold whenContactListChanged
  dsimp only
  split_ifs with h1 h2 h2
  · exact absurd h2.symm h1
  · exact ⟨rfl, rfl⟩
  · exact ⟨not_not.mp h1, by simp⟩
  · exact absurd rfl h2

/-- C28: with a main connection, `whenContactListReceived` returns and the
stored contact list is the received list sorted ascending, and
`contactListChanged` is emitted once if that differs from the list stored
before and not at all otherwise. For a duplicate-free stored list,
`whenContactListChanged` leaves a list that is sorted ascending, duplicate-free
and has exactly the members of the stored list and of `added` that are not in
`removed`, and emits `contactListChanged` exactly when the stored list is not
the one stored before. -/
theorem contact_list_invariant (n : Nat) (s : CTelegramDispatcher)
    (contactList added removed : List Nat)
    (hmain : s.m_mainConnection.isSome = true) (hnodup : s.m_contactIdList.Nodup) :
    (∃ t, whenContactListReceived (n + 3) s contactList = some t ∧
      t.m_contactIdList = stdSort contactList ∧
      t.m_contactIdList.Sorted (fun a b => a ≤ b) ∧ t.m_contactIdList.Perm contactList ∧
      t.emitted.count .contactListChanged =
        s.emitted.count .contactListChanged +
          (if t.m_contactIdList = s.m_contactIdList then 0 else 1)) ∧
    ((whenContactListChanged s added removed).m_contactIdList.Sorted (fun a b => a ≤ b) ∧
      (whenContactListChanged s added removed).m_contactIdList.Nodup ∧
      (∀ x, x ∈ (whenContactListChanged s added removed).m_contactIdList ↔
        (x ∈ s.m_contactIdList ∨ x ∈ added) ∧ x ∉ removed) ∧
      (whenContactListChanged s added removed).emitted =
        s.emitted ++
          (if (whenContactListChanged s added removed).m_contactIdList = s.m_contactIdList
            then [] else [Signal.contactListChanged])) := by
  constructor
  · unfold whenContactListReceived
    dsimp only
    by_cases hsame : s.m_contactIdList = stdSort contactList
    · rw [if_neg (not_not.mpr hsame)]
      obtain ⟨t, ht⟩ := Option.isSome_iff_exists.mp
        (continueInitialization_isSome n s StepContactList hmain)
      have hv := continueInitialization_contactsView _ _ _ _ ht
      have hl : t.m_contactIdList = s.m_contactIdList := congrArg Prod.fst hv
      have hc : t.emitted.count .contactListChanged = s.emitted.count .contactListChanged :=
        congrArg (fun v => v.2.1) hv
      refine ⟨t, ht, hl.trans hsame, ?_, ?_, ?_⟩
      · rw [hl, hsame]; exact (stdSort_spec contactList).1
      · rw [hl, hsame]; exact (stdSort_spec contactList).2
      · rw [hc, if_pos hl, Nat.add_zero]
    · rw [if_pos hsame]
      obtain ⟨t, ht⟩ := Option.isSome_iff_exists.mp
        (continueInitialization_isSome n
          (emit { s with m_contactIdList := stdSort contactList } .contactListChanged)
          StepContactList hmain)
      have hv := continueInitialization_contactsView _ _ _ _ ht
      have hl : t.m_contactIdList = stdSort contactList := congrArg Prod.fst hv
      have hc : t.emitted.count .contactListChanged =
          (s.emitted ++ [Signal.contactListChanged]).count .contactListChanged :=
        congrArg (fun v => v.2.1) hv
      refine ⟨t, ht, hl, ?_, ?_, ?_⟩
      · rw [hl]; exact (stdSort_spec contactList).1
      · rw [hl]; exact (stdSort_spec contactList).2
      · rw [hc, if_neg (by rw [hl]; exact fun e => hsame e.symm)]
        simp
  · obtain ⟨hlist, hemit⟩ := whenContactListChanged_list s added removed
    obtain ⟨ha1, ha2⟩ := addedLoop_spec added s.m_contactIdList hnodup
    obtain ⟨hr1, hr2⟩ := removedLoop_spec removed _ ha1
    refine ⟨?_, ?_, fun x => ?_, hemit⟩
    · rw [hlist]; exact (stdSort_spec _).1
    · rw [hlist]; exact (stdSort_spec _).2.nodup_iff.mpr hr1
    · rw [hlist, (stdSort_spec _).2.mem_iff, hr2 x, ha2 x]

/-- Witness of C28 on the signed-in sample dispatcher with the stored contacts
1, 3 and 5: the list 9, 2, 4 is received, and the contacts 4 and 3 are added
while 1 and 8 are removed. -/
theorem contact_list_invariant_witness :
    (∃ t, whenContactListReceived 3 { sampleDispatcher with m_contactIdList := [1, 3, 5] }
        [9, 2, 4] = some t ∧ t.m_contactIdList = stdSort [9, 2, 4]) ∧
    (∀ x, x ∈ (whenContactListChanged { sampleDispatcher with m_contactIdList := [1, 3, 5] }
        [4, 3] [1, 8]).m_contactIdList ↔ (x ∈ [1, 3, 5] ∨ x ∈ [4, 3]) ∧ x ∉ [1, 8]) :=
  ⟨(contact_list_invariant 0 { sampleDispatcher with m_contactIdList := [1, 3, 5] }
      [9, 2, 4] [4, 3] [1, 8] rfl (by decide)).1.imp (fun _ h => ⟨h.1, h.2.1⟩),
   (contact_list_invariant 0 { sampleDispatcher with m_contactIdList := [1, 3, 5] }
      [9, 2, 4] [4, 3] [1, 8] rfl (by decide)).2.2.2.1⟩

/-! ## Theorems: the round trip of a peer -/

/-- C29: in a dispatcher whose users are stored under their own ids, a public
peer that is a chat peer, the self user, a user id without a stored user, or a
stored user of kind Contact, Foreign or Request is returned unchanged by
`peerToPublicPeer(publicPeerToInputPeer(p))`. -/
theorem peer_round_trip (s : CTelegramDispatcher) (p : Peer) (hkeyed : UsersKeyedById s)
    (hp : p.type = .Chat ∨ p.id = s.m_selfUserId ∨ QMap.find s.m_users p.id = none ∨
      ∃ user, QMap.find s.m_users p.id = some user ∧
        (user.tlType = .UserContact ∨ user.tlType = .UserForeign ∨
          user.tlType = .UserRequest)) :
    s.peerToPublicPeer (publicPeerToInputPeer s p) = p := by
  obtain ⟨pid, ptype⟩ := p
  unfold publicPeerToInputPeer
  dsimp only at hp ⊢
  by_cases hchat : ptype = .Chat
  · rw [if_pos hchat, hchat]; rfl
  · have huser : ptype = .User := by
      cases ptype
      · rfl
      · exact absurd rfl hchat
    rw [if_neg hchat, huser]
    by_cases hself : pid = s.m_selfUserId
    · rw [if_pos hself, hself]; rfl
    · rw [if_neg hself]
      rcases hp with h | h | h | ⟨user, hfind, hkind⟩
      · exact absurd h hchat
      · exact absurd h hself
      · rw [h]; rfl
      · rw [hfind]
        have hid : user.id = pid := hkeyed pid user hfind
        dsimp only
        rcases hkind with hk | hk | hk
        · rw [if_pos hk, ← hid]; rfl
        · rw [if_neg (by rw [hk]; decide), if_pos hk, ← hid]; rfl
        · rw [if_neg (by rw [hk]; decide), if_neg (by rw [hk]; decide), if_pos hk, ← hid]; rfl

/-- Witness of C29: the foreign user 6 of `peersDispatcher`. -/
theorem peer_round_trip_witness :
    peersDispatcher.peerToPublicPeer (publicPeerToInputPeer peersDispatcher { id := 6 }) =
      { id := 6 } :=
  peer_round_trip peersDispatcher { id := 6 }
    (by
      intro id user h
      unfold peersDispatcher at h
      simp only [QMap.find] at h
      split_ifs at h <;> (cases h; assumption))
    (Or.inr (Or.inr (Or.inr ⟨{ tlType := .UserForeign, id := 6, firstName := "Bob",
                               accessHash := 99 }, rfl, Or.inr (Or.inl rfl)⟩)))

theorem QMap.find_modify_ne {V : Type} (m : QMap V) (key other : Nat) (f : V → V)
    (hne : other ≠ key) : QMap.find (QMap.modify m key f) other = QMap.find m other := by
  induction m with
  | nil => rfl
  | cons p rest ih =>
    obtain ⟨k, w⟩ := p
    unfold QMap.modify
    split_ifs with h
    · subst h
      have : ¬ k = other := fun e => hne e.symm
      simp [QMap.find, this]
    · by_cases hk : k = other
      · simp [QMap.find, hk]
      · simp [QMap.find, hk, ih]

theorem onUserReceived_users {depth : Nat} {s t : CTelegramDispatcher} {user : TLUser}
    (h : onUserReceived depth s user = some t) :
    t.m_users = (if QMap.contains s.m_users user.id
      then QMap.modify s.m_users user.id (fun _ => user)
      else QMap.insert s.m_users user.id user) := by
  unfold onUserReceived at h
  dsimp only at h
  cases hc : QMap.contains s.m_users user.id
  all_goals
    simp only [hc, Bool.false_eq_true, if_false, if_true, Bool.not_false, Bool.not_true] at h ⊢
    obtain ⟨s3, h3, rfl⟩ := Option.map_eq_some'.mp h
    show s3.m_users = _
    split_ifs at h3
    · obtain rfl := Option.some.inj h3; rfl
    · obtain rfl := Option.some.inj h3; rfl
    · have hv := continueInitialization_contactsView _ _ _ _ h3
      exact congrArg (fun v => v.2.2) hv
    · obtain rfl := Option.some.inj h3; rfl

/-- The slot `onUsersReceived` keeps the users stored under their own ids. -/
theorem onUsersReceived_keyed (depth : Nat) (users : List TLUser) :
    ∀ s t : CTelegramDispatcher, UsersKeyedById s → onUsersReceived depth s users = some t →
      UsersKeyedById t := by
  induction users with
  | nil =>
    intro s t hkeyed h
    unfold onUsersReceived at h
    obtain rfl := Option.some.inj h
    exact hkeyed
  | cons user rest ih =>
    intro s t hkeyed h
    unfold onUsersReceived at h
    obtain ⟨s1, h1, h2⟩ := Option.bind_eq_some.mp h
    refine ih s1 t ?_ h2
    intro id u hfind
    rw [onUserReceived_users h1] at hfind
    by_cases hid : id = user.id
    · subst hid
      split_ifs at hfind with hc
      · rw [QMap.find_modify_self] at hfind
        obtain ⟨_, _, rfl⟩ := Option.map_eq_some'.mp hfind
        rfl
      · rw [QMap.find_insert_self] at hfind
        obtain rfl := Option.some.inj hfind
        rfl
    · split_ifs at hfind with hc
      · rw [QMap.find_modify_ne _ _ _ _ hid] at hfind
        exact hkeyed id u hfind
      · rw [QMap.find_insert_ne _ _ _ _ hid] at hfind
        exact hkeyed id u hfind

/-! ## Theorems: the order of the generated types -/

theorem QStringMap.lookup_of_mem_keys {V : Type} (m : QStringMap V) (key : String)
    (h : key ∈ QStringMap.keys m) : ∃ v, m.lookup key = some v ∧ (key, v) ∈ m := by
  induction m with
  | nil => simp [QStringMap.keys] at h
  | cons p rest ih =>
    obtain ⟨k, v⟩ := p
    by_cases hk : key = k
    · subst hk
      exact ⟨v, by simp [List.lookup], List.mem_cons_self _ _⟩
    · have hmem : key ∈ QStringMap.keys rest := by
        simp only [QStringMap.keys, List.map_cons, List.mem_cons] at h
        rcases h with h | h
        · exact absurd h hk
        · exact h
      obtain ⟨w, hw, hin⟩ := ih hmem
      refine ⟨w, ?_, List.mem_cons_of_mem _ hin⟩
      rw [List.lookup_cons]
      have : (key == k) = false := by simpa using hk
      rw [this]
      exact hw

theorem QStringMap.keys_remove {V : Type} (m : QStringMap V) (key : String) :
    QStringMap.keys (QStringMap.remove m key) = (QStringMap.keys m).filter (fun k => k != key) := by
  unfold QStringMap.keys QStringMap.remove
  rw [List.filter_map]
  rfl

theorem QStringMap.mem_remove {V : Type} (m : QStringMap V) (key : String) (p : String × V) :
    p ∈ QStringMap.remove m key ↔ p ∈ m ∧ p.1 ≠ key := by
  unfold QStringMap.remove
  simp

theorem QStringMap.length_remove_lt {V : Type} (m : QStringMap V) (key : String)
    (h : key ∈ QStringMap.keys m) : (QStringMap.remove m key).length + 1 ≤ m.length := by
  induction m with
  | nil => simp [QStringMap.keys] at h
  | cons p rest ih =>
    obtain ⟨k, v⟩ := p
    unfold QStringMap.remove
    by_cases hk : k = key
    · subst hk
      rw [List.filter_cons_of_neg (by simp)]
      have := List.length_filter_le (fun p : String × V => p.1 != k) rest
      simp only [List.length_cons]
      omega
    · have hmem : key ∈ QStringMap.keys rest := by
        simp only [QStringMap.keys, List.map_cons, List.mem_cons] at h
        rcases h with h | h
        · exact absurd h.symm hk
        · exact h
      rw [List.filter_cons_of_pos (by simpa using hk)]
      have := ih hmem
      unfold QStringMap.remove at this
      simp only [List.length_cons]
      omega

theorem QStringMap.length_remove_le {V : Type} (m : QStringMap V) (key : String) :
    (QStringMap.remove m key).length ≤ m.length :=
  List.length_filter_le _ _

theorem membersSolved_iff (names : List String) (type : TLType) :
    membersSolved names type = true ↔
      ∀ subType ∈ type.subTypes, ∀ member ∈ subType.members,
        getTypeOrVectorType member.type ∈ names := by
  unfold membersSolved
  simp [List.all_eq_true]

theorem solveStep_inv {types0 : QStringMap TLType} {st : SolveState} {typeName : String}
    (hinv : SolveInv types0 st) (hkey : typeName ∈ QStringMap.keys st.types) :
    SolveInv types0 (solveStep st typeName) ∧
    (solveStep st typeName).types.length + (solveStep st typeName).solvedTypes.length ≤
      st.types.length + st.solvedTypes.length ∧
    st.solvedTypes.length ≤ (solveStep st typeName).solvedTypes.length ∧
    (∀ k ∈ QStringMap.keys st.types, k ≠ typeName →
      k ∈ QStringMap.keys (solveStep st typeName).types) := by
  obtain ⟨type, hlookup, hmem⟩ := QStringMap.lookup_of_mem_keys st.types typeName hkey
  have hname : type.name = typeName := hinv.keyed _ hmem
  have hvalue : QStringMap.value st.types typeName = type := by
    unfold QStringMap.value; rw [hlookup]; rfl
  have hkeep : ∀ k ∈ QStringMap.keys st.types, k ≠ typeName →
      k ∈ QStringMap.keys (QStringMap.remove st.types typeName) := by
    intro k hk hne
    rw [QStringMap.keys_remove, List.mem_filter]
    exact ⟨hk, by simpa using hne⟩
  have hnd := hinv.nodup
  rw [List.nodup_append] at hnd
  obtain ⟨hnd1, hnd2, hdisj⟩ := hnd
  have hnd2' : (QStringMap.keys (QStringMap.remove st.types typeName)).Nodup := by
    rw [QStringMap.keys_remove]; exact hnd2.filter _
  have hunique : ∀ p ∈ st.types, p.1 = typeName → p = (typeName, type) := by
    intro p hp hp1
    exact List.inj_on_of_nodup_map hnd2 hp hmem hp1
  unfold solveStep
  rw [hvalue]
  dsimp only
  by_cases hnative : nativeTypes.contains type.name = true
  · rw [if_pos hnative]
    refine ⟨⟨hinv.names, hinv.ordered, ?_, ?_, hinv.solvedFrom, ?_, ?_,
      hinv.solvedNotNative⟩, ?_, le_refl _, hkeep⟩
    · rw [List.nodup_append]
      refine ⟨hnd1, hnd2', ?_⟩
      intro x hx hx2
      rw [QStringMap.keys_remove, List.mem_filter] at hx2
      exact hdisj hx hx2.1
    · intro p hp
      exact hinv.keyed p ((QStringMap.mem_remove _ _ _).mp hp).1
    · intro p hp
      exact hinv.typesFrom p ((QStringMap.mem_remove _ _ _).mp hp).1
    · intro p hp hpn
      rcases hinv.kept p hp hpn with h | h
      · left
        refine (QStringMap.mem_remove _ _ _).mpr ⟨h, ?_⟩
        intro hp1
        have := hunique p h hp1
        rw [this] at hpn
        rw [hnative] at hpn
        exact absurd hpn (by decide)
      · exact Or.inr h
    · have := QStringMap.length_remove_le st.types typeName
      show (QStringMap.remove st.types typeName).length + st.solvedTypes.length ≤ _
      omega
  · rw [if_neg hnative]
    by_cases hsolved : membersSolved st.solvedTypesNames type = true
    · rw [if_pos hsolved]
      refine ⟨⟨?_, ?_, ?_, ?_, ?_, ?_, ?_, ?_⟩, ?_, ?_, hkeep⟩
      · show st.solvedTypesNames ++ [typeName] = _
        rw [hinv.names, List.map_append, List.map_singleton, hname, List.append_assoc]
      · intro i t hi subType hsub member hmember
        show getTypeOrVectorType member.type ∈
          (nativeTypes ++ [tlValueName]) ++
            ((st.solvedTypes ++ [type]).take i).map (fun t => t.name)
        have hi' : (st.solvedTypes ++ [type])[i]? = some t := hi
        by_cases hlt : i < st.solvedTypes.length
        · rw [List.getElem?_append_left hlt] at hi'
          rw [List.take_append_of_le_length (le_of_lt hlt)]
          exact hinv.ordered i t hi' subType hsub member hmember
        · have hlen : i < (st.solvedTypes ++ [type]).length := by
            by_contra hc
            rw [List.getElem?_eq_none (not_lt.mp hc)] at hi'
            exact absurd hi' (by simp)
          have hi_eq : i = st.solvedTypes.length := by
            rw [List.length_append, List.length_singleton] at hlen
            omega
          subst hi_eq
          have ht : t = type := by
            rw [List.getElem?_append_right (le_refl _)] at hi'
            simpa using hi'.symm
          subst ht
          rw [List.take_append_of_le_length (le_refl _), List.take_length, ← hinv.names]
          exact (membersSolved_iff _ _).mp hsolved subType hsub member hmember
      · show ((st.solvedTypes ++ [type]).map (fun t => t.name) ++
          QStringMap.keys (QStringMap.remove st.types typeName)).Nodup
        rw [List.map_append, List.map_singleton, hname, List.nodup_append]
        refine ⟨?_, hnd2', ?_⟩
        · rw [List.nodup_append]
          refine ⟨hnd1, List.nodup_singleton _, ?_⟩
          intro x hx hx2
          rw [List.mem_singleton] at hx2
          subst hx2
          exact hdisj hx hkey
        · intro x hx hx2
          rw [QStringMap.keys_remove, List.mem_filter] at hx2
          rw [List.mem_append, List.mem_singleton] at hx
          rcases hx with hx | hx
          · exact hdisj hx hx2.1
          · subst hx
            simp at hx2
      · intro p hp
        exact hinv.keyed p ((QStringMap.mem_remove _ _ _).mp hp).1
      · intro t ht
        have ht' : t ∈ st.solvedTypes ++ [type] := ht
        rw [List.mem_append, List.mem_singleton] at ht'
        rcases ht' with h | h
        · exact hinv.solvedFrom t h
        · subst h
          have := hinv.typesFrom _ hmem
          rw [hname]
          exact this
      · intro p hp
        exact hinv.typesFrom p ((QStringMap.mem_remove _ _ _).mp hp).1
      · intro p hp hpn
        show p ∈ QStringMap.remove st.types typeName ∨ p.2 ∈ st.solvedTypes ++ [type]
        rcases hinv.kept p hp hpn with h | h
        · by_cases hp1 : p.1 = typeName
          · right
            rw [hunique p h hp1]
            exact List.mem_append_right _ (List.mem_singleton_self _)
          · exact Or.inl ((QStringMap.mem_remove _ _ _).mpr ⟨h, hp1⟩)
        · exact Or.inr (List.mem_append_left _ h)
      · intro t ht
        have ht' : t ∈ st.solvedTypes ++ [type] := ht
        rw [List.mem_append, List.mem_singleton] at ht'
        rcases ht' with h | h
        · exact hinv.solvedNotNative t h
        · subst h
          simpa using hnative
      · have := QStringMap.length_remove_lt st.types typeName hkey
        show (QStringMap.remove st.types typeName).length + (st.solvedTypes ++ [type]).length ≤ _
        rw [List.length_append, List.length_singleton]
        omega
      · show st.solvedTypes.length ≤ (st.solvedTypes ++ [type]).length
        rw [List.length_append]
        omega
    · rw [if_neg hsolved]
      exact ⟨hinv, le_refl _, le_refl _, fun k hk _ => hk⟩

theorem solvePass_keys_inv {types0 : QStringMap TLType} (ks : List String) :
    ∀ st : SolveState, SolveInv types0 st → ks.Nodup →
      (∀ k ∈ ks, k ∈ QStringMap.keys st.types) →
      SolveInv types0 (ks.foldl solveStep st) ∧
      (ks.foldl solveStep st).types.length + (ks.foldl solveStep st).solvedTypes.length ≤
        st.types.length + st.solvedTypes.length ∧
      st.solvedTypes.length ≤ (ks.foldl solveStep st).solvedTypes.length := by
  induction ks with
  | nil => intro st hinv _ _; exact ⟨hinv, le_refl _, le_refl _⟩
  | cons k rest ih =>
    intro st hinv hnd hpresent
    rw [List.nodup_cons] at hnd
    obtain ⟨h1, h2, h3, h4⟩ := solveStep_inv hinv (hpresent k (List.mem_cons_self _ _))
    obtain ⟨r1, r2, r3⟩ := ih (solveStep st k) h1 hnd.2 (fun k' hk' =>
      h4 k' (hpresent k' (List.mem_cons_of_mem _ hk')) (fun e => hnd.1 (e ▸ hk')))
    rw [List.foldl_cons]
    exact ⟨r1, le_trans r2 h2, le_trans h3 r3⟩

theorem solvePass_inv {types0 : QStringMap TLType} {st : SolveState}
    (hinv : SolveInv types0 st) :
    SolveInv types0 (solvePass st) ∧
    (solvePass st).types.length + (solvePass st).solvedTypes.length ≤
      st.types.length + st.solvedTypes.length ∧
    st.solvedTypes.length ≤ (solvePass st).solvedTypes.length := by
  have hnd := hinv.nodup
  rw [List.nodup_append] at hnd
  exact solvePass_keys_inv (QStringMap.keys st.types) st hinv hnd.2.1 (fun k hk => hk)

theorem solveStep_same {types0 : QStringMap TLType} {st : SolveState} {typeName : String}
    (hinv : SolveInv types0 st) (hkey : typeName ∈ QStringMap.keys st.types)
    (hsame : (solveStep st typeName).solvedTypes.length = st.solvedTypes.length) :
    (solveStep st typeName).solvedTypesNames = st.solvedTypesNames ∧
    (∀ p ∈ (solveStep st typeName).types, p ∈ st.types) ∧
    (∀ p ∈ (solveStep st typeName).types, p.1 = typeName →
      membersSolved st.solvedTypesNames p.2 = false) := by
  obtain ⟨type, hlookup, hmem⟩ := QStringMap.lookup_of_mem_keys st.types typeName hkey
  have hvalue : QStringMap.value st.types typeName = type := by
    unfold QStringMap.value; rw [hlookup]; rfl
  have hnd := hinv.nodup
  rw [List.nodup_append] at hnd
  have hunique : ∀ p ∈ st.types, p.1 = typeName → p = (typeName, type) := by
    intro p hp hp1
    exact List.inj_on_of_nodup_map hnd.2.1 hp hmem hp1
  unfold solveStep at hsame ⊢
  rw [hvalue] at hsame ⊢
  dsimp only at hsame ⊢
  by_cases hnative : nativeTypes.contains type.name = true
  · rw [if_pos hnative]
    exact ⟨rfl, fun p hp => ((QStringMap.mem_remove _ _ _).mp hp).1,
      fun p hp hp1 => absurd hp1 ((QStringMap.mem_remove _ _ _).mp hp).2⟩
  · rw [if_neg hnative] at hsame ⊢
    by_cases hsolved : membersSolved st.solvedTypesNames type = true
    · rw [if_pos hsolved] at hsame
      simp at hsame
    · rw [if_neg hsolved]
      refine ⟨rfl, fun p hp => hp, fun p hp hp1 => ?_⟩
      rw [hunique p hp hp1]
      simpa using hsolved

theorem solvePass_keys_same {types0 : QStringMap TLType} (ks : List String) :
    ∀ st : SolveState, SolveInv types0 st → ks.Nodup →
      (∀ k ∈ ks, k ∈ QStringMap.keys st.types) →
      (ks.foldl solveStep st).solvedTypes.length = st.solvedTypes.length →
      (ks.foldl solveStep st).solvedTypesNames = st.solvedTypesNames ∧
      (∀ p ∈ (ks.foldl solveStep st).types, p ∈ st.types) ∧
      (∀ p ∈ (ks.foldl solveStep st).types, p.1 ∈ ks →
        membersSolved st.solvedTypesNames p.2 = false) := by
  induction ks with
  | nil =>
    intro st _ _ _ _
    exact ⟨rfl, fun p hp => hp, fun p _ hp1 => absurd hp1 (List.not_mem_nil _)⟩
  | cons k rest ih =>
    intro st hinv hnd hpresent hsame
    rw [List.nodup_cons] at hnd
    have hk := hpresent k (List.mem_cons_self _ _)
    obtain ⟨h1, _, h3, h4⟩ := solveStep_inv hinv hk
    have hpresent1 : ∀ k1 ∈ rest, k1 ∈ QStringMap.keys (solveStep st k).types :=
      fun k1 hk1 => h4 k1 (hpresent k1 (List.mem_cons_of_mem _ hk1)) (fun e => hnd.1 (e ▸ hk1))
    obtain ⟨_, _, r3⟩ := solvePass_keys_inv rest (solveStep st k) h1 hnd.2 hpresent1
    rw [List.foldl_cons] at hsame ⊢
    have hstep : (solveStep st k).solvedTypes.length = st.solvedTypes.length := by omega
    obtain ⟨s1, s2, s3⟩ := solveStep_same hinv hk hstep
    obtain ⟨i1, i2, i3⟩ := ih (solveStep st k) h1 hnd.2 hpresent1 (by omega)
    refine ⟨i1.trans s1, fun p hp => s2 p (i2 p hp), fun p hp hp1 => ?_⟩
    rw [List.mem_cons] at hp1
    rcases hp1 with hp1 | hp1
    · exact s3 p (i2 p hp) hp1
    · rw [← s1]
      exact i3 p hp hp1

theorem solvePass_same {types0 : QStringMap TLType} {st : SolveState}
    (hinv : SolveInv types0 st)
    (hsame : (solvePass st).solvedTypes.length = st.solvedTypes.length) :
    ∀ p ∈ (solvePass st).types, membersSolved (solvePass st).solvedTypesNames p.2 = false := by
  have hnd := hinv.nodup
  rw [List.nodup_append] at hnd
  obtain ⟨h1, h2, h3⟩ := solvePass_keys_same (QStringMap.keys st.types) st hinv hnd.2.1
    (fun k hk => hk) hsame
  intro p hp
  have h1' : (solvePass st).solvedTypesNames = st.solvedTypesNames := h1
  rw [h1']
  exact h3 p hp (List.mem_map.mpr ⟨p, h2 p hp, rfl⟩)

theorem solveLoop_terminates {types0 : QStringMap TLType} :
    ∀ (fuel : Nat) (st : SolveState) (previous : Int), SolveInv types0 st →
      (st.types.length + 2 ≤ fuel ∨ (previous = st.solvedTypes.length ∧ 1 ≤ fuel)) →
      (previous = st.solvedTypes.length →
        ∀ p ∈ st.types, membersSolved st.solvedTypesNames p.2 = false) →
      ∃ final : SolveState, SolveInv types0 final ∧
        (∀ p ∈ final.types, membersSolved final.solvedTypesNames p.2 = false) ∧
        solveLoop fuel st previous = some final.solvedTypes := by
  intro fuel
  induction fuel with
  | zero =>
    intro st previous _ h
    rcases h with h | h <;> omega
  | succ fuel ih =>
    intro st previous hinv h hstuck
    unfold solveLoop
    by_cases hprev : (st.solvedTypes.length : Int) = previous
    · rw [if_neg (not_not.mpr hprev)]
      exact ⟨st, hinv, hstuck hprev.symm, rfl⟩
    · rw [if_pos hprev]
      have hfuel : st.types.length + 1 ≤ fuel := by
        rcases h with h | h
        · omega
        · exact absurd h.1.symm hprev
      obtain ⟨p1, p2, p3⟩ := solvePass_inv hinv
      apply ih (solvePass st) st.solvedTypes.length p1
      · by_cases hsame : (solvePass st).solvedTypes.length = st.solvedTypes.length
        · right
          exact ⟨by rw [hsame], by omega⟩
        · left
          omega
      · intro hsame
        exact solvePass_same hinv (by exact_mod_cast hsame.symm)

theorem renameMember_type (q : QStringCaseInsensitive) (members : List (String × String))
    (member : TLParam) : (renameMember q members member).type = member.type := by
  unfold renameMember
  dsimp only
  split_ifs <;> rfl

theorem renameMembers_name (q : QStringCaseInsensitive) (type : TLType) :
    (renameMembers q type).name = type.name := rfl

theorem renameMembers_member_types (q : QStringCaseInsensitive) (type : TLType) (x : String) :
    (∃ subType ∈ (renameMembers q type).subTypes, ∃ member ∈ subType.members,
      getTypeOrVectorType member.type = x) ↔
    (∃ subType ∈ type.subTypes, ∃ member ∈ subType.members,
      getTypeOrVectorType member.type = x) := by
  unfold renameMembers
  constructor
  · rintro ⟨subType, hsub, member, hmember, hx⟩
    simp only [List.mem_map] at hsub
    obtain ⟨subType0, hsub0, rfl⟩ := hsub
    simp only [List.mem_map] at hmember
    obtain ⟨member0, hmember0, rfl⟩ := hmember
    rw [renameMember_type] at hx
    exact ⟨subType0, hsub0, member0, hmember0, hx⟩
  · rintro ⟨subType0, hsub0, member0, hmember0, hx⟩
    refine ⟨_, List.mem_map.mpr ⟨subType0, hsub0, rfl⟩, _,
      List.mem_map.mpr ⟨member0, hmember0, rfl⟩, ?_⟩
    rw [renameMember_type]
    exact hx

theorem solveInv_initial (q : QStringCaseInsensitive) (types : QStringMap TLType)
    (hkeys : (QStringMap.keys types).Nodup) (hkeyed : ∀ p ∈ types, p.2.name = p.1) :
    SolveInv (types.map (fun p => (p.1, renameMembers q p.2)))
      { types := types.map (fun p => (p.1, renameMembers q p.2)),
        solvedTypes := [],
        solvedTypesNames := nativeTypes ++ [tlValueName] } := by
  refine ⟨by simp, ?_, ?_, ?_, ?_, fun p hp => hp, fun p hp _ => Or.inl hp, ?_⟩
  rotate_right
  · intro t ht
    simp at ht
  · intro i t hi
    simp at hi
  · show ([] ++ QStringMap.keys
        (types.map (fun p : String × TLType => (p.1, renameMembers q p.2)))).Nodup
    rw [List.nil_append]
    unfold QStringMap.keys at hkeys ⊢
    rw [List.map_map]
    exact hkeys
  · intro p hp
    obtain ⟨p0, hp0, rfl⟩ := List.mem_map.mp hp
    exact hkeyed p0 hp0
  · intro t ht
    simp at ht

theorem mem_take_map_name (l : List TLType) (i : Nat) (x : String)
    (h : x ∈ (l.take i).map (fun t => t.name)) :
    ∃ j, ∃ hj : j < l.length, j < i ∧ (l.get ⟨j, hj⟩).name = x := by
  obtain ⟨t, ht, rfl⟩ := List.mem_map.mp h
  obtain ⟨j, hj, hget⟩ := List.getElem_of_mem ht
  rw [List.length_take] at hj
  rw [List.getElem_take] at hget
  exact ⟨j, by omega, by omega, by rw [List.get_eq_getElem, hget]⟩

/-- C30: for a type map without repeated keys in which every type is stored
under its name, `solveTypes` returns once the bound allows as many checks of
the loop condition as the map has types, plus two. In the returned list every
member type (a `TLVector<...>` unwrapped by `getTypeOrVectorType`) of a type is
a native type, `TLValue`, or the name of a type at a smaller index; the names
of the returned types are pairwise different and each returned type is an
input type (with its members renamed); a type with a member whose type is
neither native nor `TLValue` and is unknown or the type itself is not returned;
a returned type that has a member of the type of another returned one comes
after it, so the types of a cycle are not returned; and the returned names are
exactly the resolvable keys of the map, every resolvable input type being
returned (with its members renamed). -/
theorem solveTypes_dependency_order (q : QStringCaseInsensitive) (types : QStringMap TLType)
    (fuel : Nat) (hkeys : (QStringMap.keys types).Nodup)
    (hkeyed : ∀ p ∈ types, p.2.name = p.1) (hfuel : types.length + 2 ≤ fuel) :
    ∃ result, GeneratorNG.solveTypes q fuel types = some result ∧
      (∀ (i : Nat) (hi : i < result.length),
        ∀ subType ∈ (result.get ⟨i, hi⟩).subTypes, ∀ member ∈ subType.members,
          getTypeOrVectorType member.type ∈ nativeTypes ∨
          getTypeOrVectorType member.type = tlValueName ∨
          ∃ j, ∃ hj : j < result.length,
            j < i ∧ (result.get ⟨j, hj⟩).name = getTypeOrVectorType member.type) ∧
      (result.map (fun t => t.name)).Nodup ∧
      (∀ t ∈ result, ∃ p ∈ types, t = renameMembers q p.2) ∧
      (∀ p ∈ types,
        (∃ subType ∈ p.2.subTypes, ∃ member ∈ subType.members,
          getTypeOrVectorType member.type ∉ nativeTypes ∧
          getTypeOrVectorType member.type ≠ tlValueName ∧
          (getTypeOrVectorType member.type ∉ QStringMap.keys types ∨
            getTypeOrVectorType member.type = p.1)) →
        p.1 ∉ result.map (fun t => t.name)) ∧
      (∀ (i j : Nat) (hi : i < result.length) (hj : j < result.length),
        (∃ subType ∈ (result.get ⟨i, hi⟩).subTypes, ∃ member ∈ subType.members,
          getTypeOrVectorType member.type = (result.get ⟨j, hj⟩).name ∧
          getTypeOrVectorType member.type ∉ nativeTypes ∧
          getTypeOrVectorType member.type ≠ tlValueName) →
        j < i) ∧
      (∀ name, name ∈ result.map (fun t => t.name) ↔ Resolvable types name) ∧
      (∀ p ∈ types, Resolvable types p.1 → renameMembers q p.2 ∈ result) := by
  have hinit := solveInv_initial q types hkeys hkeyed
  obtain ⟨final, hinv, hstuck, hrun⟩ := solveLoop_terminates fuel _ (-1) hinit
    (Or.inl (by simpa using hfuel)) (fun h => by omega)
  have hnodup : (final.solvedTypes.map (fun t => t.name)).Nodup := by
    have := hinv.nodup
    rw [List.nodup_append] at this
    exact this.1
  have hordered : ∀ (i : Nat) (hi : i < final.solvedTypes.length),
      ∀ subType ∈ (final.solvedTypes.get ⟨i, hi⟩).subTypes, ∀ member ∈ subType.members,
        getTypeOrVectorType member.type ∈ nativeTypes ∨
        getTypeOrVectorType member.type = tlValueName ∨
        ∃ j, ∃ hj : j < final.solvedTypes.length,
          j < i ∧ (final.solvedTypes.get ⟨j, hj⟩).name = getTypeOrVectorType member.type := by
    intro i hi subType hsub member hmember
    have h := hinv.ordered i (final.solvedTypes.get ⟨i, hi⟩)
      (by rw [List.get_eq_getElem]; exact List.getElem?_eq_getElem hi) subType hsub member hmember
    rw [List.mem_append, List.mem_append, List.mem_singleton] at h
    rcases h with (h | h) | h
    · exact Or.inl h
    · exact Or.inr (Or.inl h)
    · exact Or.inr (Or.inr (mem_take_map_name _ _ _ h))
  have hindex : ∀ (i j : Nat) (hi : i < final.solvedTypes.length)
      (hj : j < final.solvedTypes.length),
      (final.solvedTypes.get ⟨i, hi⟩).name = (final.solvedTypes.get ⟨j, hj⟩).name → i = j := by
    intro i j hi hj hname
    have hi' : i < (final.solvedTypes.map (fun t => t.name)).length := by
      rw [List.length_map]; exact hi
    have hj' : j < (final.solvedTypes.map (fun t => t.name)).length := by
      rw [List.length_map]; exact hj
    have hkey : (final.solvedTypes.map (fun t => t.name))[i] =
        (final.solvedTypes.map (fun t => t.name))[j] := by
      simpa [List.get_eq_getElem] using hname
    exact (List.Nodup.getElem_inj_iff hnodup).mp hkey
  have hfrom : ∀ t ∈ final.solvedTypes, ∃ p ∈ types, t = renameMembers q p.2 ∧ p.1 = t.name := by
    intro t ht
    obtain ⟨p, hp, hpe⟩ := List.mem_map.mp (hinv.solvedFrom t ht)
    simp only [Prod.mk.injEq] at hpe
    exact ⟨p, hp, hpe.2.symm, hpe.1⟩
  have hcycle : ∀ (i j : Nat) (hi : i < final.solvedTypes.length)
      (hj : j < final.solvedTypes.length),
      (∃ subType ∈ (final.solvedTypes.get ⟨i, hi⟩).subTypes, ∃ member ∈ subType.members,
        getTypeOrVectorType member.type = (final.solvedTypes.get ⟨j, hj⟩).name ∧
        getTypeOrVectorType member.type ∉ nativeTypes ∧
        getTypeOrVectorType member.type ≠ tlValueName) →
      j < i := by
    rintro i j hi hj ⟨subType, hsub, member, hmember, hname, hn1, hn2⟩
    rcases hordered i hi subType hsub member hmember with h | h | ⟨j', hj', hlt, hname'⟩
    · exact absurd h hn1
    · exact absurd h hn2
    · have := hindex j' j hj' hj (hname'.trans hname)
      omega
  have hsound : ∀ (n i : Nat) (hi : i < final.solvedTypes.length), i < n →
      Resolvable types (final.solvedTypes.get ⟨i, hi⟩).name := by
    intro n
    induction n with
    | zero => intro i _ h; omega
    | succ n ih =>
      intro i hi _
      obtain ⟨p, hp, hpe, hkey⟩ := hfrom _ (List.get_mem final.solvedTypes i hi)
      rw [← hkey]
      refine Resolvable.intro p hp ?_ ?_
      · have := hinv.solvedNotNative _ (List.get_mem final.solvedTypes i hi)
        rw [hpe, renameMembers_name] at this
        exact this
      · intro subType hsub member hmember hn1 hn2
        have hmt := (renameMembers_member_types q p.2 (getTypeOrVectorType member.type)).mpr
          ⟨subType, hsub, member, hmember, rfl⟩
        rw [← hpe] at hmt
        obtain ⟨subType1, hsub1, member1, hmember1, htype1⟩ := hmt
        rcases hordered i hi subType1 hsub1 member1 hmember1 with h | h | ⟨j, hj, hlt, hname⟩
        · rw [htype1] at h; exact absurd h hn1
        · rw [htype1] at h; exact absurd h hn2
        · rw [htype1] at hname
          rw [← hname]
          exact ih j hj (by omega)
  have hcomplete : ∀ name, Resolvable types name →
      ∃ p ∈ types, p.1 = name ∧ renameMembers q p.2 ∈ final.solvedTypes := by
    intro name hres
    induction hres with
    | intro p hp hnative hmembers ih =>
      refine ⟨p, hp, rfl, ?_⟩
      have hp0 : (p.1, renameMembers q p.2) ∈
          types.map (fun p : String × TLType => (p.1, renameMembers q p.2)) :=
        List.mem_map.mpr ⟨p, hp, rfl⟩
      rcases hinv.kept _ hp0 hnative with h | h
      · exfalso
        have hfalse := hstuck _ h
        have htrue : membersSolved final.solvedTypesNames (renameMembers q p.2) = true := by
          rw [membersSolved_iff]
          intro subType1 hsub1 member1 hmember1
          obtain ⟨subType, hsub, member, hmember, htype⟩ :=
            (renameMembers_member_types q p.2 (getTypeOrVectorType member1.type)).mp
              ⟨subType1, hsub1, member1, hmember1, rfl⟩
          rw [hinv.names, List.mem_append, List.mem_append, List.mem_singleton]
          by_cases hn1 : getTypeOrVectorType member1.type ∈ nativeTypes
          · exact Or.inl (Or.inl hn1)
          · by_cases hn2 : getTypeOrVectorType member1.type = tlValueName
            · exact Or.inl (Or.inr hn2)
            · right
              rw [← htype] at hn1 hn2
              obtain ⟨p2, hp2, hname2, hin2⟩ := ih subType hsub member hmember hn1 hn2
              rw [← htype, ← hname2, ← hkeyed p2 hp2, ← renameMembers_name q p2.2]
              exact List.mem_map.mpr ⟨_, hin2, rfl⟩
        rw [htrue] at hfalse
        exact absurd hfalse (by decide)
      · exact h
  refine ⟨final.solvedTypes, hrun, hordered, hnodup, ?_, ?_, hcycle, ?_, ?_⟩
  rotate_right 2
  · intro name
    constructor
    · intro hin
      obtain ⟨t, ht, rfl⟩ := List.mem_map.mp hin
      obtain ⟨i, hi, hget⟩ := List.getElem_of_mem ht
      have := hsound (i + 1) i hi (by omega)
      rw [List.get_eq_getElem, hget] at this
      exact this
    · intro hres
      obtain ⟨p, hp, hname, hin⟩ := hcomplete name hres
      rw [← hname, ← hkeyed p hp, ← renameMembers_name q p.2]
      exact List.mem_map.mpr ⟨_, hin, rfl⟩
  · intro p hp hres
    obtain ⟨p2, hp2, hname, hin⟩ := hcomplete p.1 hres
    have : p2 = p := List.inj_on_of_nodup_map hkeys hp2 hp hname
    rw [← this]
    exact hin
  · intro t ht
    obtain ⟨p, hp, hpe, _⟩ := hfrom t ht
    exact ⟨p, hp, hpe⟩
  · rintro p hp ⟨subType, hsub, member, hmember, hn1, hn2, hbad⟩ hin
    obtain ⟨t, ht, htname⟩ := List.mem_map.mp hin
    obtain ⟨i, hi, hget⟩ := List.getElem_of_mem ht
    obtain ⟨p', hp', hpe, hkey'⟩ := hfrom t ht
    have hpp : p' = p := by
      apply List.inj_on_of_nodup_map hkeys hp' hp
      rw [hkey', htname]
    subst hpp
    have hmt := (renameMembers_member_types q p'.2 (getTypeOrVectorType member.type)).mpr
      ⟨subType, hsub, member, hmember, rfl⟩
    rw [← hpe] at hmt
    obtain ⟨subType1, hsub1, member1, hmember1, htype1⟩ := hmt
    have hget' : final.solvedTypes.get ⟨i, hi⟩ = t := by rw [List.get_eq_getElem]; exact hget
    rw [← hget'] at hsub1
    rcases hordered i hi subType1 hsub1 member1 hmember1 with h | h | ⟨j, hj, hlt, hname⟩
    · rw [htype1] at h; exact hn1 h
    · rw [htype1] at h; exact hn2 h
    · rw [htype1] at hname
      rcases hbad with hunknown | hself
      · apply hunknown
        obtain ⟨p2, hp2, _, hkey2⟩ := hfrom _ (List.get_mem final.solvedTypes j hj)
        rw [← hname, ← hkey2]
        exact List.mem_map.mpr ⟨p2, hp2, rfl⟩
      · have := hindex j i hj hi (by rw [hname, hself, hget', htname])
        omega

/-- Witness of C30: of the type `TLA` with a member of type `TLVector<TLB>`,
the type `TLB` with a native member and the type `TLC` with a member of its
own type, `TLB` and then `TLA` are returned and `TLC` is not. -/
theorem solveTypes_dependency_order_witness :
    ∃ result, GeneratorNG.solveTypes QStringCaseInsensitive.sample 5 GeneratorNG.sampleTypes =
        some result ∧
      (result.map (fun t => t.name)).Nodup ∧
      "TLB" ∈ result.map (fun t => t.name) ∧
      "TLA" ∈ result.map (fun t => t.name) ∧
      "TLC" ∉ result.map (fun t => t.name) ∧
      result.map (fun t => t.name) = ["TLB", "TLA"] := by
  obtain ⟨result, hrun, _, hnodup, _, homit, _, hiff, _⟩ := solveTypes_dependency_order
    QStringCaseInsensitive.sample GeneratorNG.sampleTypes 5 (by decide)
    (by intro p hp; simp [GeneratorNG.sampleTypes] at hp; rcases hp with rfl | rfl | rfl <;> rfl)
    (by decide)
  have hB : Resolvable GeneratorNG.sampleTypes "TLB" := by
    refine Resolvable.intro
      ("TLB", { name := "TLB",
                subTypes := [{ name := "b",
                               members := [{ name := "y", type := "QString" }] }] })
      (by decide) (by decide) ?_
    intro subType hsub member hmember hn1 _
    simp only [List.mem_singleton] at hsub
    subst hsub
    simp only [List.mem_singleton] at hmember
    subst hmember
    exact absurd (by decide) hn1
  have hA : Resolvable GeneratorNG.sampleTypes "TLA" := by
    refine Resolvable.intro
      ("TLA", { name := "TLA",
                subTypes := [{ name := "a",
                               members := [{ name := "bs", type := "TLVector<TLB>" }] }] })
      (by decide) (by decide) ?_
    intro subType hsub member hmember _ _
    simp only [List.mem_singleton] at hsub
    subst hsub
    simp only [List.mem_singleton] at hmember
    subst hmember
    exact hB
  have hC := homit
    ("TLC", { name := "TLC",
              subTypes := [{ name := "c",
                             members := [{ name := "next", type := "TLC" }] }] })
    (by decide)
    ⟨{ name := "c", members := [{ name := "next", type := "TLC" }] }, by decide,
      { name := "next", type := "TLC" }, by decide, by decide, by decide, Or.inr (by decide)⟩
  have heval : GeneratorNG.solveTypes QStringCaseInsensitive.sample 5 GeneratorNG.sampleTypes =
      some
        [{ name := "TLB",
           subTypes := [{ name := "b", members := [{ name := "y", type := "QString" }] }] },
         { name := "TLA",
           subTypes := [{ name := "a",
                          members := [{ name := "bs", type := "TLVector<TLB>" }] }] }] := by
    decide
  rw [heval] at hrun
  have hresult := Option.some.inj hrun
  refine ⟨result, by rw [heval, hresult], hnodup, (hiff "TLB").mpr hB, (hiff "TLA").mpr hA, hC, ?_⟩
  rw [← hresult]
  rfl

end TelegramQt
